import Mathlib

/-!
# TDeintMod: a shallow embedding of `TDeintMod.cpp`

Planes are 8-bit images addressed by (row, column). Reads and writes are fallible:
an access whose row is outside `[0, height)` or whose column is outside `[0, width)`
yields `none`, so a function that returns `some _` has performed no out-of-range access.
Row pointers of the source (`srcp`, `srcpp = srcp - stride`, ...) are row indices here.
-/

namespace TDeintMod

/-- An 8-bit sample (`uint8_t`). -/
abbrev Byte := Fin 256

/-- Conversion of an `int` to `uint8_t` on store: reduction modulo 256. -/
def toU8 (v : Int) : Byte := ⟨(v % 256).toNat, by omega⟩

/-- One plane of a frame: `pix y x` is the sample in row `y`, column `x`. -/
structure Plane where
  width : Nat
  height : Nat
  pix : Nat → Nat → Byte

/-- A frame: plane index to plane (`vsapi->getReadPtr(frame, plane)` and friends). -/
abbrev Frame := Nat → Plane

/-- Does row `y`, column `x` lie inside the plane. -/
def Plane.inside (p : Plane) (y x : Int) : Prop :=
  0 ≤ y ∧ y < p.height ∧ 0 ≤ x ∧ x < p.width

instance (p : Plane) (y x : Int) : Decidable (p.inside y x) := by
  unfold Plane.inside; infer_instance

/-- Unchecked store of byte `b` at row `r`, column `c`. -/
def Plane.set (p : Plane) (r c : Nat) (b : Byte) : Plane :=
  { p with pix := fun r' c' => if r' = r ∧ c' = c then b else p.pix r' c' }

/-- Read `row[x]` where `row` points at row `y`; promoted to `int`. -/
def Plane.read (p : Plane) (y x : Int) : Option Int :=
  if p.inside y x then some ((p.pix y.toNat x.toNat).val : Int) else none

/-- Store `row[x] = v` where `row` points at row `y`; `v` is truncated to a byte. -/
def Plane.write (p : Plane) (y x : Int) (v : Int) : Option Plane :=
  if p.inside y x then some (p.set y.toNat x.toNat (toU8 v)) else none

/-- The loop `for (i = 0; i < n; i++) s = body(i, s)` with a fallible body. -/
def forLoop {σ : Type} (body : Nat → σ → Option σ) : Nat → σ → Option σ
  | 0, s => some s
  | n + 1, s => (forLoop body n s).bind (body n)

/-- The loop `for (i = start; i < stop; i += step)`, `step > 0`: iteration `k` runs the body
at `start + step * k`, and there are `ceil((stop - start) / step)` iterations. -/
def forStep {σ : Type} (start stop step : Nat) (body : Nat → σ → Option σ) (s : σ) : Option σ :=
  forLoop (fun k => body (start + step * k)) ((stop - start + step - 1) / step) s

/-- Arithmetic right shift of a signed `int`. -/
def sar (a : Int) (k : Nat) : Int := a >>> k

/-- Body of the pixel loop of `eDeint` for one plane. -/
def eDeintPixel (mask prv src nxt efrm : Plane) (y x : Nat) (dst : Plane) : Option Plane := do
  let m ← mask.read y x
  if m = 10 then
    dst.write y x (← src.read y x)
  else if m = 20 then
    dst.write y x (← prv.read y x)
  else if m = 30 then
    dst.write y x (← nxt.read y x)
  else if m = 40 then
    dst.write y x (sar ((← src.read y x) + (← nxt.read y x) + 1) 1)
  else if m = 50 then
    dst.write y x (sar ((← src.read y x) + (← prv.read y x) + 1) 1)
  else if m = 70 then
    dst.write y x (sar ((← prv.read y x) + (← src.read y x) * 2 + (← nxt.read y x) + 2) 2)
  else if m = 60 then
    dst.write y x (← efrm.read y x)
  else
    pure dst

/-- The function `eDeint` restricted to one plane: width and height are those of `src`. -/
def eDeintPlane (dst mask prv src nxt efrm : Plane) : Option Plane :=
  forLoop (fun y dst => forLoop (fun x dst => eDeintPixel mask prv src nxt efrm y x dst)
    src.width dst) src.height dst

/-- The function `eDeint`: synthesis with an external interpolator frame `efrm`. -/
def eDeint (numPlanes : Nat) (dst mask prv src nxt efrm : Frame) : Option Frame :=
  forLoop (fun plane dst => do
    let p ← eDeintPlane (dst plane) (mask plane) (prv plane) (src plane) (nxt plane) (efrm plane)
    pure (Function.update dst plane p)) numPlanes dst

/-- Body of the pixel loop of `cubicDeint` for one plane. In row `y` the pointers are
`srcpp` = row `y - 1`, `srcppp` = row `y - 3`, `srcpn` = row `y + 1`, `srcpnn` = row `y + 3`. -/
def cubicDeintPixel (mask prv src nxt : Plane) (y x : Nat) (dst : Plane) : Option Plane := do
  let height : Int := src.height
  let m ← mask.read y x
  if m = 10 then
    dst.write y x (← src.read y x)
  else if m = 20 then
    dst.write y x (← prv.read y x)
  else if m = 30 then
    dst.write y x (← nxt.read y x)
  else if m = 40 then
    dst.write y x (sar ((← src.read y x) + (← nxt.read y x) + 1) 1)
  else if m = 50 then
    dst.write y x (sar ((← src.read y x) + (← prv.read y x) + 1) 1)
  else if m = 70 then
    dst.write y x (sar ((← prv.read y x) + (← src.read y x) * 2 + (← nxt.read y x) + 2) 2)
  else if m = 60 then
    if (y : Int) = 0 then
      dst.write y x (← src.read (y + 1) x)
    else if (y : Int) = height - 1 then
      dst.write y x (← src.read (y - 1) x)
    else if (y : Int) < 3 ∨ (y : Int) > height - 4 then
      dst.write y x (sar ((← src.read (y + 1) x) + (← src.read (y - 1) x) + 1) 1)
    else
      let temp := sar (19 * ((← src.read (y - 1) x) + (← src.read (y + 1) x))
        - 3 * ((← src.read (y - 3) x) + (← src.read (y + 3) x)) + 16) 5
      dst.write y x (max (min temp 255) 0)
  else
    pure dst

/-- The function `cubicDeint` restricted to one plane. -/
def cubicDeintPlane (dst mask prv src nxt : Plane) : Option Plane :=
  forLoop (fun y dst => forLoop (fun x dst => cubicDeintPixel mask prv src nxt y x dst)
    src.width dst) src.height dst

/-- The function `cubicDeint`: synthesis with the built-in cubic interpolator. -/
def cubicDeint (numPlanes : Nat) (dst mask prv src nxt : Frame) : Option Frame :=
  forLoop (fun plane dst => do
    let p ← cubicDeintPlane (dst plane) (mask plane) (prv plane) (src plane) (nxt plane)
    pure (Function.update dst plane p)) numPlanes dst

/-! ## Configuration and tables -/

/-- C integer division of `int`s (truncation toward zero). -/
def cdiv (a b : Int) : Int := Int.tdiv a b

/-- Fallible indexing of a table by an `int`. -/
def getI {α : Type} (l : List α) (i : Int) : Option α :=
  if 0 ≤ i then l[i.toNat]? else none

/-- The part of `VSFormat` the filter looks at. -/
structure VSFormat where
  numPlanes : Nat
  subSamplingW : Nat
  subSamplingH : Nat

/-- The part of `VSVideoInfo` the filter looks at. -/
structure VSVideoInfo where
  format : VSFormat
  width : Nat
  height : Nat
  numFrames : Nat

/-- The scalar fields of `struct TDeintModData`. The lookup tables of the struct (`mlut`, `gvlut`,
`vlut`, `tmmlut16`, `offplut`, `offnlut`) and the derived constants are the functions below,
computed from these fields the way `tdeintmodCreate` fills them. -/
structure TDeintModData where
  vi : VSVideoInfo
  viSaved : VSVideoInfo
  order : Int
  field : Int
  mode : Int
  length : Int
  mtype : Int
  ttype : Int
  mtqL : Int
  mthL : Int
  mtqC : Int
  mthC : Int
  nt : Int
  minthresh : Int
  maxthresh : Int
  cstr : Int
  cthresh : Int
  blockx : Int
  blocky : Int
  MI : Int
  metric : Int
  full : Bool
  chroma : Bool
  useClip2 : Bool

/-- Width of plane `plane` of a frame of the given format and luma width. -/
def planeWidth (fmt : VSFormat) (width plane : Nat) : Nat :=
  if plane = 0 then width else width >>> fmt.subSamplingW

/-- Height of plane `plane` of a frame of the given format and luma height. -/
def planeHeight (fmt : VSFormat) (height plane : Nat) : Nat :=
  if plane = 0 then height else height >>> fmt.subSamplingH

/-- The call `vsapi->newVideoFrame(format, width, height, ...)`: a frame of the requested
geometry whose bytes are whatever `content` the allocator left there. -/
def newVideoFrame (fmt : VSFormat) (width height : Nat) (content : Nat → Nat → Nat → Byte) :
    Frame :=
  fun plane => ⟨planeWidth fmt width plane, planeHeight fmt height plane, content plane⟩

/-- The call `memset(ptr, b, stride * height)` on a whole plane. -/
def Plane.fill (p : Plane) (b : Byte) : Plane := { p with pix := fun _ _ => b }

/-- The call `memset(dstp + stride * j, b, width)`: `width` bytes of row `j`. -/
def Plane.memsetRow (p : Plane) (j width : Nat) (b : Byte) : Option Plane :=
  if j < p.height ∧ width ≤ p.width then
    some { p with pix := fun r c => if r = j ∧ c < width then b else p.pix r c }
  else none

/-- The table `d.tmmlut16`. -/
def tmmlut16 : List Int :=
  [60, 20, 50, 10, 60, 10, 40, 30,
   60, 10, 40, 30, 60, 20, 50, 10]

/-- The table `d.vlut`, chosen by `mtype` in `tdeintmodCreate`. -/
def vlut (mtype : Int) : List Nat :=
  if mtype = 0 then
    [0, 1, 2, 2, 3, 0, 2, 2,
     1, 1, 2, 2, 0, 1, 2, 2,
     2, 2, 2, 2, 2, 2, 2, 2,
     2, 2, 2, 2, 2, 2, 2, 2,
     3, 0, 2, 2, 3, 3, 2, 2,
     0, 1, 2, 2, 3, 1, 2, 2,
     2, 2, 2, 2, 2, 2, 2, 2,
     2, 2, 2, 2, 2, 2, 2, 2]
  else if mtype = 1 then
    [0, 0, 2, 2, 0, 0, 2, 2,
     0, 1, 2, 2, 0, 1, 2, 2,
     2, 2, 2, 2, 2, 2, 2, 2,
     2, 2, 2, 2, 2, 2, 2, 2,
     0, 0, 2, 2, 3, 3, 2, 2,
     0, 1, 2, 2, 3, 1, 2, 2,
     2, 2, 2, 2, 2, 2, 2, 2,
     2, 2, 2, 2, 2, 2, 2, 2]
  else
    [0, 0, 0, 0, 0, 0, 0, 0,
     0, 1, 0, 1, 0, 1, 0, 1,
     0, 0, 2, 2, 0, 0, 2, 2,
     0, 1, 2, 2, 0, 1, 2, 2,
     0, 0, 0, 0, 3, 3, 3, 3,
     0, 1, 0, 1, 3, 1, 3, 1,
     0, 0, 2, 2, 3, 3, 2, 2,
     0, 1, 2, 2, 3, 1, 2, 2]

/-- The table `d.gvlut` (`int gvlut[60]`), filled for `i < length` by `tdeintmodCreate`;
entries never written, or outside the array, read as `none`. -/
def gvlut (length : Int) (i : Nat) : Option Nat :=
  if (i : Int) < length ∧ i < 60 then
    some (if i = 0 then 1 else if (i : Int) = length - 1 then 4 else 2)
  else none

/-! ## Stage B: `tdeintmodBuildMMGetFrame` -/

/-- The local array `int plut[119]` (one of its two rows): `none` marks an entry not written
for the current pixel. -/
abbrev PLut := Nat → Option Int

/-- Store into one row of `plut`; the row has 119 entries. -/
def PLut.store (pl : PLut) (i : Nat) (v : Int) : Option PLut :=
  if i < 119 then some (fun k => if k = i then some v else pl k) else none

/-- Load from one row of `plut`. -/
def PLut.load (pl : PLut) (i : Nat) : Option Int :=
  if i < 119 then pl i else none

/-- The scan `for (j = 0; j < cnt; j++) if (!plut[start + j]) goto ...;`: `true` when all `cnt`
entries from `start` on are non-zero; entries after the first zero are not read. -/
def scanNonzero (pl : PLut) : Nat → Nat → Option Bool
  | _, 0 => some true
  | start, cnt + 1 => do
    let v ← pl.load start
    if v = 0 then pure false else scanNonzero pl (start + 1) cnt

/-- The mask frame used for window index `i` of a stream: a zero-filled frame of the geometry
of `viSaved` when `i < 0` or `i >= numFrames - 2`, the stream's frame otherwise. -/
def windowFrame (d : TDeintModData) (node : Int → Frame) (content : Nat → Nat → Nat → Byte)
    (i : Int) : Frame :=
  if i < 0 ∨ i ≥ (d.viSaved.numFrames : Int) - 2 then
    fun plane =>
      (newVideoFrame d.viSaved.format d.viSaved.width d.viSaved.height content plane).fill 0
  else node i

/-- Element `i` of a pointer table `ptlut[k]` with `count` entries, read at row `row`,
column `x`, in plane `plane`. -/
def ptRead (frames : Nat → Frame) (count : Int) (plane : Nat) (i : Int) (row x : Int) :
    Option Int :=
  if 0 ≤ i ∧ i < count then ((frames i.toNat) plane).read row x else none

/-- The row pointers that change from line to line in the plane loop of Stage B: the
destination and the rows of `ptlut[1]`, `ptlut[0]`, `ptlut[2]`. -/
structure BuildState where
  dst : Plane
  rd : Int
  rc : Int
  r0 : Int
  r2 : Int

/-- The test `!ptlut[1][ct - 2][x] && !ptlut[1][ct][x] && !ptlut[1][ct + 1][x]`,
evaluated left to right with short circuit. -/
def centreAllZero (csrc : Nat → Frame) (ccount : Int) (plane : Nat) (ct rc : Int) (x : Nat) :
    Option Bool := do
  let a ← ptRead csrc ccount plane (ct - 2) rc x
  if a ≠ 0 then pure false else
  let b ← ptRead csrc ccount plane ct rc x
  if b ≠ 0 then pure false else
  let c ← ptRead csrc ccount plane (ct + 1) rc x
  pure (decide (c = 0))

/-- One step `i` of the loop that accumulates `val`; the state is `val` and whether the loop
has been left by `break`. -/
def valStep (d : TDeintModData) (plut0 plut1 : PLut) (i : Nat) (st : Nat × Bool) :
    Option (Nat × Bool) :=
  if st.2 then some st else do
    let cnt := (d.length - 4).toNat
    let ok0 ← scanNonzero plut0 i cnt
    let val0 ← if ok0 then do pure (st.1 ||| (← gvlut d.length i) * 8) else pure st.1
    let ok1 ← scanNonzero plut1 i cnt
    let val1 ← if ok1 then do pure (val0 ||| (← gvlut d.length i)) else pure val0
    let v ← (vlut d.mtype)[val1]?
    pure (val1, decide (v = 2))

/-- The two loops that interleave the current-parity samples (positions `2j + offc`) with the
opposite-parity samples above (`plut[0]`) and below (`plut[1]`) the line (positions
`2j + offo`), for column `x`. Every entry starts unwritten. -/
def fillPlut (d : TDeintModData) (csrc osrc : Nat → Frame) (ccount ocount : Int) (plane : Nat)
    (st : BuildState) (x : Nat) : Option (PLut × PLut) := do
  let offo : Nat := if d.length % 2 ≠ 0 then 0 else 1
  let offc : Nat := if d.length % 2 ≠ 0 then 1 else 0
  let pl ← forLoop (fun j (pl : PLut × PLut) => do
      let v ← ptRead csrc ccount plane j st.rc x
      let p1 ← pl.2.store (j * 2 + offc) v
      let p0 ← pl.1.store (j * 2 + offc) v
      pure (p0, p1)) ccount.toNat (fun _ => none, fun _ => none)
  forLoop (fun j (pl : PLut × PLut) => do
      let p0 ← pl.1.store (j * 2 + offo) (← ptRead osrc ocount plane j st.r0 x)
      let p1 ← pl.2.store (j * 2 + offo) (← ptRead osrc ocount plane j st.r2 x)
      pure (p0, p1)) ocount.toNat pl

/-- Body of the column loop of Stage B for the pixel in column `x` of the current line. -/
def buildPixel (d : TDeintModData) (tmmlutf : List Int) (csrc osrc : Nat → Frame)
    (ccount ocount : Int) (plane : Nat) (st : BuildState) (x : Nat) (dst : Plane) :
    Option Plane := do
  let ct := cdiv ccount 2
  if ← centreAllZero csrc ccount plane ct st.rc x then
    dst.write st.rd x 60
  else
    let pl ← fillPlut d csrc osrc ccount ocount plane st x
    let res ← forLoop (valStep d pl.1 pl.2) d.length.toNat (0, false)
    dst.write st.rd x (← tmmlutf[res.1]?)

/-- Body of the line loop `for (y = fieldt; y < height; y += 2)` of Stage B. -/
def buildLine (d : TDeintModData) (tmmlutf : List Int) (csrc osrc : Nat → Frame)
    (ccount ocount : Int) (plane width height : Nat) (y : Nat) (st : BuildState) :
    Option BuildState := do
  let dst ← forLoop (buildPixel d tmmlutf csrc osrc ccount ocount plane st) width st.dst
  pure { dst := dst
         rd := st.rd + 2
         rc := st.rc + 1
         r0 := if (y : Int) ≠ 0 then st.r0 + 1 else st.r0
         r2 := if (y : Int) ≠ (height : Int) - 3 then st.r2 + 1 else st.r2 }

/-- Body of the plane loop of Stage B. -/
def buildPlane (d : TDeintModData) (fieldt : Int) (tmmlutf : List Int) (csrc osrc : Nat → Frame)
    (ccount ocount : Int) (plane : Nat) (dst : Plane) : Option Plane := do
  let width := dst.width
  let height := dst.height
  let dst ← forStep (if fieldt = 1 then 0 else 1) height 2
    (fun j dst => dst.memsetRow j width 10) dst
  let st : BuildState :=
    { dst := dst
      rd := if fieldt = 1 then 1 else 0
      rc := 0
      r0 := 0
      r2 := if fieldt = 1 then 1 else 0 }
  let st ← forStep fieldt.toNat height 2
    (buildLine d tmmlutf csrc osrc ccount ocount plane width height) st
  pure st.dst

/-- The field parity `fieldt` that `tdeintmodBuildMMGetFrame` works on for output index `n0`. -/
def fieldtOf (d : TDeintModData) (n0 : Int) : Int :=
  if d.mode = 1 then (if n0 % 2 ≠ 0 then 1 - d.order else d.order) else d.field

/-- The source index `n` that `tdeintmodBuildMMGetFrame` works on for output index `n0`. -/
def indexOf (d : TDeintModData) (n0 : Int) : Int :=
  if d.mode = 1 then cdiv n0 2 else n0

/-- The window bounds and counts computed by `tdeintmodBuildMMGetFrame`. -/
structure Window where
  tstart : Int
  tstop : Int
  bstart : Int
  bstop : Int
  ccount : Int
  ocount : Int

/-- The window of `tdeintmodBuildMMGetFrame` for parity `fieldt` and source index `n`. -/
def windowOf (d : TDeintModData) (fieldt n : Int) : Window :=
  if fieldt = 1 then
    let tstart := n - cdiv (d.length - 1) 2
    let tstop := n + cdiv (d.length - 1) 2 - 2
    let bn := if d.order = 1 then n - 1 else n
    let bstart := bn - cdiv (d.length - 2) 2
    let bstop := bn + 1 + cdiv (d.length - 2) 2 - 2
    { tstart := tstart, tstop := tstop, bstart := bstart, bstop := bstop
      ocount := tstop - tstart + 1, ccount := bstop - bstart + 1 }
  else
    let tn := if d.order = 0 then n - 1 else n
    let tstart := tn - cdiv (d.length - 2) 2
    let tstop := tn + 1 + cdiv (d.length - 2) 2 - 2
    let bstart := n - cdiv (d.length - 1) 2
    let bstop := n + cdiv (d.length - 1) 2 - 2
    { tstart := tstart, tstop := tstop, bstart := bstart, bstop := bstop
      ccount := tstop - tstart + 1, ocount := bstop - bstart + 1 }

/-- The table `tmmlutf[i] = tmmlut[d->vlut[i]]`, `i < 64`, where
`tmmlut = tmmlut16 + order * 8 + fieldt * 4`. -/
def tmmlutfOf (mtype order fieldt : Int) : Option (List Int) :=
  (List.range 64).mapM (fun i => do
    let v : Nat ← (vlut mtype)[i]?
    getI tmmlut16 (order * 8 + fieldt * 4 + (v : Int)))

/-- The `arAllFramesReady` branch of `tdeintmodBuildMMGetFrame`: the verdict frame for output
index `n0`. `node`, `node2` are the top- and bottom-field mask streams; `content` stands for
the bytes of freshly allocated frames. The arrays `srct`, `srcb` hold 58 frame pointers and are
filled for `i = start .. stop`. -/
def tdeintmodBuildMMGetFrame (d : TDeintModData) (node node2 : Int → Frame)
    (content : Nat → Nat → Nat → Byte) (n0 : Int) : Option Frame :=
  let dst := newVideoFrame d.vi.format d.vi.width d.vi.height content
  let fieldt := fieldtOf d n0
  let n := indexOf d n0
  (tmmlutfOf d.mtype d.order fieldt).bind fun tmmlutf =>
  let w := windowOf d fieldt n
  if w.tstop - w.tstart + 1 > 58 ∨ w.bstop - w.bstart + 1 > 58 then none else
  let srct : Nat → Frame := fun j => windowFrame d node content (w.tstart + j)
  let srcb : Nat → Frame := fun j => windowFrame d node2 content (w.bstart + j)
  let osrc := if fieldt = 1 then srct else srcb
  let csrc := if fieldt = 1 then srcb else srct
  forLoop (fun plane dst => do
    let p ← buildPlane d fieldt tmmlutf csrc osrc w.ccount w.ocount plane (dst plane)
    pure (Function.update dst plane p)) d.vi.format.numPlanes dst

/-! ## Stage M: `threshMask`, `motionMask`, `andMasks`, `combineMasks` -/

/-- The `int` that a 32-bit two's complement addition or multiplication leaves when the exact
result is `i`: `i` itself inside [-2^31, 2^31 - 1], otherwise `i` reduced modulo 2^32 into that
range (signed overflow is undefined in C++; this is the value the compiled code computes). -/
def wrap32 (i : Int) : Int := (i + 2147483648) % 4294967296 - 2147483648

/-- The table `d.mlut` (`int mlut[256]`): `mlut[i] = min(max(i + nt, minthresh), maxthresh)`.
`i + d.nt` is an `int` addition and `nt` is not range-checked, so the sum wraps at 32 bits
(`wrap32`). -/
def mlut (d : TDeintModData) (i : Int) : Option Int :=
  if 0 ≤ i ∧ i < 256 then some (min (max (wrap32 (i + d.nt)) d.minthresh) d.maxthresh) else none

/-- The table `d.offplut[plane]`, of `planeWidth` entries: -1 in column 0, 1 elsewhere. -/
def offplut (d : TDeintModData) (plane x : Nat) : Option Int :=
  if x < planeWidth d.vi.format d.vi.width plane then some (if x = 0 then -1 else 1) else none

/-- The table `d.offnlut[plane]`, of `planeWidth` entries: -1 in the last column, 1 elsewhere. -/
def offnlut (d : TDeintModData) (plane x : Nat) : Option Int :=
  if x < planeWidth d.vi.format d.vi.width plane then
    some (if (x : Int) = (planeWidth d.vi.format d.vi.width plane : Int) - 1 then -1 else 1)
  else none

/-- The row of `srcpp = srcp - (y == 0 ? -stride : stride)` when `srcp` is at row `y`. -/
def rowPrev (y : Nat) : Int := if y = 0 then (y : Int) + 1 else (y : Int) - 1

/-- The row of `srcpn = srcp + (y == height - 1 ? -stride : stride)` when `srcp` is at row `y`. -/
def rowNext (y height : Nat) : Int :=
  if (y : Int) = (height : Int) - 1 then (y : Int) - 1 else (y : Int) + 1

/-- The running minimum and maximum `min = 256, max = -1; if (v < min) min = v;
if (v > max) max = v;` over the values `vs`, taken in order. -/
def minmax (vs : List Int) : Int × Int :=
  vs.foldl (fun mm v => (if v < mm.1 then v else mm.1, if v > mm.2 then v else mm.2)) (256, -1)

/-- The call `memset(base + stride * r0, b, stride * n)`: `n` whole rows from row `r0`. -/
def Plane.memsetRows (p : Plane) (r0 n : Nat) (b : Byte) : Option Plane :=
  if r0 + n ≤ p.height then
    some { p with pix := fun r c => if r0 ≤ r ∧ r < r0 + n then b else p.pix r c }
  else none

/-- The nine samples of the 3x3 stencil around row `y`, column `x`, with the mirrored rows
`srcpp`, `srcpn` and the mirrored column offsets `offp`, `offn`. -/
structure Stencil where
  ppl : Int
  ppc : Int
  ppr : Int
  cl : Int
  c : Int
  cr : Int
  pnl : Int
  pnc : Int
  pnr : Int

/-- The compensated value `atmax = max(atv, ath)` of `threshMask` (ttype 0 and 1), from the
vertical extrema `m0` and the horizontal extrema `m1`. -/
def compensated (d : TDeintModData) (plane : Nat) (c : Int) (m0 m1 : Int × Int) : Int :=
  let hs : Nat := if plane ≠ 0 then d.vi.format.subSamplingW else 0
  let vs : Nat := if plane ≠ 0 then 1 <<< d.vi.format.subSamplingH else 1
  let vss : Int := ((1 <<< (vs - 1) : Nat) : Int)
  let atv := max (sar (|c - m0.1| + vss) vs) (sar (|c - m0.2| + vss) vs)
  let ath := max (sar (|c - m1.1| + hs) hs) (sar (|c - m1.2| + hs) hs)
  max atv ath

/-- The reads of the four direct neighbours and the centre (ttype 0, 2, 4); the diagonal
entries are not read and are left 0. -/
def readCross (d : TDeintModData) (plane : Nat) (src : Plane) (y x : Nat) : Option Stencil := do
  let pp := rowPrev y
  let pn := rowNext y src.height
  let offp ← offplut d plane x
  let offn ← offnlut d plane x
  let ppc ← src.read pp x
  let cl ← src.read y (x - offp)
  let c ← src.read y x
  let cr ← src.read y (x + offn)
  let pnc ← src.read pn x
  pure { ppl := 0, ppc := ppc, ppr := 0, cl := cl, c := c, cr := cr, pnl := 0, pnc := pnc,
         pnr := 0 }

/-- The reads of the eight neighbours and the centre (ttype 1, 3, 5). -/
def readSquare (d : TDeintModData) (plane : Nat) (src : Plane) (y x : Nat) :
    Option Stencil := do
  let pp := rowPrev y
  let pn := rowNext y src.height
  let offp ← offplut d plane x
  let offn ← offnlut d plane x
  let ppl ← src.read pp (x - offp)
  let ppc ← src.read pp x
  let ppr ← src.read pp (x + offn)
  let cl ← src.read y (x - offp)
  let c ← src.read y x
  let cr ← src.read y (x + offn)
  let pnl ← src.read pn (x - offp)
  let pnc ← src.read pn x
  let pnr ← src.read pn (x + offn)
  pure { ppl := ppl, ppc := ppc, ppr := ppr, cl := cl, c := c, cr := cr, pnl := pnl,
         pnc := pnc, pnr := pnr }

/-- The value `at` (`atmax` for the compensated variants) that `threshMask` computes for the
pixel in row `y`, column `x` of a source plane, for each `ttype` in 0..5 (the source has no
loop for any other `ttype`, see `threshMaskPlane`). -/
def threshAt (d : TDeintModData) (plane : Nat) (src : Plane) (y x : Nat) : Option Int :=
  if d.ttype = 0 then
    (readCross d plane src y x).map fun s =>
      compensated d plane s.c (minmax [s.ppc, s.pnc]) (minmax [s.cl, s.cr])
  else if d.ttype = 1 then
    (readSquare d plane src y x).map fun s =>
      compensated d plane s.c (minmax [s.ppl, s.ppc, s.ppr, s.pnl, s.pnc, s.pnr])
        (minmax [s.cl, s.cr])
  else if d.ttype = 2 then
    (readCross d plane src y x).map fun s =>
      let m0 := minmax [s.ppc, s.cl, s.cr, s.pnc]
      max |s.c - m0.1| |s.c - m0.2|
  else if d.ttype = 3 then
    (readSquare d plane src y x).map fun s =>
      let m0 := minmax [s.ppl, s.ppc, s.ppr, s.cl, s.cr, s.pnl, s.pnc, s.pnr]
      max |s.c - m0.1| |s.c - m0.2|
  else if d.ttype = 4 then
    (readCross d plane src y x).map fun s =>
      let m0 := minmax [s.ppc, s.cl, s.c, s.cr, s.pnc]
      m0.2 - m0.1
  else if d.ttype = 5 then
    (readSquare d plane src y x).map fun s =>
      let m0 := minmax [s.ppl, s.ppc, s.ppr, s.cl, s.c, s.cr, s.pnl, s.pnc, s.pnr]
      m0.2 - m0.1
  else none

/-- Body of the pixel loop of `threshMask`: `dstp0[x] = (at + 2) >> 2` in the upper half,
`dstp1[x] = (at + 1) >> 1` in the lower half (`dstp1 = dstp0 + stride * height`). -/
def threshPixel (d : TDeintModData) (plane : Nat) (src : Plane) (y x : Nat) (dst : Plane) :
    Option Plane := do
  let a ← threshAt d plane src y x
  let dst ← dst.write y x (sar (a + 2) 2)
  dst.write (y + src.height) x (sar (a + 1) 1)

/-- The function `threshMask` restricted to one plane. -/
def threshMaskPlane (d : TDeintModData) (plane : Nat) (src dst : Plane) : Option Plane := do
  let width := src.width
  let height := src.height
  if plane = 0 ∧ d.mtqL > -1 ∧ d.mthL > -1 then
    let dst ← dst.memsetRows 0 height (toU8 d.mtqL)
    dst.memsetRows height height (toU8 d.mthL)
  else if plane > 0 ∧ d.mtqC > -1 ∧ d.mthC > -1 then
    let dst ← dst.memsetRows 0 height (toU8 d.mtqC)
    dst.memsetRows height height (toU8 d.mthC)
  else
    let dst ←
      if 0 ≤ d.ttype ∧ d.ttype ≤ 5 then
        forLoop (fun y dst => forLoop (fun x dst => threshPixel d plane src y x dst) width dst)
          height dst
      else pure dst
    if plane = 0 ∧ d.mtqL > -1 then dst.memsetRows 0 height (toU8 d.mtqL)
    else if plane = 0 ∧ d.mthL > -1 then dst.memsetRows height height (toU8 d.mthL)
    else if plane > 0 ∧ d.mtqC > -1 then dst.memsetRows 0 height (toU8 d.mtqC)
    else if plane > 0 ∧ d.mthC > -1 then dst.memsetRows height height (toU8 d.mthC)
    else pure dst

/-- The function `threshMask`. -/
def threshMask (d : TDeintModData) (src dst : Frame) : Option Frame :=
  forLoop (fun plane dst => do
    let p ← threshMaskPlane d plane (src plane) (dst plane)
    pure (Function.update dst plane p)) d.vi.format.numPlanes dst

/-- Body of the pixel loop of `motionMask`; the half-threshold planes sit `height` rows below
the quarter-threshold planes. -/
def motionPixel (d : TDeintModData) (src1 msk1 src2 msk2 : Plane) (y x : Nat) (dst : Plane) :
    Option Plane := do
  let height := src1.height
  let diff := |(← src1.read y x) - (← src2.read y x)|
  let threshq := min (← msk1.read y x) (← msk2.read y x)
  let dst ← if diff ≤ (← mlut d threshq) then dst.write y x 255 else dst.write y x 0
  let threshh := min (← msk1.read (y + height) x) (← msk2.read (y + height) x)
  if diff ≤ (← mlut d threshh) then dst.write (y + height) x 255
  else dst.write (y + height) x 0

/-- The function `motionMask` restricted to one plane. -/
def motionMaskPlane (d : TDeintModData) (src1 msk1 src2 msk2 dst : Plane) : Option Plane :=
  forLoop (fun y dst => forLoop (fun x dst => motionPixel d src1 msk1 src2 msk2 y x dst)
    src1.width dst) src1.height dst

/-- The function `motionMask`. -/
def motionMask (d : TDeintModData) (src1 msk1 src2 msk2 dst : Frame) : Option Frame :=
  forLoop (fun plane dst => do
    let p ← motionMaskPlane d (src1 plane) (msk1 plane) (src2 plane) (msk2 plane) (dst plane)
    pure (Function.update dst plane p)) d.vi.format.numPlanes dst

/-- Body of the pixel loop of `andMasks`: `dstp[x] &= (srcp1[x] & srcp2[x])`. -/
def andPixel (src1 src2 : Plane) (y x : Nat) (dst : Plane) : Option Plane := do
  let a ← src1.read y x
  let b ← src2.read y x
  let c ← dst.read y x
  dst.write y x ((c.toNat &&& (a.toNat &&& b.toNat) : Nat) : Int)

/-- The function `andMasks` restricted to one plane: width and height are those of `src1`. -/
def andMasksPlane (src1 src2 dst : Plane) : Option Plane :=
  forLoop (fun y dst => forLoop (fun x dst => andPixel src1 src2 y x dst) src1.width dst)
    src1.height dst

/-- The function `andMasks`. -/
def andMasks (d : TDeintModData) (src1 src2 dst : Frame) : Option Frame :=
  forLoop (fun plane dst => do
    let p ← andMasksPlane (src1 plane) (src2 plane) (dst plane)
    pure (Function.update dst plane p)) d.vi.format.numPlanes dst

/-- The call `memcpy(dstp, srcp0, stride * height)`: the first `n` rows of `src` are copied to
`dst`; both planes have the same stride (same width). -/
def Plane.copyRows (dst src : Plane) (n : Nat) : Option Plane :=
  if n ≤ src.height ∧ n ≤ dst.height ∧ src.width = dst.width then
    some { dst with pix := fun r c => if r < n then src.pix r c else dst.pix r c }
  else none

/-- The step `if (v) count++` of `combineMasks`, as a summand. -/
def nonzero (v : Int) : Int := if v ≠ 0 then 1 else 0

/-- The eight neighbour reads of `combineMasks` and their count of non-zero bytes. -/
def neighbourCount (d : TDeintModData) (plane : Nat) (src : Plane) (height : Nat) (y x : Nat) :
    Option Int := do
  let pp := rowPrev y
  let pn := rowNext y height
  let offp ← offplut d plane x
  let offn ← offnlut d plane x
  let a1 ← src.read pp (x - offp)
  let a2 ← src.read pp x
  let a3 ← src.read pp (x + offn)
  let a4 ← src.read y (x - offp)
  let a5 ← src.read y (x + offn)
  let a6 ← src.read pn (x - offp)
  let a7 ← src.read pn x
  let a8 ← src.read pn (x + offn)
  pure (nonzero a1 + nonzero a2 + nonzero a3 + nonzero a4 + nonzero a5 + nonzero a6
    + nonzero a7 + nonzero a8)

/-- Body of the pixel loop of `combineMasks`. `srcp0` is row `y` of the quarter half of `src`,
`srcp1` row `y + height` (the half-threshold helper), `height` the height of `dst`. -/
def combinePixel (d : TDeintModData) (plane : Nat) (src : Plane) (height : Nat) (y x : Nat)
    (dst : Plane) : Option Plane :=
  (src.read y x).bind fun q =>
  if q ≠ 0 then some dst else
  (src.read (y + height) x).bind fun hlp =>
  if hlp = 0 then some dst else
  (neighbourCount d plane src height y x).bind fun count =>
  if count ≥ d.cstr then dst.write y x 255 else some dst

/-- The function `combineMasks` restricted to one plane. -/
def combineMasksPlane (d : TDeintModData) (plane : Nat) (src dst : Plane) : Option Plane := do
  let width := src.width
  let height := dst.height
  let dst ← dst.copyRows src height
  forLoop (fun y dst => forLoop (fun x dst => combinePixel d plane src height y x dst) width dst)
    height dst

/-- The function `combineMasks`. -/
def combineMasks (d : TDeintModData) (src dst : Frame) : Option Frame :=
  forLoop (fun plane dst => do
    let p ← combineMasksPlane d plane (src plane) (dst plane)
    pure (Function.update dst plane p)) d.vi.format.numPlanes dst

/-- The `arAllFramesReady` branch of `tdeintmodCreateMMGetFrame`: the motion mask for index
`n` of the single-parity stream `node`. `c0 .. c7` stand for the bytes of the eight freshly
allocated frames (`msk[i][0]`, `msk[i][1]`, `dst[0]`, `dst[1]`). -/
def tdeintmodCreateMMGetFrame (d : TDeintModData) (node : Int → Frame)
    (c : Nat → Nat → Nat → Nat → Byte) (n : Int) : Option Frame := do
  let fmt := d.vi.format
  let dst0 := newVideoFrame fmt d.vi.width (d.vi.height * 2) (c 6)
  let dst1 := newVideoFrame fmt d.vi.width d.vi.height (c 7)
  let src : Nat → Frame := fun i => node (min (n + i) ((d.vi.numFrames : Int) - 1))
  let m00 ← threshMask d (src 0) (newVideoFrame fmt d.vi.width (d.vi.height * 2) (c 0))
  let m10 ← threshMask d (src 1) (newVideoFrame fmt d.vi.width (d.vi.height * 2) (c 2))
  let m20 ← threshMask d (src 2) (newVideoFrame fmt d.vi.width (d.vi.height * 2) (c 4))
  let m01 ← motionMask d (src 0) m00 (src 1) m10
    (newVideoFrame fmt d.vi.width (d.vi.height * 2) (c 1))
  let m11 ← motionMask d (src 1) m10 (src 2) m20
    (newVideoFrame fmt d.vi.width (d.vi.height * 2) (c 3))
  let dst0 ← motionMask d (src 0) m00 (src 2) m20 dst0
  let dst0 ← andMasks d m01 m11 dst0
  combineMasks d dst0 dst1

/-! ## Closed forms used by the proofs -/

/-- Closed form of the byte that `eDeint` leaves at row `y`, column `x` of a plane, where `old`
is the byte the destination held before; proved equal to the loop in `eDeintPlane_spec`. -/
def eDeintValue (mask prv src nxt efrm : Plane) (y x : Nat) (old : Byte) : Byte :=
  let m := (mask.pix y x).val
  let S : Int := (src.pix y x).val
  let P : Int := (prv.pix y x).val
  let N : Int := (nxt.pix y x).val
  if m = 10 then src.pix y x
  else if m = 20 then prv.pix y x
  else if m = 30 then nxt.pix y x
  else if m = 40 then toU8 (sar (S + N + 1) 1)
  else if m = 50 then toU8 (sar (S + P + 1) 1)
  else if m = 70 then toU8 (sar (P + S * 2 + N + 2) 2)
  else if m = 60 then efrm.pix y x
  else old

/-- Closed form of the byte that `cubicDeint` leaves at row `y`, column `x` of a plane of
height at least 2; proved equal to the loop in `cubicDeintPlane_spec`. -/
def cubicDeintValue (mask prv src nxt : Plane) (y x : Nat) (old : Byte) : Byte :=
  let m := (mask.pix y x).val
  let S : Int := (src.pix y x).val
  let P : Int := (prv.pix y x).val
  let N : Int := (nxt.pix y x).val
  if m = 10 then src.pix y x
  else if m = 20 then prv.pix y x
  else if m = 30 then nxt.pix y x
  else if m = 40 then toU8 (sar (S + N + 1) 1)
  else if m = 50 then toU8 (sar (S + P + 1) 1)
  else if m = 70 then toU8 (sar (P + S * 2 + N + 2) 2)
  else if m = 60 then
    if y = 0 then src.pix (y + 1) x
    else if y + 1 = src.height then src.pix (y - 1) x
    else if y < 3 ∨ src.height < y + 4 then
      toU8 (sar (((src.pix (y + 1) x).val : Int) + (src.pix (y - 1) x).val + 1) 1)
    else
      toU8 (max (min (sar (19 * (((src.pix (y - 1) x).val : Int) + (src.pix (y + 1) x).val)
        - 3 * (((src.pix (y - 3) x).val : Int) + (src.pix (y + 3) x).val) + 16) 5) 255) 0)
  else old

/-- Planes of equal width and height. -/
def Plane.sameDims (p q : Plane) : Prop := p.width = q.width ∧ p.height = q.height

/-- A plane filled with one byte (used for concrete instances). -/
def constPlane (w h : Nat) (b : Byte) : Plane := ⟨w, h, fun _ _ => b⟩

/-- A frame all of whose planes are `constPlane w h b` (used for concrete instances). -/
def constFrame (w h : Nat) (b : Byte) : Frame := fun _ => constPlane w h b

/-- A plane of width `w` whose row `y` is filled with `rows[y]` (used for concrete instances). -/
def rowsPlane (w : Nat) (rows : List Byte) : Plane := ⟨w, rows.length, fun y _ => rows.getD y 0⟩

/-- The configuration ranges Stage B relies on: `tdeintmodCreate` rejects `length` outside
[6, 60] and `mtype` outside [0, 2], and stores `order` and `field` as `!!value`. -/
def StageBConfig (d : TDeintModData) : Prop :=
  (6 ≤ d.length ∧ d.length ≤ 60) ∧ (d.mtype = 0 ∨ d.mtype = 1 ∨ d.mtype = 2) ∧
  (d.order = 0 ∨ d.order = 1) ∧ (d.field = 0 ∨ d.field = 1)

/-- The frame geometry of a Stage B instance as `tdeintmodCreate` sets it up: `viSaved` describes
the mask streams (single fields), `vi` is `viSaved` with the height doubled, the field height is
a multiple of the vertical subsampling, and every frame of the two mask streams has the
geometry of `viSaved`. -/
def StageBGeometry (d : TDeintModData) (node node2 : Int → Frame) : Prop :=
  d.vi.format = d.viSaved.format ∧ d.vi.width = d.viSaved.width ∧
  d.vi.height = 2 * d.viSaved.height ∧
  2 ^ d.viSaved.format.subSamplingH ∣ d.viSaved.height ∧
  (∀ (i : Int) (p : Nat), p < d.vi.format.numPlanes →
    ((node i) p).width = planeWidth d.viSaved.format d.viSaved.width p ∧
    ((node i) p).height = planeHeight d.viSaved.format d.viSaved.height p) ∧
  (∀ (i : Int) (p : Nat), p < d.vi.format.numPlanes →
    ((node2 i) p).width = planeWidth d.viSaved.format d.viSaved.width p ∧
    ((node2 i) p).height = planeHeight d.viSaved.format d.viSaved.height p)

/-- An 8-bit gray format (one plane, no subsampling), for concrete instances. -/
def grayFormat : VSFormat := ⟨1, 0, 0⟩

/-- A configuration with the default parameter values of `tdeintmodCreate` (`order = 1`), for
gray fields of `w` x `h` (frames of `w` x `2h`) and `nf` frames, for concrete instances. -/
def defaultData (w h nf : Nat) : TDeintModData :=
  { vi := ⟨grayFormat, w, 2 * h, nf⟩, viSaved := ⟨grayFormat, w, h, nf⟩,
    order := 1, field := 1, mode := 0, length := 10, mtype := 1, ttype := 1,
    mtqL := -1, mthL := -1, mtqC := -1, mthC := -1, nt := 2, minthresh := 4, maxthresh := 75,
    cstr := 4, cthresh := 6, blockx := 16, blocky := 16, MI := 64, metric := 0,
    full := true, chroma := false, useClip2 := false }

/-- Closed form of one output byte of `motionMask`: `s1`, `s2` are the two source samples and
`m1`, `m2` the two threshold samples (quarter or half); proved in `motionMaskPlane_spec`. -/
def motionValue (d : TDeintModData) (s1 s2 m1 m2 : Byte) : Byte :=
  if |(s1.val : Int) - (s2.val : Int)|
      ≤ min (max (wrap32 (min (m1.val : Int) (m2.val : Int) + d.nt)) d.minthresh) d.maxthresh
  then 255 else 0

/-- Closed form of one output byte of `andMasks`: `c &= (a & b)`. -/
def andValue (c a b : Byte) : Byte := toU8 ((c.val &&& (a.val &&& b.val) : Nat) : Int)

/-- The mirrored neighbour rows and columns of the 3x3 stencil, as natural numbers. -/
def prevRow (y : Nat) : Nat := if y = 0 then 1 else y - 1

/-- Row below `y`, mirrored inward at the last row of a plane of `h` rows. -/
def nextRow (y h : Nat) : Nat := if y + 1 = h then y - 1 else y + 1

/-- Column `x - offp`: left neighbour, mirrored inward at column 0. -/
def leftCol (x : Nat) : Nat := if x = 0 then 1 else x - 1

/-- Column `x + offn`: right neighbour, mirrored inward at the last column of `w`. -/
def rightCol (x w : Nat) : Nat := if x + 1 = w then x - 1 else x + 1

/-- Closed form of `count` in `combineMasks`: the number of non-zero bytes among the eight
neighbours of (x, y) in the quarter half of `src`. -/
def combineCount (src : Plane) (h w y x : Nat) : Int :=
  (if src.pix (prevRow y) (leftCol x) ≠ 0 then 1 else 0)
  + (if src.pix (prevRow y) x ≠ 0 then 1 else 0)
  + (if src.pix (prevRow y) (rightCol x w) ≠ 0 then 1 else 0)
  + (if src.pix y (leftCol x) ≠ 0 then 1 else 0)
  + (if src.pix y (rightCol x w) ≠ 0 then 1 else 0)
  + (if src.pix (nextRow y h) (leftCol x) ≠ 0 then 1 else 0)
  + (if src.pix (nextRow y h) x ≠ 0 then 1 else 0)
  + (if src.pix (nextRow y h) (rightCol x w) ≠ 0 then 1 else 0)

/-- Closed form of the byte `combineMasks` leaves at (x, y), where `old` is the byte the
destination held after the `memcpy`; proved in `combinePixel_spec`. -/
def combineValue (d : TDeintModData) (src : Plane) (h w y x : Nat) (old : Byte) : Byte :=
  if src.pix y x ≠ 0 then old
  else if src.pix (y + h) x = 0 then old
  else if combineCount src h w y x ≥ d.cstr then 255
  else old

/-- Every plane `p < n` of frame `f` has the geometry of format `fmt` at luma size `w` x `h`. -/
def FrameDims (f : Frame) (fmt : VSFormat) (w h n : Nat) : Prop :=
  ∀ p, p < n → (f p).width = planeWidth fmt w p ∧ (f p).height = planeHeight fmt h p

/-- The frame geometry of a Stage M instance as `tdeintmodCreate` sets it up: `vi` describes the
single-parity stream `node`, the field height is a multiple of the vertical subsampling, every
plane has at least two rows and two columns (the mirrored stencil needs them), and every frame
of the stream has the geometry of `vi`. -/
def StageMGeometry (d : TDeintModData) (node : Int → Frame) : Prop :=
  2 ^ d.vi.format.subSamplingH ∣ d.vi.height ∧
  (∀ p, p < d.vi.format.numPlanes →
    2 ≤ planeWidth d.vi.format d.vi.width p ∧ 2 ≤ planeHeight d.vi.format d.vi.height p) ∧
  (∀ i : Int, FrameDims (node i) d.vi.format d.vi.width d.vi.height d.vi.format.numPlanes)

/-- The plane has no threshold override in `threshMask`: neither of the two overrides that
apply to it (luma: `mtqL`, `mthL`; chroma: `mtqC`, `mthC`) is above -1. -/
def NoOverride (d : TDeintModData) (plane : Nat) : Prop :=
  (plane = 0 → ¬ d.mtqL > -1 ∧ ¬ d.mthL > -1) ∧ (plane > 0 → ¬ d.mtqC > -1 ∧ ¬ d.mthC > -1)

/-- A Stage M configuration with the default parameter values, for gray fields of `w` x `h`
and `nf` frames, for concrete instances. -/
def stageMData (w h nf : Nat) : TDeintModData :=
  { defaultData w h nf with vi := ⟨grayFormat, w, h, nf⟩ }

/-! ## The combing detector `checkCombed` and the output stage `tdeintmodGetFrame` -/

/-- Position of the highest set bit of `n`, by halving at most `fuel` times. -/
def log2Fuel : Nat → Nat → Nat
  | 0, _ => 0
  | fuel + 1, n => if 2 ≤ n then log2Fuel fuel (n / 2) + 1 else 0

/-- The value `(int)std::log2(n)` for an `int` `n >= 1`. -/
def log2 (n : Int) : Nat := log2Fuel 32 n.toNat

/-- The field `d.xhalf = d.blockx / 2`. -/
def xhalf (d : TDeintModData) : Int := cdiv d.blockx 2

/-- The field `d.yhalf = d.blocky / 2`. -/
def yhalf (d : TDeintModData) : Int := cdiv d.blocky 2

/-- The field `d.xshift = (int)std::log2(d.blockx)`. -/
def xshift (d : TDeintModData) : Nat := log2 d.blockx

/-- The field `d.yshift = (int)std::log2(d.blocky)`. -/
def yshift (d : TDeintModData) : Nat := log2 d.blocky

/-- The field `d.cthresh6 = d.cthresh * 6`: an `int` product of a value that is not
range-checked, so it wraps at 32 bits (`wrap32`). -/
def cthresh6 (d : TDeintModData) : Int := wrap32 (d.cthresh * 6)

/-- The field `d.cthreshsq = d.cthresh * d.cthresh`: an `int` product of a value that is not
range-checked, so it wraps at 32 bits (`wrap32`). -/
def cthreshsq (d : TDeintModData) : Int := wrap32 (d.cthresh * d.cthresh)

/-- The per-pixel test of metric 0 in the row `srcp` = row `r`. The five row segments of the
source differ only in which rows they read: `o1`, `o2` are the offsets of the two rows next to
`srcp` in `3 * (.. + ..)` (`srcpp` is -1, `srcpn` is +1), `oa`, `ob` those of the two outer rows
(`srcppp` is -2, `srcpnn` is +2); `two` is false in the first and last row, where only
`sFirst = srcp[x] - row(o1)[x]` is tested. The second conjunct is evaluated only when the first
holds. -/
def combTest0 (cthresh cthresh6 : Int) (two : Bool) (o1 o2 oa ob : Int) (src : Plane)
    (r : Int) (x : Nat) : Option Bool :=
  (src.read r x).bind fun c =>
  (src.read (r + o1) x).bind fun v1 =>
  (src.read (r + o2) x).bind fun v2 =>
  let sFirst := c - v1
  let sSecond := c - v2
  let first : Bool :=
    if two then
      decide ((sFirst > cthresh ∧ sSecond > cthresh) ∨ (sFirst < -cthresh ∧ sSecond < -cthresh))
    else decide (sFirst > cthresh ∨ sFirst < -cthresh)
  if first then
    (src.read (r + oa) x).bind fun a =>
    (src.read (r + ob) x).bind fun b =>
    some (decide (|a + c * 4 + b - 3 * (v1 + v2)| > cthresh6))
  else some false

/-- The per-pixel test of metric 1 in the row `srcp` = row `r`:
`(srcp[x] - row(o1)[x]) * (srcp[x] - row(o2)[x]) > cthreshsq`. -/
def combTest1 (cthreshsq : Int) (o1 o2 : Int) (src : Plane) (r : Int) (x : Nat) :
    Option Bool :=
  (src.read r x).bind fun c =>
  (src.read (r + o1) x).bind fun v1 =>
  (src.read (r + o2) x).bind fun v2 =>
  some (decide ((c - v1) * (c - v2) > cthreshsq))

/-- One row of the marking loops: `for (x = 0; x < width; x++) if (test) cmkp[x] = 0xFF;`. -/
def markRow (test : Int → Nat → Option Bool) (width : Nat) (r : Int) (cmk : Plane) :
    Option Plane :=
  forLoop (fun x cmk => (test r x).bind fun t => if t then cmk.write r x 255 else some cmk)
    width cmk

/-- The metric 0 branch of `checkCombed` for one plane: rows 0 and 1, the rows
`2 .. height - 3`, and the two rows after them, each with its own variant of the test. -/
def markPlane0 (cthresh cthresh6 : Int) (src cmk : Plane) : Option Plane :=
  let t := combTest0 cthresh cthresh6
  let r : Nat := 2 + (src.height - 4)
  (markRow (t false 1 1 2 2 src) src.width 0 cmk).bind fun cmk =>
  (markRow (t true (-1) 1 2 2 src) src.width 1 cmk).bind fun cmk =>
  (forLoop (fun k cmk => markRow (t true (-1) 1 (-2) 2 src) src.width ((2 + k : Nat) : Int) cmk)
    (src.height - 4) cmk).bind fun cmk =>
  (markRow (t true (-1) 1 (-2) (-2) src) src.width (r : Int) cmk).bind fun cmk =>
  markRow (t false (-1) (-1) (-2) (-2) src) src.width ((r : Int) + 1) cmk

/-- The metric 1 branch of `checkCombed` for one plane: row 0, the rows `1 .. height - 2`,
and the row after them. -/
def markPlane1 (cthreshsq : Int) (src cmk : Plane) : Option Plane :=
  let r : Nat := 1 + (src.height - 2)
  (markRow (combTest1 cthreshsq 1 1 src) src.width 0 cmk).bind fun cmk =>
  (forLoop (fun k cmk => markRow (combTest1 cthreshsq (-1) 1 src) src.width ((1 + k : Nat) : Int)
    cmk) (src.height - 2) cmk).bind fun cmk =>
  markRow (combTest1 cthreshsq (-1) (-1) src) src.width (r : Int) cmk

/-- Body of the first plane loop of `checkCombed`: `cmask` plane from `src` plane. -/
def markPlane (cthresh cthresh6 cthreshsq metric : Int) (src cmk : Plane) : Option Plane :=
  if cthresh < 0 then some (cmk.fill 255)
  else if metric = 0 then markPlane0 cthresh cthresh6 src (cmk.fill 0)
  else markPlane1 cthreshsq src (cmk.fill 0)

/-- The short-circuit disjunction `p[r1][c1] == 0xFF || p[r2][c2] == 0xFF || ...`. -/
def anyFF (p : Plane) : List (Int × Int) → Option Bool
  | [] => some false
  | (r, c) :: rest => (p.read r c).bind fun v => if v = 255 then some true else anyFF p rest

/-- The test `cmkpU[x] == 0xFF && (one of its eight neighbours == 0xFF)` on a chroma plane
of `cmask`, `cmkpU` = row `y`. -/
def chromaHit (p : Plane) (y x : Int) : Option Bool :=
  (p.read y x).bind fun v =>
  if v = 255 then
    anyFF p [(y, x - 1), (y, x + 1), (y - 1, x - 1), (y - 1, x), (y - 1, x + 1),
      (y + 1, x - 1), (y + 1, x), (y + 1, x + 1)]
  else some false

/-- The store `((uint16_t *)row)[x] = 0xFFFF` into row `r`: bytes `2x` and `2x + 1`. -/
def write16 (p : Plane) (r x : Int) : Option Plane :=
  (p.write r (2 * x) 255).bind fun p => p.write r (2 * x + 1) 255

/-- Body of the pixel loop of the chroma fold-in of `checkCombed`; in iteration `y` the luma
pointers are `cmkp` = row `2y`, `cmkpp` = row `2y - 1`, `cmkpn` = row `2y + 1`,
`cmkpnn` = row `2y + 2`. -/
def foldPixel (cmU cmV : Plane) (y x : Nat) (cmk : Plane) : Option Plane :=
  (chromaHit cmU y x).bind fun hu =>
  (if hu then some true else chromaHit cmV y x).bind fun hit =>
  if hit then
    (write16 cmk (2 * (y : Int)) x).bind fun cmk =>
    (write16 cmk (2 * (y : Int) + 1) x).bind fun cmk =>
    if y % 2 ≠ 0 then write16 cmk (2 * (y : Int) - 1) x else write16 cmk (2 * (y : Int) + 2) x
  else some cmk

/-- The chroma fold-in of `checkCombed` (`if (d->chroma)`): rows `1 .. height - 2` and columns
`1 .. width - 2` of the chroma planes. -/
def foldChroma (cmask : Frame) : Option Plane :=
  let width := (cmask 2).width
  let height := (cmask 2).height
  forLoop (fun k cmk => forLoop (fun j cmk => foldPixel (cmask 1) (cmask 2) (1 + k) (1 + j) cmk)
    (width - 2) cmk) (height - 2) (cmask 0)

/-- The test `cmkpp[x] == 0xFF && cmkp[x] == 0xFF && cmkpn[x] == 0xFF`, `cmkp` = row `r`,
evaluated left to right with short circuit. -/
def allFF (cmk : Plane) (r x : Int) : Option Bool :=
  (cmk.read (r - 1) x).bind fun a =>
  if a ≠ 255 then some false else
  (cmk.read r x).bind fun b =>
  if b ≠ 255 then some false else
  (cmk.read (r + 1) x).bind fun c => some (decide (c = 255))

/-- The update `cArray[i] += s`. -/
def bump (cArray : List Int) (i s : Int) : Option (List Int) :=
  (getI cArray i).bind fun v => some (cArray.set i.toNat (v + s))

/-- The four updates of `cArray` for column `x`:
`box1 = (x >> xshift) << 2`, `box2 = ((x + xhalf) >> xshift) << 2`. -/
def addBoxes (xhalf : Int) (xshift : Nat) (temp1 temp2 x s : Int) (cArray : List Int) :
    Option (List Int) :=
  let box1 := sar x xshift * 4
  let box2 := sar (x + xhalf) xshift * 4
  (bump cArray (temp1 + box1) s).bind fun a =>
  (bump a (temp1 + box2 + 1) s).bind fun a =>
  (bump a (temp2 + box1 + 2) s).bind fun a =>
  bump a (temp2 + box2 + 3) s

/-- The state of the counting loops: `cArray` and the row of the pointer `cmkp`. -/
structure CountState where
  cArray : List Int
  row : Int

/-- Body of the first and third counting loop of `checkCombed` (one row `y`, every column). -/
def countRow (xhalf yhalf : Int) (xshift yshift : Nat) (xBlocks4 : Int) (cmk : Plane)
    (width : Nat) (y : Int) (st : CountState) : Option CountState :=
  let temp1 := sar y yshift * xBlocks4
  let temp2 := sar (y + yhalf) yshift * xBlocks4
  (forLoop (fun x a => (allFF cmk st.row x).bind fun t =>
      if t then addBoxes xhalf xshift temp1 temp2 x 1 a else some a) width st.cArray).bind
    fun a => some { cArray := a, row := st.row + 1 }

/-- The number of positions `(u, v)`, `u < rows`, `v < cols`, of the block at row `r`,
column `x` with three vertically adjacent 0xFF bytes (`sum` in the second counting loop). -/
def blockSum (cmk : Plane) (r x : Int) (rows cols : Nat) : Option Int :=
  forLoop (fun u sum => forLoop (fun v sum => (allFF cmk (r + u) (x + v)).bind fun t =>
    some (if t then sum + 1 else sum)) cols sum) rows 0

/-- Body of the second counting loop of `checkCombed`: the blocks of `xhalf` columns up to
`widtha`, then the remaining columns one by one. -/
def countBlocks (xhalf yhalf : Int) (xshift yshift : Nat) (xBlocks4 : Int) (cmk : Plane)
    (width widtha : Nat) (y : Int) (st : CountState) : Option CountState :=
  let temp1 := sar y yshift * xBlocks4
  let temp2 := sar (y + yhalf) yshift * xBlocks4
  (forStep 0 widtha xhalf.toNat (fun x a =>
      (blockSum cmk st.row x yhalf.toNat xhalf.toNat).bind fun sum =>
      if sum ≠ 0 then addBoxes xhalf xshift temp1 temp2 x sum a else some a) st.cArray).bind
    fun a =>
  (forLoop (fun k a =>
      (blockSum cmk st.row ((widtha + k : Nat) : Int) yhalf.toNat 1).bind fun sum =>
      if sum ≠ 0 then addBoxes xhalf xshift temp1 temp2 ((widtha + k : Nat) : Int) sum a
      else some a) (width - widtha) a).bind
    fun a => some { cArray := a, row := st.row + yhalf }

/-- The final loop `for (x = 0; x < arraySize; x++) if (cArray[x] > MIC) MIC = cArray[x];`. -/
def maxCount (cArray : List Int) (arraySize : Nat) : Int :=
  (cArray.take arraySize).foldl (fun MIC v => if v > MIC then v else MIC) 0

/-- The counting part of `checkCombed`: from the finished `cmask` plane 0 to `MIC`. The array
`cArray` has the capacity the caller allocated; its first `arraySize` entries are zeroed. -/
def countCombed (xhalf yhalf : Int) (xshift yshift : Nat) (cmk : Plane) (cArray : List Int) :
    Option Int :=
  let width := cmk.width
  let height := cmk.height
  let xBlocks := sar ((width : Int) + xhalf) xshift + 1
  let xBlocks4 := xBlocks * 4
  let yBlocks := sar ((height : Int) + yhalf) yshift + 1
  let arraySize := ((xBlocks * yBlocks) * 4).toNat
  let widtha := (sar (width : Int) (xshift - 1) * 2 ^ (xshift - 1)).toNat
  let heighta0 := sar (height : Int) (yshift - 1) * 2 ^ (yshift - 1)
  let heighta : Int := if heighta0 = height then (height : Int) - yhalf else heighta0
  if arraySize > cArray.length then none else
  let st : CountState :=
    { cArray := List.replicate arraySize 0 ++ cArray.drop arraySize, row := 1 }
  (forLoop (fun k st => countRow xhalf yhalf xshift yshift xBlocks4 cmk width
      ((1 + k : Nat) : Int) st) (yhalf - 1).toNat st).bind fun st =>
  (forStep yhalf.toNat heighta.toNat yhalf.toNat (fun y st =>
      countBlocks xhalf yhalf xshift yshift xBlocks4 cmk width widtha (y : Int) st) st).bind
    fun st =>
  (forLoop (fun k st => countRow xhalf yhalf xshift yshift xBlocks4 cmk width
      (heighta + (k : Int)) st) ((height : Int) - 1 - heighta).toNat st).bind fun st =>
  some (maxCount st.cArray arraySize)

/-- The value `MIC` that `checkCombed` compares with `d->MI`: the marking of `cmask`, the chroma
fold-in and the block counts, from the fields of `d` other than `MI`. -/
def checkCombedMIC (cthresh cthresh6 cthreshsq metric : Int) (chroma : Bool) (xhalf yhalf : Int)
    (xshift yshift : Nat) (src cmask : Frame) (cArray : List Int) : Option Int :=
  (forLoop (fun plane cm =>
      (markPlane cthresh cthresh6 cthreshsq metric (src plane) (cm plane)).bind fun p =>
      some (Function.update cm plane p)) (if chroma then 3 else 1) cmask).bind fun cm =>
  (if chroma then (foldChroma cm).bind fun p => some (Function.update cm 0 p)
    else some cm).bind fun cm =>
  countCombed xhalf yhalf xshift yshift (cm 0) cArray

/-- The function `checkCombed`: is the frame `src` combed. `cmask` is the scratch frame and
`cArray` the scratch array the caller allocated. -/
def checkCombed (d : TDeintModData) (src cmask : Frame) (cArray : List Int) : Option Bool :=
  (checkCombedMIC d.cthresh (cthresh6 d) (cthreshsq d) d.metric d.chroma (xhalf d) (yhalf d)
    (xshift d) (yshift d) src cmask cArray).map fun MIC => decide (MIC > d.MI)

/-- The outcome of one call of `tdeintmodGetFrame`: a frame, or `nullptr` after
`setFilterError`. -/
inductive GetFrameResult where
  | frame (f : Frame)
  | error (msg : String)

/-- The `arAllFramesReady` branch of `tdeintmodGetFrame` with the combing detector as a
parameter. `node`, `clip2`, `mask`, `edeint` are the input streams (`hasEdeint`: is `d->edeint`
set), `malloc` is the result of `vs_aligned_malloc` (`none` for a null pointer, otherwise the
bytes found in the block, which has the requested number of `int`s) and `content` stands for
the bytes of freshly allocated frames. -/
def tdeintmodGetFrameWith (detector : Frame → Frame → List Int → Option Bool)
    (d : TDeintModData) (node clip2 mask edeint : Int → Frame) (hasEdeint : Bool)
    (malloc : Option (Nat → Int)) (content : Nat → Nat → Nat → Byte) (nSaved : Int) :
    Option GetFrameResult :=
  let n := if d.mode = 1 then cdiv nSaved 2 else nSaved
  let src := node n
  let synth : Option GetFrameResult :=
    let prv := (if ¬ d.useClip2 then node else clip2) (max (n - 1) 0)
    let src := if d.useClip2 then clip2 n else src
    let nxt := (if ¬ d.useClip2 then node else clip2) (min (n + 1) (d.viSaved.numFrames - 1))
    let msk := mask nSaved
    let dst := newVideoFrame d.vi.format d.vi.width d.vi.height content
    (if hasEdeint then eDeint d.vi.format.numPlanes dst msk prv src nxt (edeint nSaved)
      else cubicDeint d.vi.format.numPlanes dst msk prv src nxt).map GetFrameResult.frame
  if d.mode = 0 ∧ ¬ d.full then
    let cmask := newVideoFrame d.vi.format d.vi.width d.vi.height content
    let size := ((sar ((d.viSaved.width : Int) + xhalf d) (xshift d) + 1)
      * (sar ((d.viSaved.height : Int) + yhalf d) (yshift d) + 1) * 4).toNat
    match malloc with
    | none => some (GetFrameResult.error "TDeintMod: malloc failure (cArray)")
    | some block =>
      (detector src cmask ((List.range size).map block)).bind fun isCombed =>
        if ¬ isCombed then some (GetFrameResult.frame src) else synth
  else synth

/-- The `arAllFramesReady` branch of `tdeintmodGetFrame`. -/
def tdeintmodGetFrame (d : TDeintModData) (node clip2 mask edeint : Int → Frame)
    (hasEdeint : Bool) (malloc : Option (Nat → Int)) (content : Nat → Nat → Nat → Byte)
    (nSaved : Int) : Option GetFrameResult :=
  tdeintmodGetFrameWith (checkCombed d) d node clip2 mask edeint hasEdeint malloc content nSaved

/-- A frame whose rows alternate between all-`a` (even rows) and all-`b` (odd rows), for
concrete instances. -/
def stripeFrame (w h : Nat) (a b : Byte) : Frame :=
  fun _ => ⟨w, h, fun y _ => if y % 2 = 0 then a else b⟩

/-- A configuration of the output stage for gray frames of `w` x `h` with the combing
detector enabled (`mode = 0`, `full = false`), for concrete instances. -/
def combData (w h : Nat) (block cthresh metric MI : Int) : TDeintModData :=
  { defaultData w h 5 with
    vi := ⟨grayFormat, w, h, 5⟩, viSaved := ⟨grayFormat, w, h, 5⟩, full := false,
    blockx := block, blocky := block, cthresh := cthresh, metric := metric, MI := MI }

/-! ## Construction: the checks of `tdeintmodCreate` -/

/-- The 32-bit two's complement pattern of an `int`. -/
def bits32 (i : Int) : Nat := (i % 4294967296).toNat

/-- The function `isPowerOf2`: `i && !(i & (i - 1))`. -/
def isPowerOf2 (i : Int) : Bool :=
  decide (i ≠ 0) && decide (bits32 i &&& bits32 (i - 1) = 0)

/-- The properties of the input clip that `tdeintmodCreate` checks. -/
structure ClipInfo where
  constantFormat : Bool
  numFrames : Int
  grayOrYUV : Bool
  integerSamples : Bool
  bitsPerSample : Int
  width : Int
  height : Int

/-- The range checks on the parameters at the start of `tdeintmodCreate`, in source order:
the message passed to `setError` by the first check that fails, `none` when all pass. -/
def paramError (d : TDeintModData) : Option String :=
  if d.length < 6 ∨ d.length > 60 then
    some "TDeintMod: length must be between 6 and 60 inclusive"
  else if d.mtype < 0 ∨ d.mtype > 2 then
    some "TDeintMod: mtype must be 0, 1, or 2"
  else if d.ttype < 0 ∨ d.ttype > 5 then
    some "TDeintMod: ttype must be 0, 1, 2, 3, 4, or 5"
  else if d.mtqL < -1 ∨ d.mtqL > 255 then
    some "TDeintMod: mtql must be between -1 and 255 inclusive"
  else if d.mthL < -1 ∨ d.mthL > 255 then
    some "TDeintMod: mthl must be between -1 and 255 inclusive"
  else if d.mtqC < -1 ∨ d.mtqC > 255 then
    some "TDeintMod: mtqc must be between -1 and 255 inclusive"
  else if d.mthC < -1 ∨ d.mthC > 255 then
    some "TDeintMod: mthc must be between -1 and 255 inclusive"
  else if d.blockx < 4 ∨ d.blockx > 2048 ∨ isPowerOf2 d.blockx = false then
    some "TDeintMod: illegal blockx size"
  else if d.blocky < 4 ∨ d.blocky > 2048 ∨ isPowerOf2 d.blocky = false then
    some "TDeintMod: illegal blocky size"
  else none

/-- The checks on the input clip in `tdeintmodCreate`: the message of the first one that
fails, `none` when both pass. -/
def clipError (clip : ClipInfo) : Option String :=
  if clip.constantFormat = false ∨ clip.numFrames = 0 ∨ clip.grayOrYUV = false ∨
      clip.integerSamples = false ∨ clip.bitsPerSample ≠ 8 then
    some "TDeintMod: only constant format 8-bit Gray or YUV integer input supported"
  else if clip.width % 2 ≠ 0 ∨ clip.height % 2 ≠ 0 then
    some "TDeintMod: width and height must be multiples of 2"
  else none

/-- The validation done by `tdeintmodCreate` on the parameters and on the input clip:
`Except.error msg` stands for `setError(out, msg); return` (no filter is created),
`Except.ok` for going on to fill the tables (`mlut`, `gvlut`, `vlut`, ...) from the parameters
and create the filters. The optional clips `clip2` and `edeint` are taken to be absent and the
calls into the std plugin to succeed. -/
def tdeintmodCreate (d : TDeintModData) (clip : ClipInfo) : Except String Unit :=
  match paramError d with
  | some msg => Except.error msg
  | none =>
    match clipError clip with
    | some msg => Except.error msg
    | none => Except.ok ()

/-- An input clip that passes the clip checks (constant format, 8-bit integer gray, 4x4,
5 frames), for concrete instances. -/
def goodClip : ClipInfo :=
  { constantFormat := true, numFrames := 5, grayOrYUV := true, integerSamples := true,
    bitsPerSample := 8, width := 4, height := 4 }

/-- Closed form of the row pointers of Stage B at line `k` of the line loop (row `f + 2k` of the
output), for field parity `f` and field planes of `h` rows: `ptlut[1]` is at row `k`,
`ptlut[0]` at the field row above the line and `ptlut[2]` at the field row below it, both
clamped to the plane. The destination plane is not part of the closed form. -/
def lineState (f h k : Nat) : BuildState :=
  { dst := ⟨0, 0, fun _ _ => 0⟩
    rd := (f : Int) + 2 * k
    rc := k
    r0 := if f = 1 then (k : Int) else if k = 0 then 0 else (k : Int) - 1
    r2 := if f = 1 then (if k + 2 ≤ h then (k : Int) + 1 else k) else k }

/-- The verdict that the pixel body of Stage B stores for column `x`: 60 on the short circuit,
`tmmlutf[val]` otherwise; `buildPixel` writes this value (proved in `buildPixel_code`). -/
def pixelCode (d : TDeintModData) (tmmlutf : List Int) (csrc osrc : Nat → Frame)
    (ccount ocount : Int) (plane : Nat) (st : BuildState) (x : Nat) : Option Int :=
  (centreAllZero csrc ccount plane (cdiv ccount 2) st.rc x).bind fun z =>
  if z then some 60 else
  (fillPlut d csrc osrc ccount ocount plane st x).bind fun pl =>
  (forLoop (valStep d pl.1 pl.2) d.length.toNat (0, false)).bind fun res => tmmlutf[res.1]?

/-- The frames `csrc[j]` of Stage B for output index `n0`: the window of the mask stream of the
parity being classified (`srcb` when `fieldt == 1`, `srct` otherwise). -/
def csrcOf (d : TDeintModData) (node node2 : Int → Frame) (content : Nat → Nat → Nat → Byte)
    (n0 : Int) : Nat → Frame :=
  let w := windowOf d (fieldtOf d n0) (indexOf d n0)
  if fieldtOf d n0 = 1 then fun j => windowFrame d node2 content (w.bstart + j)
  else fun j => windowFrame d node content (w.tstart + j)

/-- The frames `osrc[j]` of Stage B for output index `n0`: the window of the mask stream of the
opposite parity (`srct` when `fieldt == 1`, `srcb` otherwise). -/
def osrcOf (d : TDeintModData) (node node2 : Int → Frame) (content : Nat → Nat → Nat → Byte)
    (n0 : Int) : Nat → Frame :=
  let w := windowOf d (fieldtOf d n0) (indexOf d n0)
  if fieldtOf d n0 = 1 then fun j => windowFrame d node content (w.tstart + j)
  else fun j => windowFrame d node2 content (w.bstart + j)

/-- Modelled from the spec: one step `i` of the pattern loop "run over all i in [0, L) without
breaking": the two scans and the two ORs of `valStep`, without the test of `vlut[val]`. -/
def valStepAll (d : TDeintModData) (plut0 plut1 : PLut) (i : Nat) (val : Nat) : Option Nat :=
  let cnt := (d.length - 4).toNat
  (scanNonzero plut0 i cnt).bind fun ok0 =>
  (if ok0 then (gvlut d.length i).map fun g => val ||| g * 8 else some val).bind fun val0 =>
  (scanNonzero plut1 i cnt).bind fun ok1 =>
  if ok1 then (gvlut d.length i).map fun g => val0 ||| g else some val0

/-- The row two above `y`, replaced by the row two below when it would fall outside. -/
def prevRow2 (y : Nat) : Nat := if y < 2 then y + 2 else y - 2

/-- The row two below `y` in a plane of `h` rows, replaced by the row two above when it would
fall outside. -/
def nextRow2 (y h : Nat) : Nat := if y + 2 < h then y + 2 else y - 2

/-- Closed form of the metric 0 test of `checkCombed` at row `y`, column `x`, with the rows
above and below mirrored at the plane edges; proved equal to the five row variants of the
source in `combTest0_rows`. -/
def combed0 (cthresh cthresh6 : Int) (src : Plane) (y x : Nat) : Bool :=
  let S : Int := (src.pix y x).val
  let Sp : Int := (src.pix (prevRow y) x).val
  let Sn : Int := (src.pix (nextRow y src.height) x).val
  let Spp : Int := (src.pix (prevRow2 y) x).val
  let Snn : Int := (src.pix (nextRow2 y src.height) x).val
  decide (((S - Sp > cthresh ∧ S - Sn > cthresh) ∨ (S - Sp < -cthresh ∧ S - Sn < -cthresh)) ∧
    |Spp + 4 * S + Snn - 3 * (Sp + Sn)| > cthresh6)

/-- Closed form of the metric 1 test of `checkCombed` at row `y`, column `x`, with the rows
above and below mirrored at the plane edges; proved equal to the three row variants of the
source in `combTest1_rows`. -/
def combed1 (cthreshsq : Int) (src : Plane) (y x : Nat) : Bool :=
  let S : Int := (src.pix y x).val
  let Sp : Int := (src.pix (prevRow y) x).val
  let Sn : Int := (src.pix (nextRow y src.height) x).val
  decide ((S - Sp) * (S - Sn) > cthreshsq)

/-- Closed form of the test of the chroma fold-in on one chroma plane of `cmask`: the byte at
row `y`, column `x` is 0xFF and so is at least one of its eight neighbours; proved in
`chromaHit_spec`. -/
def chromaMark (p : Plane) (y x : Nat) : Bool :=
  decide (((p.pix y x).val : Int) = 255 ∧
    (((p.pix y (x - 1)).val : Int) = 255 ∨ ((p.pix y (x + 1)).val : Int) = 255 ∨
      ((p.pix (y - 1) (x - 1)).val : Int) = 255 ∨ ((p.pix (y - 1) x).val : Int) = 255 ∨
      ((p.pix (y - 1) (x + 1)).val : Int) = 255 ∨ ((p.pix (y + 1) (x - 1)).val : Int) = 255 ∨
      ((p.pix (y + 1) x).val : Int) = 255 ∨ ((p.pix (y + 1) (x + 1)).val : Int) = 255))

/-- The luma bytes (row `Y`, column `X`) that the chroma fold-in sets for the chroma pixel in
row `y`, column `x`: the columns `2x`, `2x + 1` of the rows `2y`, `2y + 1`, and of the row
`2y - 1` when `y` is odd, `2y + 2` when `y` is even. -/
def foldCovers (Y X y x : Nat) : Prop :=
  (X = 2 * x ∨ X = 2 * x + 1) ∧
    (Y = 2 * y ∨ Y = 2 * y + 1 ∨ (y % 2 ≠ 0 ∧ Y + 1 = 2 * y) ∨ (y % 2 = 0 ∧ Y = 2 * y + 2))

instance (Y X y x : Nat) : Decidable (foldCovers Y X y x) := by
  unfold foldCovers; infer_instance

/-- The counting part of `checkCombed` up to the loop that computes `MIC`: the array `cArray`
after the three counting loops (`countCombed` is `maxCount` of its first `arraySize` entries,
see `countCombed_eq`). -/
def countArray (xhalf yhalf : Int) (xshift yshift : Nat) (cmk : Plane) (cArray : List Int) :
    Option (List Int) :=
  let width := cmk.width
  let height := cmk.height
  let xBlocks := sar ((width : Int) + xhalf) xshift + 1
  let xBlocks4 := xBlocks * 4
  let yBlocks := sar ((height : Int) + yhalf) yshift + 1
  let arraySize := ((xBlocks * yBlocks) * 4).toNat
  let widtha := (sar (width : Int) (xshift - 1) * 2 ^ (xshift - 1)).toNat
  let heighta0 := sar (height : Int) (yshift - 1) * 2 ^ (yshift - 1)
  let heighta : Int := if heighta0 = height then (height : Int) - yhalf else heighta0
  if arraySize > cArray.length then none else
  let st : CountState :=
    { cArray := List.replicate arraySize 0 ++ cArray.drop arraySize, row := 1 }
  (forLoop (fun k st => countRow xhalf yhalf xshift yshift xBlocks4 cmk width
      ((1 + k : Nat) : Int) st) (yhalf - 1).toNat st).bind fun st =>
  (forStep yhalf.toNat heighta.toNat yhalf.toNat (fun y st =>
      countBlocks xhalf yhalf xshift yshift xBlocks4 cmk width widtha (y : Int) st) st).bind
    fun st =>
  (forLoop (fun k st => countRow xhalf yhalf xshift yshift xBlocks4 cmk width
      (heighta + (k : Int)) st) ((height : Int) - 1 - heighta).toNat st).bind fun st =>
  some st.cArray

/-- Modelled from the spec: "incrementing" the counter with flat index `i`. -/
def incrCounter (a : List Int) (i : Nat) : List Int := a.set i (a.getD i 0 + 1)

/-- Modelled from the spec: the flat index of counter `[r, c, k]` in an array with `xBlocks`
cells of 4 counters per row. -/
def specCell (xBlocks r c k : Nat) : Nat := (r * xBlocks + c) * 4 + k

/-- Modelled from the spec: the visit of the pixel (x,y): "when mask rows y-1, y, y+1 are all
0xFF at x, incrementing the four counters [(y>>yshift), (x>>xshift), 0],
[(y>>yshift), ((x+xhalf)>>xshift), 1], [((y+yhalf)>>yshift), (x>>xshift), 2],
[((y+yhalf)>>yshift), ((x+xhalf)>>xshift), 3]". -/
def specVisit (xhalf yhalf xshift yshift xBlocks : Nat) (cmk : Plane) (a : List Int)
    (y x : Nat) : List Int :=
  if cmk.pix (y - 1) x = 255 ∧ cmk.pix y x = 255 ∧ cmk.pix (y + 1) x = 255 then
    incrCounter (incrCounter (incrCounter (incrCounter a
      (specCell xBlocks (y >>> yshift) (x >>> xshift) 0))
      (specCell xBlocks (y >>> yshift) ((x + xhalf) >>> xshift) 1))
      (specCell xBlocks ((y + yhalf) >>> yshift) (x >>> xshift) 2))
      (specCell xBlocks ((y + yhalf) >>> yshift) ((x + xhalf) >>> xshift) 3)
  else a

/-- Modelled from the spec: the counter array "obtained by visiting each pixel (x,y) with
1 <= y <= H-2 exactly once" (`specVisit`), an array of ((W+xhalf)>>xshift)+1 by
((H+yhalf)>>yshift)+1 cells of 4 counters, all zero at the start. -/
def specCounts (xhalf yhalf xshift yshift : Nat) (cmk : Plane) : List Int :=
  let xBlocks := ((cmk.width + xhalf) >>> xshift) + 1
  let yBlocks := ((cmk.height + yhalf) >>> yshift) + 1
  (List.range (cmk.height - 2)).foldl (fun a k =>
    (List.range cmk.width).foldl (fun a x =>
      specVisit xhalf yhalf xshift yshift xBlocks cmk a (k + 1) x) a)
    (List.replicate (xBlocks * yBlocks * 4) 0)

/-- Are the mask bytes in the rows `y - 1`, `y`, `y + 1` of column `x` all 0xFF. -/
def hitFF (cmk : Plane) (y x : Nat) : Bool :=
  decide (cmk.pix (y - 1) x = 255 ∧ cmk.pix y x = 255 ∧ cmk.pix (y + 1) x = 255)

/-- The indicator of `j = i`, as a summand. -/
def ind (j i : Nat) : Int := if j = i then 1 else 0

/-- How often the pixel (x, y) counts for entry `j` of the counter array: the number of its four
counters that are entry `j` when the three bytes are 0xFF, 0 otherwise; `xh`, `yh` are the half
block sizes, `kx`, `ky` the shifts and `XB` the number of cells per row. -/
def cellHits (xh yh kx ky XB : Nat) (cmk : Plane) (j y x : Nat) : Int :=
  if hitFF cmk y x = true then
    ind j ((y >>> ky) * (XB * 4) + (x >>> kx) * 4)
    + ind j ((y >>> ky) * (XB * 4) + ((x + xh) >>> kx) * 4 + 1)
    + ind j (((y + yh) >>> ky) * (XB * 4) + (x >>> kx) * 4 + 2)
    + ind j (((y + yh) >>> ky) * (XB * 4) + ((x + xh) >>> kx) * 4 + 3)
  else 0

/-- How often the pixels of the rows 1 .. `m` count for entry `j` of the counter array. -/
def tally (xh yh kx ky XB : Nat) (cmk : Plane) (j m : Nat) : Int :=
  Finset.sum (Finset.range m) (fun k =>
    Finset.sum (Finset.range cmk.width) (fun x => cellHits xh yh kx ky XB cmk j (k + 1) x))

/-- The marking part of `checkCombed`: the scratch frame `cmask` after the per-plane marking and
the chroma fold-in; `checkCombedMIC` counts its plane 0 (see `checkCombedMIC_eq`). -/
def combMask (cthresh cthresh6 cthreshsq metric : Int) (chroma : Bool) (src cmask : Frame) :
    Option Frame :=
  (forLoop (fun plane cm =>
      (markPlane cthresh cthresh6 cthreshsq metric (src plane) (cm plane)).bind fun p =>
      some (Function.update cm plane p)) (if chroma then 3 else 1) cmask).bind fun cm =>
  if chroma then (foldChroma cm).bind fun p => some (Function.update cm 0 p) else some cm

/-! ## Generic facts about loops and planes -/

theorem forLoop_inv {σ : Type} (body : Nat → σ → Option σ) (Inv : Nat → σ → Prop)
    (n : Nat) (s : σ) (h0 : Inv 0 s)
    (hstep : ∀ i t, i < n → Inv i t → ∃ t', body i t = some t' ∧ Inv (i + 1) t') :
    ∃ t, forLoop body n s = some t ∧ Inv n t := by
  induction n with
  | zero => exact ⟨s, rfl, h0⟩
  | succ k ih =>
    obtain ⟨t, ht, hI⟩ := ih (fun i t hi => hstep i t (Nat.lt_succ_of_lt hi))
    obtain ⟨t', ht', hI'⟩ := hstep k t (Nat.lt_succ_self k) hI
    exact ⟨t', by simp [forLoop, ht, ht'], hI'⟩

theorem Plane.read_some (p : Plane) (r c : Nat) (hr : r < p.height) (hc : c < p.width)
    (y x : Int) (hy : y = r) (hx : x = c) :
    p.read y x = some ((p.pix r c).val : Int) := by
  subst hy hx
  have h : p.inside (r : Int) (c : Int) := ⟨by omega, by omega, by omega, by omega⟩
  simp [Plane.read, h]

theorem Plane.write_some (p : Plane) (r c : Nat) (hr : r < p.height) (hc : c < p.width)
    (y x : Int) (hy : y = r) (hx : x = c) (v : Int) :
    p.write y x v = some (p.set r c (toU8 v)) := by
  subst hy hx
  have h : p.inside (r : Int) (c : Int) := ⟨by omega, by omega, by omega, by omega⟩
  simp [Plane.write, h]

theorem Plane.set_self (p : Plane) (r c : Nat) : p.set r c (p.pix r c) = p := by
  cases p with
  | mk w h px =>
    simp only [Plane.set]
    congr 1
    funext r' c'
    by_cases hh : r' = r ∧ c' = c
    · simp [hh]
    · simp [hh]

theorem toU8_val (b : Byte) : toU8 (b.val : Int) = b := by
  apply Fin.ext
  have := b.isLt
  simp only [toU8]
  omega

/-- A row-by-row, pixel-by-pixel loop nest whose body stores one byte at the pixel it visits:
every visited pixel ends related (by `R`) to its initial value, every other pixel is untouched. -/
theorem pixelLoop_rel (W H : Nat) (body : Nat → Nat → Plane → Option Plane)
    (R : Nat → Nat → Byte → Byte → Prop) (dst : Plane)
    (hbody : ∀ y x (d : Plane), y < H → x < W → d.width = dst.width → d.height = dst.height →
      ∃ b, body y x d = some (d.set y x b) ∧ R y x (d.pix y x) b) :
    ∃ out, forLoop (fun y d => forLoop (fun x d => body y x d) W d) H dst = some out ∧
      out.width = dst.width ∧ out.height = dst.height ∧
      (∀ y x, y < H → x < W → R y x (dst.pix y x) (out.pix y x)) ∧
      (∀ y x, ¬ (y < H ∧ x < W) → out.pix y x = dst.pix y x) := by
  have key := forLoop_inv (fun y d => forLoop (fun x d => body y x d) W d)
    (fun n d => d.width = dst.width ∧ d.height = dst.height ∧
      (∀ y x, y < n → x < W → R y x (dst.pix y x) (d.pix y x)) ∧
      (∀ y x, ¬ (y < n ∧ x < W) → d.pix y x = dst.pix y x)) H dst
    ⟨rfl, rfl, fun y x hy => absurd hy (Nat.not_lt_zero y), fun _ _ _ => rfl⟩
    (by
      intro y d hy ⟨hw, hh, hdone, hrest⟩
      have inner := forLoop_inv (fun x d => body y x d)
        (fun m e => e.width = dst.width ∧ e.height = dst.height ∧
          (∀ r c, (r < y ∧ c < W) ∨ (r = y ∧ c < m) → R r c (dst.pix r c) (e.pix r c)) ∧
          (∀ r c, ¬ ((r < y ∧ c < W) ∨ (r = y ∧ c < m)) → e.pix r c = dst.pix r c)) W d
        ⟨hw, hh, by
            intro r c hrc
            rcases hrc with h | h
            · exact hdone r c h.1 h.2
            · exact absurd h.2 (Nat.not_lt_zero c),
          by
            intro r c hrc
            apply hrest
            intro h
            exact hrc (Or.inl h)⟩
        (by
          intro x e hx ⟨hw', hh', hd', hr'⟩
          obtain ⟨b, hb, hRb⟩ := hbody y x e hy hx hw' hh'
          refine ⟨e.set y x b, hb, hw', hh', ?_, ?_⟩
          · intro r c hrc
            by_cases heq : r = y ∧ c = x
            · obtain ⟨rfl, rfl⟩ := heq
              have hold : e.pix r c = dst.pix r c := by
                apply hr'
                intro h
                rcases h with h | h
                · exact Nat.lt_irrefl _ h.1
                · exact Nat.lt_irrefl _ h.2
              simp only [Plane.set, and_self, if_true]
              rw [← hold]
              exact hRb
            · simp only [Plane.set, heq, if_false]
              apply hd'
              rcases hrc with h | h
              · exact Or.inl h
              · right
                refine ⟨h.1, ?_⟩
                have : c ≠ x := fun hcx => heq ⟨h.1, hcx⟩
                omega
          · intro r c hrc
            have heq : ¬ (r = y ∧ c = x) := by
              intro h
              apply hrc
              right
              exact ⟨h.1, by omega⟩
            simp only [Plane.set, heq, if_false]
            apply hr'
            intro h
            apply hrc
            rcases h with h | h
            · exact Or.inl h
            · exact Or.inr ⟨h.1, by omega⟩)
      obtain ⟨e, he, hw', hh', hd', hr'⟩ := inner
      refine ⟨e, he, hw', hh', ?_, ?_⟩
      · intro r c hr hc
        apply hd'
        by_cases h : r < y
        · exact Or.inl ⟨h, hc⟩
        · exact Or.inr ⟨by omega, hc⟩
      · intro r c hrc
        apply hr'
        intro h
        apply hrc
        rcases h with h | h
        · exact ⟨by omega, h.2⟩
        · exact ⟨by omega, h.2⟩)
  obtain ⟨out, ho, hw, hh, hd, hr⟩ := key
  exact ⟨out, ho, hw, hh, hd, hr⟩

/-- A per-plane loop over a frame: plane `p < n` is replaced by the result of `f p`. -/
theorem planeLoop_spec (n : Nat) (f : Nat → Frame → Option Plane) (g : Nat → Plane)
    (dst : Frame)
    (hf : ∀ p (fr : Frame), p < n → (∀ q, p ≤ q → fr q = dst q) → f p fr = some (g p)) :
    ∃ out : Frame, forLoop (fun plane fr => do
        let p ← f plane fr
        pure (Function.update fr plane p)) n dst = some out ∧
      (∀ p, p < n → out p = g p) ∧ (∀ p, n ≤ p → out p = dst p) := by
  have key := forLoop_inv (fun plane (fr : Frame) => do
        let p ← f plane fr
        pure (Function.update fr plane p))
    (fun m fr => (∀ p, p < m → fr p = g p) ∧ (∀ p, m ≤ p → fr p = dst p)) n dst
    ⟨fun p hp => absurd hp (Nat.not_lt_zero p), fun _ _ => rfl⟩
    (by
      intro i fr hi ⟨h1, h2⟩
      refine ⟨Function.update fr i (g i), ?_, ?_, ?_⟩
      · simp [hf i fr hi h2]
      · intro p hp
        by_cases hpi : p = i
        · subst hpi; simp
        · rw [Function.update_noteq hpi]
          exact h1 p (by omega)
      · intro p hp
        have hpi : p ≠ i := by omega
        rw [Function.update_noteq hpi]
        exact h2 p (by omega))
  exact key

theorem sar_one (a : Int) : sar a 1 = a / 2 := by
  unfold sar; rw [Int.shiftRight_eq_div_pow]; norm_num

theorem sar_two (a : Int) : sar a 2 = a / 4 := by
  unfold sar; rw [Int.shiftRight_eq_div_pow]; norm_num

theorem sar_five (a : Int) : sar a 5 = a / 32 := by
  unfold sar; rw [Int.shiftRight_eq_div_pow]; norm_num

theorem eDeintPixel_spec (mask prv src nxt efrm d : Plane) (y x : Nat)
    (hy : y < src.height) (hx : x < src.width)
    (hm : mask.sameDims src) (hp : prv.sameDims src) (hn : nxt.sameDims src)
    (he : efrm.sameDims src) (hd : d.sameDims src) :
    eDeintPixel mask prv src nxt efrm y x d
      = some (d.set y x (eDeintValue mask prv src nxt efrm y x (d.pix y x))) := by
  obtain ⟨hm1, hm2⟩ := hm
  obtain ⟨hp1, hp2⟩ := hp
  obtain ⟨hn1, hn2⟩ := hn
  obtain ⟨he1, he2⟩ := he
  obtain ⟨hd1, hd2⟩ := hd
  have rm := mask.read_some y x (by omega) (by omega) y x rfl rfl
  have rs := src.read_some y x (by omega) (by omega) y x rfl rfl
  have rp := prv.read_some y x (by omega) (by omega) y x rfl rfl
  have rn := nxt.read_some y x (by omega) (by omega) y x rfl rfl
  have re := efrm.read_some y x (by omega) (by omega) y x rfl rfl
  have wr := fun v => d.write_some y x (by omega) (by omega) y x rfl rfl v
  simp only [eDeintPixel, eDeintValue, rm, rs, rp, rn, re, wr, Option.bind_eq_bind,
    Option.some_bind, Option.pure_def, Nat.cast_inj, Nat.cast_ofNat]
  have cast10 : (((mask.pix y x).val : Int) = 10) ↔ ((mask.pix y x).val = 10) := by omega
  have cast20 : (((mask.pix y x).val : Int) = 20) ↔ ((mask.pix y x).val = 20) := by omega
  have cast30 : (((mask.pix y x).val : Int) = 30) ↔ ((mask.pix y x).val = 30) := by omega
  have cast40 : (((mask.pix y x).val : Int) = 40) ↔ ((mask.pix y x).val = 40) := by omega
  have cast50 : (((mask.pix y x).val : Int) = 50) ↔ ((mask.pix y x).val = 50) := by omega
  have cast60 : (((mask.pix y x).val : Int) = 60) ↔ ((mask.pix y x).val = 60) := by omega
  have cast70 : (((mask.pix y x).val : Int) = 70) ↔ ((mask.pix y x).val = 70) := by omega
  simp only [cast10, cast20, cast30, cast40, cast50, cast60, cast70]
  split_ifs <;> simp [toU8_val, Plane.set_self]

theorem cubicDeintPixel_spec (mask prv src nxt d : Plane) (y x : Nat)
    (hy : y < src.height) (hx : x < src.width) (hH : 2 ≤ src.height)
    (hm : mask.sameDims src) (hp : prv.sameDims src) (hn : nxt.sameDims src)
    (hd : d.sameDims src) :
    cubicDeintPixel mask prv src nxt y x d
      = some (d.set y x (cubicDeintValue mask prv src nxt y x (d.pix y x))) := by
  obtain ⟨hm1, hm2⟩ := hm
  obtain ⟨hp1, hp2⟩ := hp
  obtain ⟨hn1, hn2⟩ := hn
  obtain ⟨hd1, hd2⟩ := hd
  have rm := mask.read_some y x (by omega) (by omega) y x rfl rfl
  have rs := src.read_some y x (by omega) (by omega) y x rfl rfl
  have rp := prv.read_some y x (by omega) (by omega) y x rfl rfl
  have rn := nxt.read_some y x (by omega) (by omega) y x rfl rfl
  have wr := fun v => d.write_some y x (by omega) (by omega) y x rfl rfl v
  by_cases h60 : (mask.pix y x).val = 60
  · have c60 : ((mask.pix y x).val : Int) = 60 := by omega
    have a10 : ¬ (((mask.pix y x).val : Int) = 10) := by omega
    have a20 : ¬ (((mask.pix y x).val : Int) = 20) := by omega
    have a30 : ¬ (((mask.pix y x).val : Int) = 30) := by omega
    have a40 : ¬ (((mask.pix y x).val : Int) = 40) := by omega
    have a50 : ¬ (((mask.pix y x).val : Int) = 50) := by omega
    have a70 : ¬ (((mask.pix y x).val : Int) = 70) := by omega
    have b10 : ¬ ((mask.pix y x).val = 10) := by omega
    have b20 : ¬ ((mask.pix y x).val = 20) := by omega
    have b30 : ¬ ((mask.pix y x).val = 30) := by omega
    have b40 : ¬ ((mask.pix y x).val = 40) := by omega
    have b50 : ¬ ((mask.pix y x).val = 50) := by omega
    have b70 : ¬ ((mask.pix y x).val = 70) := by omega
    simp only [cubicDeintPixel, cubicDeintValue, rm, Option.bind_eq_bind,
      Option.some_bind, a10, a20, a30, a40, a50, a70, b10, b20, b30, b40, b50, b70, if_false]
    rw [if_pos c60, if_pos h60]
    by_cases h0 : y = 0
    · have c1 : (y : Int) = 0 := by omega
      have r1 := src.read_some (y + 1) x (by omega) hx ((y : Int) + 1) x (by omega) rfl
      rw [if_pos c1, if_pos h0, r1]
      simp only [Option.bind_eq_bind, Option.some_bind, wr, toU8_val]
    · have c1 : ¬ ((y : Int) = 0) := by omega
      rw [if_neg c1, if_neg h0]
      by_cases hl : y + 1 = src.height
      · have c2 : (y : Int) = (src.height : Int) - 1 := by omega
        have r1 := src.read_some (y - 1) x (by omega) hx ((y : Int) - 1) x (by omega) rfl
        rw [if_pos c2, if_pos hl, r1]
        simp only [Option.bind_eq_bind, Option.some_bind, wr, toU8_val]
      · have c2 : ¬ ((y : Int) = (src.height : Int) - 1) := by omega
        rw [if_neg c2, if_neg hl]
        by_cases hlin : y < 3 ∨ src.height < y + 4
        · have c3 : (y : Int) < 3 ∨ (y : Int) > (src.height : Int) - 4 := by omega
          have r1 := src.read_some (y - 1) x (by omega) hx ((y : Int) - 1) x (by omega) rfl
          have r2 := src.read_some (y + 1) x (by omega) hx ((y : Int) + 1) x (by omega) rfl
          rw [if_pos c3, if_pos hlin, r1, r2]
          simp only [Option.bind_eq_bind, Option.some_bind, wr]
        · have c3 : ¬ ((y : Int) < 3 ∨ (y : Int) > (src.height : Int) - 4) := by omega
          have r1 := src.read_some (y - 1) x (by omega) hx ((y : Int) - 1) x (by omega) rfl
          have r2 := src.read_some (y + 1) x (by omega) hx ((y : Int) + 1) x (by omega) rfl
          have r3 := src.read_some (y - 3) x (by omega) hx ((y : Int) - 3) x (by omega) rfl
          have r4 := src.read_some (y + 3) x (by omega) hx ((y : Int) + 3) x (by omega) rfl
          rw [if_neg c3, if_neg hlin, r1, r2, r3, r4]
          simp only [Option.bind_eq_bind, Option.some_bind, wr]
  · have c60 : ¬ (((mask.pix y x).val : Int) = 60) := by omega
    simp only [cubicDeintPixel, cubicDeintValue, rm, rs, rp, rn, wr, Option.bind_eq_bind,
      Option.some_bind, Option.pure_def, c60, h60, if_false]
    have cast10 : (((mask.pix y x).val : Int) = 10) ↔ ((mask.pix y x).val = 10) := by omega
    have cast20 : (((mask.pix y x).val : Int) = 20) ↔ ((mask.pix y x).val = 20) := by omega
    have cast30 : (((mask.pix y x).val : Int) = 30) ↔ ((mask.pix y x).val = 30) := by omega
    have cast40 : (((mask.pix y x).val : Int) = 40) ↔ ((mask.pix y x).val = 40) := by omega
    have cast50 : (((mask.pix y x).val : Int) = 50) ↔ ((mask.pix y x).val = 50) := by omega
    have cast70 : (((mask.pix y x).val : Int) = 70) ↔ ((mask.pix y x).val = 70) := by omega
    simp only [cast10, cast20, cast30, cast40, cast50, cast70]
    split_ifs <;> simp [toU8_val, Plane.set_self]

/-- A per-plane loop over a frame whose body only looks at the plane it replaces. -/
theorem frameLoop_spec (n : Nat) (F : Nat → Plane → Option Plane) (dst : Frame)
    (h : ∀ p, p < n → ∃ o, F p (dst p) = some o) :
    ∃ out : Frame, forLoop (fun plane fr => do
        let p ← F plane (fr plane)
        pure (Function.update fr plane p)) n dst = some out ∧
      (∀ p, p < n → F p (dst p) = some (out p)) ∧ (∀ p, n ≤ p → out p = dst p) := by
  obtain ⟨out, h1, h2, h3⟩ := planeLoop_spec n (fun plane fr => F plane (fr plane))
    (fun p => (F p (dst p)).getD (dst p)) dst (by
      intro p fr hp hfr
      obtain ⟨o, ho⟩ := h p hp
      simp only [hfr p (Nat.le_refl p), ho, Option.getD_some])
  refine ⟨out, h1, ?_, h3⟩
  intro p hp
  obtain ⟨o, ho⟩ := h p hp
  rw [h2 p hp, ho, Option.getD_some]

theorem eDeintPlane_spec (dst mask prv src nxt efrm : Plane)
    (hm : mask.sameDims src) (hp : prv.sameDims src) (hn : nxt.sameDims src)
    (he : efrm.sameDims src) (hd : dst.sameDims src) :
    ∃ out, eDeintPlane dst mask prv src nxt efrm = some out ∧ out.sameDims src ∧
      ∀ y x, out.pix y x = if y < src.height ∧ x < src.width
        then eDeintValue mask prv src nxt efrm y x (dst.pix y x) else dst.pix y x := by
  obtain ⟨out, ho, hw, hh, hin, hout⟩ := pixelLoop_rel src.width src.height
    (fun y x d => eDeintPixel mask prv src nxt efrm y x d)
    (fun y x old b => b = eDeintValue mask prv src nxt efrm y x old) dst (by
      intro y x d hy hx hw hh
      exact ⟨_, eDeintPixel_spec mask prv src nxt efrm d y x hy hx hm hp hn he
        ⟨hw.trans hd.1, hh.trans hd.2⟩, rfl⟩)
  refine ⟨out, ho, ⟨hw.trans hd.1, hh.trans hd.2⟩, ?_⟩
  intro y x
  by_cases hyx : y < src.height ∧ x < src.width
  · rw [if_pos hyx]; exact hin y x hyx.1 hyx.2
  · rw [if_neg hyx]; exact hout y x hyx

theorem cubicDeintPlane_spec (dst mask prv src nxt : Plane) (hH : 2 ≤ src.height)
    (hm : mask.sameDims src) (hp : prv.sameDims src) (hn : nxt.sameDims src)
    (hd : dst.sameDims src) :
    ∃ out, cubicDeintPlane dst mask prv src nxt = some out ∧ out.sameDims src ∧
      ∀ y x, out.pix y x = if y < src.height ∧ x < src.width
        then cubicDeintValue mask prv src nxt y x (dst.pix y x) else dst.pix y x := by
  obtain ⟨out, ho, hw, hh, hin, hout⟩ := pixelLoop_rel src.width src.height
    (fun y x d => cubicDeintPixel mask prv src nxt y x d)
    (fun y x old b => b = cubicDeintValue mask prv src nxt y x old) dst (by
      intro y x d hy hx hw hh
      exact ⟨_, cubicDeintPixel_spec mask prv src nxt d y x hy hx hH hm hp hn
        ⟨hw.trans hd.1, hh.trans hd.2⟩, rfl⟩)
  refine ⟨out, ho, ⟨hw.trans hd.1, hh.trans hd.2⟩, ?_⟩
  intro y x
  by_cases hyx : y < src.height ∧ x < src.width
  · rw [if_pos hyx]; exact hin y x hyx.1 hyx.2
  · rw [if_neg hyx]; exact hout y x hyx

/-- Frame-level form of `eDeintPlane_spec`. -/
theorem eDeint_spec (numPlanes : Nat) (dst mask prv src nxt efrm : Frame)
    (hm : ∀ p, p < numPlanes → (mask p).sameDims (src p))
    (hp : ∀ p, p < numPlanes → (prv p).sameDims (src p))
    (hn : ∀ p, p < numPlanes → (nxt p).sameDims (src p))
    (he : ∀ p, p < numPlanes → (efrm p).sameDims (src p))
    (hd : ∀ p, p < numPlanes → (dst p).sameDims (src p)) :
    ∃ out : Frame, eDeint numPlanes dst mask prv src nxt efrm = some out ∧
      ∀ p, p < numPlanes → (out p).sameDims (src p) ∧
        ∀ y x, y < (src p).height → x < (src p).width →
          (out p).pix y x
            = eDeintValue (mask p) (prv p) (src p) (nxt p) (efrm p) y x ((dst p).pix y x) := by
  obtain ⟨out, ho, hpl, _⟩ := frameLoop_spec numPlanes
    (fun plane d => eDeintPlane d (mask plane) (prv plane) (src plane) (nxt plane) (efrm plane))
    dst (by
      intro p hlt
      obtain ⟨o, h, _⟩ := eDeintPlane_spec (dst p) (mask p) (prv p) (src p) (nxt p) (efrm p)
        (hm p hlt) (hp p hlt) (hn p hlt) (he p hlt) (hd p hlt)
      exact ⟨o, h⟩)
  refine ⟨out, ho, ?_⟩
  intro p hlt
  obtain ⟨o, h, hdim, hpix⟩ := eDeintPlane_spec (dst p) (mask p) (prv p) (src p) (nxt p)
    (efrm p) (hm p hlt) (hp p hlt) (hn p hlt) (he p hlt) (hd p hlt)
  have heq : out p = o := by
    have := hpl p hlt
    simp only [h, Option.some.injEq] at this
    exact this.symm
  rw [heq]
  refine ⟨hdim, ?_⟩
  intro y x hy hx
  rw [hpix y x, if_pos ⟨hy, hx⟩]

/-- Frame-level form of `cubicDeintPlane_spec`. -/
theorem cubicDeint_spec (numPlanes : Nat) (dst mask prv src nxt : Frame)
    (hH : ∀ p, p < numPlanes → 2 ≤ (src p).height)
    (hm : ∀ p, p < numPlanes → (mask p).sameDims (src p))
    (hp : ∀ p, p < numPlanes → (prv p).sameDims (src p))
    (hn : ∀ p, p < numPlanes → (nxt p).sameDims (src p))
    (hd : ∀ p, p < numPlanes → (dst p).sameDims (src p)) :
    ∃ out : Frame, cubicDeint numPlanes dst mask prv src nxt = some out ∧
      ∀ p, p < numPlanes → (out p).sameDims (src p) ∧
        ∀ y x, y < (src p).height → x < (src p).width →
          (out p).pix y x
            = cubicDeintValue (mask p) (prv p) (src p) (nxt p) y x ((dst p).pix y x) := by
  obtain ⟨out, ho, hpl, _⟩ := frameLoop_spec numPlanes
    (fun plane d => cubicDeintPlane d (mask plane) (prv plane) (src plane) (nxt plane))
    dst (by
      intro p hlt
      obtain ⟨o, h, _⟩ := cubicDeintPlane_spec (dst p) (mask p) (prv p) (src p) (nxt p)
        (hH p hlt) (hm p hlt) (hp p hlt) (hn p hlt) (hd p hlt)
      exact ⟨o, h⟩)
  refine ⟨out, ho, ?_⟩
  intro p hlt
  obtain ⟨o, h, hdim, hpix⟩ := cubicDeintPlane_spec (dst p) (mask p) (prv p) (src p) (nxt p)
    (hH p hlt) (hm p hlt) (hp p hlt) (hn p hlt) (hd p hlt)
  have heq : out p = o := by
    have := hpl p hlt
    simp only [h, Option.some.injEq] at this
    exact this.symm
  rw [heq]
  refine ⟨hdim, ?_⟩
  intro y x hy hx
  rw [hpix y x, if_pos ⟨hy, hx⟩]

theorem avg2_val (a b : Byte) :
    (toU8 (sar ((a.val : Int) + b.val + 1) 1)).val = (a.val + b.val + 1) >>> 1 := by
  have ha := a.isLt
  have hb := b.isLt
  simp only [toU8, sar_one, Nat.shiftRight_eq_div_pow, pow_one]
  omega

theorem avg4_val (p s n : Byte) :
    (toU8 (sar ((p.val : Int) + s.val * 2 + n.val + 2) 2)).val
      = (p.val + 2 * s.val + n.val + 2) >>> 2 := by
  have hp := p.isLt
  have hs := s.isLt
  have hn := n.isLt
  simp only [toU8, sar_two, Nat.shiftRight_eq_div_pow]
  omega

/-! ## Stage D: synthesis -/

/-- C1: Stage D synthesis. For frames of matching dimensions `eDeint` returns a frame in which,
for every plane, every pixel (x,y) and verdict byte v = V(x,y), the byte is S(x,y) if v = 10,
P(x,y) if v = 20, N(x,y) if v = 30, (S+N+1)>>1 if v = 40, (S+P+1)>>1 if v = 50,
(P+2*S+N+2)>>2 if v = 70 and E(x,y) if v = 60; `cubicDeint` (on planes of height at least 2)
returns a frame with the same bytes for v in 10, 20, 30, 40, 50, 70. -/
theorem C1_stageD_synthesis (numPlanes : Nat) (dst mask prv src nxt efrm : Frame)
    (hm : ∀ p, p < numPlanes → (mask p).sameDims (src p))
    (hp : ∀ p, p < numPlanes → (prv p).sameDims (src p))
    (hn : ∀ p, p < numPlanes → (nxt p).sameDims (src p))
    (he : ∀ p, p < numPlanes → (efrm p).sameDims (src p))
    (hd : ∀ p, p < numPlanes → (dst p).sameDims (src p)) :
    (∃ outE : Frame, eDeint numPlanes dst mask prv src nxt efrm = some outE ∧
      ∀ p y x, p < numPlanes → y < (src p).height → x < (src p).width →
        (((mask p).pix y x).val = 10 → (outE p).pix y x = (src p).pix y x) ∧
        (((mask p).pix y x).val = 20 → (outE p).pix y x = (prv p).pix y x) ∧
        (((mask p).pix y x).val = 30 → (outE p).pix y x = (nxt p).pix y x) ∧
        (((mask p).pix y x).val = 40 → ((outE p).pix y x).val
          = (((src p).pix y x).val + ((nxt p).pix y x).val + 1) >>> 1) ∧
        (((mask p).pix y x).val = 50 → ((outE p).pix y x).val
          = (((src p).pix y x).val + ((prv p).pix y x).val + 1) >>> 1) ∧
        (((mask p).pix y x).val = 70 → ((outE p).pix y x).val
          = (((prv p).pix y x).val + 2 * ((src p).pix y x).val
              + ((nxt p).pix y x).val + 2) >>> 2) ∧
        (((mask p).pix y x).val = 60 → (outE p).pix y x = (efrm p).pix y x)) ∧
    ((∀ p, p < numPlanes → 2 ≤ (src p).height) →
      ∃ outC : Frame, cubicDeint numPlanes dst mask prv src nxt = some outC ∧
      ∀ p y x, p < numPlanes → y < (src p).height → x < (src p).width →
        (((mask p).pix y x).val = 10 → (outC p).pix y x = (src p).pix y x) ∧
        (((mask p).pix y x).val = 20 → (outC p).pix y x = (prv p).pix y x) ∧
        (((mask p).pix y x).val = 30 → (outC p).pix y x = (nxt p).pix y x) ∧
        (((mask p).pix y x).val = 40 → ((outC p).pix y x).val
          = (((src p).pix y x).val + ((nxt p).pix y x).val + 1) >>> 1) ∧
        (((mask p).pix y x).val = 50 → ((outC p).pix y x).val
          = (((src p).pix y x).val + ((prv p).pix y x).val + 1) >>> 1) ∧
        (((mask p).pix y x).val = 70 → ((outC p).pix y x).val
          = (((prv p).pix y x).val + 2 * ((src p).pix y x).val
              + ((nxt p).pix y x).val + 2) >>> 2)) := by
  constructor
  · obtain ⟨outE, hE, hpix⟩ := eDeint_spec numPlanes dst mask prv src nxt efrm hm hp hn he hd
    refine ⟨outE, hE, ?_⟩
    intro p y x hlt hy hx
    rw [(hpix p hlt).2 y x hy hx]
    refine ⟨?_, ?_, ?_, ?_, ?_, ?_, ?_⟩ <;> intro hv
    · simp [eDeintValue, hv]
    · simp [eDeintValue, hv]
    · simp [eDeintValue, hv]
    · simp only [eDeintValue, hv]; exact avg2_val _ _
    · simp only [eDeintValue, hv]; exact avg2_val _ _
    · simp only [eDeintValue, hv]; exact avg4_val _ _ _
    · simp [eDeintValue, hv]
  · intro hH
    obtain ⟨outC, hC, hpix⟩ := cubicDeint_spec numPlanes dst mask prv src nxt hH hm hp hn hd
    refine ⟨outC, hC, ?_⟩
    intro p y x hlt hy hx
    rw [(hpix p hlt).2 y x hy hx]
    refine ⟨?_, ?_, ?_, ?_, ?_, ?_⟩ <;> intro hv
    · simp [cubicDeintValue, hv]
    · simp [cubicDeintValue, hv]
    · simp [cubicDeintValue, hv]
    · simp only [cubicDeintValue, hv]; exact avg2_val _ _
    · simp only [cubicDeintValue, hv]; exact avg2_val _ _
    · simp only [cubicDeintValue, hv]; exact avg4_val _ _ _

theorem constFrame_sameDims (w h : Nat) (a b : Byte) (n : Nat) :
    ∀ p, p < n → (constFrame w h a p).sameDims (constFrame w h b p) :=
  fun _ _ => ⟨rfl, rfl⟩

/-- Instance of C1 on one-plane 2x2 frames with verdict 40 everywhere, S = 7, N = 10. -/
theorem C1_stageD_synthesis_witness :
    (∃ outE : Frame, eDeint 1 (constFrame 2 2 0) (constFrame 2 2 40) (constFrame 2 2 3)
        (constFrame 2 2 7) (constFrame 2 2 10) (constFrame 2 2 99) = some outE ∧
      ((outE 0).pix 0 0).val = 9) ∧
    (∃ outC : Frame, cubicDeint 1 (constFrame 2 2 0) (constFrame 2 2 40) (constFrame 2 2 3)
        (constFrame 2 2 7) (constFrame 2 2 10) = some outC ∧
      ((outC 0).pix 0 0).val = 9) := by
  have h := C1_stageD_synthesis 1 (constFrame 2 2 0) (constFrame 2 2 40) (constFrame 2 2 3)
    (constFrame 2 2 7) (constFrame 2 2 10) (constFrame 2 2 99)
    (constFrame_sameDims 2 2 40 7 1) (constFrame_sameDims 2 2 3 7 1)
    (constFrame_sameDims 2 2 10 7 1) (constFrame_sameDims 2 2 99 7 1)
    (constFrame_sameDims 2 2 0 7 1)
  obtain ⟨⟨outE, hE, hpE⟩, hC⟩ := h
  obtain ⟨outC, hC, hpC⟩ := hC (fun _ _ => Nat.le_refl 2)
  refine ⟨⟨outE, hE, ?_⟩, ⟨outC, hC, ?_⟩⟩
  · have := (hpE 0 0 0 (by decide) (by decide) (by decide)).2.2.2.1 (by decide)
    rw [this]; decide
  · have := (hpC 0 0 0 (by decide) (by decide) (by decide)).2.2.2.1 (by decide)
    rw [this]; decide

theorem clamp_val (t : Int) :
    ((toU8 (max (min t 255) 0)).val : Int) = max (min t 255) 0 := by
  simp only [toU8]
  omega

/-- C2: built-in spatial interpolation. For planes of height H >= 2 and matching dimensions
`cubicDeint` returns a frame (so every row it reads lies in [0,H)), and at every pixel with
verdict 60 the byte is S(x,1) when y = 0; S(x,y-1) when y = H-1; (S(x,y-1)+S(x,y+1)+1)>>1 when
otherwise y < 3 or y > H-4; and otherwise clamp((19*(S(x,y-1)+S(x,y+1)) - 3*(S(x,y-3)+S(x,y+3))
+ 16)>>5, 0, 255): in particular 0 when the cubic is negative and 255 when it exceeds 255. -/
theorem C2_cubic_interpolation (numPlanes : Nat) (dst mask prv src nxt : Frame)
    (hH : ∀ p, p < numPlanes → 2 ≤ (src p).height)
    (hm : ∀ p, p < numPlanes → (mask p).sameDims (src p))
    (hp : ∀ p, p < numPlanes → (prv p).sameDims (src p))
    (hn : ∀ p, p < numPlanes → (nxt p).sameDims (src p))
    (hd : ∀ p, p < numPlanes → (dst p).sameDims (src p)) :
    ∃ out : Frame, cubicDeint numPlanes dst mask prv src nxt = some out ∧
      ∀ p y x, p < numPlanes → y < (src p).height → x < (src p).width →
        ((mask p).pix y x).val = 60 →
        (y = 0 → (out p).pix y x = (src p).pix 1 x) ∧
        (y ≠ 0 → y + 1 = (src p).height → (out p).pix y x = (src p).pix (y - 1) x) ∧
        (y ≠ 0 → y + 1 ≠ (src p).height → ((y : Int) < 3 ∨ (y : Int) > ((src p).height : Int) - 4) →
          ((out p).pix y x).val
            = (((src p).pix (y - 1) x).val + ((src p).pix (y + 1) x).val + 1) >>> 1) ∧
        (y ≠ 0 → y + 1 ≠ (src p).height →
            ¬ ((y : Int) < 3 ∨ (y : Int) > ((src p).height : Int) - 4) →
          y - 3 < (src p).height ∧ 3 ≤ y ∧ y + 3 < (src p).height ∧
          (((out p).pix y x).val : Int)
            = max (min (sar (19 * ((((src p).pix (y - 1) x).val : Int) + ((src p).pix (y + 1) x).val)
                - 3 * ((((src p).pix (y - 3) x).val : Int) + ((src p).pix (y + 3) x).val) + 16) 5)
                255) 0 ∧
          (sar (19 * ((((src p).pix (y - 1) x).val : Int) + ((src p).pix (y + 1) x).val)
                - 3 * ((((src p).pix (y - 3) x).val : Int) + ((src p).pix (y + 3) x).val) + 16) 5
              < 0 → ((out p).pix y x).val = 0) ∧
          (sar (19 * ((((src p).pix (y - 1) x).val : Int) + ((src p).pix (y + 1) x).val)
                - 3 * ((((src p).pix (y - 3) x).val : Int) + ((src p).pix (y + 3) x).val) + 16) 5
              > 255 → ((out p).pix y x).val = 255)) := by
  obtain ⟨out, hC, hpix⟩ := cubicDeint_spec numPlanes dst mask prv src nxt hH hm hp hn hd
  refine ⟨out, hC, ?_⟩
  intro p y x hlt hy hx hv
  rw [(hpix p hlt).2 y x hy hx]
  refine ⟨?_, ?_, ?_, ?_⟩
  · intro h0
    subst h0
    simp [cubicDeintValue, hv]
  · intro h0 hl
    simp [cubicDeintValue, hv, h0, hl]
  · intro h0 hl hlin
    have hlin' : y < 3 ∨ (src p).height < y + 4 := by omega
    simp only [cubicDeintValue, hv, h0, hl, hlin', if_true, if_false]
    have := avg2_val ((src p).pix (y + 1) x) ((src p).pix (y - 1) x)
    simp only [Nat.reduceEqDiff, if_false, if_true]
    rw [this, Nat.add_comm ((src p).pix (y + 1) x).val]
  · intro h0 hl hlin
    have hlin' : ¬ (y < 3 ∨ (src p).height < y + 4) := by omega
    simp only [cubicDeintValue, hv, h0, hl, hlin', if_true, if_false]
    simp only [Nat.reduceEqDiff, if_false, if_true]
    refine ⟨by omega, by omega, by omega, clamp_val _, ?_, ?_⟩
    · intro hneg
      have := clamp_val (sar (19 * ((((src p).pix (y - 1) x).val : Int)
        + ((src p).pix (y + 1) x).val)
        - 3 * ((((src p).pix (y - 3) x).val : Int) + ((src p).pix (y + 3) x).val) + 16) 5)
      omega
    · intro hbig
      have := clamp_val (sar (19 * ((((src p).pix (y - 1) x).val : Int)
        + ((src p).pix (y + 1) x).val)
        - 3 * ((((src p).pix (y - 3) x).val : Int) + ((src p).pix (y + 3) x).val) + 16) 5)
      omega

/-- Instance of C2: one 2x8 plane, verdict 60 everywhere, rows 0,0,255,0,255,0,0,0; at row 3 the
cubic gives (19*510 + 16) >> 5 = 303, stored as 255. -/
theorem C2_cubic_interpolation_witness :
    ∃ out : Frame, cubicDeint 1 (constFrame 2 8 0) (constFrame 2 8 60) (constFrame 2 8 0)
        (fun _ => rowsPlane 2 [0, 0, 255, 0, 255, 0, 0, 0]) (constFrame 2 8 0) = some out ∧
      ((out 0).pix 3 0).val = 255 := by
  obtain ⟨out, ho, hpix⟩ := C2_cubic_interpolation 1 (constFrame 2 8 0) (constFrame 2 8 60)
    (constFrame 2 8 0) (fun _ => rowsPlane 2 [0, 0, 255, 0, 255, 0, 0, 0]) (constFrame 2 8 0)
    (fun _ _ => by show 2 ≤ 8; decide) (fun _ _ => ⟨rfl, rfl⟩) (fun _ _ => ⟨rfl, rfl⟩)
    (fun _ _ => ⟨rfl, rfl⟩) (fun _ _ => ⟨rfl, rfl⟩)
  refine ⟨out, ho, ?_⟩
  exact ((hpix 0 3 0 (by decide) (by decide) (by decide) (by decide)).2.2.2
    (by decide) (by decide) (by decide)).2.2.2.2.2 (by decide)

theorem avg2_self (a : Byte) : toU8 (sar ((a.val : Int) + a.val + 1) 1) = a := by
  apply Fin.ext
  have ha := a.isLt
  simp only [toU8, sar_one]
  omega

theorem avg4_self (a : Byte) : toU8 (sar ((a.val : Int) + a.val * 2 + a.val + 2) 2) = a := by
  apply Fin.ext
  have ha := a.isLt
  simp only [toU8, sar_two]
  omega

theorem cubic_self (a : Byte) :
    toU8 (max (min (sar (19 * ((a.val : Int) + a.val) - 3 * ((a.val : Int) + a.val) + 16) 5)
      255) 0) = a := by
  apply Fin.ext
  have ha := a.isLt
  simp only [toU8, sar_five]
  omega

theorem column_const (S : Plane) (x : Nat)
    (hv : ∀ y, y + 1 < S.height → S.pix y x = S.pix (y + 1) x) :
    ∀ y, y < S.height → S.pix y x = S.pix 0 x := by
  intro y
  induction y with
  | zero => intro _; rfl
  | succ k ih =>
    intro hk
    rw [← hv k hk]
    exact ih (by omega)

/-- C8: identity on progressive input. If P = S = N, every column of S is vertically constant
(S(x,y) = S(x,y+1) for all y) and every verdict byte is one of 10, 20, 30, 40, 50, 60, 70, then
Stage D with the built-in cubic returns a frame equal to S at every pixel. -/
theorem C8_identity_on_progressive (numPlanes : Nat) (dst mask S : Frame)
    (hH : ∀ p, p < numPlanes → 2 ≤ (S p).height)
    (hm : ∀ p, p < numPlanes → (mask p).sameDims (S p))
    (hd : ∀ p, p < numPlanes → (dst p).sameDims (S p))
    (hprog : ∀ p y x, p < numPlanes → y + 1 < (S p).height → x < (S p).width →
      (S p).pix y x = (S p).pix (y + 1) x)
    (hv : ∀ p y x, p < numPlanes → y < (S p).height → x < (S p).width →
      ((mask p).pix y x).val ∈ [10, 20, 30, 40, 50, 60, 70]) :
    ∃ out : Frame, cubicDeint numPlanes dst mask S S S = some out ∧
      ∀ p y x, p < numPlanes → y < (S p).height → x < (S p).width →
        (out p).pix y x = (S p).pix y x := by
  obtain ⟨out, hC, hpix⟩ := cubicDeint_spec numPlanes dst mask S S S hH hm
    (fun _ _ => ⟨rfl, rfl⟩) (fun _ _ => ⟨rfl, rfl⟩) hd
  refine ⟨out, hC, ?_⟩
  intro p y x hlt hy hx
  rw [(hpix p hlt).2 y x hy hx]
  have hcol := column_const (S p) x (fun y hy => hprog p y x hlt hy hx)
  have hmem := hv p y x hlt hy hx
  have h2 := hH p hlt
  simp only [List.mem_cons, List.mem_singleton, List.not_mem_nil, or_false] at hmem
  rcases hmem with h | h | h | h | h | h | h
  · simp [cubicDeintValue, h]
  · simp [cubicDeintValue, h]
  · simp [cubicDeintValue, h]
  · simp only [cubicDeintValue, h, Nat.reduceEqDiff, if_false, if_true]
    exact avg2_self _
  · simp only [cubicDeintValue, h, Nat.reduceEqDiff, if_false, if_true]
    exact avg2_self _
  · simp only [cubicDeintValue, h, Nat.reduceEqDiff, if_false, if_true]
    by_cases h0 : y = 0
    · rw [if_pos h0, hcol (y + 1) (by omega), hcol y hy]
    · rw [if_neg h0]
      by_cases hl : y + 1 = (S p).height
      · rw [if_pos hl, hcol (y - 1) (by omega), hcol y hy]
      · rw [if_neg hl]
        by_cases hlin : y < 3 ∨ (S p).height < y + 4
        · rw [if_pos hlin, hcol (y - 1) (by omega), hcol (y + 1) (by omega), hcol y hy]
          exact avg2_self _
        · rw [if_neg hlin, hcol (y - 1) (by omega), hcol (y + 1) (by omega),
            hcol (y - 3) (by omega), hcol (y + 3) (by omega), hcol y hy]
          exact cubic_self _
  · simp only [cubicDeintValue, h, Nat.reduceEqDiff, if_false, if_true]
    exact avg4_self _

/-- Instance of C8: a one-plane 2x4 frame of constant 128 with verdict 60 everywhere. -/
theorem C8_identity_on_progressive_witness :
    ∃ out : Frame, cubicDeint 1 (constFrame 2 4 0) (constFrame 2 4 60) (constFrame 2 4 128)
        (constFrame 2 4 128) (constFrame 2 4 128) = some out ∧
      (out 0).pix 1 1 = 128 := by
  obtain ⟨out, ho, hpix⟩ := C8_identity_on_progressive 1 (constFrame 2 4 0) (constFrame 2 4 60)
    (constFrame 2 4 128) (fun _ _ => by show 2 ≤ 4; decide) (fun _ _ => ⟨rfl, rfl⟩)
    (fun _ _ => ⟨rfl, rfl⟩) (fun _ _ _ _ _ _ => rfl)
    (fun _ _ _ _ _ _ => by show (60 : Nat) ∈ [10, 20, 30, 40, 50, 60, 70]; decide)
  exact ⟨out, ho, hpix 0 1 1 (by decide) (by decide) (by decide)⟩

/-! ## Stage B: the verdict frame -/

theorem forStep_inv {σ : Type} (start stop step : Nat) (body : Nat → σ → Option σ)
    (Inv : Nat → σ → Prop) (s : σ) (h0 : Inv 0 s)
    (hstep : ∀ k t, k < (stop - start + step - 1) / step → Inv k t →
      ∃ t', body (start + step * k) t = some t' ∧ Inv (k + 1) t') :
    ∃ t, forStep start stop step body s = some t ∧ Inv ((stop - start + step - 1) / step) t :=
  forLoop_inv (fun k => body (start + step * k)) Inv _ s h0 hstep

/-- A loop over the columns of one row `r` whose body stores one byte at the pixel it visits. -/
theorem rowLoop_rel (W r : Nat) (body : Nat → Plane → Option Plane)
    (R : Nat → Byte → Byte → Prop) (dst : Plane)
    (hbody : ∀ x (d : Plane), x < W → d.width = dst.width → d.height = dst.height →
      ∃ b, body x d = some (d.set r x b) ∧ R x (d.pix r x) b) :
    ∃ out, forLoop body W dst = some out ∧
      out.width = dst.width ∧ out.height = dst.height ∧
      (∀ x, x < W → R x (dst.pix r x) (out.pix r x)) ∧
      (∀ y x, ¬ (y = r ∧ x < W) → out.pix y x = dst.pix y x) := by
  have key := forLoop_inv body
    (fun m e => e.width = dst.width ∧ e.height = dst.height ∧
      (∀ x, x < m → R x (dst.pix r x) (e.pix r x)) ∧
      (∀ y x, ¬ (y = r ∧ x < m) → e.pix y x = dst.pix y x)) W dst
    ⟨rfl, rfl, fun x hx => absurd hx (Nat.not_lt_zero x), fun _ _ _ => rfl⟩
    (by
      intro x e hx ⟨hw, hh, hd, hr⟩
      obtain ⟨b, hb, hRb⟩ := hbody x e hx hw hh
      refine ⟨e.set r x b, hb, hw, hh, ?_, ?_⟩
      · intro c hc
        by_cases hcx : c = x
        · subst hcx
          have hold : e.pix r c = dst.pix r c := hr r c (fun h => Nat.lt_irrefl _ h.2)
          simp only [Plane.set, and_self, if_true]
          rw [← hold]
          exact hRb
        · have hpx : (e.set r x b).pix r c = e.pix r c := by simp [Plane.set, hcx]
          rw [hpx]
          exact hd c (by omega)
      · intro y c hyc
        have hne : ¬ (y = r ∧ c = x) := fun h => hyc ⟨h.1, by omega⟩
        simp only [Plane.set, hne, if_false]
        exact hr y c (fun h => hyc ⟨h.1, by omega⟩))
  exact key

theorem scanNonzero_some (pl : PLut) (cnt : Nat) :
    ∀ start, (∀ k, k < cnt → ∃ v, pl.load (start + k) = some v) →
      ∃ b, scanNonzero pl start cnt = some b := by
  induction cnt with
  | zero => intro start _; exact ⟨true, by simp [scanNonzero]⟩
  | succ n ih =>
    intro start h
    obtain ⟨v, hv⟩ := h 0 (Nat.succ_pos n)
    simp only [Nat.add_zero] at hv
    by_cases hz : v = 0
    · exact ⟨false, by simp [scanNonzero, hv, hz]⟩
    · obtain ⟨b, hb⟩ := ih (start + 1) (by
        intro k hk
        have := h (k + 1) (by omega)
        rwa [show start + (k + 1) = start + 1 + k by omega] at this)
      exact ⟨b, by simp [scanNonzero, hv, hz, hb]⟩

/-- The seven verdict codes. -/
theorem tmmlutfOf_spec (mtype order fieldt : Int)
    (hm : mtype = 0 ∨ mtype = 1 ∨ mtype = 2) (ho : order = 0 ∨ order = 1)
    (hf : fieldt = 0 ∨ fieldt = 1) :
    ∃ t, tmmlutfOf mtype order fieldt = some t ∧ t.length = 64 ∧
      ∀ v ∈ t, v = 10 ∨ v = 20 ∨ v = 30 ∨ v = 40 ∨ v = 50 ∨ v = 60 := by
  have conv : ∀ o : Option (List Int),
      (o.isSome = true ∧ ∀ t ∈ o, t.length = 64 ∧
        ∀ v ∈ t, v = 10 ∨ v = 20 ∨ v = 30 ∨ v = 40 ∨ v = 50 ∨ v = 60) →
      ∃ t, o = some t ∧ t.length = 64 ∧
        ∀ v ∈ t, v = 10 ∨ v = 20 ∨ v = 30 ∨ v = 40 ∨ v = 50 ∨ v = 60 := by
    intro o ⟨h1, h2⟩
    cases o with
    | none => simp at h1
    | some t => exact ⟨t, rfl, h2 t rfl⟩
  apply conv
  rcases hm with rfl | rfl | rfl <;> rcases ho with rfl | rfl <;> rcases hf with rfl | rfl <;>
    decide

theorem ptRead_some (frames : Nat → Frame) (count : Int) (plane : Nat) (j : Nat)
    (row x : Int) (hj : (j : Int) < count) (hin : ((frames j) plane).inside row x)
    (i : Int) (hi : i = j) :
    ∃ v, ptRead frames count plane i row x = some v := by
  subst hi
  have h : 0 ≤ (j : Int) ∧ (j : Int) < count := ⟨by omega, hj⟩
  refine ⟨((((frames j) plane).pix row.toNat x.toNat).val : Int), ?_⟩
  simp [ptRead, h, Plane.read, hin]

theorem fillPlut_spec (d : TDeintModData) (csrc osrc : Nat → Frame) (ccount ocount : Int)
    (plane : Nat) (st : BuildState) (x : Nat)
    (hL : 6 ≤ d.length ∧ d.length ≤ 60)
    (hcc : ccount = 2 * ((d.length - 2) / 2)) (hoc : ocount = 2 * ((d.length - 1) / 2) - 1)
    (hc : ∀ j : Nat, (j : Int) < ccount → ((csrc j) plane).inside st.rc x)
    (ho0 : ∀ j : Nat, (j : Int) < ocount → ((osrc j) plane).inside st.r0 x)
    (ho2 : ∀ j : Nat, (j : Int) < ocount → ((osrc j) plane).inside st.r2 x) :
    ∃ pl, fillPlut d csrc osrc ccount ocount plane st x = some pl ∧
      ∀ k : Nat, (k : Int) ≤ 2 * d.length - 6 →
        (∃ v, pl.1.load k = some v) ∧ (∃ v, pl.2.load k = some v) := by
  obtain ⟨hL1, hL2⟩ := hL
  generalize hoffo : (if d.length % 2 ≠ 0 then (0 : Nat) else 1) = offo
  generalize hoffc : (if d.length % 2 ≠ 0 then (1 : Nat) else 0) = offc
  have hoffo' : offo ≤ 1 := by rw [← hoffo]; split_ifs <;> omega
  have hoffc' : offc ≤ 1 := by rw [← hoffc]; split_ifs <;> omega
  -- first loop
  obtain ⟨pl1, h1, inv1⟩ := forLoop_inv (fun j (pl : PLut × PLut) => do
      let v ← ptRead csrc ccount plane j st.rc x
      let p1 ← pl.2.store (j * 2 + offc) v
      let p0 ← pl.1.store (j * 2 + offc) v
      pure (p0, p1))
    (fun m pl => ∀ j, j < m → (∃ v, pl.1 (j * 2 + offc) = some v) ∧
      (∃ v, pl.2 (j * 2 + offc) = some v))
    ccount.toNat (fun _ => none, fun _ => none)
    (fun j hj => absurd hj (Nat.not_lt_zero j))
    (by
      intro j pl hj inv
      have hjc : (j : Int) < ccount := by omega
      obtain ⟨v, hv⟩ := ptRead_some csrc ccount plane j st.rc x hjc (hc j hjc) j rfl
      have hidx : j * 2 + offc < 119 := by omega
      refine ⟨(fun k => if k = j * 2 + offc then some v else pl.1 k,
        fun k => if k = j * 2 + offc then some v else pl.2 k), ?_, ?_⟩
      · simp [hv, PLut.store, hidx]
      · intro j' hj'
        by_cases hjj : j' = j
        · subst hjj; simp
        · have := inv j' (by omega)
          have hne : ¬ (j' * 2 + offc = j * 2 + offc) := by omega
          simpa [hne] using this)
  -- second loop
  obtain ⟨pl2, h2, inv2⟩ := forLoop_inv (fun j (pl : PLut × PLut) => do
      let p0 ← pl.1.store (j * 2 + offo) (← ptRead osrc ocount plane j st.r0 x)
      let p1 ← pl.2.store (j * 2 + offo) (← ptRead osrc ocount plane j st.r2 x)
      pure (p0, p1))
    (fun m pl => (∀ j, j < ccount.toNat → (∃ v, pl.1 (j * 2 + offc) = some v) ∧
        (∃ v, pl.2 (j * 2 + offc) = some v)) ∧
      (∀ j, j < m → (∃ v, pl.1 (j * 2 + offo) = some v) ∧
        (∃ v, pl.2 (j * 2 + offo) = some v)))
    ocount.toNat pl1
    ⟨inv1, fun j hj => absurd hj (Nat.not_lt_zero j)⟩
    (by
      intro j pl hj ⟨invc, invo⟩
      have hjo : (j : Int) < ocount := by omega
      obtain ⟨v0, hv0⟩ := ptRead_some osrc ocount plane j st.r0 x hjo (ho0 j hjo) j rfl
      obtain ⟨v2, hv2⟩ := ptRead_some osrc ocount plane j st.r2 x hjo (ho2 j hjo) j rfl
      have hidx : j * 2 + offo < 119 := by omega
      refine ⟨(fun k => if k = j * 2 + offo then some v0 else pl.1 k,
        fun k => if k = j * 2 + offo then some v2 else pl.2 k), ?_, ?_, ?_⟩
      · simp [hv0, hv2, PLut.store, hidx]
      · intro j' hj'
        have := invc j' hj'
        by_cases hne : j' * 2 + offc = j * 2 + offo
        · simp [hne]
        · simpa [hne] using this
      · intro j' hj'
        by_cases hjj : j' = j
        · subst hjj; simp
        · have := invo j' (by omega)
          have hne : ¬ (j' * 2 + offo = j * 2 + offo) := by omega
          simpa [hne] using this)
  refine ⟨pl2, ?_, ?_⟩
  · have hfill : fillPlut d csrc osrc ccount ocount plane st x
        = (forLoop (fun j (pl : PLut × PLut) => do
            let v ← ptRead csrc ccount plane j st.rc x
            let p1 ← pl.2.store (j * 2 + offc) v
            let p0 ← pl.1.store (j * 2 + offc) v
            pure (p0, p1)) ccount.toNat (fun _ => none, fun _ => none)).bind
          (fun pl => forLoop (fun j (pl : PLut × PLut) => do
            let p0 ← pl.1.store (j * 2 + offo) (← ptRead osrc ocount plane j st.r0 x)
            let p1 ← pl.2.store (j * 2 + offo) (← ptRead osrc ocount plane j st.r2 x)
            pure (p0, p1)) ocount.toNat pl) := by
      subst hoffo hoffc
      rfl
    rw [hfill, h1]
    exact h2
  · intro k hk
    have hk119 : k < 119 := by omega
    simp only [PLut.load, hk119, if_true]
    by_cases hodd : d.length % 2 ≠ 0
    · rw [if_pos hodd] at hoffo hoffc
      subst hoffo hoffc
      by_cases hk2 : k % 2 = 0
      · have := inv2.2 (k / 2) (by omega)
        rwa [show k / 2 * 2 + 0 = k by omega] at this
      · have := inv2.1 (k / 2) (by omega)
        rwa [show k / 2 * 2 + 1 = k by omega] at this
    · rw [if_neg hodd] at hoffo hoffc
      subst hoffo hoffc
      by_cases hk2 : k % 2 = 0
      · have := inv2.1 (k / 2) (by omega)
        rwa [show k / 2 * 2 + 0 = k by omega] at this
      · have := inv2.2 (k / 2) (by omega)
        rwa [show k / 2 * 2 + 1 = k by omega] at this

theorem vlut_length (mtype : Int) : (vlut mtype).length = 64 := by
  unfold vlut
  split_ifs <;> rfl

theorem gvlut_some (length : Int) (i : Nat) (hi : (i : Int) < length) (h60 : length ≤ 60) :
    ∃ g, gvlut length i = some g ∧ g ≤ 4 := by
  have h : (i : Int) < length ∧ i < 60 := ⟨hi, by omega⟩
  refine ⟨if i = 0 then 1 else if (i : Int) = length - 1 then 4 else 2, ?_, ?_⟩
  · simp only [gvlut, h, and_self, if_true]
  · split_ifs <;> omega

theorem valStep_spec (d : TDeintModData) (p0 p1 : PLut) (i : Nat) (st : Nat × Bool)
    (hL : 6 ≤ d.length ∧ d.length ≤ 60) (hi : (i : Int) < d.length)
    (hp : ∀ k : Nat, (k : Int) ≤ 2 * d.length - 6 →
      (∃ v, p0.load k = some v) ∧ (∃ v, p1.load k = some v))
    (hst : st.1 < 64) :
    ∃ st', valStep d p0 p1 i st = some st' ∧ st'.1 < 64 := by
  by_cases hb : st.2 = true
  · exact ⟨st, by simp [valStep, hb], hst⟩
  · obtain ⟨ok0, hok0⟩ := scanNonzero_some p0 (d.length - 4).toNat i
      (fun k hk => (hp (i + k) (by omega)).1)
    obtain ⟨ok1, hok1⟩ := scanNonzero_some p1 (d.length - 4).toNat i
      (fun k hk => (hp (i + k) (by omega)).2)
    obtain ⟨g, hg, hg4⟩ := gvlut_some d.length i hi hL.2
    have hlt : ∀ v : Nat, v < 64 → ∃ w, (vlut d.mtype)[v]? = some w := by
      intro v hv
      exact ⟨_, List.getElem?_eq_getElem (by rw [vlut_length]; exact hv)⟩
    have hor8 : st.1 ||| g * 8 < 64 :=
      Nat.or_lt_two_pow (n := 6) (by simpa using hst) (by norm_num; omega)
    have horg : ∀ v : Nat, v < 64 → v ||| g < 64 := fun v hv =>
      Nat.or_lt_two_pow (n := 6) (by simpa using hv) (by norm_num; omega)
    have hb' : st.2 = false := by simpa using hb
    cases ok0 <;> cases ok1
    · obtain ⟨w, hw⟩ := hlt st.1 hst
      exact ⟨(st.1, decide (w = 2)), by simp [valStep, hb', hok0, hok1, hw], hst⟩
    · obtain ⟨w, hw⟩ := hlt (st.1 ||| g) (horg _ hst)
      exact ⟨(st.1 ||| g, decide (w = 2)), by simp [valStep, hb', hok0, hok1, hg, hw],
        horg _ hst⟩
    · obtain ⟨w, hw⟩ := hlt (st.1 ||| g * 8) hor8
      exact ⟨(st.1 ||| g * 8, decide (w = 2)), by simp [valStep, hb', hok0, hok1, hg, hw],
        hor8⟩
    · obtain ⟨w, hw⟩ := hlt (st.1 ||| g * 8 ||| g) (horg _ hor8)
      exact ⟨(st.1 ||| g * 8 ||| g, decide (w = 2)),
        by simp [valStep, hb', hok0, hok1, hg, hw], horg _ hor8⟩

theorem toU8_code (v : Int) (h : v = 10 ∨ v = 20 ∨ v = 30 ∨ v = 40 ∨ v = 50 ∨ v = 60) :
    (toU8 v).val = 10 ∨ (toU8 v).val = 20 ∨ (toU8 v).val = 30 ∨ (toU8 v).val = 40 ∨
      (toU8 v).val = 50 ∨ (toU8 v).val = 60 := by
  rcases h with rfl | rfl | rfl | rfl | rfl | rfl <;> decide

/-- The pixel body of Stage B stores one of the verdict codes at the current pixel. -/
theorem buildPixel_spec (d : TDeintModData) (tmmlutf : List Int) (csrc osrc : Nat → Frame)
    (ccount ocount : Int) (plane : Nat) (st : BuildState) (x : Nat) (dst : Plane) (r : Nat)
    (hL : 6 ≤ d.length ∧ d.length ≤ 60)
    (hcc : ccount = 2 * ((d.length - 2) / 2)) (hoc : ocount = 2 * ((d.length - 1) / 2) - 1)
    (ht : tmmlutf.length = 64 ∧
      ∀ v ∈ tmmlutf, v = 10 ∨ v = 20 ∨ v = 30 ∨ v = 40 ∨ v = 50 ∨ v = 60)
    (hc : ∀ j : Nat, (j : Int) < ccount → ((csrc j) plane).inside st.rc x)
    (ho0 : ∀ j : Nat, (j : Int) < ocount → ((osrc j) plane).inside st.r0 x)
    (ho2 : ∀ j : Nat, (j : Int) < ocount → ((osrc j) plane).inside st.r2 x)
    (hrd : st.rd = r) (hr : r < dst.height) (hx : x < dst.width) :
    ∃ b : Byte, buildPixel d tmmlutf csrc osrc ccount ocount plane st x dst
        = some (dst.set r x b) ∧
      (b.val = 10 ∨ b.val = 20 ∨ b.val = 30 ∨ b.val = 40 ∨ b.val = 50 ∨ b.val = 60) := by
  have hwr := fun v => dst.write_some r x hr hx st.rd x hrd rfl v
  have hct : cdiv ccount 2 = ccount / 2 := by
    unfold cdiv
    exact Int.tdiv_eq_ediv (by omega) (by omega)
  have hc4 : 4 ≤ ccount := by omega
  -- the three centre samples
  obtain ⟨a, ha⟩ := ptRead_some csrc ccount plane (ccount / 2 - 2).toNat st.rc x (by omega)
    (hc _ (by omega)) (cdiv ccount 2 - 2) (by omega)
  obtain ⟨b, hb⟩ := ptRead_some csrc ccount plane (ccount / 2).toNat st.rc x (by omega)
    (hc _ (by omega)) (cdiv ccount 2) (by omega)
  obtain ⟨c, hcv⟩ := ptRead_some csrc ccount plane (ccount / 2 + 1).toNat st.rc x (by omega)
    (hc _ (by omega)) (cdiv ccount 2 + 1) (by omega)
  have hcz : ∃ z, centreAllZero csrc ccount plane (cdiv ccount 2) st.rc x = some z := by
    by_cases h1 : a = 0
    · by_cases h2 : b = 0
      · exact ⟨decide (c = 0), by simp [centreAllZero, ha, hb, hcv, h1, h2]⟩
      · exact ⟨false, by simp [centreAllZero, ha, hb, h1, h2]⟩
    · exact ⟨false, by simp [centreAllZero, ha, h1]⟩
  obtain ⟨z, hz⟩ := hcz
  cases z with
  | true =>
    refine ⟨toU8 60, ?_, by decide⟩
    simp [buildPixel, hz, hwr]
  | false =>
    obtain ⟨pl, hpl, hload⟩ := fillPlut_spec d csrc osrc ccount ocount plane st x hL hcc hoc
      hc ho0 ho2
    obtain ⟨res, hres, hlt⟩ := forLoop_inv (valStep d pl.1 pl.2) (fun _ s => s.1 < 64)
      d.length.toNat (0, false) (by decide)
      (fun i s hi hs => valStep_spec d pl.1 pl.2 i s hL (by omega) hload hs)
    have hidx : res.1 < tmmlutf.length := by rw [ht.1]; exact hlt
    obtain ⟨v, hget, hmem⟩ : ∃ v, tmmlutf[res.1]? = some v ∧ v ∈ tmmlutf :=
      ⟨tmmlutf[res.1], List.getElem?_eq_getElem hidx, List.getElem_mem _⟩
    refine ⟨toU8 v, ?_, ?_⟩
    · simp [buildPixel, hz, hpl, hres, hget, hwr]
    · exact toU8_code _ (ht.2 _ hmem)

/-- The prefill loop of Stage B: rows `s, s + 2, ...` below `H` are set to 10 over the width. -/
theorem prefill_spec (s : Nat) (dst : Plane) :
    ∃ out, forStep s dst.height 2 (fun j d => d.memsetRow j dst.width 10) dst = some out ∧
      out.width = dst.width ∧ out.height = dst.height ∧
      (∀ y x, y < dst.height → x < dst.width → s ≤ y → y % 2 = s % 2 → out.pix y x = 10) ∧
      (∀ y x, ¬ (y < dst.height ∧ x < dst.width ∧ s ≤ y ∧ y % 2 = s % 2) →
        out.pix y x = dst.pix y x) := by
  obtain ⟨out, ho, hw, hh, h1, h2⟩ := forStep_inv s dst.height 2
    (fun j d => d.memsetRow j dst.width 10)
    (fun k d => d.width = dst.width ∧ d.height = dst.height ∧
      (∀ y x, y < s + 2 * k → x < dst.width → s ≤ y → y % 2 = s % 2 → d.pix y x = 10) ∧
      (∀ y x, ¬ (y < s + 2 * k ∧ x < dst.width ∧ s ≤ y ∧ y % 2 = s % 2) →
        d.pix y x = dst.pix y x)) dst
    ⟨rfl, rfl, fun y x hy _ hs _ => by omega, fun _ _ _ => rfl⟩
    (by
      intro k d hk ⟨hw, hh, h1, h2⟩
      have hj : s + 2 * k < d.height ∧ dst.width ≤ d.width := ⟨by omega, by omega⟩
      refine ⟨{ d with pix := fun r c =>
          if r = s + 2 * k ∧ c < dst.width then 10 else d.pix r c },
        by simp only [Plane.memsetRow, hj, and_self, if_true], hw, hh, ?_, ?_⟩
      · intro y x hy hx hs hpar
        by_cases hyk : y = s + 2 * k
        · simp [hyk, hx]
        · have hne : ¬ (y = s + 2 * k ∧ x < dst.width) := fun h => hyk h.1
          simp only [hne, if_false]
          exact h1 y x (by omega) hx hs hpar
      · intro y x hn
        have hne : ¬ (y = s + 2 * k ∧ x < dst.width) := by
          intro h
          apply hn
          exact ⟨by omega, h.2, by omega, by omega⟩
        simp only [hne, if_false]
        apply h2
        intro h
        exact hn ⟨by omega, h.2.1, h.2.2.1, h.2.2.2⟩)
  refine ⟨out, ho, hw, hh, ?_, ?_⟩
  · intro y x hy hx hs hpar
    exact h1 y x (by omega) hx hs hpar
  · intro y x hn
    apply h2
    intro h
    exact hn ⟨by omega, h.2.1, h.2.2.1, h.2.2.2⟩

/-- The six verdict codes Stage B can store. -/
theorem buildLines_spec (d : TDeintModData) (tmmlutf : List Int) (csrc osrc : Nat → Frame)
    (ccount ocount : Int) (plane : Nat) (dst1 : Plane) (f h : Nat)
    (hL : 6 ≤ d.length ∧ d.length ≤ 60)
    (hcc : ccount = 2 * ((d.length - 2) / 2)) (hoc : ocount = 2 * ((d.length - 1) / 2) - 1)
    (ht : tmmlutf.length = 64 ∧
      ∀ v ∈ tmmlutf, v = 10 ∨ v = 20 ∨ v = 30 ∨ v = 40 ∨ v = 50 ∨ v = 60)
    (hf : f ≤ 1) (hH : dst1.height = 2 * h) (hh : f = 1 → 2 ≤ h)
    (hcs : ∀ j : Nat, (j : Int) < ccount →
      ((csrc j) plane).width = dst1.width ∧ ((csrc j) plane).height = h)
    (hos : ∀ j : Nat, (j : Int) < ocount →
      ((osrc j) plane).width = dst1.width ∧ ((osrc j) plane).height = h) :
    ∃ st, forStep f dst1.height 2
        (buildLine d tmmlutf csrc osrc ccount ocount plane dst1.width dst1.height)
        { dst := dst1, rd := f, rc := 0, r0 := 0, r2 := f } = some st ∧
      st.dst.width = dst1.width ∧ st.dst.height = dst1.height ∧
      (∀ y x, y < dst1.height → x < dst1.width → y % 2 = f →
        ((st.dst.pix y x).val = 10 ∨ (st.dst.pix y x).val = 20 ∨ (st.dst.pix y x).val = 30 ∨
          (st.dst.pix y x).val = 40 ∨ (st.dst.pix y x).val = 50 ∨
          (st.dst.pix y x).val = 60)) ∧
      (∀ y x, ¬ (y < dst1.height ∧ x < dst1.width ∧ y % 2 = f) →
        st.dst.pix y x = dst1.pix y x) := by
  obtain ⟨st, hst, _, _, _, _, hw, hhh, h1, h2⟩ := forStep_inv f dst1.height 2
    (buildLine d tmmlutf csrc osrc ccount ocount plane dst1.width dst1.height)
    (fun k st => st.rd = (f : Int) + 2 * k ∧ st.rc = k ∧
      st.r0 = (if f = 1 then (k : Int) else if k = 0 then 0 else (k : Int) - 1) ∧
      st.r2 = (if f = 1 then (if k + 2 ≤ h then (k : Int) + 1 else k) else k) ∧
      st.dst.width = dst1.width ∧ st.dst.height = dst1.height ∧
      (∀ y x, y < f + 2 * k → x < dst1.width → y % 2 = f →
        ((st.dst.pix y x).val = 10 ∨ (st.dst.pix y x).val = 20 ∨ (st.dst.pix y x).val = 30 ∨
          (st.dst.pix y x).val = 40 ∨ (st.dst.pix y x).val = 50 ∨
          (st.dst.pix y x).val = 60)) ∧
      (∀ y x, ¬ (y < f + 2 * k ∧ x < dst1.width ∧ y % 2 = f) →
        st.dst.pix y x = dst1.pix y x))
    { dst := dst1, rd := f, rc := 0, r0 := 0, r2 := f }
    ⟨by simp, by simp, by simp, by
        show (f : Int) = _
        split_ifs <;> omega,
      rfl, rfl, fun y x hy _ hp => by omega, fun _ _ _ => rfl⟩
    (by
      intro k st hk ⟨hrd, hrc, hr0, hr2, hw, hhh, h1, h2⟩
      have hkh : k < h := by omega
      have hrdN : st.rd = ((f + 2 * k : Nat) : Int) := by rw [hrd]; push_cast; ring
      obtain ⟨out, ho, how, hoh, hin, hout⟩ := rowLoop_rel dst1.width (f + 2 * k)
        (buildPixel d tmmlutf csrc osrc ccount ocount plane st)
        (fun _ _ b => b.val = 10 ∨ b.val = 20 ∨ b.val = 30 ∨ b.val = 40 ∨ b.val = 50 ∨
          b.val = 60) st.dst
        (by
          intro x e hx hew heh
          obtain ⟨b, hb, hcode⟩ := buildPixel_spec d tmmlutf csrc osrc ccount ocount plane st x
            e (f + 2 * k) hL hcc hoc ht
            (by
              intro j hj
              obtain ⟨a1, a2⟩ := hcs j hj
              exact ⟨by omega, by omega, by omega, by omega⟩)
            (by
              intro j hj
              obtain ⟨a1, a2⟩ := hos j hj
              refine ⟨?_, ?_, by omega, by omega⟩
              · rw [hr0]; split_ifs <;> omega
              · rw [hr0, a2]; split_ifs <;> omega)
            (by
              intro j hj
              obtain ⟨a1, a2⟩ := hos j hj
              refine ⟨?_, ?_, by omega, by omega⟩
              · rw [hr2]; split_ifs <;> omega
              · rw [hr2, a2]; split_ifs <;> omega)
            hrdN (by omega) (by omega)
          exact ⟨b, hb, hcode⟩)
      refine ⟨{ dst := out, rd := st.rd + 2, rc := st.rc + 1,
                r0 := if ((f + 2 * k : Nat) : Int) ≠ 0 then st.r0 + 1 else st.r0,
                r2 := if ((f + 2 * k : Nat) : Int) ≠ (dst1.height : Int) - 3
                  then st.r2 + 1 else st.r2 }, ?_, ?_, ?_, ?_, ?_, ?_, ?_, ?_, ?_⟩
      · simp only [buildLine, ho, Option.bind_eq_bind, Option.some_bind, Option.pure_def]
      · show st.rd + 2 = _
        rw [hrd]; push_cast; ring
      · show st.rc + 1 = _
        rw [hrc]; push_cast; ring
      · show (if ((f + 2 * k : Nat) : Int) ≠ 0 then st.r0 + 1 else st.r0) = _
        rw [hr0]
        split_ifs <;> first | contradiction | omega
      · show (if ((f + 2 * k : Nat) : Int) ≠ (dst1.height : Int) - 3
          then st.r2 + 1 else st.r2) = _
        rw [hr2]
        split_ifs <;> first | contradiction | omega
      · exact how.trans hw
      · exact hoh.trans hhh
      · intro y x hy hx hp
        by_cases hyr : y = f + 2 * k
        · subst hyr
          exact hin x hx
        · have hne : ¬ (y = f + 2 * k ∧ x < dst1.width) := fun h => hyr h.1
          show (out.pix y x).val = 10 ∨ _
          rw [hout y x hne]
          exact h1 y x (by omega) hx hp
      · intro y x hn
        have hne : ¬ (y = f + 2 * k ∧ x < dst1.width) := by
          intro h
          exact hn ⟨by omega, h.2, by omega⟩
        show out.pix y x = _
        rw [hout y x hne]
        apply h2
        intro h
        exact hn ⟨by omega, h.2.1, h.2.2⟩)
  refine ⟨st, hst, hw, hhh, ?_, ?_⟩
  · intro y x hy hx hp
    exact h1 y x (by omega) hx hp
  · intro y x hn
    apply h2
    intro h
    exact hn ⟨by omega, h.2.1, h.2.2⟩

/-- One plane of Stage B: kept rows hold 10, classified rows hold a verdict code. -/
theorem buildPlane_spec (d : TDeintModData) (fieldt : Int) (tmmlutf : List Int)
    (csrc osrc : Nat → Frame) (ccount ocount : Int) (plane : Nat) (dst : Plane) (h : Nat)
    (hL : 6 ≤ d.length ∧ d.length ≤ 60)
    (hcc : ccount = 2 * ((d.length - 2) / 2)) (hoc : ocount = 2 * ((d.length - 1) / 2) - 1)
    (ht : tmmlutf.length = 64 ∧
      ∀ v ∈ tmmlutf, v = 10 ∨ v = 20 ∨ v = 30 ∨ v = 40 ∨ v = 50 ∨ v = 60)
    (hf : fieldt = 0 ∨ fieldt = 1) (hH : dst.height = 2 * h) (hh : fieldt = 1 → 2 ≤ h)
    (hcs : ∀ j : Nat, (j : Int) < ccount →
      ((csrc j) plane).width = dst.width ∧ ((csrc j) plane).height = h)
    (hos : ∀ j : Nat, (j : Int) < ocount →
      ((osrc j) plane).width = dst.width ∧ ((osrc j) plane).height = h) :
    ∃ out, buildPlane d fieldt tmmlutf csrc osrc ccount ocount plane dst = some out ∧
      out.width = dst.width ∧ out.height = dst.height ∧
      (∀ y x, y < dst.height → x < dst.width →
        ((y : Int) % 2 ≠ fieldt → out.pix y x = 10) ∧
        ((y : Int) % 2 = fieldt →
          ((out.pix y x).val = 10 ∨ (out.pix y x).val = 20 ∨ (out.pix y x).val = 30 ∨
            (out.pix y x).val = 40 ∨ (out.pix y x).val = 50 ∨ (out.pix y x).val = 60))) := by
  obtain ⟨f, hf1, hfe⟩ : ∃ f : Nat, f ≤ 1 ∧ fieldt = f := by
    rcases hf with rfl | rfl
    · exact ⟨0, by omega, rfl⟩
    · exact ⟨1, by omega, rfl⟩
  subst hfe
  obtain ⟨dst1, hd1, hw1, hh1, hk1, hu1⟩ := prefill_spec (1 - f) dst
  obtain ⟨st, hst, hw2, hh2, hc2, hu2⟩ := buildLines_spec d tmmlutf csrc osrc ccount ocount
    plane dst1 f h hL hcc hoc ht hf1 (hh1.trans hH) (fun hf => hh (by omega))
    (fun j hj => by rw [hw1]; exact hcs j hj) (fun j hj => by rw [hw1]; exact hos j hj)
  have hs : (if (f : Int) = 1 then 0 else 1) = 1 - f := by
    split_ifs <;> omega
  have hi : (if (f : Int) = 1 then (1 : Int) else 0) = (f : Int) := by
    split_ifs <;> omega
  refine ⟨st.dst, ?_, hw2.trans hw1, hh2.trans hh1, ?_⟩
  · simp only [buildPlane, hs, hi, hd1, Option.bind_eq_bind, Option.some_bind, Int.toNat_ofNat]
    rw [← hw1, ← hh1, hst]
    rfl
  · intro y x hy hx
    constructor
    · intro hp
      have hne : ¬ (y < dst1.height ∧ x < dst1.width ∧ y % 2 = f) := by
        intro hc
        apply hp
        omega
      rw [hu2 y x hne]
      exact hk1 y x hy hx (by omega) (by omega)
    · intro hp
      exact hc2 y x (by omega) (by omega) (by omega)

theorem cdiv_two (a : Int) (h : 0 ≤ a) : cdiv a 2 = a / 2 := by
  unfold cdiv
  exact Int.tdiv_eq_ediv h (by omega)

theorem windowOf_counts (d : TDeintModData) (fieldt n : Int) (hL : 6 ≤ d.length) :
    (windowOf d fieldt n).ccount = 2 * ((d.length - 2) / 2) ∧
    (windowOf d fieldt n).ocount = 2 * ((d.length - 1) / 2) - 1 ∧
    (fieldt = 1 → (windowOf d fieldt n).tstop - (windowOf d fieldt n).tstart + 1
        = (windowOf d fieldt n).ocount ∧
      (windowOf d fieldt n).bstop - (windowOf d fieldt n).bstart + 1
        = (windowOf d fieldt n).ccount) ∧
    (fieldt ≠ 1 → (windowOf d fieldt n).tstop - (windowOf d fieldt n).tstart + 1
        = (windowOf d fieldt n).ccount ∧
      (windowOf d fieldt n).bstop - (windowOf d fieldt n).bstart + 1
        = (windowOf d fieldt n).ocount) := by
  have h1 := cdiv_two (d.length - 1) (by omega)
  have h2 := cdiv_two (d.length - 2) (by omega)
  by_cases hf : fieldt = 1
  · refine ⟨?_, ?_, ?_, ?_⟩
    · simp only [windowOf, hf, if_true, h1, h2]; omega
    · simp only [windowOf, hf, if_true, h1, h2]; omega
    · intro _
      simp only [windowOf, hf, if_true, and_self]
    · intro h
      exact absurd hf h
  · refine ⟨?_, ?_, ?_, ?_⟩
    · simp only [windowOf, hf, if_false, h1, h2]; omega
    · simp only [windowOf, hf, if_false, h1, h2]; omega
    · intro h
      exact absurd h hf
    · intro _
      simp only [windowOf, hf, if_false, and_self]

theorem fieldtOf_bit (d : TDeintModData) (n0 : Int) (ho : d.order = 0 ∨ d.order = 1)
    (hf : d.field = 0 ∨ d.field = 1) : fieldtOf d n0 = 0 ∨ fieldtOf d n0 = 1 := by
  unfold fieldtOf
  split_ifs <;> omega

theorem windowFrame_dims (d : TDeintModData) (node : Int → Frame)
    (content : Nat → Nat → Nat → Byte) (i : Int) (p : Nat)
    (hn : ((node i) p).width = planeWidth d.viSaved.format d.viSaved.width p ∧
      ((node i) p).height = planeHeight d.viSaved.format d.viSaved.height p) :
    ((windowFrame d node content i) p).width = planeWidth d.viSaved.format d.viSaved.width p ∧
    ((windowFrame d node content i) p).height
      = planeHeight d.viSaved.format d.viSaved.height p := by
  unfold windowFrame
  split_ifs
  · exact ⟨rfl, rfl⟩
  · exact hn

theorem planeHeight_double (fmt : VSFormat) (h p : Nat) (hdiv : 2 ^ fmt.subSamplingH ∣ h) :
    planeHeight fmt (2 * h) p = 2 * planeHeight fmt h p := by
  unfold planeHeight
  split_ifs
  · rfl
  · obtain ⟨c, rfl⟩ := hdiv
    simp only [Nat.shiftRight_eq_div_pow]
    rw [show 2 * (2 ^ fmt.subSamplingH * c) = 2 ^ fmt.subSamplingH * (2 * c) by ring,
      Nat.mul_div_cancel_left _ (by positivity), Nat.mul_div_cancel_left _ (by positivity)]

/-- Stage B returns a verdict frame whose kept rows hold 10 and whose classified rows hold one
of the codes 10, 20, 30, 40, 50, 60. -/
theorem buildMM_spec (d : TDeintModData) (node node2 : Int → Frame)
    (content : Nat → Nat → Nat → Byte) (n0 : Int)
    (hcfg : StageBConfig d) (hgeo : StageBGeometry d node node2)
    (hrows : fieldtOf d n0 = 1 → ∀ p, p < d.vi.format.numPlanes →
      2 ≤ planeHeight d.viSaved.format d.viSaved.height p) :
    ∃ out : Frame, tdeintmodBuildMMGetFrame d node node2 content n0 = some out ∧
      ∀ p, p < d.vi.format.numPlanes →
        (out p).width = planeWidth d.vi.format d.vi.width p ∧
        (out p).height = planeHeight d.vi.format d.vi.height p ∧
        ∀ y x, y < (out p).height → x < (out p).width →
          ((y : Int) % 2 ≠ fieldtOf d n0 → (out p).pix y x = 10) ∧
          ((y : Int) % 2 = fieldtOf d n0 →
            (((out p).pix y x).val = 10 ∨ ((out p).pix y x).val = 20 ∨
              ((out p).pix y x).val = 30 ∨ ((out p).pix y x).val = 40 ∨
              ((out p).pix y x).val = 50 ∨ ((out p).pix y x).val = 60)) := by
  obtain ⟨hL, hmt, hord, hfld⟩ := hcfg
  obtain ⟨gfmt, gw, gh, gdiv, gn, gn2⟩ := hgeo
  have hft := fieldtOf_bit d n0 hord hfld
  obtain ⟨t, htab, htl, htc⟩ := tmmlutfOf_spec d.mtype d.order (fieldtOf d n0) hmt hord hft
  obtain ⟨hcc, hoc, hw1, hw0⟩ := windowOf_counts d (fieldtOf d n0) (indexOf d n0) hL.1
  have hbound : ¬ ((windowOf d (fieldtOf d n0) (indexOf d n0)).tstop
      - (windowOf d (fieldtOf d n0) (indexOf d n0)).tstart + 1 > 58 ∨
      (windowOf d (fieldtOf d n0) (indexOf d n0)).bstop
      - (windowOf d (fieldtOf d n0) (indexOf d n0)).bstart + 1 > 58) := by
    by_cases h1 : fieldtOf d n0 = 1
    · obtain ⟨a, b⟩ := hw1 h1
      omega
    · obtain ⟨a, b⟩ := hw0 h1
      omega
  obtain ⟨w, hwdef⟩ : ∃ w, w = windowOf d (fieldtOf d n0) (indexOf d n0) := ⟨_, rfl⟩
  obtain ⟨csrc, hcsrc⟩ : ∃ c : Nat → Frame, c = (if fieldtOf d n0 = 1
      then (fun j : Nat => windowFrame d node2 content (w.bstart + j))
      else (fun j : Nat => windowFrame d node content (w.tstart + j))) := ⟨_, rfl⟩
  obtain ⟨osrc, hosrc⟩ : ∃ c : Nat → Frame, c = (if fieldtOf d n0 = 1
      then (fun j : Nat => windowFrame d node content (w.tstart + j))
      else (fun j : Nat => windowFrame d node2 content (w.bstart + j))) := ⟨_, rfl⟩
  rw [← hwdef] at hcc hoc hbound
  have hcdims : ∀ (j p : Nat), p < d.vi.format.numPlanes →
      ((csrc j) p).width = planeWidth d.viSaved.format d.viSaved.width p ∧
      ((csrc j) p).height = planeHeight d.viSaved.format d.viSaved.height p := by
    intro j p hp
    rw [hcsrc]
    split_ifs
    · exact windowFrame_dims d node2 content _ p (gn2 _ p hp)
    · exact windowFrame_dims d node content _ p (gn _ p hp)
  have hodims : ∀ (j p : Nat), p < d.vi.format.numPlanes →
      ((osrc j) p).width = planeWidth d.viSaved.format d.viSaved.width p ∧
      ((osrc j) p).height = planeHeight d.viSaved.format d.viSaved.height p := by
    intro j p hp
    rw [hosrc]
    split_ifs
    · exact windowFrame_dims d node content _ p (gn _ p hp)
    · exact windowFrame_dims d node2 content _ p (gn2 _ p hp)
  have hplane : ∀ p, p < d.vi.format.numPlanes → ∃ o,
      buildPlane d (fieldtOf d n0) t csrc osrc w.ccount w.ocount p
        (newVideoFrame d.vi.format d.vi.width d.vi.height content p) = some o ∧
      o.width = planeWidth d.vi.format d.vi.width p ∧
      o.height = planeHeight d.vi.format d.vi.height p ∧
      ∀ y x, y < o.height → x < o.width →
        ((y : Int) % 2 ≠ fieldtOf d n0 → o.pix y x = 10) ∧
        ((y : Int) % 2 = fieldtOf d n0 →
          ((o.pix y x).val = 10 ∨ (o.pix y x).val = 20 ∨ (o.pix y x).val = 30 ∨
            (o.pix y x).val = 40 ∨ (o.pix y x).val = 50 ∨ (o.pix y x).val = 60)) := by
    intro p hp
    have hdimW : (newVideoFrame d.vi.format d.vi.width d.vi.height content p).width
        = planeWidth d.viSaved.format d.viSaved.width p := by
      simp only [newVideoFrame, gfmt, gw]
    have hdimH : (newVideoFrame d.vi.format d.vi.width d.vi.height content p).height
        = 2 * planeHeight d.viSaved.format d.viSaved.height p := by
      simp only [newVideoFrame, gfmt, gh]
      exact planeHeight_double _ _ _ gdiv
    obtain ⟨o, ho, how, hoh, hpix⟩ := buildPlane_spec d (fieldtOf d n0) t csrc osrc
      w.ccount w.ocount p
      (newVideoFrame d.vi.format d.vi.width d.vi.height content p)
      (planeHeight d.viSaved.format d.viSaved.height p) hL hcc hoc ⟨htl, htc⟩ hft hdimH
      (fun h1 => hrows h1 p hp)
      (fun j _ => by rw [hdimW]; exact hcdims j p hp)
      (fun j _ => by rw [hdimW]; exact hodims j p hp)
    refine ⟨o, ho, how, hoh, ?_⟩
    intro y x hy hx
    exact hpix y x (by rw [← hoh]; exact hy) (by rw [← how]; exact hx)
  obtain ⟨out, hout, hpl, _⟩ := frameLoop_spec d.vi.format.numPlanes
    (fun plane dp => buildPlane d (fieldtOf d n0) t csrc osrc w.ccount w.ocount plane dp)
    (newVideoFrame d.vi.format d.vi.width d.vi.height content)
    (fun p hp => by
      obtain ⟨o, ho, _⟩ := hplane p hp
      exact ⟨o, ho⟩)
  refine ⟨out, ?_, ?_⟩
  · simp only [tdeintmodBuildMMGetFrame, htab, Option.some_bind, ← hwdef, hbound, if_false,
      ← hcsrc, ← hosrc]
    exact hout
  · intro p hp
    obtain ⟨o, ho, hrest⟩ := hplane p hp
    have heq : out p = o := by
      have := hpl p hp
      rw [ho] at this
      exact (Option.some.inj this).symm
    rw [heq]
    exact hrest

theorem defaultData_config (w h nf : Nat) : StageBConfig (defaultData w h nf) := by
  refine ⟨⟨?_, ?_⟩, ?_, ?_, ?_⟩ <;> simp [defaultData]

theorem defaultData_geometry (w h nf : Nat) (a b : Byte) :
    StageBGeometry (defaultData w h nf) (fun _ => constFrame w h a)
      (fun _ => constFrame w h b) := by
  refine ⟨rfl, rfl, rfl, ?_, ?_, ?_⟩
  · show 2 ^ 0 ∣ h
    simp
  · intro i p hp
    have hp0 : p = 0 := by
      have : p < 1 := hp
      omega
    subst hp0
    exact ⟨rfl, rfl⟩
  · intro i p hp
    have hp0 : p = 0 := by
      have : p < 1 := hp
      omega
    subst hp0
    exact ⟨rfl, rfl⟩

/-- C3: Stage B output range. For every window length in [6,60], every mtype in {0,1,2}, every
order, field and mode, every output index and arbitrary contents of the mask frames,
`tdeintmodBuildMMGetFrame` returns a verdict frame of the output geometry, and every byte of it
(all planes, all rows, all x < width) is one of 10, 20, 30, 40, 50, 60, 70. -/
theorem C3_stageB_output_range (d : TDeintModData) (node node2 : Int → Frame)
    (content : Nat → Nat → Nat → Byte) (n0 : Int)
    (hcfg : StageBConfig d) (hgeo : StageBGeometry d node node2)
    (hrows : fieldtOf d n0 = 1 → ∀ p, p < d.vi.format.numPlanes →
      2 ≤ planeHeight d.viSaved.format d.viSaved.height p) :
    ∃ out : Frame, tdeintmodBuildMMGetFrame d node node2 content n0 = some out ∧
      ∀ p, p < d.vi.format.numPlanes →
        (out p).width = planeWidth d.vi.format d.vi.width p ∧
        (out p).height = planeHeight d.vi.format d.vi.height p ∧
        ∀ y x, y < (out p).height → x < (out p).width →
          ((out p).pix y x).val ∈ [10, 20, 30, 40, 50, 60, 70] := by
  obtain ⟨out, ho, hspec⟩ := buildMM_spec d node node2 content n0 hcfg hgeo hrows
  refine ⟨out, ho, ?_⟩
  intro p hp
  obtain ⟨hw, hh, hpix⟩ := hspec p hp
  refine ⟨hw, hh, ?_⟩
  intro y x hy hx
  obtain ⟨hkept, hcls⟩ := hpix y x hy hx
  by_cases hpar : (y : Int) % 2 = fieldtOf d n0
  · rcases hcls hpar with h | h | h | h | h | h <;> simp [h]
  · rw [hkept hpar]
    decide

theorem gray_plane_zero (p : Nat) (hp : p < grayFormat.numPlanes) : p = 0 := by
  have : p < 1 := hp
  omega

/-- Instance of C3: default parameters, 4x8 gray frames, fully static mask streams. -/
theorem C3_stageB_output_range_witness :
    ∃ out : Frame, tdeintmodBuildMMGetFrame (defaultData 4 4 20) (fun _ => constFrame 4 4 255)
        (fun _ => constFrame 4 4 255) (fun _ _ _ => 0) 10 = some out ∧
      ((out 0).pix 1 2).val ∈ [10, 20, 30, 40, 50, 60, 70] := by
  obtain ⟨out, ho, hpix⟩ := C3_stageB_output_range (defaultData 4 4 20)
    (fun _ => constFrame 4 4 255) (fun _ => constFrame 4 4 255) (fun _ _ _ => 0) 10
    (defaultData_config 4 4 20) (defaultData_geometry 4 4 20 255 255)
    (fun _ p hp => by
      rw [gray_plane_zero p hp]
      show 2 ≤ 4
      decide)
  obtain ⟨hw, hh, hp⟩ := hpix 0 (by decide)
  refine ⟨out, ho, hp 1 2 ?_ ?_⟩
  · rw [hh]; decide
  · rw [hw]; decide

/-- C4: kept-line prefill. In the verdict frame Stage B returns, rows alternate between
classified rows (row parity equal to `fieldt`) and kept rows (the other parity), and every byte
of every kept row (every plane, every x < width) is exactly 10, whatever the mask streams
contain. -/
theorem C4_kept_line_prefill (d : TDeintModData) (node node2 : Int → Frame)
    (content : Nat → Nat → Nat → Byte) (n0 : Int)
    (hcfg : StageBConfig d) (hgeo : StageBGeometry d node node2)
    (hrows : fieldtOf d n0 = 1 → ∀ p, p < d.vi.format.numPlanes →
      2 ≤ planeHeight d.viSaved.format d.viSaved.height p) :
    ∃ out : Frame, tdeintmodBuildMMGetFrame d node node2 content n0 = some out ∧
      (∀ y : Nat, ((y : Int) % 2 ≠ fieldtOf d n0) ↔ (((y + 1 : Nat) : Int) % 2 = fieldtOf d n0)) ∧
      ∀ p, p < d.vi.format.numPlanes →
        (out p).width = planeWidth d.vi.format d.vi.width p ∧
        (out p).height = planeHeight d.vi.format d.vi.height p ∧
        ∀ y x, y < (out p).height → x < (out p).width → (y : Int) % 2 ≠ fieldtOf d n0 →
          ((out p).pix y x).val = 10 := by
  obtain ⟨out, ho, hspec⟩ := buildMM_spec d node node2 content n0 hcfg hgeo hrows
  have hft := fieldtOf_bit d n0 hcfg.2.2.1 hcfg.2.2.2
  refine ⟨out, ho, ?_, ?_⟩
  · intro y
    push_cast
    omega
  · intro p hp
    obtain ⟨hw, hh, hpix⟩ := hspec p hp
    refine ⟨hw, hh, ?_⟩
    intro y x hy hx hpar
    rw [(hpix y x hy hx).1 hpar]
    rfl

/-- Instance of C4: default parameters (`fieldt = 1`), 4x8 gray frames, mask streams of
arbitrary constants; row 2 is a kept row. -/
theorem C4_kept_line_prefill_witness :
    ∃ out : Frame, tdeintmodBuildMMGetFrame (defaultData 4 4 20) (fun _ => constFrame 4 4 0)
        (fun _ => constFrame 4 4 255) (fun _ _ _ => 77) 3 = some out ∧
      ((out 0).pix 2 3).val = 10 := by
  obtain ⟨out, ho, _, hpix⟩ := C4_kept_line_prefill (defaultData 4 4 20)
    (fun _ => constFrame 4 4 0) (fun _ => constFrame 4 4 255) (fun _ _ _ => 77) 3
    (defaultData_config 4 4 20) (defaultData_geometry 4 4 20 0 255)
    (fun _ p hp => by
      rw [gray_plane_zero p hp]
      show 2 ≤ 4
      decide)
  obtain ⟨hw, hh, hp⟩ := hpix 0 (by decide)
  refine ⟨out, ho, hp 2 3 ?_ ?_ ?_⟩
  · rw [hh]; decide
  · rw [hw]; decide
  · decide

/-- C5: kept lines are passed through. Composing Stage B with Stage D (`eDeint` as well as
`cubicDeint`), for every source triple P, S, N, every content of the mask streams and every
field parity, each output row that belongs to the kept field (row parity different from
`fieldt`) is byte-for-byte equal to the same row of the current source S. -/
theorem C5_kept_lines_pass_through (d : TDeintModData) (node node2 : Int → Frame)
    (content : Nat → Nat → Nat → Byte) (n0 : Int) (dst prv src nxt efrm : Frame)
    (hcfg : StageBConfig d) (hgeo : StageBGeometry d node node2)
    (hrows : ∀ p, p < d.vi.format.numPlanes →
      2 ≤ planeHeight d.viSaved.format d.viSaved.height p)
    (hs : ∀ p, p < d.vi.format.numPlanes →
      (src p).width = planeWidth d.vi.format d.vi.width p ∧
      (src p).height = planeHeight d.vi.format d.vi.height p)
    (hp : ∀ p, p < d.vi.format.numPlanes → (prv p).sameDims (src p))
    (hn : ∀ p, p < d.vi.format.numPlanes → (nxt p).sameDims (src p))
    (he : ∀ p, p < d.vi.format.numPlanes → (efrm p).sameDims (src p))
    (hd : ∀ p, p < d.vi.format.numPlanes → (dst p).sameDims (src p)) :
    ∃ mask outE outC : Frame,
      tdeintmodBuildMMGetFrame d node node2 content n0 = some mask ∧
      eDeint d.vi.format.numPlanes dst mask prv src nxt efrm = some outE ∧
      cubicDeint d.vi.format.numPlanes dst mask prv src nxt = some outC ∧
      ∀ p y x, p < d.vi.format.numPlanes → y < (src p).height → x < (src p).width →
        (y : Int) % 2 ≠ fieldtOf d n0 →
        (outE p).pix y x = (src p).pix y x ∧ (outC p).pix y x = (src p).pix y x := by
  obtain ⟨mask, hmask, hspec⟩ := buildMM_spec d node node2 content n0 hcfg hgeo
    (fun _ => hrows)
  have hm : ∀ p, p < d.vi.format.numPlanes → (mask p).sameDims (src p) := by
    intro p hlt
    obtain ⟨hw, hh, _⟩ := hspec p hlt
    exact ⟨hw.trans (hs p hlt).1.symm, hh.trans (hs p hlt).2.symm⟩
  have hH : ∀ p, p < d.vi.format.numPlanes → 2 ≤ (src p).height := by
    intro p hlt
    obtain ⟨gfmt, _, gh, gdiv, _, _⟩ := hgeo
    have h2 := hrows p hlt
    rw [(hs p hlt).2, gh, gfmt, planeHeight_double _ _ _ gdiv]
    omega
  obtain ⟨outE, hE, hpE⟩ := eDeint_spec d.vi.format.numPlanes dst mask prv src nxt efrm
    hm hp hn he hd
  obtain ⟨outC, hC, hpC⟩ := cubicDeint_spec d.vi.format.numPlanes dst mask prv src nxt
    hH hm hp hn hd
  refine ⟨mask, outE, outC, hmask, hE, hC, ?_⟩
  intro p y x hlt hy hx hpar
  obtain ⟨hw, hh, hpix⟩ := hspec p hlt
  have hv : (mask p).pix y x = 10 :=
    (hpix y x (by rw [(hm p hlt).2]; exact hy) (by rw [(hm p hlt).1]; exact hx)).1 hpar
  have hv' : ((mask p).pix y x).val = 10 := by rw [hv]; rfl
  rw [(hpE p hlt).2 y x hy hx, (hpC p hlt).2 y x hy hx]
  simp only [eDeintValue, cubicDeintValue, hv', if_true, and_self]

/-- Instance of C5: default parameters (`fieldt = 1`), 4x8 gray frames; row 4 is a kept row and
comes out as the source byte 200. -/
theorem C5_kept_lines_pass_through_witness :
    ∃ mask outE outC : Frame,
      tdeintmodBuildMMGetFrame (defaultData 4 4 20) (fun _ => constFrame 4 4 0)
        (fun _ => constFrame 4 4 255) (fun _ _ _ => 0) 3 = some mask ∧
      eDeint 1 (constFrame 4 8 0) mask (constFrame 4 8 1) (constFrame 4 8 200)
        (constFrame 4 8 3) (constFrame 4 8 4) = some outE ∧
      cubicDeint 1 (constFrame 4 8 0) mask (constFrame 4 8 1) (constFrame 4 8 200)
        (constFrame 4 8 3) = some outC ∧
      (outE 0).pix 4 1 = 200 ∧ (outC 0).pix 4 1 = 200 := by
  obtain ⟨mask, outE, outC, h1, h2, h3, h4⟩ := C5_kept_lines_pass_through (defaultData 4 4 20)
    (fun _ => constFrame 4 4 0) (fun _ => constFrame 4 4 255) (fun _ _ _ => 0) 3
    (constFrame 4 8 0) (constFrame 4 8 1) (constFrame 4 8 200) (constFrame 4 8 3)
    (constFrame 4 8 4)
    (defaultData_config 4 4 20) (defaultData_geometry 4 4 20 0 255)
    (fun p hp => by
      rw [gray_plane_zero p hp]
      show 2 ≤ 4
      decide)
    (fun p hp => by
      rw [gray_plane_zero p hp]
      exact ⟨rfl, rfl⟩)
    (fun _ _ => ⟨rfl, rfl⟩) (fun _ _ => ⟨rfl, rfl⟩) (fun _ _ => ⟨rfl, rfl⟩)
    (fun _ _ => ⟨rfl, rfl⟩)
  exact ⟨mask, outE, outC, h1, h2, h3, h4 0 4 1 (by decide) (by decide) (by decide) (by decide)⟩

/-! ## Stage M: the motion mask -/

/-- A loop nest over a plane of two halves (`H` rows each) whose body stores one byte at the
pixel it visits in the upper half and one at the same position of the lower half. -/
theorem pixelLoop2_rel (W H : Nat) (body : Nat → Nat → Plane → Option Plane)
    (R1 R2 : Nat → Nat → Byte → Prop) (dst : Plane)
    (hbody : ∀ y x (d : Plane), y < H → x < W → d.width = dst.width → d.height = dst.height →
      ∃ b1 b2, body y x d = some ((d.set y x b1).set (y + H) x b2) ∧ R1 y x b1 ∧ R2 y x b2) :
    ∃ out, forLoop (fun y d => forLoop (fun x d => body y x d) W d) H dst = some out ∧
      out.width = dst.width ∧ out.height = dst.height ∧
      (∀ y x, y < H → x < W → R1 y x (out.pix y x) ∧ R2 y x (out.pix (y + H) x)) ∧
      (∀ y x, ¬ (y < 2 * H ∧ x < W) → out.pix y x = dst.pix y x) := by
  have hset : ∀ (d : Plane) (y x : Nat) (b1 b2 : Byte) (r c : Nat), y < H →
      ((d.set y x b1).set (y + H) x b2).pix r c
        = if r = y + H ∧ c = x then b2 else if r = y ∧ c = x then b1 else d.pix r c := by
    intro d y x b1 b2 r c _
    simp only [Plane.set]
  have key := forLoop_inv (fun y d => forLoop (fun x d => body y x d) W d)
    (fun n d => d.width = dst.width ∧ d.height = dst.height ∧
      (∀ y x, y < n → x < W → R1 y x (d.pix y x) ∧ R2 y x (d.pix (y + H) x)) ∧
      (∀ r c, ¬ ((r < n ∨ (H ≤ r ∧ r < H + n)) ∧ c < W) → d.pix r c = dst.pix r c)) H dst
    ⟨rfl, rfl, fun y x hy => absurd hy (Nat.not_lt_zero y), fun _ _ _ => rfl⟩
    (by
      intro y d hy ⟨hw, hh, hdone, hrest⟩
      have inner := forLoop_inv (fun x d => body y x d)
        (fun m e => e.width = dst.width ∧ e.height = dst.height ∧
          (∀ r c, (r < y ∧ c < W) ∨ (r = y ∧ c < m) →
            R1 r c (e.pix r c) ∧ R2 r c (e.pix (r + H) c)) ∧
          (∀ r c, ¬ (((r < y ∨ (H ≤ r ∧ r < H + y)) ∧ c < W) ∨
              ((r = y ∨ r = y + H) ∧ c < m)) → e.pix r c = dst.pix r c)) W d
        ⟨hw, hh, by
            intro r c hrc
            rcases hrc with h | h
            · exact hdone r c h.1 h.2
            · exact absurd h.2 (Nat.not_lt_zero c),
          by
            intro r c hrc
            apply hrest
            intro h
            exact hrc (Or.inl h)⟩
        (by
          intro x e hx ⟨hw', hh', hd', hr'⟩
          obtain ⟨b1, b2, hb, hR1, hR2⟩ := hbody y x e hy hx hw' hh'
          refine ⟨(e.set y x b1).set (y + H) x b2, hb, hw', hh', ?_, ?_⟩
          · intro r c hrc
            rw [hset e y x b1 b2 r c hy, hset e y x b1 b2 (r + H) c hy]
            by_cases heq : r = y ∧ c = x
            · obtain ⟨rfl, rfl⟩ := heq
              have n1 : ¬ (r = r + H) := by omega
              simp only [n1, false_and, if_false, and_self, if_true]
              exact ⟨hR1, hR2⟩
            · have n1 : ¬ (r = y + H ∧ c = x) := by omega
              have n2 : ¬ (r + H = y + H ∧ c = x) := by omega
              have n3 : ¬ (r + H = y ∧ c = x) := by omega
              simp only [n1, n2, n3, heq, if_false]
              apply hd'
              rcases hrc with h | h
              · exact Or.inl h
              · right
                refine ⟨h.1, ?_⟩
                have : c ≠ x := fun hcx => heq ⟨h.1, hcx⟩
                omega
          · intro r c hrc
            rw [hset e y x b1 b2 r c hy]
            have n1 : ¬ (r = y + H ∧ c = x) := by
              intro h
              apply hrc
              right
              exact ⟨Or.inr h.1, by omega⟩
            have n2 : ¬ (r = y ∧ c = x) := by
              intro h
              apply hrc
              right
              exact ⟨Or.inl h.1, by omega⟩
            simp only [n1, n2, if_false]
            apply hr'
            intro h
            apply hrc
            rcases h with h | h
            · exact Or.inl h
            · exact Or.inr ⟨h.1, by omega⟩)
      obtain ⟨e, he, hw', hh', hd', hr'⟩ := inner
      refine ⟨e, he, hw', hh', ?_, ?_⟩
      · intro r c hr hc
        apply hd'
        by_cases h : r < y
        · exact Or.inl ⟨h, hc⟩
        · exact Or.inr ⟨by omega, hc⟩
      · intro r c hrc
        apply hr'
        intro h
        apply hrc
        rcases h with h | h
        · exact ⟨by omega, h.2⟩
        · exact ⟨by omega, h.2⟩)
  obtain ⟨out, ho, hw, hh, hd, hr⟩ := key
  refine ⟨out, ho, hw, hh, hd, ?_⟩
  intro y x hyx
  apply hr
  intro h
  apply hyx
  exact ⟨by omega, h.2⟩

theorem offplut_some (d : TDeintModData) (plane x : Nat)
    (hx : x < planeWidth d.vi.format d.vi.width plane) :
    offplut d plane x = some (if x = 0 then -1 else 1) := by
  simp only [offplut, hx, if_true]

theorem offnlut_some (d : TDeintModData) (plane x : Nat)
    (hx : x < planeWidth d.vi.format d.vi.width plane) :
    offnlut d plane x
      = some (if (x : Int) = (planeWidth d.vi.format d.vi.width plane : Int) - 1
          then -1 else 1) := by
  simp only [offnlut, hx, if_true]

/-- The nine stencil reads of `threshMask` and `combineMasks` stay inside a plane that has at
least two rows and two columns. -/
theorem stencil_reads (src : Plane) (h w y x : Nat) (offp offn : Int)
    (hw : src.width = w) (hh : h ≤ src.height) (hy : y < h) (hx : x < w)
    (h2 : 2 ≤ h) (w2 : 2 ≤ w)
    (hoffp : offp = if x = 0 then -1 else 1)
    (hoffn : offn = if (x : Int) = (w : Int) - 1 then -1 else 1) :
    ∀ r c : Int, (r = rowPrev y ∨ r = y ∨ r = rowNext y h) →
      (c = x - offp ∨ c = x ∨ c = x + offn) → ∃ v, src.read r c = some v := by
  intro r c hr hc
  have hrb : 0 ≤ r ∧ r < h := by
    unfold rowPrev rowNext at hr
    rcases hr with rfl | rfl | rfl
    · split_ifs <;> omega
    · omega
    · split_ifs <;> omega
  have hcb : 0 ≤ c ∧ c < w := by
    subst hoffp hoffn
    rcases hc with rfl | rfl | rfl
    · split_ifs <;> omega
    · omega
    · split_ifs <;> omega
  have hin : src.inside r c := ⟨hrb.1, by omega, hcb.1, by omega⟩
  refine ⟨((src.pix r.toNat c.toNat).val : Int), ?_⟩
  simp only [Plane.read, hin, if_true]

theorem readSquare_some (d : TDeintModData) (plane : Nat) (src : Plane) (y x : Nat)
    (hw : src.width = planeWidth d.vi.format d.vi.width plane)
    (hy : y < src.height) (hx : x < src.width) (h2 : 2 ≤ src.height) (w2 : 2 ≤ src.width) :
    ∃ s, readSquare d plane src y x = some s := by
  have hrd := stencil_reads src src.height src.width y x _ _ rfl (Nat.le_refl _) hy hx h2 w2
    rfl (by rw [hw])
  have hop := offplut_some d plane x (by omega)
  have hon := offnlut_some d plane x (by omega)
  obtain ⟨v1, e1⟩ := hrd (rowPrev y) (x - _) (Or.inl rfl) (Or.inl rfl)
  obtain ⟨v2, e2⟩ := hrd (rowPrev y) x (Or.inl rfl) (Or.inr (Or.inl rfl))
  obtain ⟨v3, e3⟩ := hrd (rowPrev y) (x + _) (Or.inl rfl) (Or.inr (Or.inr rfl))
  obtain ⟨v4, e4⟩ := hrd y (x - _) (Or.inr (Or.inl rfl)) (Or.inl rfl)
  obtain ⟨v5, e5⟩ := hrd y x (Or.inr (Or.inl rfl)) (Or.inr (Or.inl rfl))
  obtain ⟨v6, e6⟩ := hrd y (x + _) (Or.inr (Or.inl rfl)) (Or.inr (Or.inr rfl))
  obtain ⟨v7, e7⟩ := hrd (rowNext y src.height) (x - _) (Or.inr (Or.inr rfl)) (Or.inl rfl)
  obtain ⟨v8, e8⟩ := hrd (rowNext y src.height) x (Or.inr (Or.inr rfl)) (Or.inr (Or.inl rfl))
  obtain ⟨v9, e9⟩ := hrd (rowNext y src.height) (x + _) (Or.inr (Or.inr rfl))
    (Or.inr (Or.inr rfl))
  refine ⟨{ ppl := v1, ppc := v2, ppr := v3, cl := v4, c := v5, cr := v6, pnl := v7,
            pnc := v8, pnr := v9 }, ?_⟩
  simp only [readSquare, hop, hon, Option.bind_eq_bind, Option.some_bind, e1, e2, e3, e4, e5,
    e6, e7, e8, e9, Option.pure_def]

theorem readCross_some (d : TDeintModData) (plane : Nat) (src : Plane) (y x : Nat)
    (hw : src.width = planeWidth d.vi.format d.vi.width plane)
    (hy : y < src.height) (hx : x < src.width) (h2 : 2 ≤ src.height) (w2 : 2 ≤ src.width) :
    ∃ s, readCross d plane src y x = some s := by
  have hrd := stencil_reads src src.height src.width y x _ _ rfl (Nat.le_refl _) hy hx h2 w2
    rfl (by rw [hw])
  have hop := offplut_some d plane x (by omega)
  have hon := offnlut_some d plane x (by omega)
  obtain ⟨v2, e2⟩ := hrd (rowPrev y) x (Or.inl rfl) (Or.inr (Or.inl rfl))
  obtain ⟨v4, e4⟩ := hrd y (x - _) (Or.inr (Or.inl rfl)) (Or.inl rfl)
  obtain ⟨v5, e5⟩ := hrd y x (Or.inr (Or.inl rfl)) (Or.inr (Or.inl rfl))
  obtain ⟨v6, e6⟩ := hrd y (x + _) (Or.inr (Or.inl rfl)) (Or.inr (Or.inr rfl))
  obtain ⟨v8, e8⟩ := hrd (rowNext y src.height) x (Or.inr (Or.inr rfl)) (Or.inr (Or.inl rfl))
  refine ⟨{ ppl := 0, ppc := v2, ppr := 0, cl := v4, c := v5, cr := v6, pnl := 0,
            pnc := v8, pnr := 0 }, ?_⟩
  simp only [readCross, hop, hon, Option.bind_eq_bind, Option.some_bind, e2, e4, e5,
    e6, e8, Option.pure_def]

theorem threshAt_some (d : TDeintModData) (plane : Nat) (src : Plane) (y x : Nat)
    (hw : src.width = planeWidth d.vi.format d.vi.width plane)
    (hy : y < src.height) (hx : x < src.width) (h2 : 2 ≤ src.height) (w2 : 2 ≤ src.width)
    (ht : 0 ≤ d.ttype ∧ d.ttype ≤ 5) :
    ∃ a, threshAt d plane src y x = some a := by
  obtain ⟨sc, hsc⟩ := readCross_some d plane src y x hw hy hx h2 w2
  obtain ⟨sq, hsq⟩ := readSquare_some d plane src y x hw hy hx h2 w2
  have h05 : d.ttype = 0 ∨ d.ttype = 1 ∨ d.ttype = 2 ∨ d.ttype = 3 ∨ d.ttype = 4 ∨
      d.ttype = 5 := by omega
  unfold threshAt
  rw [hsc, hsq]
  rcases h05 with h | h | h | h | h | h <;> simp [h]

theorem memsetRows_some (p : Plane) (r0 n : Nat) (b : Byte) (h : r0 + n ≤ p.height) :
    ∃ o, p.memsetRows r0 n b = some o ∧ o.width = p.width ∧ o.height = p.height :=
  ⟨{ p with pix := fun r c => if r0 ≤ r ∧ r < r0 + n then b else p.pix r c },
    by simp only [Plane.memsetRows, h, if_true], rfl, rfl⟩

theorem threshPixel_some (d : TDeintModData) (plane : Nat) (src : Plane) (y x : Nat)
    (dst : Plane)
    (hw : src.width = planeWidth d.vi.format d.vi.width plane)
    (hy : y < src.height) (hx : x < src.width) (h2 : 2 ≤ src.height) (w2 : 2 ≤ src.width)
    (ht : 0 ≤ d.ttype ∧ d.ttype ≤ 5)
    (hdw : dst.width = src.width) (hdh : dst.height = 2 * src.height) :
    ∃ b1 b2, threshPixel d plane src y x dst
      = some ((dst.set y x b1).set (y + src.height) x b2) := by
  obtain ⟨a, ha⟩ := threshAt_some d plane src y x hw hy hx h2 w2 ht
  have w1 := dst.write_some y x (by omega) (by omega) y x rfl rfl (sar (a + 2) 2)
  have w2 := (dst.set y x (toU8 (sar (a + 2) 2))).write_some (y + src.height) x
    (by show y + src.height < dst.height; omega) (by show x < dst.width; omega)
    ((y : Int) + src.height) x (by push_cast; rfl) rfl (sar (a + 1) 1)
  refine ⟨toU8 (sar (a + 2) 2), toU8 (sar (a + 1) 1), ?_⟩
  simp only [threshPixel, ha, w1, w2, Option.bind_eq_bind, Option.some_bind]

theorem threshMaskPlane_dims (d : TDeintModData) (plane : Nat) (src dst : Plane)
    (hw : src.width = planeWidth d.vi.format d.vi.width plane)
    (h2 : 2 ≤ src.height) (w2 : 2 ≤ src.width)
    (hdw : dst.width = src.width) (hdh : dst.height = 2 * src.height) :
    ∃ out, threshMaskPlane d plane src dst = some out ∧
      out.width = dst.width ∧ out.height = dst.height := by
  have two : ∀ (p : Plane) (b1 b2 : Byte), p.width = dst.width → p.height = dst.height →
      ∃ out, (p.memsetRows 0 src.height b1).bind
          (fun q => q.memsetRows src.height src.height b2) = some out ∧
        out.width = dst.width ∧ out.height = dst.height := by
    intro p b1 b2 hpw hph
    obtain ⟨o1, ho1, hw1, hh1⟩ := memsetRows_some p 0 src.height b1 (by omega)
    obtain ⟨o2, ho2, hw2, hh2⟩ := memsetRows_some o1 src.height src.height b2 (by omega)
    exact ⟨o2, by rw [ho1]; exact ho2, by omega, by omega⟩
  have post : ∀ (p : Plane), p.width = dst.width → p.height = dst.height →
      ∃ out, (if plane = 0 ∧ d.mtqL > -1 then p.memsetRows 0 src.height (toU8 d.mtqL)
          else if plane = 0 ∧ d.mthL > -1 then p.memsetRows src.height src.height (toU8 d.mthL)
          else if plane > 0 ∧ d.mtqC > -1 then p.memsetRows 0 src.height (toU8 d.mtqC)
          else if plane > 0 ∧ d.mthC > -1
            then p.memsetRows src.height src.height (toU8 d.mthC)
          else pure p) = some out ∧
        out.width = dst.width ∧ out.height = dst.height := by
    intro p hpw hph
    split_ifs
    · obtain ⟨o, ho, h1, h2⟩ := memsetRows_some p 0 src.height (toU8 d.mtqL) (by omega)
      exact ⟨o, ho, by omega, by omega⟩
    · obtain ⟨o, ho, h1, h2⟩ := memsetRows_some p src.height src.height (toU8 d.mthL)
        (by omega)
      exact ⟨o, ho, by omega, by omega⟩
    · obtain ⟨o, ho, h1, h2⟩ := memsetRows_some p 0 src.height (toU8 d.mtqC) (by omega)
      exact ⟨o, ho, by omega, by omega⟩
    · obtain ⟨o, ho, h1, h2⟩ := memsetRows_some p src.height src.height (toU8 d.mthC)
        (by omega)
      exact ⟨o, ho, by omega, by omega⟩
    · exact ⟨p, rfl, hpw, hph⟩
  have loop : ∃ q, (if 0 ≤ d.ttype ∧ d.ttype ≤ 5 then
        forLoop (fun y dst => forLoop (fun x dst => threshPixel d plane src y x dst)
          src.width dst) src.height dst
      else pure dst) = some q ∧ q.width = dst.width ∧ q.height = dst.height := by
    split_ifs with ht
    · obtain ⟨q, hq, hqw, hqh, _, _⟩ := pixelLoop2_rel src.width src.height
        (fun y x e => threshPixel d plane src y x e) (fun _ _ _ => True) (fun _ _ _ => True)
        dst (by
          intro y x e hy hx hew heh
          obtain ⟨b1, b2, hb⟩ := threshPixel_some d plane src y x e hw hy hx h2 w2 ht
            (by omega) (by omega)
          exact ⟨b1, b2, hb, trivial, trivial⟩)
      exact ⟨q, hq, hqw, hqh⟩
    · exact ⟨dst, rfl, rfl, rfl⟩
  unfold threshMaskPlane
  simp only []
  by_cases c1 : plane = 0 ∧ d.mtqL > -1 ∧ d.mthL > -1
  · rw [if_pos c1]
    exact two dst _ _ rfl rfl
  · rw [if_neg c1]
    by_cases c2 : plane > 0 ∧ d.mtqC > -1 ∧ d.mthC > -1
    · rw [if_pos c2]
      exact two dst _ _ rfl rfl
    · rw [if_neg c2]
      obtain ⟨q, hq, hqw, hqh⟩ := loop
      obtain ⟨out, ho, how, hoh⟩ := post q hqw hqh
      refine ⟨out, ?_, how, hoh⟩
      simp only [Option.bind_eq_bind]
      by_cases ht : 0 ≤ d.ttype ∧ d.ttype ≤ 5
      · rw [if_pos ht] at hq ⊢
        rw [hq]
        exact ho
      · rw [if_neg ht] at hq ⊢
        rw [hq]
        exact ho

theorem wrap32_id (i : Int) (h : -2147483648 ≤ i ∧ i ≤ 2147483647) : wrap32 i = i := by
  unfold wrap32
  omega

theorem mlut_some (d : TDeintModData) (m1 m2 : Byte) :
    mlut d (min (m1.val : Int) (m2.val : Int))
      = some (min (max (wrap32 (min (m1.val : Int) (m2.val : Int) + d.nt)) d.minthresh)
          d.maxthresh) := by
  have h1 := m1.isLt
  have h2 := m2.isLt
  have h : 0 ≤ min (m1.val : Int) (m2.val : Int) ∧ min (m1.val : Int) (m2.val : Int) < 256 := by
    omega
  simp only [mlut, h, and_self, if_true]

theorem motionPixel_spec (d : TDeintModData) (src1 msk1 src2 msk2 dst : Plane) (y x : Nat)
    (hy : y < src1.height) (hx : x < src1.width)
    (hs2 : src2.sameDims src1)
    (hm1 : msk1.width = src1.width ∧ msk1.height = 2 * src1.height)
    (hm2 : msk2.width = src1.width ∧ msk2.height = 2 * src1.height)
    (hd : dst.width = src1.width ∧ dst.height = 2 * src1.height) :
    motionPixel d src1 msk1 src2 msk2 y x dst
      = some ((dst.set y x (motionValue d (src1.pix y x) (src2.pix y x) (msk1.pix y x)
            (msk2.pix y x))).set (y + src1.height) x
          (motionValue d (src1.pix y x) (src2.pix y x) (msk1.pix (y + src1.height) x)
            (msk2.pix (y + src1.height) x))) := by
  obtain ⟨hs2w, hs2h⟩ := hs2
  have r1 := src1.read_some y x hy hx y x rfl rfl
  have r2 := src2.read_some y x (by omega) (by omega) y x rfl rfl
  have q1 := msk1.read_some y x (by omega) (by omega) y x rfl rfl
  have q2 := msk2.read_some y x (by omega) (by omega) y x rfl rfl
  have t1 := msk1.read_some (y + src1.height) x (by omega) (by omega)
    ((y : Int) + src1.height) x (by push_cast; rfl) rfl
  have t2 := msk2.read_some (y + src1.height) x (by omega) (by omega)
    ((y : Int) + src1.height) x (by push_cast; rfl) rfl
  have w1 := fun v => dst.write_some y x (by omega) (by omega) y x rfl rfl v
  have w2 := fun (b : Byte) v => (dst.set y x b).write_some (y + src1.height) x
    (by show y + src1.height < dst.height; omega) (by show x < dst.width; omega)
    ((y : Int) + src1.height) x (by push_cast; rfl) rfl v
  have e255 : toU8 255 = (255 : Byte) := by decide
  have e0 : toU8 0 = (0 : Byte) := by decide
  simp only [motionPixel, r1, r2, q1, q2, t1, t2, mlut_some, Option.bind_eq_bind,
    Option.some_bind, motionValue]
  split_ifs <;> simp only [w1, w2, Option.some_bind, e255, e0]

theorem motionMaskPlane_spec (d : TDeintModData) (src1 msk1 src2 msk2 dst : Plane)
    (hs2 : src2.sameDims src1)
    (hm1 : msk1.width = src1.width ∧ msk1.height = 2 * src1.height)
    (hm2 : msk2.width = src1.width ∧ msk2.height = 2 * src1.height)
    (hd : dst.width = src1.width ∧ dst.height = 2 * src1.height) :
    ∃ out, motionMaskPlane d src1 msk1 src2 msk2 dst = some out ∧
      out.width = dst.width ∧ out.height = dst.height ∧
      ∀ y x, y < src1.height → x < src1.width →
        out.pix y x = motionValue d (src1.pix y x) (src2.pix y x) (msk1.pix y x)
          (msk2.pix y x) ∧
        out.pix (y + src1.height) x = motionValue d (src1.pix y x) (src2.pix y x)
          (msk1.pix (y + src1.height) x) (msk2.pix (y + src1.height) x) := by
  obtain ⟨out, ho, hw, hh, hin, _⟩ := pixelLoop2_rel src1.width src1.height
    (fun y x e => motionPixel d src1 msk1 src2 msk2 y x e)
    (fun y x b => b = motionValue d (src1.pix y x) (src2.pix y x) (msk1.pix y x)
      (msk2.pix y x))
    (fun y x b => b = motionValue d (src1.pix y x) (src2.pix y x)
      (msk1.pix (y + src1.height) x) (msk2.pix (y + src1.height) x)) dst
    (by
      intro y x e hy hx hew heh
      exact ⟨_, _, motionPixel_spec d src1 msk1 src2 msk2 e y x hy hx hs2 hm1 hm2
        ⟨hew.trans hd.1, heh.trans hd.2⟩, rfl, rfl⟩)
  exact ⟨out, ho, hw, hh, hin⟩

theorem motionValue_binary (d : TDeintModData) (s1 s2 m1 m2 : Byte) :
    (motionValue d s1 s2 m1 m2).val = 0 ∨ (motionValue d s1 s2 m1 m2).val = 255 := by
  unfold motionValue
  split_ifs
  · right; rfl
  · left; rfl

theorem motionValue_same (d : TDeintModData) (s m1 m2 : Byte)
    (hmin : 0 ≤ d.minthresh) (hmax : 0 ≤ d.maxthresh) :
    motionValue d s s m1 m2 = 255 := by
  unfold motionValue
  have h : |(s.val : Int) - (s.val : Int)|
      ≤ min (max (wrap32 (min (m1.val : Int) (m2.val : Int) + d.nt)) d.minthresh)
          d.maxthresh := by
    rw [sub_self, abs_zero]
    exact le_min (le_trans hmin (le_max_right _ _)) hmax
  rw [if_pos h]

theorem andValue_binary (c a b : Byte) (hc : c.val = 0 ∨ c.val = 255)
    (ha : a.val = 0 ∨ a.val = 255) (hb : b.val = 0 ∨ b.val = 255) :
    (andValue c a b).val = 0 ∨ (andValue c a b).val = 255 := by
  unfold andValue
  rcases hc with h1 | h1 <;> rcases ha with h2 | h2 <;> rcases hb with h3 | h3 <;>
    rw [h1, h2, h3] <;> decide

theorem andValue_full : andValue 255 255 255 = 255 := by decide

theorem andPixel_spec (src1 src2 dst : Plane) (y x : Nat)
    (hy : y < src1.height) (hx : x < src1.width)
    (hs2 : src2.sameDims src1) (hd : dst.sameDims src1) :
    andPixel src1 src2 y x dst
      = some (dst.set y x (andValue (dst.pix y x) (src1.pix y x) (src2.pix y x))) := by
  obtain ⟨a1, a2⟩ := hs2
  obtain ⟨b1, b2⟩ := hd
  have r1 := src1.read_some y x hy hx y x rfl rfl
  have r2 := src2.read_some y x (by omega) (by omega) y x rfl rfl
  have r3 := dst.read_some y x (by omega) (by omega) y x rfl rfl
  have w1 := fun v => dst.write_some y x (by omega) (by omega) y x rfl rfl v
  simp only [andPixel, r1, r2, r3, w1, Option.bind_eq_bind, Option.some_bind, andValue,
    Int.toNat_ofNat]

theorem andMasksPlane_spec (src1 src2 dst : Plane)
    (hs2 : src2.sameDims src1) (hd : dst.sameDims src1) :
    ∃ out, andMasksPlane src1 src2 dst = some out ∧
      out.width = dst.width ∧ out.height = dst.height ∧
      ∀ y x, y < src1.height → x < src1.width →
        out.pix y x = andValue (dst.pix y x) (src1.pix y x) (src2.pix y x) := by
  obtain ⟨out, ho, hw, hh, hin, _⟩ := pixelLoop_rel src1.width src1.height
    (fun y x e => andPixel src1 src2 y x e)
    (fun y x old b => b = andValue old (src1.pix y x) (src2.pix y x)) dst
    (by
      intro y x e hy hx hew heh
      exact ⟨_, andPixel_spec src1 src2 e y x hy hx hs2
        ⟨hew.trans hd.1, heh.trans hd.2⟩, rfl⟩)
  exact ⟨out, ho, hw, hh, hin⟩

theorem rowPrev_eq (y : Nat) : rowPrev y = ((prevRow y : Nat) : Int) := by
  unfold rowPrev prevRow
  split_ifs <;> omega

theorem rowNext_eq (y h : Nat) (hy : y < h) (h2 : 2 ≤ h) :
    rowNext y h = ((nextRow y h : Nat) : Int) := by
  unfold rowNext nextRow
  split_ifs <;> omega

theorem combinePixel_spec (d : TDeintModData) (plane : Nat) (src dst : Plane) (h y x : Nat)
    (hw : src.width = planeWidth d.vi.format d.vi.width plane)
    (hsh : src.height = 2 * h) (hy : y < h) (hx : x < src.width)
    (h2 : 2 ≤ h) (w2 : 2 ≤ src.width)
    (hdw : dst.width = src.width) (hdh : dst.height = h) :
    combinePixel d plane src h y x dst
      = some (dst.set y x (combineValue d src h src.width y x (dst.pix y x))) := by
  have hop := offplut_some d plane x (by omega)
  have hon := offnlut_some d plane x (by omega)
  have hpr : prevRow y < src.height := by unfold prevRow; split_ifs <;> omega
  have hnr : nextRow y h < src.height := by unfold nextRow; split_ifs <;> omega
  have hlc : leftCol x < src.width := by unfold leftCol; split_ifs <;> omega
  have hrc : rightCol x src.width < src.width := by unfold rightCol; split_ifs <;> omega
  have elc : (x : Int) - (if x = 0 then -1 else 1) = ((leftCol x : Nat) : Int) := by
    unfold leftCol; split_ifs <;> omega
  have erc : (x : Int) + (if (x : Int)
      = (planeWidth d.vi.format d.vi.width plane : Int) - 1 then -1 else 1)
      = ((rightCol x src.width : Nat) : Int) := by
    rw [← hw]; unfold rightCol; split_ifs <;> omega
  have c0 := src.read_some y x (by omega) hx y x rfl rfl
  have c1 := src.read_some (y + h) x (by omega) hx ((y : Int) + h) x (by push_cast; rfl) rfl
  have e1 := src.read_some (prevRow y) (leftCol x) hpr hlc (rowPrev y) _ (rowPrev_eq y) elc
  have e2 := src.read_some (prevRow y) x hpr hx (rowPrev y) x (rowPrev_eq y) rfl
  have e3 := src.read_some (prevRow y) (rightCol x src.width) hpr hrc (rowPrev y) _
    (rowPrev_eq y) erc
  have e4 := src.read_some y (leftCol x) (by omega) hlc y _ rfl elc
  have e5 := src.read_some y (rightCol x src.width) (by omega) hrc y _ rfl erc
  have e6 := src.read_some (nextRow y h) (leftCol x) hnr hlc (rowNext y h) _
    (rowNext_eq y h hy h2) elc
  have e7 := src.read_some (nextRow y h) x hnr hx (rowNext y h) x (rowNext_eq y h hy h2) rfl
  have e8 := src.read_some (nextRow y h) (rightCol x src.width) hnr hrc (rowNext y h) _
    (rowNext_eq y h hy h2) erc
  have w1 := fun v => dst.write_some y x (by omega) (by omega) y x rfl rfl v
  have e255 : toU8 255 = (255 : Byte) := by decide
  have nz : ∀ b : Byte, nonzero ((b.val : Int)) = if b ≠ 0 then 1 else 0 := by
    intro b
    unfold nonzero
    by_cases hb : b = 0
    · subst hb
      simp
    · have hv : ¬ ((b.val : Int) = 0) := by
        intro h0
        apply hb
        apply Fin.ext
        have : b.val = 0 := by omega
        rw [this]
        rfl
      rw [if_pos hv, if_pos hb]
  have hcount : neighbourCount d plane src h y x = some (combineCount src h src.width y x) := by
    simp only [neighbourCount, e1, e2, e3, e4, e5, e6, e7, e8, hop, hon,
      Option.bind_eq_bind, Option.some_bind, Option.pure_def, combineCount, nz]
  have q0z : ((src.pix y x).val : Int) ≠ 0 ↔ src.pix y x ≠ 0 := by
    constructor
    · intro hb hb0
      apply hb
      rw [hb0]
      rfl
    · intro hb hb0
      apply hb
      apply Fin.ext
      have : (src.pix y x).val = 0 := by omega
      rw [this]
      rfl
  have q1z : ((src.pix (y + h) x).val : Int) = 0 ↔ src.pix (y + h) x = 0 := by
    constructor
    · intro hb
      apply Fin.ext
      have : (src.pix (y + h) x).val = 0 := by omega
      rw [this]
      rfl
    · intro hb
      rw [hb]
      rfl
  have main : combinePixel d plane src h y x dst
      = (if src.pix y x ≠ 0 then some dst
        else if src.pix (y + h) x = 0 then some dst
        else if combineCount src h src.width y x ≥ d.cstr then some (dst.set y x 255)
        else some dst) := by
    simp only [combinePixel, c0, c1, hcount, w1, e255, Option.some_bind, q0z, q1z]
  rw [main]
  unfold combineValue
  by_cases q0 : src.pix y x ≠ 0
  · rw [if_pos q0, if_pos q0, Plane.set_self]
  · rw [if_neg q0, if_neg q0]
    by_cases q1 : src.pix (y + h) x = 0
    · rw [if_pos q1, if_pos q1, Plane.set_self]
    · rw [if_neg q1, if_neg q1]
      by_cases q2 : combineCount src h src.width y x ≥ d.cstr
      · rw [if_pos q2, if_pos q2]
      · rw [if_neg q2, if_neg q2, Plane.set_self]

theorem combineMasksPlane_spec (d : TDeintModData) (plane : Nat) (src dst : Plane) (h : Nat)
    (hw : src.width = planeWidth d.vi.format d.vi.width plane)
    (hsh : src.height = 2 * h) (h2 : 2 ≤ h) (w2 : 2 ≤ src.width)
    (hdw : dst.width = src.width) (hdh : dst.height = h) :
    ∃ out, combineMasksPlane d plane src dst = some out ∧
      out.width = dst.width ∧ out.height = dst.height ∧
      ∀ y x, y < h → x < src.width →
        out.pix y x = combineValue d src h src.width y x (src.pix y x) := by
  have hcopy : dst.copyRows src dst.height
      = some { dst with pix := fun r c => if r < dst.height then src.pix r c else dst.pix r c } := by
    have hc : dst.height ≤ src.height ∧ dst.height ≤ dst.height ∧ src.width = dst.width :=
      ⟨by omega, Nat.le_refl _, hdw.symm⟩
    simp only [Plane.copyRows, hc, and_self, if_true]
  obtain ⟨out, ho, how, hoh, hin, _⟩ := pixelLoop_rel src.width dst.height
    (fun y x e => combinePixel d plane src dst.height y x e)
    (fun y x old b => b = combineValue d src h src.width y x old)
    { dst with pix := fun r c => if r < dst.height then src.pix r c else dst.pix r c }
    (by
      intro y x e hy hx hew heh
      refine ⟨_, ?_, rfl⟩
      rw [hdh]
      exact combinePixel_spec d plane src e h y x hw hsh (by omega) hx h2 w2
        (hew.trans hdw) (heh.trans hdh))
  refine ⟨out, ?_, how, hoh, ?_⟩
  · simp only [combineMasksPlane, hcopy, Option.bind_eq_bind, Option.some_bind]
    exact ho
  · intro y x hy hx
    have := hin y x (by omega) hx
    rw [this]
    have hlt : y < dst.height := by omega
    simp only [hlt, if_true]

/-- A per-plane loop over a frame: every processed plane satisfies what its plane function
guarantees. -/
theorem frameLoop_lift (n : Nat) (F : Nat → Plane → Option Plane) (dst : Frame)
    (P : Nat → Plane → Prop)
    (h : ∀ p, p < n → ∃ o, F p (dst p) = some o ∧ P p o) :
    ∃ out : Frame, forLoop (fun plane fr => do
        let p ← F plane (fr plane)
        pure (Function.update fr plane p)) n dst = some out ∧
      (∀ p, p < n → P p (out p)) ∧ (∀ p, n ≤ p → out p = dst p) := by
  obtain ⟨out, ho, h1, h2⟩ := frameLoop_spec n F dst (fun p hp => by
    obtain ⟨o, ho, _⟩ := h p hp
    exact ⟨o, ho⟩)
  refine ⟨out, ho, ?_, h2⟩
  intro p hp
  obtain ⟨o, ho', hP⟩ := h p hp
  have := h1 p hp
  rw [ho'] at this
  rw [← Option.some.inj this]
  exact hP

theorem threshPixel_value (d : TDeintModData) (plane : Nat) (src : Plane) (y x : Nat)
    (dst : Plane)
    (hw : src.width = planeWidth d.vi.format d.vi.width plane)
    (hy : y < src.height) (hx : x < src.width) (h2 : 2 ≤ src.height) (w2 : 2 ≤ src.width)
    (ht : 0 ≤ d.ttype ∧ d.ttype ≤ 5)
    (hdw : dst.width = src.width) (hdh : dst.height = 2 * src.height) :
    ∃ a, threshAt d plane src y x = some a ∧
      threshPixel d plane src y x dst
        = some ((dst.set y x (toU8 (sar (a + 2) 2))).set (y + src.height) x
            (toU8 (sar (a + 1) 1))) := by
  obtain ⟨a, ha⟩ := threshAt_some d plane src y x hw hy hx h2 w2 ht
  have w1 := dst.write_some y x (by omega) (by omega) y x rfl rfl (sar (a + 2) 2)
  have w2 := (dst.set y x (toU8 (sar (a + 2) 2))).write_some (y + src.height) x
    (by show y + src.height < dst.height; omega) (by show x < dst.width; omega)
    ((y : Int) + src.height) x (by push_cast; rfl) rfl (sar (a + 1) 1)
  refine ⟨a, ha, ?_⟩
  simp only [threshPixel, ha, w1, w2, Option.bind_eq_bind, Option.some_bind]

/-- On a plane without override `threshMask` stores `(at + 2) >> 2` in the upper half and
`(at + 1) >> 1` in the lower half, `at` being the value of `threshAt` at the pixel. -/
theorem threshMaskPlane_values (d : TDeintModData) (plane : Nat) (src dst : Plane)
    (hw : src.width = planeWidth d.vi.format d.vi.width plane)
    (h2 : 2 ≤ src.height) (w2 : 2 ≤ src.width)
    (hdw : dst.width = src.width) (hdh : dst.height = 2 * src.height)
    (ht : 0 ≤ d.ttype ∧ d.ttype ≤ 5) (hno : NoOverride d plane) :
    ∃ out, threshMaskPlane d plane src dst = some out ∧
      out.width = dst.width ∧ out.height = dst.height ∧
      ∀ y x, y < src.height → x < src.width →
        ∃ a, threshAt d plane src y x = some a ∧
          out.pix y x = toU8 (sar (a + 2) 2) ∧
          out.pix (y + src.height) x = toU8 (sar (a + 1) 1) := by
  obtain ⟨q, hq, hqw, hqh, hin, _⟩ := pixelLoop2_rel src.width src.height
    (fun y x e => threshPixel d plane src y x e)
    (fun y x b => ∃ a, threshAt d plane src y x = some a ∧ b = toU8 (sar (a + 2) 2))
    (fun y x b => ∃ a, threshAt d plane src y x = some a ∧ b = toU8 (sar (a + 1) 1))
    dst (by
      intro y x e hy hx hew heh
      obtain ⟨a, ha, hb⟩ := threshPixel_value d plane src y x e hw hy hx h2 w2 ht
        (by omega) (by omega)
      exact ⟨_, _, hb, ⟨a, ha, rfl⟩, ⟨a, ha, rfl⟩⟩)
  obtain ⟨hno0, hno1⟩ := hno
  have c1 : ¬ (plane = 0 ∧ d.mtqL > -1 ∧ d.mthL > -1) := fun h => (hno0 h.1).1 h.2.1
  have c2 : ¬ (plane > 0 ∧ d.mtqC > -1 ∧ d.mthC > -1) := fun h => (hno1 h.1).1 h.2.1
  have c3 : ¬ (plane = 0 ∧ d.mtqL > -1) := fun h => (hno0 h.1).1 h.2
  have c4 : ¬ (plane = 0 ∧ d.mthL > -1) := fun h => (hno0 h.1).2 h.2
  have c5 : ¬ (plane > 0 ∧ d.mtqC > -1) := fun h => (hno1 h.1).1 h.2
  have c6 : ¬ (plane > 0 ∧ d.mthC > -1) := fun h => (hno1 h.1).2 h.2
  refine ⟨q, ?_, hqw, hqh, ?_⟩
  · unfold threshMaskPlane
    simp only [Option.bind_eq_bind]
    rw [if_neg c1, if_neg c2, if_pos ht, hq]
    simp only [Option.some_bind]
    rw [if_neg c3, if_neg c4, if_neg c5, if_neg c6]
    rfl
  · intro y x hy hx
    obtain ⟨⟨a, ha, hb1⟩, ⟨a', ha', hb2⟩⟩ := hin y x hy hx
    rw [ha] at ha'
    have haa : a = a' := Option.some.inj ha'
    subst haa
    exact ⟨a, ha, hb1, hb2⟩

theorem planeHeight_twice (fmt : VSFormat) (h p : Nat) (hdiv : 2 ^ fmt.subSamplingH ∣ h) :
    planeHeight fmt (h * 2) p = 2 * planeHeight fmt h p := by
  rw [Nat.mul_comm]
  exact planeHeight_double fmt h p hdiv

/-- Frame-level `threshMask`: it returns a frame of the geometry of `dst`. -/
theorem threshMask_dims (d : TDeintModData) (src dst : Frame)
    (hdiv : 2 ^ d.vi.format.subSamplingH ∣ d.vi.height)
    (h2 : ∀ p, p < d.vi.format.numPlanes →
      2 ≤ planeWidth d.vi.format d.vi.width p ∧ 2 ≤ planeHeight d.vi.format d.vi.height p)
    (hs : FrameDims src d.vi.format d.vi.width d.vi.height d.vi.format.numPlanes)
    (hd : FrameDims dst d.vi.format d.vi.width (d.vi.height * 2) d.vi.format.numPlanes) :
    ∃ out, threshMask d src dst = some out ∧
      FrameDims out d.vi.format d.vi.width (d.vi.height * 2) d.vi.format.numPlanes := by
  obtain ⟨out, ho, hP, _⟩ := frameLoop_lift d.vi.format.numPlanes
    (fun plane dp => threshMaskPlane d plane (src plane) dp) dst
    (fun p o => o.width = planeWidth d.vi.format d.vi.width p ∧
      o.height = planeHeight d.vi.format (d.vi.height * 2) p)
    (by
      intro p hp
      obtain ⟨sw, sh⟩ := hs p hp
      obtain ⟨dw, dh⟩ := hd p hp
      obtain ⟨a, b⟩ := h2 p hp
      rw [planeHeight_twice _ _ _ hdiv] at dh
      obtain ⟨o, ho, ow, oh⟩ := threshMaskPlane_dims d p (src p) (dst p) sw (by omega)
        (by omega) (by omega) (by omega)
      exact ⟨o, ho, by omega, by rw [planeHeight_twice _ _ _ hdiv]; omega⟩)
  exact ⟨out, ho, hP⟩

/-- Frame-level `motionMask`. -/
theorem motionMask_spec (d : TDeintModData) (src1 msk1 src2 msk2 dst : Frame)
    (hdiv : 2 ^ d.vi.format.subSamplingH ∣ d.vi.height)
    (hs1 : FrameDims src1 d.vi.format d.vi.width d.vi.height d.vi.format.numPlanes)
    (hs2 : FrameDims src2 d.vi.format d.vi.width d.vi.height d.vi.format.numPlanes)
    (hm1 : FrameDims msk1 d.vi.format d.vi.width (d.vi.height * 2) d.vi.format.numPlanes)
    (hm2 : FrameDims msk2 d.vi.format d.vi.width (d.vi.height * 2) d.vi.format.numPlanes)
    (hd : FrameDims dst d.vi.format d.vi.width (d.vi.height * 2) d.vi.format.numPlanes) :
    ∃ out, motionMask d src1 msk1 src2 msk2 dst = some out ∧
      FrameDims out d.vi.format d.vi.width (d.vi.height * 2) d.vi.format.numPlanes ∧
      ∀ p y x, p < d.vi.format.numPlanes →
        y < planeHeight d.vi.format d.vi.height p → x < planeWidth d.vi.format d.vi.width p →
        (out p).pix y x = motionValue d ((src1 p).pix y x) ((src2 p).pix y x)
          ((msk1 p).pix y x) ((msk2 p).pix y x) ∧
        (out p).pix (y + planeHeight d.vi.format d.vi.height p) x
          = motionValue d ((src1 p).pix y x) ((src2 p).pix y x)
            ((msk1 p).pix (y + planeHeight d.vi.format d.vi.height p) x)
            ((msk2 p).pix (y + planeHeight d.vi.format d.vi.height p) x) := by
  obtain ⟨out, ho, hP, _⟩ := frameLoop_lift d.vi.format.numPlanes
    (fun plane dp => motionMaskPlane d (src1 plane) (msk1 plane) (src2 plane) (msk2 plane) dp)
    dst
    (fun p o => (o.width = planeWidth d.vi.format d.vi.width p ∧
      o.height = planeHeight d.vi.format (d.vi.height * 2) p) ∧
      ∀ y x, y < planeHeight d.vi.format d.vi.height p →
        x < planeWidth d.vi.format d.vi.width p →
        o.pix y x = motionValue d ((src1 p).pix y x) ((src2 p).pix y x)
          ((msk1 p).pix y x) ((msk2 p).pix y x) ∧
        o.pix (y + planeHeight d.vi.format d.vi.height p) x
          = motionValue d ((src1 p).pix y x) ((src2 p).pix y x)
            ((msk1 p).pix (y + planeHeight d.vi.format d.vi.height p) x)
            ((msk2 p).pix (y + planeHeight d.vi.format d.vi.height p) x))
    (by
      intro p hp
      obtain ⟨s1w, s1h⟩ := hs1 p hp
      obtain ⟨s2w, s2h⟩ := hs2 p hp
      obtain ⟨m1w, m1h⟩ := hm1 p hp
      obtain ⟨m2w, m2h⟩ := hm2 p hp
      obtain ⟨dw, dh⟩ := hd p hp
      rw [planeHeight_twice _ _ _ hdiv] at m1h m2h dh
      obtain ⟨o, ho, ow, oh, hpix⟩ := motionMaskPlane_spec d (src1 p) (msk1 p) (src2 p)
        (msk2 p) (dst p) ⟨by omega, by omega⟩ ⟨by omega, by omega⟩ ⟨by omega, by omega⟩
        ⟨by omega, by omega⟩
      refine ⟨o, ho, ⟨by omega, by rw [planeHeight_twice _ _ _ hdiv]; omega⟩, ?_⟩
      intro y x hy hx
      have := hpix y x (by omega) (by omega)
      rw [s1h] at this
      exact this)
  exact ⟨out, ho, fun p hp => (hP p hp).1, fun p y x hp hy hx => (hP p hp).2 y x hy hx⟩

/-- Frame-level `andMasks` on double-height mask frames: both halves are combined. -/
theorem andMasks_spec (d : TDeintModData) (src1 src2 dst : Frame)
    (hs1 : FrameDims src1 d.vi.format d.vi.width (d.vi.height * 2) d.vi.format.numPlanes)
    (hs2 : FrameDims src2 d.vi.format d.vi.width (d.vi.height * 2) d.vi.format.numPlanes)
    (hd : FrameDims dst d.vi.format d.vi.width (d.vi.height * 2) d.vi.format.numPlanes) :
    ∃ out, andMasks d src1 src2 dst = some out ∧
      FrameDims out d.vi.format d.vi.width (d.vi.height * 2) d.vi.format.numPlanes ∧
      ∀ p y x, p < d.vi.format.numPlanes →
        y < planeHeight d.vi.format (d.vi.height * 2) p →
        x < planeWidth d.vi.format d.vi.width p →
        (out p).pix y x = andValue ((dst p).pix y x) ((src1 p).pix y x) ((src2 p).pix y x) := by
  obtain ⟨out, ho, hP, _⟩ := frameLoop_lift d.vi.format.numPlanes
    (fun plane dp => andMasksPlane (src1 plane) (src2 plane) dp) dst
    (fun p o => (o.width = planeWidth d.vi.format d.vi.width p ∧
      o.height = planeHeight d.vi.format (d.vi.height * 2) p) ∧
      ∀ y x, y < planeHeight d.vi.format (d.vi.height * 2) p →
        x < planeWidth d.vi.format d.vi.width p →
        o.pix y x = andValue ((dst p).pix y x) ((src1 p).pix y x) ((src2 p).pix y x))
    (by
      intro p hp
      obtain ⟨s1w, s1h⟩ := hs1 p hp
      obtain ⟨s2w, s2h⟩ := hs2 p hp
      obtain ⟨dw, dh⟩ := hd p hp
      obtain ⟨o, ho, ow, oh, hpix⟩ := andMasksPlane_spec (src1 p) (src2 p) (dst p)
        ⟨by omega, by omega⟩ ⟨by omega, by omega⟩
      refine ⟨o, ho, ⟨by omega, by omega⟩, ?_⟩
      intro y x hy hx
      exact hpix y x (by omega) (by omega))
  exact ⟨out, ho, fun p hp => (hP p hp).1, fun p y x hp hy hx => (hP p hp).2 y x hy hx⟩

/-- Frame-level `combineMasks`. -/
theorem combineMasks_spec (d : TDeintModData) (src dst : Frame)
    (hdiv : 2 ^ d.vi.format.subSamplingH ∣ d.vi.height)
    (h2 : ∀ p, p < d.vi.format.numPlanes →
      2 ≤ planeWidth d.vi.format d.vi.width p ∧ 2 ≤ planeHeight d.vi.format d.vi.height p)
    (hs : FrameDims src d.vi.format d.vi.width (d.vi.height * 2) d.vi.format.numPlanes)
    (hd : FrameDims dst d.vi.format d.vi.width d.vi.height d.vi.format.numPlanes) :
    ∃ out, combineMasks d src dst = some out ∧
      FrameDims out d.vi.format d.vi.width d.vi.height d.vi.format.numPlanes ∧
      ∀ p y x, p < d.vi.format.numPlanes →
        y < planeHeight d.vi.format d.vi.height p → x < planeWidth d.vi.format d.vi.width p →
        (out p).pix y x = combineValue d (src p) (planeHeight d.vi.format d.vi.height p)
          (planeWidth d.vi.format d.vi.width p) y x ((src p).pix y x) := by
  obtain ⟨out, ho, hP, _⟩ := frameLoop_lift d.vi.format.numPlanes
    (fun plane dp => combineMasksPlane d plane (src plane) dp) dst
    (fun p o => (o.width = planeWidth d.vi.format d.vi.width p ∧
      o.height = planeHeight d.vi.format d.vi.height p) ∧
      ∀ y x, y < planeHeight d.vi.format d.vi.height p →
        x < planeWidth d.vi.format d.vi.width p →
        o.pix y x = combineValue d (src p) (planeHeight d.vi.format d.vi.height p)
          (planeWidth d.vi.format d.vi.width p) y x ((src p).pix y x))
    (by
      intro p hp
      obtain ⟨sw, sh⟩ := hs p hp
      obtain ⟨dw, dh⟩ := hd p hp
      obtain ⟨a, b⟩ := h2 p hp
      rw [planeHeight_twice _ _ _ hdiv] at sh
      obtain ⟨o, ho, ow, oh, hpix⟩ := combineMasksPlane_spec d p (src p) (dst p)
        (planeHeight d.vi.format d.vi.height p) sw sh b (by omega) (by omega) dh
      refine ⟨o, ho, ⟨by omega, by omega⟩, ?_⟩
      intro y x hy hx
      have := hpix y x hy (by omega)
      rw [sw] at this
      exact this)
  exact ⟨out, ho, fun p hp => (hP p hp).1, fun p y x hp hy hx => (hP p hp).2 y x hy hx⟩

theorem newVideoFrame_dims (fmt : VSFormat) (w h n : Nat) (c : Nat → Nat → Nat → Byte) :
    FrameDims (newVideoFrame fmt w h c) fmt w h n :=
  fun _ _ => ⟨rfl, rfl⟩

/-- The composition `tdeintmodCreateMMGetFrame`: with `S0, S1, S2` the three source frames and
`M0, M1, M2` their threshold masks, the frame handed to `combineMasks` is, in both halves, the
bitwise AND of the three motion masks, and the result is `combineMasks` of that frame. -/
theorem createMM_spec (d : TDeintModData) (node : Int → Frame)
    (c : Nat → Nat → Nat → Nat → Byte) (n : Int) (hgeo : StageMGeometry d node) :
    ∃ out M0 M1 M2 D : Frame,
      tdeintmodCreateMMGetFrame d node c n = some out ∧
      FrameDims out d.vi.format d.vi.width d.vi.height d.vi.format.numPlanes ∧
      threshMask d (node (min (n + (0 : Nat)) ((d.vi.numFrames : Int) - 1)))
        (newVideoFrame d.vi.format d.vi.width (d.vi.height * 2) (c 0)) = some M0 ∧
      threshMask d (node (min (n + (1 : Nat)) ((d.vi.numFrames : Int) - 1)))
        (newVideoFrame d.vi.format d.vi.width (d.vi.height * 2) (c 2)) = some M1 ∧
      threshMask d (node (min (n + (2 : Nat)) ((d.vi.numFrames : Int) - 1)))
        (newVideoFrame d.vi.format d.vi.width (d.vi.height * 2) (c 4)) = some M2 ∧
      ∀ p y x, p < d.vi.format.numPlanes →
        y < planeHeight d.vi.format d.vi.height p → x < planeWidth d.vi.format d.vi.width p →
        (D p).pix y x = andValue
          (motionValue d
            ((node (min (n + (0 : Nat)) ((d.vi.numFrames : Int) - 1)) p).pix y x)
            ((node (min (n + (2 : Nat)) ((d.vi.numFrames : Int) - 1)) p).pix y x)
            ((M0 p).pix y x) ((M2 p).pix y x))
          (motionValue d
            ((node (min (n + (0 : Nat)) ((d.vi.numFrames : Int) - 1)) p).pix y x)
            ((node (min (n + (1 : Nat)) ((d.vi.numFrames : Int) - 1)) p).pix y x)
            ((M0 p).pix y x) ((M1 p).pix y x))
          (motionValue d
            ((node (min (n + (1 : Nat)) ((d.vi.numFrames : Int) - 1)) p).pix y x)
            ((node (min (n + (2 : Nat)) ((d.vi.numFrames : Int) - 1)) p).pix y x)
            ((M1 p).pix y x) ((M2 p).pix y x)) ∧
        (D p).pix (y + planeHeight d.vi.format d.vi.height p) x = andValue
          (motionValue d
            ((node (min (n + (0 : Nat)) ((d.vi.numFrames : Int) - 1)) p).pix y x)
            ((node (min (n + (2 : Nat)) ((d.vi.numFrames : Int) - 1)) p).pix y x)
            ((M0 p).pix (y + planeHeight d.vi.format d.vi.height p) x)
            ((M2 p).pix (y + planeHeight d.vi.format d.vi.height p) x))
          (motionValue d
            ((node (min (n + (0 : Nat)) ((d.vi.numFrames : Int) - 1)) p).pix y x)
            ((node (min (n + (1 : Nat)) ((d.vi.numFrames : Int) - 1)) p).pix y x)
            ((M0 p).pix (y + planeHeight d.vi.format d.vi.height p) x)
            ((M1 p).pix (y + planeHeight d.vi.format d.vi.height p) x))
          (motionValue d
            ((node (min (n + (1 : Nat)) ((d.vi.numFrames : Int) - 1)) p).pix y x)
            ((node (min (n + (2 : Nat)) ((d.vi.numFrames : Int) - 1)) p).pix y x)
            ((M1 p).pix (y + planeHeight d.vi.format d.vi.height p) x)
            ((M2 p).pix (y + planeHeight d.vi.format d.vi.height p) x)) ∧
        (out p).pix y x = combineValue d (D p) (planeHeight d.vi.format d.vi.height p)
          (planeWidth d.vi.format d.vi.width p) y x ((D p).pix y x) := by
  obtain ⟨hdiv, h2, hnode⟩ := hgeo
  obtain ⟨M0, hM0, dM0⟩ := threshMask_dims d _ _ hdiv h2
    (hnode (min (n + (0 : Nat)) ((d.vi.numFrames : Int) - 1)))
    (newVideoFrame_dims d.vi.format d.vi.width (d.vi.height * 2) _ (c 0))
  obtain ⟨M1, hM1, dM1⟩ := threshMask_dims d _ _ hdiv h2
    (hnode (min (n + (1 : Nat)) ((d.vi.numFrames : Int) - 1)))
    (newVideoFrame_dims d.vi.format d.vi.width (d.vi.height * 2) _ (c 2))
  obtain ⟨M2, hM2, dM2⟩ := threshMask_dims d _ _ hdiv h2
    (hnode (min (n + (2 : Nat)) ((d.vi.numFrames : Int) - 1)))
    (newVideoFrame_dims d.vi.format d.vi.width (d.vi.height * 2) _ (c 4))
  obtain ⟨m01, hm01, dm01, pm01⟩ := motionMask_spec d _ M0 _ M1
    (newVideoFrame d.vi.format d.vi.width (d.vi.height * 2) (c 1)) hdiv
    (hnode (min (n + (0 : Nat)) ((d.vi.numFrames : Int) - 1)))
    (hnode (min (n + (1 : Nat)) ((d.vi.numFrames : Int) - 1))) dM0 dM1
    (newVideoFrame_dims _ _ _ _ _)
  obtain ⟨m11, hm11, dm11, pm11⟩ := motionMask_spec d _ M1 _ M2
    (newVideoFrame d.vi.format d.vi.width (d.vi.height * 2) (c 3)) hdiv
    (hnode (min (n + (1 : Nat)) ((d.vi.numFrames : Int) - 1)))
    (hnode (min (n + (2 : Nat)) ((d.vi.numFrames : Int) - 1))) dM1 dM2
    (newVideoFrame_dims _ _ _ _ _)
  obtain ⟨m02, hm02, dm02, pm02⟩ := motionMask_spec d _ M0 _ M2
    (newVideoFrame d.vi.format d.vi.width (d.vi.height * 2) (c 6)) hdiv
    (hnode (min (n + (0 : Nat)) ((d.vi.numFrames : Int) - 1)))
    (hnode (min (n + (2 : Nat)) ((d.vi.numFrames : Int) - 1))) dM0 dM2
    (newVideoFrame_dims _ _ _ _ _)
  obtain ⟨D, hD, dD, pD⟩ := andMasks_spec d m01 m11 m02 dm01 dm11 dm02
  obtain ⟨out, hout, dout, pout⟩ := combineMasks_spec d D
    (newVideoFrame d.vi.format d.vi.width d.vi.height (c 7)) hdiv h2 dD
    (newVideoFrame_dims _ _ _ _ _)
  refine ⟨out, M0, M1, M2, D, ?_, dout, hM0, hM1, hM2, ?_⟩
  · simp only [tdeintmodCreateMMGetFrame, hM0, hM1, hM2, hm01, hm11, hm02, hD,
      Option.bind_eq_bind, Option.some_bind]
    exact hout
  · intro p y x hp hy hx
    have e2 := planeHeight_twice d.vi.format d.vi.height p hdiv
    refine ⟨?_, ?_, pout p y x hp hy hx⟩
    · rw [pD p y x hp (by omega) hx, (pm02 p y x hp hy hx).1, (pm01 p y x hp hy hx).1,
        (pm11 p y x hp hy hx).1]
    · rw [pD p _ x hp (by omega) hx, (pm02 p y x hp hy hx).2, (pm01 p y x hp hy hx).2,
        (pm11 p y x hp hy hx).2]

theorem combineValue_cases (d : TDeintModData) (src : Plane) (h w y x : Nat) (old : Byte) :
    combineValue d src h w y x old = old ∨ combineValue d src h w y x old = 255 := by
  unfold combineValue
  split_ifs
  · exact Or.inl rfl
  · exact Or.inl rfl
  · exact Or.inr rfl
  · exact Or.inl rfl

/-- C6: Stage M output range. For every three source frames, every ttype, nt, minthresh,
maxthresh, cstr and every override, `tdeintmodCreateMMGetFrame` (threshMask, motionMask,
andMasks, combineMasks) returns a mask frame each byte of which is 0 or 255. -/
theorem C6_stageM_output_range (d : TDeintModData) (node : Int → Frame)
    (c : Nat → Nat → Nat → Nat → Byte) (n : Int) (hgeo : StageMGeometry d node) :
    ∃ out : Frame, tdeintmodCreateMMGetFrame d node c n = some out ∧
      FrameDims out d.vi.format d.vi.width d.vi.height d.vi.format.numPlanes ∧
      ∀ p y x, p < d.vi.format.numPlanes →
        y < planeHeight d.vi.format d.vi.height p → x < planeWidth d.vi.format d.vi.width p →
        ((out p).pix y x).val = 0 ∨ ((out p).pix y x).val = 255 := by
  obtain ⟨out, M0, M1, M2, D, ho, hdim, _, _, _, hpix⟩ := createMM_spec d node c n hgeo
  refine ⟨out, ho, hdim, ?_⟩
  intro p y x hp hy hx
  obtain ⟨hq, _, hout⟩ := hpix p y x hp hy hx
  have hD : ((D p).pix y x).val = 0 ∨ ((D p).pix y x).val = 255 := by
    rw [hq]
    exact andValue_binary _ _ _ (motionValue_binary _ _ _ _ _) (motionValue_binary _ _ _ _ _)
      (motionValue_binary _ _ _ _ _)
  rw [hout]
  rcases combineValue_cases d (D p) (planeHeight d.vi.format d.vi.height p)
    (planeWidth d.vi.format d.vi.width p) y x ((D p).pix y x) with h | h
  · rw [h]; exact hD
  · rw [h]; exact Or.inr rfl

theorem stageMData_geometry (w h nf : Nat) (hw : 2 ≤ w) (hh : 2 ≤ h) (f : Int → Byte) :
    StageMGeometry (stageMData w h nf) (fun i => constFrame w h (f i)) := by
  refine ⟨?_, ?_, ?_⟩
  · show 2 ^ 0 ∣ h
    simp
  · intro p hp
    rw [gray_plane_zero p hp]
    exact ⟨hw, hh⟩
  · intro i p hp
    rw [gray_plane_zero p hp]
    exact ⟨rfl, rfl⟩

/-- Instance of C6: default parameters, three 4x4 gray fields 0, 255, 0. -/
theorem C6_stageM_output_range_witness :
    ∃ out : Frame, tdeintmodCreateMMGetFrame (stageMData 4 4 5)
        (fun i => constFrame 4 4 (if i = 1 then 255 else 0)) (fun _ _ _ _ => 9) 0 = some out ∧
      (((out 0).pix 2 3).val = 0 ∨ ((out 0).pix 2 3).val = 255) := by
  obtain ⟨out, ho, _, hpix⟩ := C6_stageM_output_range (stageMData 4 4 5)
    (fun i => constFrame 4 4 (if i = 1 then 255 else 0)) (fun _ _ _ _ => 9) 0
    (stageMData_geometry 4 4 5 (by decide) (by decide) (fun i => if i = 1 then 255 else 0))
  exact ⟨out, ho, hpix 0 2 3 (by decide) (by decide) (by decide)⟩

/-- C7: Stage M on a still sequence. For every frame F and every configuration with
minthresh >= 0 and maxthresh >= 0 (any ttype, overrides, nt, cstr), the Stage M composition on
the three identical frames (F, F, F) yields a motion mask whose every byte is 255. -/
theorem C7_stageM_still_sequence (d : TDeintModData) (node : Int → Frame)
    (c : Nat → Nat → Nat → Nat → Byte) (n : Int) (F : Frame) (hgeo : StageMGeometry d node)
    (hmin : 0 ≤ d.minthresh) (hmax : 0 ≤ d.maxthresh)
    (h0 : node (min (n + (0 : Nat)) ((d.vi.numFrames : Int) - 1)) = F)
    (h1 : node (min (n + (1 : Nat)) ((d.vi.numFrames : Int) - 1)) = F)
    (h2 : node (min (n + (2 : Nat)) ((d.vi.numFrames : Int) - 1)) = F) :
    ∃ out : Frame, tdeintmodCreateMMGetFrame d node c n = some out ∧
      FrameDims out d.vi.format d.vi.width d.vi.height d.vi.format.numPlanes ∧
      ∀ p y x, p < d.vi.format.numPlanes →
        y < planeHeight d.vi.format d.vi.height p → x < planeWidth d.vi.format d.vi.width p →
        ((out p).pix y x).val = 255 := by
  obtain ⟨out, M0, M1, M2, D, ho, hdim, _, _, _, hpix⟩ := createMM_spec d node c n hgeo
  refine ⟨out, ho, hdim, ?_⟩
  intro p y x hp hy hx
  obtain ⟨hq, _, hout⟩ := hpix p y x hp hy hx
  rw [h0, h1, h2] at hq
  have hD : (D p).pix y x = 255 := by
    rw [hq, motionValue_same d _ _ _ hmin hmax, motionValue_same d _ _ _ hmin hmax,
      motionValue_same d _ _ _ hmin hmax]
    exact andValue_full
  have hne : (D p).pix y x ≠ 0 := by
    rw [hD]
    decide
  rw [hout]
  unfold combineValue
  rw [if_pos hne, hD]
  rfl

/-- Instance of C7: default parameters, three identical 4x4 gray fields of value 77. -/
theorem C7_stageM_still_sequence_witness :
    ∃ out : Frame, tdeintmodCreateMMGetFrame (stageMData 4 4 5)
        (fun _ => constFrame 4 4 77) (fun _ _ _ _ => 9) 0 = some out ∧
      ((out 0).pix 1 1).val = 255 := by
  obtain ⟨out, ho, _, hpix⟩ := C7_stageM_still_sequence (stageMData 4 4 5)
    (fun _ => constFrame 4 4 77) (fun _ _ _ _ => 9) 0 (constFrame 4 4 77)
    (stageMData_geometry 4 4 5 (by decide) (by decide) (fun _ => 77))
    (by decide) (by decide) rfl rfl rfl
  exact ⟨out, ho, hpix 0 1 1 (by decide) (by decide) (by decide)⟩

theorem motionValue_far (d : TDeintModData) (m1 m2 : Byte) (hmax : d.maxthresh < 255) :
    motionValue d 0 255 m1 m2 = 0 ∧ motionValue d 255 0 m1 m2 = 0 := by
  unfold motionValue
  have e1 : |((0 : Byte).val : Int) - ((255 : Byte).val : Int)| = 255 := by decide
  have e2 : |((255 : Byte).val : Int) - ((0 : Byte).val : Int)| = 255 := by decide
  rw [e1, e2]
  have h : ¬ ((255 : Int)
      ≤ min (max (wrap32 (min (m1.val : Int) (m2.val : Int) + d.nt)) d.minthresh)
          d.maxthresh) := by
    intro h255
    have := le_trans h255 (min_le_right _ _)
    omega
  rw [if_neg h]
  exact ⟨rfl, rfl⟩

theorem andValue_zero (c : Byte) : andValue c 0 0 = 0 := by
  unfold andValue
  apply Fin.ext
  simp [toU8]

/-- C18: pure temporal change. For three frames F0 = all 0, F1 = all 255, F2 = all 0 (planes of
at least 2x2) and maxthresh below 255 (in particular ttype = 1, nt = 2, minthresh = 4,
maxthresh = 75, cstr = 4, no overrides), the Stage M mask is 0 at every pixel: combineMasks
sets no pixel. -/
theorem C18_pure_temporal_change (d : TDeintModData) (node : Int → Frame)
    (c : Nat → Nat → Nat → Nat → Byte) (n : Int) (hgeo : StageMGeometry d node)
    (hmax : d.maxthresh < 255)
    (h0 : ∀ p y x, (node (min (n + (0 : Nat)) ((d.vi.numFrames : Int) - 1)) p).pix y x = 0)
    (h1 : ∀ p y x, (node (min (n + (1 : Nat)) ((d.vi.numFrames : Int) - 1)) p).pix y x = 255)
    (h2 : ∀ p y x, (node (min (n + (2 : Nat)) ((d.vi.numFrames : Int) - 1)) p).pix y x = 0) :
    ∃ out : Frame, tdeintmodCreateMMGetFrame d node c n = some out ∧
      FrameDims out d.vi.format d.vi.width d.vi.height d.vi.format.numPlanes ∧
      ∀ p y x, p < d.vi.format.numPlanes →
        y < planeHeight d.vi.format d.vi.height p → x < planeWidth d.vi.format d.vi.width p →
        ((out p).pix y x).val = 0 := by
  obtain ⟨out, M0, M1, M2, D, ho, hdim, _, _, _, hpix⟩ := createMM_spec d node c n hgeo
  refine ⟨out, ho, hdim, ?_⟩
  intro p y x hp hy hx
  obtain ⟨hq, hh, hout⟩ := hpix p y x hp hy hx
  rw [h0, h1, h2] at hq hh
  have hDq : (D p).pix y x = 0 := by
    rw [hq, (motionValue_far d _ _ hmax).1, (motionValue_far d _ _ hmax).2]
    exact andValue_zero _
  have hDh : (D p).pix (y + planeHeight d.vi.format d.vi.height p) x = 0 := by
    rw [hh, (motionValue_far d _ _ hmax).1, (motionValue_far d _ _ hmax).2]
    exact andValue_zero _
  rw [hout]
  unfold combineValue
  have hn : ¬ ((D p).pix y x ≠ 0) := fun h => h hDq
  rw [if_neg hn, if_pos hDh, hDq]
  rfl

/-- Instance of C18: the scenario's parameters (the defaults), 4x4 gray fields. -/
theorem C18_pure_temporal_change_witness :
    ∃ out : Frame, tdeintmodCreateMMGetFrame (stageMData 4 4 5)
        (fun i => constFrame 4 4 (if i = 1 then 255 else 0)) (fun _ _ _ _ => 9) 0 = some out ∧
      ((out 0).pix 3 0).val = 0 := by
  obtain ⟨out, ho, _, hpix⟩ := C18_pure_temporal_change (stageMData 4 4 5)
    (fun i => constFrame 4 4 (if i = 1 then 255 else 0)) (fun _ _ _ _ => 9) 0
    (stageMData_geometry 4 4 5 (by decide) (by decide) (fun i => if i = 1 then 255 else 0))
    (by decide) (fun _ _ _ => rfl) (fun _ _ _ => rfl) (fun _ _ _ => rfl)
  exact ⟨out, ho, hpix 0 3 0 (by decide) (by decide) (by decide)⟩

/-! ## Stage M: the compensated thresholds -/

theorem readSquare_eq (d : TDeintModData) (plane : Nat) (src : Plane) (y x : Nat)
    (hw : src.width = planeWidth d.vi.format d.vi.width plane)
    (hy : y < src.height) (hx : x < src.width) (h2 : 2 ≤ src.height) (w2 : 2 ≤ src.width) :
    readSquare d plane src y x = some
      { ppl := (src.pix (prevRow y) (leftCol x)).val
        ppc := (src.pix (prevRow y) x).val
        ppr := (src.pix (prevRow y) (rightCol x src.width)).val
        cl := (src.pix y (leftCol x)).val
        c := (src.pix y x).val
        cr := (src.pix y (rightCol x src.width)).val
        pnl := (src.pix (nextRow y src.height) (leftCol x)).val
        pnc := (src.pix (nextRow y src.height) x).val
        pnr := (src.pix (nextRow y src.height) (rightCol x src.width)).val } := by
  have hop := offplut_some d plane x (by omega)
  have hon := offnlut_some d plane x (by omega)
  have hpr : prevRow y < src.height := by unfold prevRow; split_ifs <;> omega
  have hnr : nextRow y src.height < src.height := by unfold nextRow; split_ifs <;> omega
  have hlc : leftCol x < src.width := by unfold leftCol; split_ifs <;> omega
  have hrc : rightCol x src.width < src.width := by unfold rightCol; split_ifs <;> omega
  have elc : (x : Int) - (if x = 0 then -1 else 1) = ((leftCol x : Nat) : Int) := by
    unfold leftCol; split_ifs <;> omega
  have erc : (x : Int) + (if (x : Int)
      = (planeWidth d.vi.format d.vi.width plane : Int) - 1 then -1 else 1)
      = ((rightCol x src.width : Nat) : Int) := by
    rw [← hw]; unfold rightCol; split_ifs <;> omega
  have hrn := rowNext_eq y src.height hy h2
  have e1 := src.read_some (prevRow y) (leftCol x) hpr hlc (rowPrev y) _ (rowPrev_eq y) elc
  have e2 := src.read_some (prevRow y) x hpr hx (rowPrev y) x (rowPrev_eq y) rfl
  have e3 := src.read_some (prevRow y) (rightCol x src.width) hpr hrc (rowPrev y) _
    (rowPrev_eq y) erc
  have e4 := src.read_some y (leftCol x) hy hlc y _ rfl elc
  have e5 := src.read_some y x hy hx y x rfl rfl
  have e6 := src.read_some y (rightCol x src.width) hy hrc y _ rfl erc
  have e7 := src.read_some (nextRow y src.height) (leftCol x) hnr hlc (rowNext y src.height) _
    hrn elc
  have e8 := src.read_some (nextRow y src.height) x hnr hx (rowNext y src.height) x hrn rfl
  have e9 := src.read_some (nextRow y src.height) (rightCol x src.width) hnr hrc
    (rowNext y src.height) _ hrn erc
  simp only [readSquare, hop, hon, Option.bind_eq_bind, Option.some_bind, e1, e2, e3, e4, e5,
    e6, e7, e8, e9, Option.pure_def]

theorem readCross_eq (d : TDeintModData) (plane : Nat) (src : Plane) (y x : Nat)
    (hw : src.width = planeWidth d.vi.format d.vi.width plane)
    (hy : y < src.height) (hx : x < src.width) (h2 : 2 ≤ src.height) (w2 : 2 ≤ src.width) :
    readCross d plane src y x = some
      { ppl := 0
        ppc := (src.pix (prevRow y) x).val
        ppr := 0
        cl := (src.pix y (leftCol x)).val
        c := (src.pix y x).val
        cr := (src.pix y (rightCol x src.width)).val
        pnl := 0
        pnc := (src.pix (nextRow y src.height) x).val
        pnr := 0 } := by
  have hop := offplut_some d plane x (by omega)
  have hon := offnlut_some d plane x (by omega)
  have hpr : prevRow y < src.height := by unfold prevRow; split_ifs <;> omega
  have hnr : nextRow y src.height < src.height := by unfold nextRow; split_ifs <;> omega
  have hlc : leftCol x < src.width := by unfold leftCol; split_ifs <;> omega
  have hrc : rightCol x src.width < src.width := by unfold rightCol; split_ifs <;> omega
  have elc : (x : Int) - (if x = 0 then -1 else 1) = ((leftCol x : Nat) : Int) := by
    unfold leftCol; split_ifs <;> omega
  have erc : (x : Int) + (if (x : Int)
      = (planeWidth d.vi.format d.vi.width plane : Int) - 1 then -1 else 1)
      = ((rightCol x src.width : Nat) : Int) := by
    rw [← hw]; unfold rightCol; split_ifs <;> omega
  have hrn := rowNext_eq y src.height hy h2
  have e2 := src.read_some (prevRow y) x hpr hx (rowPrev y) x (rowPrev_eq y) rfl
  have e4 := src.read_some y (leftCol x) hy hlc y _ rfl elc
  have e5 := src.read_some y x hy hx y x rfl rfl
  have e6 := src.read_some y (rightCol x src.width) hy hrc y _ rfl erc
  have e8 := src.read_some (nextRow y src.height) x hnr hx (rowNext y src.height) x hrn rfl
  simp only [readCross, hop, hon, Option.bind_eq_bind, Option.some_bind, e2, e4, e5,
    e6, e8, Option.pure_def]

theorem minmax_fold (vs : List Int) :
    minmax vs = vs.foldl (fun mm v => (min mm.1 v, max mm.2 v)) (256, -1) := by
  unfold minmax
  congr 1
  funext mm v
  apply Prod.ext
  · show (if v < mm.1 then v else mm.1) = min mm.1 v
    split_ifs <;> omega
  · show (if v > mm.2 then v else mm.2) = max mm.2 v
    split_ifs <;> omega

theorem minmax_two (a b : Byte) :
    minmax [(a.val : Int), (b.val : Int)]
      = (min (a.val : Int) (b.val : Int), max (a.val : Int) (b.val : Int)) := by
  have ha := a.isLt
  have hb := b.isLt
  rw [minmax_fold]
  simp only [List.foldl]
  apply Prod.ext
  · show min (min 256 (a.val : Int)) (b.val : Int) = min (a.val : Int) (b.val : Int)
    omega
  · show max (max (-1) (a.val : Int)) (b.val : Int) = max (a.val : Int) (b.val : Int)
    omega

theorem minmax_six (a b c e f g : Byte) :
    minmax [(a.val : Int), (b.val : Int), (c.val : Int), (e.val : Int), (f.val : Int),
        (g.val : Int)]
      = (min (a.val : Int) (min (b.val : Int) (min (c.val : Int) (min (e.val : Int)
          (min (f.val : Int) (g.val : Int))))),
         max (a.val : Int) (max (b.val : Int) (max (c.val : Int) (max (e.val : Int)
          (max (f.val : Int) (g.val : Int)))))) := by
  have ha := a.isLt
  have hb := b.isLt
  have hc := c.isLt
  have he := e.isLt
  have hf := f.isLt
  have hg := g.isLt
  rw [minmax_fold]
  simp only [List.foldl]
  apply Prod.ext
  · show min (min (min (min (min (min 256 (a.val : Int)) (b.val : Int)) (c.val : Int))
      (e.val : Int)) (f.val : Int)) (g.val : Int) = _
    simp only [min_assoc]
    exact min_eq_right (le_trans (min_le_left _ _) (by omega))
  · show max (max (max (max (max (max (-1) (a.val : Int)) (b.val : Int)) (c.val : Int))
      (e.val : Int)) (f.val : Int)) (g.val : Int) = _
    simp only [max_assoc]
    exact max_eq_right (le_trans (by omega) (le_max_left _ _))

theorem sar_eq_div (a : Int) (k : Nat) : sar a k = a / 2 ^ k := by
  unfold sar
  rw [Int.shiftRight_eq_div_pow]
  norm_cast

/-- Rounded halving by `2^k` (`k >= 1`) of a value in [0, 255] stays in [0, 255]. -/
theorem sar_round_bound (a : Int) (k : Nat) (ha : 0 ≤ a ∧ a ≤ 255) (hk : 1 ≤ k) :
    0 ≤ sar (a + ((1 <<< (k - 1) : Nat) : Int)) k ∧
      sar (a + ((1 <<< (k - 1) : Nat) : Int)) k ≤ 255 := by
  rw [sar_eq_div, Nat.one_shiftLeft]
  obtain ⟨j, rfl⟩ : ∃ j, k = j + 1 := ⟨k - 1, by omega⟩
  simp only [Nat.add_sub_cancel]
  have hP : (1 : Int) ≤ 2 ^ j := by
    have : (0 : Int) < 2 ^ j := by positivity
    omega
  have h2 : (2 : Int) ^ (j + 1) = 2 * 2 ^ j := by ring
  push_cast
  rw [h2]
  constructor
  · apply Int.ediv_nonneg <;> omega
  · have : (a + 2 ^ j) / (2 * 2 ^ j) ≤ a := by
      by_cases h0 : a = 0
      · subst h0
        rw [Int.zero_add, Int.ediv_eq_zero_of_lt (by omega) (by omega)]
      · apply Int.ediv_le_of_le_mul (by omega)
        have h3 : 0 ≤ (a - 1) * (2 * 2 ^ j - 1) := mul_nonneg (by omega) (by omega)
        nlinarith [h3]
    omega

/-- Halving `(a + hs) >> hs` of a value in [0, 255] stays in [0, 255]. -/
theorem sar_plus_bound (a : Int) (k : Nat) (ha : 0 ≤ a ∧ a ≤ 255) :
    0 ≤ sar (a + (k : Int)) k ∧ sar (a + (k : Int)) k ≤ 255 := by
  rw [sar_eq_div]
  have hk : (k : Int) + 1 ≤ 2 ^ k := by
    have := Nat.lt_two_pow k
    have h' : ((k + 1 : Nat) : Int) ≤ ((2 ^ k : Nat) : Int) := by exact_mod_cast this
    push_cast at h'
    exact h'
  constructor
  · apply Int.ediv_nonneg <;> omega
  · have : (a + (k : Int)) / 2 ^ k ≤ a := by
      by_cases h0 : a = 0
      · subst h0
        rw [Int.zero_add, Int.ediv_eq_zero_of_lt (by omega) (by omega)]
      · apply Int.ediv_le_of_le_mul (by omega)
        have h3 : 0 ≤ (a - 1) * (2 ^ k - 1 - (k : Int)) := mul_nonneg (by omega) (by omega)
        have h4 : 0 ≤ (a - 1) * (k : Int) := mul_nonneg (by omega) (by omega)
        nlinarith [h3, h4]
    omega

theorem compensated_bound (d : TDeintModData) (plane : Nat) (c : Byte) (m0 m1 : Int × Int)
    (h0 : (0 ≤ m0.1 ∧ m0.1 ≤ 255) ∧ (0 ≤ m0.2 ∧ m0.2 ≤ 255))
    (h1 : (0 ≤ m1.1 ∧ m1.1 ≤ 255) ∧ (0 ≤ m1.2 ∧ m1.2 ≤ 255)) :
    0 ≤ compensated d plane c.val m0 m1 ∧ compensated d plane c.val m0 m1 ≤ 255 := by
  have hc := c.isLt
  have hvs : 1 ≤ (if plane ≠ 0 then 1 <<< d.vi.format.subSamplingH else 1 : Nat) := by
    split_ifs
    · rw [Nat.one_shiftLeft]
      exact Nat.one_le_two_pow
    · exact Nat.le_refl 1
  have a1 := sar_round_bound |(c.val : Int) - m0.1| _ ⟨abs_nonneg _, by rw [abs_le]; omega⟩ hvs
  have a2 := sar_round_bound |(c.val : Int) - m0.2| _ ⟨abs_nonneg _, by rw [abs_le]; omega⟩ hvs
  have b1 := sar_plus_bound |(c.val : Int) - m1.1|
    (if plane ≠ 0 then d.vi.format.subSamplingW else 0) ⟨abs_nonneg _, by rw [abs_le]; omega⟩
  have b2 := sar_plus_bound |(c.val : Int) - m1.2|
    (if plane ≠ 0 then d.vi.format.subSamplingW else 0) ⟨abs_nonneg _, by rw [abs_le]; omega⟩
  unfold compensated
  simp only []
  omega

theorem toU8_small (a : Int) (h : 0 ≤ a ∧ a ≤ 255) : ((toU8 a).val : Int) = a := by
  simp only [toU8]
  omega

/-- C20: threshMask, compensated variants (ttype 0 and 1), on a plane without override. At each
pixel (min0, max0) are the extrema of the vertical neighbours S(x,y-1), S(x,y+1) (ttype 0) plus
the four diagonal neighbours (ttype 1), (min1, max1) the extrema of the horizontal neighbours
S(x-offp,y), S(x+offn,y), rows and columns mirrored inward at the edges;
atv = max((|S-min0|+vss)>>vs, (|S-max0|+vss)>>vs), ath = max((|S-min1|+hs)>>hs,
(|S-max1|+hs)>>hs) with vs = 1<<subH on chroma planes and 1 on luma, vss = 1<<(vs-1), hs = subW
on chroma planes and 0 on luma; the bytes stored are Mq = (max(atv,ath)+2)>>2 in the upper half
and Mh = (max(atv,ath)+1)>>1 in the lower half. -/
theorem C20_threshMask_compensated (d : TDeintModData) (src dst : Frame) (p y x : Nat)
    (hdiv : 2 ^ d.vi.format.subSamplingH ∣ d.vi.height)
    (h2 : ∀ p, p < d.vi.format.numPlanes →
      2 ≤ planeWidth d.vi.format d.vi.width p ∧ 2 ≤ planeHeight d.vi.format d.vi.height p)
    (hs : FrameDims src d.vi.format d.vi.width d.vi.height d.vi.format.numPlanes)
    (hd : FrameDims dst d.vi.format d.vi.width (d.vi.height * 2) d.vi.format.numPlanes)
    (hp : p < d.vi.format.numPlanes) (hno : NoOverride d p)
    (ht : d.ttype = 0 ∨ d.ttype = 1)
    (hy : y < (src p).height) (hx : x < (src p).width) :
    ∃ out : Frame, threshMask d src dst = some out ∧
      let S := src p
      let c : Int := (S.pix y x).val
      let up : Int := (S.pix (prevRow y) x).val
      let dn : Int := (S.pix (nextRow y S.height) x).val
      let ul : Int := (S.pix (prevRow y) (leftCol x)).val
      let ur : Int := (S.pix (prevRow y) (rightCol x S.width)).val
      let dl : Int := (S.pix (nextRow y S.height) (leftCol x)).val
      let dr : Int := (S.pix (nextRow y S.height) (rightCol x S.width)).val
      let l : Int := (S.pix y (leftCol x)).val
      let r : Int := (S.pix y (rightCol x S.width)).val
      let min0 : Int :=
        if d.ttype = 0 then min up dn else min ul (min up (min ur (min dl (min dn dr))))
      let max0 : Int :=
        if d.ttype = 0 then max up dn else max ul (max up (max ur (max dl (max dn dr))))
      let min1 : Int := min l r
      let max1 : Int := max l r
      let hs : Nat := if p ≠ 0 then d.vi.format.subSamplingW else 0
      let vs : Nat := if p ≠ 0 then 1 <<< d.vi.format.subSamplingH else 1
      let vss : Int := ((1 <<< (vs - 1) : Nat) : Int)
      let atv : Int := max (sar (|c - min0| + vss) vs) (sar (|c - max0| + vss) vs)
      let ath : Int := max (sar (|c - min1| + hs) hs) (sar (|c - max1| + hs) hs)
      (((out p).pix y x).val : Int) = sar (max atv ath + 2) 2 ∧
      (((out p).pix (y + S.height) x).val : Int) = sar (max atv ath + 1) 1 := by
  have hplane : ∀ q, q < d.vi.format.numPlanes →
      ∃ o, threshMaskPlane d q (src q) (dst q) = some o := by
    intro q hq
    obtain ⟨sw, sh⟩ := hs q hq
    obtain ⟨dw, dh⟩ := hd q hq
    obtain ⟨a, b⟩ := h2 q hq
    rw [planeHeight_twice _ _ _ hdiv] at dh
    obtain ⟨o, ho, _⟩ := threshMaskPlane_dims d q (src q) (dst q) sw (by omega)
      (by omega) (by omega) (by omega)
    exact ⟨o, ho⟩
  obtain ⟨out, ho, hpl, _⟩ := frameLoop_spec d.vi.format.numPlanes
    (fun plane dp => threshMaskPlane d plane (src plane) dp) dst hplane
  refine ⟨out, ho, ?_⟩
  obtain ⟨sw, sh⟩ := hs p hp
  obtain ⟨dw, dh⟩ := hd p hp
  obtain ⟨a, b⟩ := h2 p hp
  rw [planeHeight_twice _ _ _ hdiv] at dh
  obtain ⟨o, ho', _, _, hval⟩ := threshMaskPlane_values d p (src p) (dst p) sw (by omega)
    (by omega) (by omega) (by omega) (by omega) hno
  have heq : out p = o := by
    have := hpl p hp
    rw [ho'] at this
    exact (Option.some.inj this).symm
  obtain ⟨at_, hat, hq, hh⟩ := hval y x hy hx
  dsimp only
  rw [heq, hq, hh]
  have hcross := readCross_eq d p (src p) y x sw hy hx (by omega) (by omega)
  have hsquare := readSquare_eq d p (src p) y x sw hy hx (by omega) (by omega)
  have hbyte : ∀ b : Byte, 0 ≤ (b.val : Int) ∧ (b.val : Int) ≤ 255 := by
    intro b
    have := b.isLt
    omega
  rcases ht with ht0 | ht1
  · have hat0 : at_ = compensated d p ((src p).pix y x).val
        (minmax [(((src p).pix (prevRow y) x).val : Int),
          (((src p).pix (nextRow y (src p).height) x).val : Int)])
        (minmax [(((src p).pix y (leftCol x)).val : Int),
          (((src p).pix y (rightCol x (src p).width)).val : Int)]) := by
      unfold threshAt at hat
      rw [if_pos ht0, hcross] at hat
      exact (Option.some.inj hat).symm
    rw [minmax_two, minmax_two] at hat0
    have hb := compensated_bound d p ((src p).pix y x) _ _
      (show (0 ≤ (min (((src p).pix (prevRow y) x).val : Int)
          (((src p).pix (nextRow y (src p).height) x).val : Int), max
          (((src p).pix (prevRow y) x).val : Int)
          (((src p).pix (nextRow y (src p).height) x).val : Int)).1 ∧ _) ∧ _ by
        have := hbyte ((src p).pix (prevRow y) x)
        have := hbyte ((src p).pix (nextRow y (src p).height) x)
        simp only []
        omega)
      (show (0 ≤ (min (((src p).pix y (leftCol x)).val : Int)
          (((src p).pix y (rightCol x (src p).width)).val : Int), max
          (((src p).pix y (leftCol x)).val : Int)
          (((src p).pix y (rightCol x (src p).width)).val : Int)).1 ∧ _) ∧ _ by
        have := hbyte ((src p).pix y (leftCol x))
        have := hbyte ((src p).pix y (rightCol x (src p).width))
        simp only []
        omega)
    rw [← hat0] at hb
    have e4 : sar (at_ + 2) 2 = (at_ + 2) / 4 := sar_two _
    have e2 : sar (at_ + 1) 1 = (at_ + 1) / 2 := sar_one _
    have r1 := toU8_small (sar (at_ + 2) 2) (by rw [e4]; omega)
    have r2 := toU8_small (sar (at_ + 1) 1) (by rw [e2]; omega)
    simp only [ht0, if_true]
    rw [r1, r2, hat0]
    exact ⟨rfl, rfl⟩
  · have hne : ¬ d.ttype = 0 := by omega
    have hat1 : at_ = compensated d p ((src p).pix y x).val
        (minmax [(((src p).pix (prevRow y) (leftCol x)).val : Int),
          (((src p).pix (prevRow y) x).val : Int),
          (((src p).pix (prevRow y) (rightCol x (src p).width)).val : Int),
          (((src p).pix (nextRow y (src p).height) (leftCol x)).val : Int),
          (((src p).pix (nextRow y (src p).height) x).val : Int),
          (((src p).pix (nextRow y (src p).height) (rightCol x (src p).width)).val : Int)])
        (minmax [(((src p).pix y (leftCol x)).val : Int),
          (((src p).pix y (rightCol x (src p).width)).val : Int)]) := by
      unfold threshAt at hat
      rw [if_neg hne, if_pos ht1, hsquare] at hat
      exact (Option.some.inj hat).symm
    rw [minmax_six, minmax_two] at hat1
    have hb := compensated_bound d p ((src p).pix y x) _ _
      (show (0 ≤ (min (((src p).pix (prevRow y) (leftCol x)).val : Int) (min
          (((src p).pix (prevRow y) x).val : Int) (min
          (((src p).pix (prevRow y) (rightCol x (src p).width)).val : Int) (min
          (((src p).pix (nextRow y (src p).height) (leftCol x)).val : Int) (min
          (((src p).pix (nextRow y (src p).height) x).val : Int)
          (((src p).pix (nextRow y (src p).height) (rightCol x (src p).width)).val : Int))))),
          max (((src p).pix (prevRow y) (leftCol x)).val : Int) (max
          (((src p).pix (prevRow y) x).val : Int) (max
          (((src p).pix (prevRow y) (rightCol x (src p).width)).val : Int) (max
          (((src p).pix (nextRow y (src p).height) (leftCol x)).val : Int) (max
          (((src p).pix (nextRow y (src p).height) x).val : Int)
          (((src p).pix (nextRow y (src p).height) (rightCol x (src p).width)).val : Int)))))
          ).1 ∧ _) ∧ _ by
        have := hbyte ((src p).pix (prevRow y) (leftCol x))
        have := hbyte ((src p).pix (prevRow y) x)
        have := hbyte ((src p).pix (prevRow y) (rightCol x (src p).width))
        have := hbyte ((src p).pix (nextRow y (src p).height) (leftCol x))
        have := hbyte ((src p).pix (nextRow y (src p).height) x)
        have := hbyte ((src p).pix (nextRow y (src p).height) (rightCol x (src p).width))
        simp only []
        refine ⟨⟨?_, ?_⟩, ⟨?_, ?_⟩⟩
        · exact le_min (by omega) (le_min (by omega) (le_min (by omega) (le_min (by omega)
            (le_min (by omega) (by omega)))))
        · exact le_trans (min_le_left _ _) (by omega)
        · exact le_trans (by omega) (le_max_left _ _)
        · exact max_le (by omega) (max_le (by omega) (max_le (by omega) (max_le (by omega)
            (max_le (by omega) (by omega)))))
        )
      (show (0 ≤ (min (((src p).pix y (leftCol x)).val : Int)
          (((src p).pix y (rightCol x (src p).width)).val : Int), max
          (((src p).pix y (leftCol x)).val : Int)
          (((src p).pix y (rightCol x (src p).width)).val : Int)).1 ∧ _) ∧ _ by
        have := hbyte ((src p).pix y (leftCol x))
        have := hbyte ((src p).pix y (rightCol x (src p).width))
        simp only []
        omega)
    rw [← hat1] at hb
    have e4 : sar (at_ + 2) 2 = (at_ + 2) / 4 := sar_two _
    have e2 : sar (at_ + 1) 1 = (at_ + 1) / 2 := sar_one _
    have r1 := toU8_small (sar (at_ + 2) 2) (by rw [e4]; omega)
    have r2 := toU8_small (sar (at_ + 1) 1) (by rw [e2]; omega)
    simp only [hne, if_false]
    rw [r1, r2, hat1]
    exact ⟨rfl, rfl⟩

/-- Instance of C20: default parameters (ttype 1), a 4x4 gray field with rows 10, 50, 30, 90;
at pixel (1,1) the vertical extrema are 10 and 30, so atv = 20, ath = 0, Mq = 5, Mh = 10. -/
theorem C20_threshMask_compensated_witness :
    ∃ out : Frame, threshMask (stageMData 4 4 5) (fun _ => rowsPlane 4 [10, 50, 30, 90])
        (constFrame 4 8 0) = some out ∧
      (((out 0).pix 1 1).val : Int) = 5 ∧ (((out 0).pix 5 1).val : Int) = 10 := by
  obtain ⟨out, ho, hv⟩ := C20_threshMask_compensated (stageMData 4 4 5)
    (fun _ => rowsPlane 4 [10, 50, 30, 90]) (constFrame 4 8 0) 0 1 1
    (by show 2 ^ 0 ∣ 4; decide)
    (fun p hp => by rw [gray_plane_zero p hp]; exact ⟨by decide, by decide⟩)
    (fun p hp => by rw [gray_plane_zero p hp]; exact ⟨rfl, rfl⟩)
    (fun p hp => by rw [gray_plane_zero p hp]; exact ⟨rfl, rfl⟩)
    (by decide) (by unfold NoOverride; decide) (by decide) (by decide) (by decide)
  exact ⟨out, ho, hv⟩

/-! ## Tables, window frames and field parity -/

/-- The threshold lookup table when the sum does not overflow. For every i in [0,256) and every
nt with -2^31 <= nt <= 2^31 - 256: mlut[i] = min(max(i + nt, minthresh), maxthresh); when
minthresh <= maxthresh this is clamp(i + nt, minthresh, maxthresh) and lies in
[minthresh, maxthresh]; and for all minthresh, maxthresh the table is non-decreasing in i. -/
theorem mlut_in_range (d : TDeintModData) (i : Int) (hi : 0 ≤ i ∧ i < 256)
    (hnt : -2147483648 ≤ d.nt ∧ d.nt + 255 ≤ 2147483647) :
    mlut d i = some (min (max (i + d.nt) d.minthresh) d.maxthresh) ∧
    (d.minthresh ≤ d.maxthresh →
      min (max (i + d.nt) d.minthresh) d.maxthresh
        = (if i + d.nt < d.minthresh then d.minthresh
           else if i + d.nt > d.maxthresh then d.maxthresh else i + d.nt) ∧
      d.minthresh ≤ min (max (i + d.nt) d.minthresh) d.maxthresh ∧
      min (max (i + d.nt) d.minthresh) d.maxthresh ≤ d.maxthresh) ∧
    (∀ j v w, i ≤ j → j < 256 → mlut d i = some v → mlut d j = some w → v ≤ w) := by
  have wi : ∀ k : Int, 0 ≤ k ∧ k < 256 → wrap32 (k + d.nt) = k + d.nt :=
    fun k hk => wrap32_id _ ⟨by omega, by omega⟩
  refine ⟨?_, ?_, ?_⟩
  · simp only [mlut, hi, and_self, if_true, wi i hi]
  · intro hmm
    refine ⟨?_, ?_, ?_⟩
    · split_ifs <;> omega
    · omega
    · omega
  · intro j v w hij hj hv hw
    have hj' : 0 ≤ j ∧ j < 256 := ⟨by omega, hj⟩
    simp only [mlut, hi, hj', and_self, if_true, Option.some.injEq, wi i hi, wi j hj'] at hv hw
    omega

/-- C17, failing input: nt = 2147483647 with the default minthresh = 4 and maxthresh = 75
passes every check of the constructor. The table has mlut[0] = 75 and mlut[1] = 4: the int sum
1 + nt overflows (it wraps to -2147483648), so mlut[1] is not min(max(1 + nt, 4), 75) = 75 and
the table decreases from i = 0 to i = 1. -/
theorem C17_nt_overflow :
    tdeintmodCreate { defaultData 4 4 5 with nt := 2147483647 } goodClip = Except.ok () ∧
    mlut { defaultData 4 4 5 with nt := 2147483647 } 0 = some 75 ∧
    mlut { defaultData 4 4 5 with nt := 2147483647 } 1 = some 4 ∧
    min (max (1 + ({ defaultData 4 4 5 with nt := 2147483647 } : TDeintModData).nt)
      ({ defaultData 4 4 5 with nt := 2147483647 } : TDeintModData).minthresh)
      ({ defaultData 4 4 5 with nt := 2147483647 } : TDeintModData).maxthresh = 75 := by
  refine ⟨rfl, ?_, ?_, ?_⟩ <;> decide

/-- The claim C19 fails at the last index of the mask stream: with 5 frames, index 4 lies in
[0, numFrames), yet the frame used is zero-filled, not the frame of the stream (all 200). -/
theorem C19_zero_frame_counterexample :
    (0 : Int) ≤ 4 ∧ (4 : Int) < ((defaultData 2 2 5).viSaved.numFrames : Int) ∧
    ((windowFrame (defaultData 2 2 5) (fun _ => constFrame 2 2 200) (fun _ _ _ => 9) 4) 0).pix
      0 0 = 0 ∧
    (((fun _ => constFrame 2 2 200) : Int → Frame) 4 0).pix 0 0 = 200 := by
  decide

/-- C19 (amended): the mask frame at window index i is replaced by an all-zero frame exactly
when i < 0 or i >= numFrames - 2, numFrames the length of the mask stream; every index in
[0, numFrames - 2) is read from the stream. Hence the verdict frame does not depend on the
frames of the two mask streams at other indices. -/
theorem C19_zero_frame_substitution (d : TDeintModData) (node node2 nodeA node2A : Int → Frame)
    (content : Nat → Nat → Nat → Byte) (n0 i : Int) :
    ((i < 0 ∨ i ≥ (d.viSaved.numFrames : Int) - 2) →
      ∀ p y x, ((windowFrame d node content i) p).pix y x = 0) ∧
    ((0 ≤ i ∧ i < (d.viSaved.numFrames : Int) - 2) → windowFrame d node content i = node i) ∧
    ((∀ j : Int, 0 ≤ j → j < (d.viSaved.numFrames : Int) - 2 →
        node j = nodeA j ∧ node2 j = node2A j) →
      tdeintmodBuildMMGetFrame d node node2 content n0
        = tdeintmodBuildMMGetFrame d nodeA node2A content n0) := by
  refine ⟨?_, ?_, ?_⟩
  · intro h p y x
    simp only [windowFrame, h, if_true, Plane.fill]
  · intro h
    have hn : ¬ (i < 0 ∨ i ≥ (d.viSaved.numFrames : Int) - 2) := by omega
    simp only [windowFrame, hn, if_false]
  · intro h
    have hw : ∀ (a b : Int → Frame), (∀ j : Int, 0 ≤ j → j < (d.viSaved.numFrames : Int) - 2 →
        a j = b j) → windowFrame d a content = windowFrame d b content := by
      intro a b hab
      funext j
      unfold windowFrame
      split_ifs with hj
      · rfl
      · exact hab j (by omega) (by omega)
    have h1 := hw node nodeA (fun j a b => (h j a b).1)
    have h2 := hw node2 node2A (fun j a b => (h j a b).2)
    have e1 : ∀ k : Int, windowFrame d node content k = windowFrame d nodeA content k :=
      fun k => congrFun h1 k
    have e2 : ∀ k : Int, windowFrame d node2 content k = windowFrame d node2A content k :=
      fun k => congrFun h2 k
    unfold tdeintmodBuildMMGetFrame
    simp only [e1, e2]

/-- Instance of C19 (amended): 5 frames; index 3 = numFrames - 2 is replaced by zeros, index 2
is read from the stream. -/
theorem C19_zero_frame_substitution_witness :
    ((windowFrame (defaultData 2 2 5) (fun _ => constFrame 2 2 200) (fun _ _ _ => 9) 3) 0).pix
      1 1 = 0 ∧
    windowFrame (defaultData 2 2 5) (fun _ => constFrame 2 2 200) (fun _ _ _ => 9) 2
      = constFrame 2 2 200 := by
  have h3 := (C19_zero_frame_substitution (defaultData 2 2 5) (fun _ => constFrame 2 2 200)
    (fun _ => constFrame 2 2 200) (fun _ => constFrame 2 2 200) (fun _ => constFrame 2 2 200)
    (fun _ _ _ => 9) 0 3).1 (by decide) 0 1 1
  have h2 := (C19_zero_frame_substitution (defaultData 2 2 5) (fun _ => constFrame 2 2 200)
    (fun _ => constFrame 2 2 200) (fun _ => constFrame 2 2 200) (fun _ => constFrame 2 2 200)
    (fun _ _ _ => 9) 0 2).2.1 (by decide)
  exact ⟨h3, h2⟩

/-- C16: field parity selection. In double-rate mode (mode 1) Stage B for output index k >= 0
works on source index floor(k/2) with parity order when k is even and 1 - order when k is odd:
it returns what same-rate Stage B with that parity as field returns for index floor(k/2). In
same-rate mode (mode 0) it works on index k with parity field. -/
theorem C16_field_parity_selection (d : TDeintModData) (node node2 : Int → Frame)
    (content : Nat → Nat → Nat → Byte) (k : Int) (hk : 0 ≤ k) :
    (d.mode = 1 →
      indexOf d k = k / 2 ∧
      fieldtOf d k = (if k % 2 = 0 then d.order else 1 - d.order) ∧
      tdeintmodBuildMMGetFrame d node node2 content k
        = tdeintmodBuildMMGetFrame
            { d with mode := 0, field := if k % 2 = 0 then d.order else 1 - d.order }
            node node2 content (k / 2)) ∧
    (d.mode = 0 → indexOf d k = k ∧ fieldtOf d k = d.field) := by
  have hdiv : cdiv k 2 = k / 2 := by
    unfold cdiv
    exact Int.tdiv_eq_ediv (by omega) (by omega)
  refine ⟨?_, ?_⟩
  · intro hm
    have hi : indexOf d k = k / 2 := by simp only [indexOf, hm, if_true, hdiv]
    have hf : fieldtOf d k = (if k % 2 = 0 then d.order else 1 - d.order) := by
      simp only [fieldtOf, hm, if_true]
      split_ifs <;> first | rfl | omega
    refine ⟨hi, hf, ?_⟩
    have hi2 : indexOf { d with mode := 0, field := if k % 2 = 0 then d.order else 1 - d.order }
        (k / 2) = k / 2 := rfl
    have hf2 : fieldtOf { d with mode := 0, field := if k % 2 = 0 then d.order else 1 - d.order }
        (k / 2) = (if k % 2 = 0 then d.order else 1 - d.order) := rfl
    unfold tdeintmodBuildMMGetFrame
    rw [hi, hf, hi2, hf2]
    rfl
  · intro hm
    have h1 : ¬ d.mode = 1 := by omega
    exact ⟨by simp only [indexOf, h1, if_false], by simp only [fieldtOf, h1, if_false]⟩

/-- Instance of C16: order = 1, double rate; output frame 5 works on source index 2 with the
bottom parity 0, output frame 4 on source index 2 with the top parity 1. -/
theorem C16_field_parity_selection_witness :
    indexOf { defaultData 2 2 5 with mode := 1 } 5 = 2 ∧
    fieldtOf { defaultData 2 2 5 with mode := 1 } 5 = 0 ∧
    fieldtOf { defaultData 2 2 5 with mode := 1 } 4 = 1 := by
  have h5 := (C16_field_parity_selection { defaultData 2 2 5 with mode := 1 }
    (fun _ => constFrame 2 2 0) (fun _ => constFrame 2 2 0) (fun _ _ _ => 9) 5 (by decide)).1 rfl
  have h4 := (C16_field_parity_selection { defaultData 2 2 5 with mode := 1 }
    (fun _ => constFrame 2 2 0) (fun _ => constFrame 2 2 0) (fun _ _ _ => 9) 4 (by decide)).1 rfl
  exact ⟨h5.1, h5.2.1, h4.2.1⟩

/-! ## Construction: the parameter checks -/

theorem land_pred_grid : ∀ a : Fin 33, ∀ b : Fin 64, 4 ≤ 64 * a.val + b.val →
    64 * a.val + b.val ≤ 2048 →
    (((64 * a.val + b.val) &&& (64 * a.val + b.val - 1) = 0) ↔
      (64 * a.val + b.val) ∈ [4, 8, 16, 32, 64, 128, 256, 512, 1024, 2048]) := by
  decide

theorem land_pred_table (n : Nat) (h4 : 4 ≤ n) (h : n ≤ 2048) :
    (n &&& (n - 1) = 0) ↔ n ∈ [4, 8, 16, 32, 64, 128, 256, 512, 1024, 2048] := by
  have := land_pred_grid ⟨n / 64, by omega⟩ ⟨n % 64, Nat.mod_lt _ (by decide)⟩
  have e : 64 * (n / 64) + n % 64 = n := Nat.div_add_mod n 64
  simp only [e] at this
  exact this h4 h

theorem isPowerOf2_table (i : Int) (h4 : 4 ≤ i) (h : i ≤ 2048) :
    isPowerOf2 i = true ↔ i ∈ [(4 : Int), 8, 16, 32, 64, 128, 256, 512, 1024, 2048] := by
  obtain ⟨n, rfl⟩ : ∃ n : Nat, i = n := ⟨i.toNat, by omega⟩
  have hb : bits32 (n : Int) = n := by unfold bits32; omega
  have hb1 : bits32 ((n : Int) - 1) = n - 1 := by unfold bits32; omega
  have hne : ((n : Int) ≠ 0) := by omega
  have ht := land_pred_table n (by omega) (by omega)
  simp only [isPowerOf2, hb, hb1, Bool.and_eq_true, decide_eq_true_eq, hne, ne_eq,
    not_false_eq_true, true_and]
  rw [ht]
  simp only [List.mem_cons, List.mem_singleton, List.mem_nil_iff, or_false]
  omega

/-- The blocks sizes accepted by `tdeintmodCreate`, as a closed form. -/
theorem paramError_none_iff (d : TDeintModData) :
    paramError d = none ↔
      ((6 ≤ d.length ∧ d.length ≤ 60) ∧ (0 ≤ d.mtype ∧ d.mtype ≤ 2) ∧
        (0 ≤ d.ttype ∧ d.ttype ≤ 5) ∧ (-1 ≤ d.mtqL ∧ d.mtqL ≤ 255) ∧
        (-1 ≤ d.mthL ∧ d.mthL ≤ 255) ∧ (-1 ≤ d.mtqC ∧ d.mtqC ≤ 255) ∧
        (-1 ≤ d.mthC ∧ d.mthC ≤ 255) ∧
        (4 ≤ d.blockx ∧ d.blockx ≤ 2048 ∧ isPowerOf2 d.blockx = true) ∧
        (4 ≤ d.blocky ∧ d.blocky ≤ 2048 ∧ isPowerOf2 d.blocky = true)) := by
  unfold paramError
  constructor
  · intro h
    split_ifs at h with h1 h2 h3 h4 h5 h6 h7 h8 h9
    simp only [not_or, not_lt, Bool.not_eq_false] at h1 h2 h3 h4 h5 h6 h7 h8 h9
    refine ⟨⟨?_, ?_⟩, ⟨?_, ?_⟩, ⟨?_, ?_⟩, ⟨?_, ?_⟩, ⟨?_, ?_⟩, ⟨?_, ?_⟩, ⟨?_, ?_⟩,
      ⟨?_, ?_, h8.2.2⟩, ⟨?_, ?_, h9.2.2⟩⟩ <;> omega
  · rintro ⟨h1, h2, h3, h4, h5, h6, h7, ⟨a8, b8, c8⟩, ⟨a9, b9, c9⟩⟩
    have n1 : ¬ (d.length < 6 ∨ d.length > 60) := by omega
    have n2 : ¬ (d.mtype < 0 ∨ d.mtype > 2) := by omega
    have n3 : ¬ (d.ttype < 0 ∨ d.ttype > 5) := by omega
    have n4 : ¬ (d.mtqL < -1 ∨ d.mtqL > 255) := by omega
    have n5 : ¬ (d.mthL < -1 ∨ d.mthL > 255) := by omega
    have n6 : ¬ (d.mtqC < -1 ∨ d.mtqC > 255) := by omega
    have n7 : ¬ (d.mthC < -1 ∨ d.mthC > 255) := by omega
    have n8 : ¬ (d.blockx < 4 ∨ d.blockx > 2048 ∨ isPowerOf2 d.blockx = false) := by
      rw [c8]; simp only [Bool.true_eq_false, or_false]; omega
    have n9 : ¬ (d.blocky < 4 ∨ d.blocky > 2048 ∨ isPowerOf2 d.blocky = false) := by
      rw [c9]; simp only [Bool.true_eq_false, or_false]; omega
    rw [if_neg n1, if_neg n2, if_neg n3, if_neg n4, if_neg n5, if_neg n6, if_neg n7, if_neg n8,
      if_neg n9]

/-- C13: constructor range checks. The parameter checks of `tdeintmodCreate` report an error
(and no filter is created) if and only if length is outside [6,60], or mtype outside [0,2], or
ttype outside [0,5], or one of mtql, mthl, mtqc, mthc outside [-1,255], or blockx or blocky is
not one of the powers of two 4, 8, ..., 2048; and for 4 <= i <= 2048, isPowerOf2(i) holds
exactly when i is one of 4, 8, 16, ..., 2048. -/
theorem C13_constructor_range_checks (d : TDeintModData) (clip : ClipInfo) :
    ((∃ msg, paramError d = some msg) ↔
      (d.length < 6 ∨ d.length > 60 ∨ d.mtype < 0 ∨ d.mtype > 2 ∨ d.ttype < 0 ∨ d.ttype > 5 ∨
        d.mtqL < -1 ∨ d.mtqL > 255 ∨ d.mthL < -1 ∨ d.mthL > 255 ∨
        d.mtqC < -1 ∨ d.mtqC > 255 ∨ d.mthC < -1 ∨ d.mthC > 255 ∨
        d.blockx ∉ [(4 : Int), 8, 16, 32, 64, 128, 256, 512, 1024, 2048] ∨
        d.blocky ∉ [(4 : Int), 8, 16, 32, 64, 128, 256, 512, 1024, 2048])) ∧
    (∀ msg, paramError d = some msg → tdeintmodCreate d clip = Except.error msg) ∧
    (∀ i : Int, 4 ≤ i → i ≤ 2048 →
      (isPowerOf2 i = true ↔ i ∈ [(4 : Int), 8, 16, 32, 64, 128, 256, 512, 1024, 2048])) := by
  have hblock : ∀ b : Int, (4 ≤ b ∧ b ≤ 2048 ∧ isPowerOf2 b = true) ↔
      b ∈ [(4 : Int), 8, 16, 32, 64, 128, 256, 512, 1024, 2048] := by
    intro b
    constructor
    · rintro ⟨h1, h2, h3⟩
      exact (isPowerOf2_table b h1 h2).1 h3
    · intro h
      have hr : 4 ≤ b ∧ b ≤ 2048 := by
        simp only [List.mem_cons, List.mem_singleton, List.mem_nil_iff, or_false] at h
        omega
      exact ⟨hr.1, hr.2, (isPowerOf2_table b hr.1 hr.2).2 h⟩
  refine ⟨?_, ?_, isPowerOf2_table⟩
  · have hnone := paramError_none_iff d
    rw [hblock d.blockx, hblock d.blocky] at hnone
    constructor
    · rintro ⟨msg, hmsg⟩
      by_contra hcon
      have : paramError d = none := by
        rw [hnone]
        simp only [not_or, not_lt, not_not] at hcon
        obtain ⟨a1, a2, a3, a4, a5, a6, a7, a8, a9, a10, a11, a12, a13, a14, a15, a16⟩ := hcon
        have a2 : d.length ≤ 60 := by omega
        have a4 : d.mtype ≤ 2 := by omega
        have a6 : d.ttype ≤ 5 := by omega
        have a8 : d.mtqL ≤ 255 := by omega
        have a10 : d.mthL ≤ 255 := by omega
        have a12 : d.mtqC ≤ 255 := by omega
        have a14 : d.mthC ≤ 255 := by omega
        exact ⟨⟨a1, a2⟩, ⟨a3, a4⟩, ⟨a5, a6⟩, ⟨a7, a8⟩, ⟨a9, a10⟩, ⟨a11, a12⟩, ⟨a13, a14⟩,
          a15, a16⟩
      rw [this] at hmsg
      exact Option.noConfusion hmsg
    · intro h
      cases hp : paramError d with
      | some msg => exact ⟨msg, rfl⟩
      | none =>
        exfalso
        obtain ⟨b1, b2, b3, b4, b5, b6, b7, b8, b9⟩ := hnone.1 hp
        rcases h with h | h | h | h | h | h | h | h | h | h | h | h | h | h | h | h
        all_goals first | omega | exact h b8 | exact h b9
  · intro msg hmsg
    unfold tdeintmodCreate
    rw [hmsg]

/-! ## Stage B on zero masks -/

theorem ptRead_zero (frames : Nat → Frame) (count : Int) (plane : Nat) (row : Int) (x : Nat)
    (i : Int) (hi : 0 ≤ i ∧ i < count)
    (hin : ((frames i.toNat) plane).inside row x)
    (hz : ((frames i.toNat) plane).pix row.toNat x = 0) :
    ptRead frames count plane i row x = some 0 := by
  simp only [ptRead, hi, and_self, if_true, Plane.read, hin, Int.toNat_ofNat, hz]
  rfl

/-- The pixel body of Stage B on a pixel whose centre masks are all zero: verdict 60. -/
theorem buildPixel_still (d : TDeintModData) (tmmlutf : List Int) (csrc osrc : Nat → Frame)
    (ccount ocount : Int) (plane : Nat) (st : BuildState) (x : Nat) (dst : Plane) (r : Nat)
    (hc4 : 4 ≤ ccount)
    (hc : ∀ j : Nat, (j : Int) < ccount → ((csrc j) plane).inside st.rc x ∧
      ((csrc j) plane).pix st.rc.toNat x = 0)
    (hrd : st.rd = r) (hr : r < dst.height) (hx : x < dst.width) :
    buildPixel d tmmlutf csrc osrc ccount ocount plane st x dst
      = some (dst.set r x (toU8 60)) := by
  have hwr := dst.write_some r x hr hx st.rd x hrd rfl 60
  have hct : cdiv ccount 2 = ccount / 2 := by
    unfold cdiv
    exact Int.tdiv_eq_ediv (by omega) (by omega)
  have ha := ptRead_zero csrc ccount plane st.rc x (cdiv ccount 2 - 2) (by omega)
    (hc _ (by omega)).1 (hc _ (by omega)).2
  have hb := ptRead_zero csrc ccount plane st.rc x (cdiv ccount 2) (by omega)
    (hc _ (by omega)).1 (hc _ (by omega)).2
  have hcv := ptRead_zero csrc ccount plane st.rc x (cdiv ccount 2 + 1) (by omega)
    (hc _ (by omega)).1 (hc _ (by omega)).2
  have hz : centreAllZero csrc ccount plane (cdiv ccount 2) st.rc x = some true := by
    simp [centreAllZero, ha, hb, hcv]
  simp [buildPixel, hz, hwr]

/-- The line loop of Stage B when the centre masks are zero everywhere: every classified row
is set to 60. -/
theorem buildLines_still (d : TDeintModData) (tmmlutf : List Int) (csrc osrc : Nat → Frame)
    (ccount ocount : Int) (plane : Nat) (dst1 : Plane) (f h : Nat) (r0 r2 : Int)
    (hc4 : 4 ≤ ccount) (hf : f ≤ 1) (hH : dst1.height = 2 * h)
    (hcs : ∀ j : Nat, (j : Int) < ccount →
      ((csrc j) plane).width = dst1.width ∧ ((csrc j) plane).height = h ∧
      ∀ y x, ((csrc j) plane).pix y x = 0) :
    ∃ st, forStep f dst1.height 2
        (buildLine d tmmlutf csrc osrc ccount ocount plane dst1.width dst1.height)
        { dst := dst1, rd := f, rc := 0, r0 := r0, r2 := r2 } = some st ∧
      st.dst.width = dst1.width ∧ st.dst.height = dst1.height ∧
      (∀ y x, y < dst1.height → x < dst1.width → y % 2 = f → st.dst.pix y x = 60) ∧
      (∀ y x, ¬ (y < dst1.height ∧ x < dst1.width ∧ y % 2 = f) →
        st.dst.pix y x = dst1.pix y x) := by
  obtain ⟨st, hst, _, _, hw, hhh, h1, h2⟩ := forStep_inv f dst1.height 2
    (buildLine d tmmlutf csrc osrc ccount ocount plane dst1.width dst1.height)
    (fun k st => st.rd = (f : Int) + 2 * k ∧ st.rc = k ∧
      st.dst.width = dst1.width ∧ st.dst.height = dst1.height ∧
      (∀ y x, y < f + 2 * k → x < dst1.width → y % 2 = f → st.dst.pix y x = 60) ∧
      (∀ y x, ¬ (y < f + 2 * k ∧ x < dst1.width ∧ y % 2 = f) →
        st.dst.pix y x = dst1.pix y x))
    { dst := dst1, rd := f, rc := 0, r0 := r0, r2 := r2 }
    ⟨by simp, by simp, rfl, rfl, fun y x hy _ hp => by omega, fun _ _ _ => rfl⟩
    (by
      intro k st hk ⟨hrd, hrc, hw, hhh, h1, h2⟩
      have hkh : k < h := by omega
      have hrdN : st.rd = ((f + 2 * k : Nat) : Int) := by rw [hrd]; push_cast; ring
      obtain ⟨out, ho, how, hoh, hin, hout⟩ := rowLoop_rel dst1.width (f + 2 * k)
        (buildPixel d tmmlutf csrc osrc ccount ocount plane st)
        (fun _ _ b => b = 60) st.dst
        (by
          intro x e hx hew heh
          refine ⟨toU8 60, ?_, (by decide : toU8 60 = (60 : Byte))⟩
          exact buildPixel_still d tmmlutf csrc osrc ccount ocount plane st x e (f + 2 * k) hc4
            (by
              intro j hj
              obtain ⟨a1, a2, a3⟩ := hcs j hj
              exact ⟨⟨by omega, by omega, by omega, by omega⟩, a3 _ _⟩)
            hrdN (by omega) (by omega))
      refine ⟨{ dst := out, rd := st.rd + 2, rc := st.rc + 1,
                r0 := if ((f + 2 * k : Nat) : Int) ≠ 0 then st.r0 + 1 else st.r0,
                r2 := if ((f + 2 * k : Nat) : Int) ≠ (dst1.height : Int) - 3
                  then st.r2 + 1 else st.r2 }, ?_, ?_, ?_, ?_, ?_, ?_, ?_⟩
      · simp only [buildLine, ho, Option.bind_eq_bind, Option.some_bind, Option.pure_def]
      · show st.rd + 2 = _
        rw [hrd]; push_cast; ring
      · show st.rc + 1 = _
        rw [hrc]; push_cast; ring
      · exact how.trans hw
      · exact hoh.trans hhh
      · intro y x hy hx hp
        by_cases hyr : y = f + 2 * k
        · subst hyr
          exact hin x hx
        · have hne : ¬ (y = f + 2 * k ∧ x < dst1.width) := fun h => hyr h.1
          show out.pix y x = 60
          rw [hout y x hne]
          exact h1 y x (by omega) hx hp
      · intro y x hn
        have hne : ¬ (y = f + 2 * k ∧ x < dst1.width) := by
          intro h
          exact hn ⟨by omega, h.2, by omega⟩
        show out.pix y x = _
        rw [hout y x hne]
        apply h2
        intro h
        exact hn ⟨by omega, h.2.1, h.2.2⟩)
  refine ⟨st, hst, hw, hhh, ?_, ?_⟩
  · intro y x hy hx hp
    exact h1 y x (by omega) hx hp
  · intro y x hn
    apply h2
    intro h
    exact hn ⟨by omega, h.2.1, h.2.2⟩

/-- One plane of Stage B when the centre masks are zero everywhere: kept rows hold 10,
classified rows hold 60. -/
theorem buildPlane_still (d : TDeintModData) (fieldt : Int) (tmmlutf : List Int)
    (csrc osrc : Nat → Frame) (ccount ocount : Int) (plane : Nat) (dst : Plane) (h : Nat)
    (hc4 : 4 ≤ ccount) (hf : fieldt = 0 ∨ fieldt = 1) (hH : dst.height = 2 * h)
    (hcs : ∀ j : Nat, (j : Int) < ccount →
      ((csrc j) plane).width = dst.width ∧ ((csrc j) plane).height = h ∧
      ∀ y x, ((csrc j) plane).pix y x = 0) :
    ∃ out, buildPlane d fieldt tmmlutf csrc osrc ccount ocount plane dst = some out ∧
      out.width = dst.width ∧ out.height = dst.height ∧
      (∀ y x, y < dst.height → x < dst.width →
        ((y : Int) % 2 ≠ fieldt → out.pix y x = 10) ∧
        ((y : Int) % 2 = fieldt → out.pix y x = 60)) := by
  obtain ⟨f, hf1, hfe⟩ : ∃ f : Nat, f ≤ 1 ∧ fieldt = f := by
    rcases hf with rfl | rfl
    · exact ⟨0, by omega, rfl⟩
    · exact ⟨1, by omega, rfl⟩
  subst hfe
  obtain ⟨dst1, hd1, hw1, hh1, hk1, hu1⟩ := prefill_spec (1 - f) dst
  obtain ⟨st, hst, hw2, hh2, hc2, hu2⟩ := buildLines_still d tmmlutf csrc osrc ccount ocount
    plane dst1 f h 0 (f : Int) hc4 hf1 (hh1.trans hH)
    (fun j hj => by rw [hw1]; exact hcs j hj)
  have hs : (if (f : Int) = 1 then 0 else 1) = 1 - f := by
    split_ifs <;> omega
  have hi : (if (f : Int) = 1 then (1 : Int) else 0) = (f : Int) := by
    split_ifs <;> omega
  refine ⟨st.dst, ?_, hw2.trans hw1, hh2.trans hh1, ?_⟩
  · simp only [buildPlane, hs, hi, hd1, Option.bind_eq_bind, Option.some_bind, Int.toNat_ofNat]
    rw [← hw1, ← hh1, hst]
    rfl
  · intro y x hy hx
    constructor
    · intro hp
      have hne : ¬ (y < dst1.height ∧ x < dst1.width ∧ y % 2 = f) := by
        intro hc
        apply hp
        omega
      rw [hu2 y x hne]
      exact hk1 y x hy hx (by omega) (by omega)
    · intro hp
      exact hc2 y x (by omega) (by omega) (by omega)

/-- Stage B on centre mask streams that are zero everywhere: the rows y with y mod 2 = fieldt
are set to 60, the other rows to 10. -/
theorem buildMM_still (d : TDeintModData) (node node2 : Int → Frame)
    (content : Nat → Nat → Nat → Byte) (n0 : Int)
    (hcfg : StageBConfig d) (hgeo : StageBGeometry d node node2)
    (hz : ∀ (i : Int) (p y x : Nat),
      (((if fieldtOf d n0 = 1 then node2 else node) i) p).pix y x = 0) :
    ∃ out : Frame, tdeintmodBuildMMGetFrame d node node2 content n0 = some out ∧
      ∀ p, p < d.vi.format.numPlanes →
        ∀ y x, y < planeHeight d.vi.format d.vi.height p →
          x < planeWidth d.vi.format d.vi.width p →
          ((y : Int) % 2 ≠ fieldtOf d n0 → (out p).pix y x = 10) ∧
          ((y : Int) % 2 = fieldtOf d n0 → (out p).pix y x = 60) := by
  obtain ⟨hL, hmt, hord, hfld⟩ := hcfg
  obtain ⟨gfmt, gw, gh, gdiv, gn, gn2⟩ := hgeo
  have hft := fieldtOf_bit d n0 hord hfld
  obtain ⟨t, htab, htl, htc⟩ := tmmlutfOf_spec d.mtype d.order (fieldtOf d n0) hmt hord hft
  obtain ⟨hcc, hoc, hw1, hw0⟩ := windowOf_counts d (fieldtOf d n0) (indexOf d n0) hL.1
  have hbound : ¬ ((windowOf d (fieldtOf d n0) (indexOf d n0)).tstop
      - (windowOf d (fieldtOf d n0) (indexOf d n0)).tstart + 1 > 58 ∨
      (windowOf d (fieldtOf d n0) (indexOf d n0)).bstop
      - (windowOf d (fieldtOf d n0) (indexOf d n0)).bstart + 1 > 58) := by
    by_cases h1 : fieldtOf d n0 = 1
    · obtain ⟨a, b⟩ := hw1 h1
      omega
    · obtain ⟨a, b⟩ := hw0 h1
      omega
  obtain ⟨w, hwdef⟩ : ∃ w, w = windowOf d (fieldtOf d n0) (indexOf d n0) := ⟨_, rfl⟩
  obtain ⟨csrc, hcsrc⟩ : ∃ c : Nat → Frame, c = (if fieldtOf d n0 = 1
      then (fun j : Nat => windowFrame d node2 content (w.bstart + j))
      else (fun j : Nat => windowFrame d node content (w.tstart + j))) := ⟨_, rfl⟩
  obtain ⟨osrc, hosrc⟩ : ∃ c : Nat → Frame, c = (if fieldtOf d n0 = 1
      then (fun j : Nat => windowFrame d node content (w.tstart + j))
      else (fun j : Nat => windowFrame d node2 content (w.bstart + j))) := ⟨_, rfl⟩
  rw [← hwdef] at hcc hoc hbound
  have hwz : ∀ (a : Int → Frame) (i : Int) (p y x : Nat),
      (∀ (i : Int) (p y x : Nat), ((a i) p).pix y x = 0) →
      ((windowFrame d a content i) p).pix y x = 0 := by
    intro a i p y x ha
    unfold windowFrame
    split_ifs
    · rfl
    · exact ha i p y x
  have hcdims : ∀ (j p : Nat), p < d.vi.format.numPlanes →
      ((csrc j) p).width = planeWidth d.viSaved.format d.viSaved.width p ∧
      ((csrc j) p).height = planeHeight d.viSaved.format d.viSaved.height p ∧
      ∀ y x, ((csrc j) p).pix y x = 0 := by
    intro j p hp
    rw [hcsrc]
    by_cases h1 : fieldtOf d n0 = 1
    · simp only [h1, if_true] at hz ⊢
      exact ⟨(windowFrame_dims d node2 content _ p (gn2 _ p hp)).1,
        (windowFrame_dims d node2 content _ p (gn2 _ p hp)).2,
        fun y x => hwz node2 _ p y x hz⟩
    · simp only [h1, if_false] at hz ⊢
      exact ⟨(windowFrame_dims d node content _ p (gn _ p hp)).1,
        (windowFrame_dims d node content _ p (gn _ p hp)).2,
        fun y x => hwz node _ p y x hz⟩
  have hplane : ∀ p, p < d.vi.format.numPlanes → ∃ o,
      buildPlane d (fieldtOf d n0) t csrc osrc w.ccount w.ocount p
        (newVideoFrame d.vi.format d.vi.width d.vi.height content p) = some o ∧
      ∀ y x, y < planeHeight d.vi.format d.vi.height p →
        x < planeWidth d.vi.format d.vi.width p →
        ((y : Int) % 2 ≠ fieldtOf d n0 → o.pix y x = 10) ∧
        ((y : Int) % 2 = fieldtOf d n0 → o.pix y x = 60) := by
    intro p hp
    have hdimW : (newVideoFrame d.vi.format d.vi.width d.vi.height content p).width
        = planeWidth d.viSaved.format d.viSaved.width p := by
      simp only [newVideoFrame, gfmt, gw]
    have hdimH : (newVideoFrame d.vi.format d.vi.width d.vi.height content p).height
        = 2 * planeHeight d.viSaved.format d.viSaved.height p := by
      simp only [newVideoFrame, gfmt, gh]
      exact planeHeight_double _ _ _ gdiv
    obtain ⟨o, ho, _, _, hpix⟩ := buildPlane_still d (fieldtOf d n0) t csrc osrc
      w.ccount w.ocount p
      (newVideoFrame d.vi.format d.vi.width d.vi.height content p)
      (planeHeight d.viSaved.format d.viSaved.height p) (by omega) hft hdimH
      (fun j _ => by rw [hdimW]; exact hcdims j p hp)
    exact ⟨o, ho, fun y x hy hx => hpix y x hy hx⟩
  obtain ⟨out, hout, hpl, _⟩ := frameLoop_spec d.vi.format.numPlanes
    (fun plane dp => buildPlane d (fieldtOf d n0) t csrc osrc w.ccount w.ocount plane dp)
    (newVideoFrame d.vi.format d.vi.width d.vi.height content)
    (fun p hp => by
      obtain ⟨o, ho, _⟩ := hplane p hp
      exact ⟨o, ho⟩)
  refine ⟨out, ?_, ?_⟩
  · simp only [tdeintmodBuildMMGetFrame, htab, Option.some_bind, ← hwdef, hbound, if_false,
      ← hcsrc, ← hosrc]
    exact hout
  · intro p hp
    obtain ⟨o, ho, hrest⟩ := hplane p hp
    have heq : out p = o := by
      have := hpl p hp
      rw [ho] at this
      exact (Option.some.inj this).symm
    rw [heq]
    exact hrest

/-! ## The combing detector and the output stage -/

theorem forLoop_preserves {σ : Type} (body : Nat → σ → Option σ) (P : σ → Prop)
    (hstep : ∀ i s t, body i s = some t → P s → P t) :
    ∀ (n : Nat) (s t : σ), P s → forLoop body n s = some t → P t := by
  intro n
  induction n with
  | zero =>
    intro s t hs h
    simp only [forLoop, Option.some.injEq] at h
    exact h ▸ hs
  | succ k ih =>
    intro s t hs h
    simp only [forLoop] at h
    cases hk : forLoop body k s with
    | none => rw [hk] at h; exact Option.noConfusion h
    | some u =>
      rw [hk] at h
      exact hstep k u t h (ih s u hs hk)

theorem Plane.write_dims (p q : Plane) (y x v : Int) (h : p.write y x v = some q) :
    q.width = p.width ∧ q.height = p.height := by
  unfold Plane.write at h
  split_ifs at h
  simp only [Option.some.injEq] at h
  subst h
  exact ⟨rfl, rfl⟩

theorem markRow_dims (test : Int → Nat → Option Bool) (width : Nat) (r : Int) (cmk p : Plane)
    (h : markRow test width r cmk = some p) :
    p.width = cmk.width ∧ p.height = cmk.height := by
  refine forLoop_preserves _ (fun q => q.width = cmk.width ∧ q.height = cmk.height) ?_
    width cmk p ⟨rfl, rfl⟩ h
  intro x s t hb hs
  cases ht : test r x with
  | none => simp only [ht, Option.none_bind] at hb; exact Option.noConfusion hb
  | some b =>
    simp only [ht, Option.some_bind] at hb
    cases b with
    | true =>
      simp only [if_true] at hb
      obtain ⟨a1, a2⟩ := Plane.write_dims s t _ _ _ hb
      exact ⟨a1.trans hs.1, a2.trans hs.2⟩
    | false =>
      simp only [Bool.false_eq_true, if_false, Option.some.injEq] at hb
      exact hb ▸ hs

theorem markRows_dims (test : Nat → Int → Nat → Option Bool) (width n : Nat)
    (row : Nat → Int) (cmk p : Plane)
    (h : forLoop (fun k cmk => markRow (test k) width (row k) cmk) n cmk = some p) :
    p.width = cmk.width ∧ p.height = cmk.height := by
  refine forLoop_preserves _ (fun q => q.width = cmk.width ∧ q.height = cmk.height) ?_
    n cmk p ⟨rfl, rfl⟩ h
  intro k s t hb hs
  obtain ⟨a1, a2⟩ := markRow_dims _ _ _ _ _ hb
  exact ⟨a1.trans hs.1, a2.trans hs.2⟩

/-- The marking of one plane keeps the geometry of the `cmask` plane. -/
theorem markPlane_dims (cthresh cthresh6 cthreshsq metric : Int) (src cmk p : Plane)
    (h : markPlane cthresh cthresh6 cthreshsq metric src cmk = some p) :
    p.width = cmk.width ∧ p.height = cmk.height := by
  unfold markPlane at h
  split_ifs at h
  · simp only [Option.some.injEq] at h
    subst h
    exact ⟨rfl, rfl⟩
  · unfold markPlane0 at h
    simp only [Option.bind_eq_some] at h
    obtain ⟨p1, h1, p2, h2, p3, h3, p4, h4, h5⟩ := h
    have d1 := markRow_dims _ _ _ _ _ h1
    have d2 := markRow_dims _ _ _ _ _ h2
    have d3 := markRows_dims (fun _ => combTest0 cthresh cthresh6 true (-1) 1 (-2) 2 src)
      src.width (src.height - 4) (fun k => ((2 + k : Nat) : Int)) p2 p3 h3
    have d4 := markRow_dims _ _ _ _ _ h4
    have d5 := markRow_dims _ _ _ _ _ h5
    have e : (cmk.fill 0).width = cmk.width ∧ (cmk.fill 0).height = cmk.height := ⟨rfl, rfl⟩
    exact ⟨by omega, by omega⟩
  · unfold markPlane1 at h
    simp only [Option.bind_eq_some] at h
    obtain ⟨p1, h1, p2, h2, h3⟩ := h
    have d1 := markRow_dims _ _ _ _ _ h1
    have d2 := markRows_dims (fun _ => combTest1 cthreshsq (-1) 1 src)
      src.width (src.height - 2) (fun k => ((1 + k : Nat) : Int)) p1 p2 h2
    have d3 := markRow_dims _ _ _ _ _ h3
    have e : (cmk.fill 0).width = cmk.width ∧ (cmk.fill 0).height = cmk.height := ⟨rfl, rfl⟩
    exact ⟨by omega, by omega⟩

/-- The marking of one plane does not look at the bytes the `cmask` plane held before. -/
theorem markPlane_scratch (cthresh cthresh6 cthreshsq metric : Int) (src cmk cmkA : Plane)
    (hw : cmkA.width = cmk.width) (hh : cmkA.height = cmk.height) :
    markPlane cthresh cthresh6 cthreshsq metric src cmk
      = markPlane cthresh cthresh6 cthreshsq metric src cmkA := by
  have e : ∀ b : Byte, cmk.fill b = cmkA.fill b := by
    intro b
    cases cmk
    cases cmkA
    simp only at hw hh
    subst hw hh
    rfl
  unfold markPlane
  rw [e 255, e 0]

/-- The counting part of `checkCombed` does not look at the values `cArray` held before, when
the array has exactly `arraySize` entries. -/
theorem countCombed_scratch (xhalf yhalf : Int) (xshift yshift : Nat) (cmk : Plane)
    (cArray cArrayA : List Int)
    (hlen : cArray.length = (((sar ((cmk.width : Int) + xhalf) xshift + 1)
      * (sar ((cmk.height : Int) + yhalf) yshift + 1)) * 4).toNat)
    (hA : cArrayA.length = cArray.length) :
    countCombed xhalf yhalf xshift yshift cmk cArray
      = countCombed xhalf yhalf xshift yshift cmk cArrayA := by
  have h1 : cArray.drop cArray.length = [] := List.drop_length cArray
  have h2 : cArrayA.drop cArray.length = [] := by rw [← hA]; exact List.drop_length cArrayA
  unfold countCombed
  simp only [← hlen, hA, h1, h2]

/-- For a luma-only run the verdict of `checkCombed` does not depend on what the scratch frame
`cmask` and the scratch array `cArray` held before. -/
theorem checkCombed_scratch (d : TDeintModData) (src cmask cmaskA : Frame)
    (cArray cArrayA : List Int) (hch : d.chroma = false)
    (hw : (cmaskA 0).width = (cmask 0).width) (hh : (cmaskA 0).height = (cmask 0).height)
    (hlen : cArray.length = (((sar (((cmask 0).width : Int) + xhalf d) (xshift d) + 1)
      * (sar (((cmask 0).height : Int) + yhalf d) (yshift d) + 1)) * 4).toNat)
    (hA : cArrayA.length = cArray.length) :
    checkCombed d src cmask cArray = checkCombed d src cmaskA cArrayA := by
  unfold checkCombed checkCombedMIC
  simp only [hch, Bool.false_eq_true, if_false, forLoop, Option.some_bind]
  rw [markPlane_scratch d.cthresh (cthresh6 d) (cthreshsq d) d.metric (src 0) (cmask 0)
    (cmaskA 0) hw hh]
  cases hm : markPlane d.cthresh (cthresh6 d) (cthreshsq d) d.metric (src 0) (cmaskA 0) with
  | none => rfl
  | some p =>
    obtain ⟨pw, ph⟩ := markPlane_dims _ _ _ _ _ _ _ hm
    simp only [Option.some_bind, Function.update_same]
    rw [countCombed_scratch (xhalf d) (yhalf d) (xshift d) (yshift d) p cArray cArrayA
      (by rw [pw, ph, hw, hh]; exact hlen) hA]

/-- For a luma-only run `checkCombed` looks at plane 0 of `src` and at the fields `cthresh`,
`metric`, `MI`, `blockx`, `blocky` of the configuration only. -/
theorem checkCombed_congr (d dA : TDeintModData) (src srcA cmask : Frame) (cArray : List Int)
    (hch : d.chroma = false)
    (hd : d.cthresh = dA.cthresh ∧ d.metric = dA.metric ∧ d.MI = dA.MI ∧
      d.blockx = dA.blockx ∧ d.blocky = dA.blocky ∧ d.chroma = dA.chroma)
    (hs : src 0 = srcA 0) :
    checkCombed d src cmask cArray = checkCombed dA srcA cmask cArray := by
  obtain ⟨h1, h2, h3, h4, h5, h6⟩ := hd
  have hchA : dA.chroma = false := by rw [← h6]; exact hch
  unfold checkCombed checkCombedMIC xhalf yhalf xshift yshift cthresh6 cthreshsq
  rw [← h1, ← h2, ← h3, ← h4, ← h5, hchA, hch]
  simp only [Bool.false_eq_true, if_false, forLoop, Option.some_bind, hs]

set_option maxRecDepth 100000 in
theorem stripes_combed_even :
    checkCombed (combData 16 16 16 6 0 0) (stripeFrame 16 16 128 0) (constFrame 16 16 0)
      (List.replicate 16 0) = some true := by
  decide

set_option maxRecDepth 100000 in
theorem stripes_combed_odd :
    checkCombed (combData 16 16 16 6 0 0) (stripeFrame 16 16 0 128) (constFrame 16 16 0)
      (List.replicate 16 0) = some true := by
  decide

/-- C12: combing scenario. For a 16x16 luma-only frame whose rows alternate between all-128 and
all-0 (either one first), with cthresh = 6, metric = 0, MI = 0, blockx = blocky = 16,
`checkCombed` returns true, whatever the scratch frame and scratch array held before. -/
theorem C12_combing_scenario (d : TDeintModData) (src cmask : Frame) (cArray : List Int)
    (hd : d.cthresh = 6 ∧ d.metric = 0 ∧ d.MI = 0 ∧ d.blockx = 16 ∧ d.blocky = 16 ∧
      d.chroma = false)
    (hs : src 0 = stripeFrame 16 16 128 0 0 ∨ src 0 = stripeFrame 16 16 0 128 0)
    (hcm : (cmask 0).width = 16 ∧ (cmask 0).height = 16) (hlen : cArray.length = 16) :
    checkCombed d src cmask cArray = some true := by
  obtain ⟨h1, h2, h3, h4, h5, h6⟩ := hd
  have hx : xhalf d = 8 := by unfold xhalf; rw [h4]; rfl
  have hy : yhalf d = 8 := by unfold yhalf; rw [h5]; rfl
  have hxs : xshift d = 4 := by unfold xshift; rw [h4]; rfl
  have hys : yshift d = 4 := by unfold yshift; rw [h5]; rfl
  rw [checkCombed_scratch d src cmask (constFrame 16 16 0) cArray (List.replicate 16 0) h6
    (by rw [hcm.1]; rfl) (by rw [hcm.2]; rfl)
    (by rw [hcm.1, hcm.2, hx, hy, hxs, hys, hlen]; rfl) (by rw [hlen]; rfl)]
  rcases hs with hs | hs
  · rw [checkCombed_congr d (combData 16 16 16 6 0 0) src (stripeFrame 16 16 128 0) _ _ h6
      ⟨h1, h2, h3, h4, h5, h6⟩ hs]
    exact stripes_combed_even
  · rw [checkCombed_congr d (combData 16 16 16 6 0 0) src (stripeFrame 16 16 0 128) _ _ h6
      ⟨h1, h2, h3, h4, h5, h6⟩ hs]
    exact stripes_combed_odd

/-- Instance of C12: the scenario with the even rows at 128; the scratch frame holds 7
everywhere and the scratch array 5. -/
theorem C12_combing_scenario_witness :
    checkCombed (combData 16 16 16 6 0 0) (stripeFrame 16 16 128 0) (constFrame 16 16 7)
      (List.replicate 16 5) = some true :=
  C12_combing_scenario (combData 16 16 16 6 0 0) (stripeFrame 16 16 128 0) (constFrame 16 16 7)
    (List.replicate 16 5) ⟨rfl, rfl, rfl, rfl, rfl, rfl⟩ (Or.inl rfl) ⟨rfl, rfl⟩ rfl

/-- C11: the combed-frame decision is monotone in MI. With the frame, the scratch buffers and
every other parameter fixed, if MI1 <= MI2 and `checkCombed` returns true with MI = MI2, then
it returns true with MI = MI1. -/
theorem C11_monotone_in_MI (d : TDeintModData) (src cmask : Frame) (cArray : List Int)
    (MI1 MI2 : Int) (hle : MI1 ≤ MI2)
    (h : checkCombed { d with MI := MI2 } src cmask cArray = some true) :
    checkCombed { d with MI := MI1 } src cmask cArray = some true := by
  unfold checkCombed at h ⊢
  have e : checkCombedMIC ({ d with MI := MI1 } : TDeintModData).cthresh
      (cthresh6 { d with MI := MI1 }) (cthreshsq { d with MI := MI1 })
      ({ d with MI := MI1 } : TDeintModData).metric ({ d with MI := MI1 } : TDeintModData).chroma
      (xhalf { d with MI := MI1 }) (yhalf { d with MI := MI1 }) (xshift { d with MI := MI1 })
      (yshift { d with MI := MI1 }) src cmask cArray
      = checkCombedMIC ({ d with MI := MI2 } : TDeintModData).cthresh
      (cthresh6 { d with MI := MI2 }) (cthreshsq { d with MI := MI2 })
      ({ d with MI := MI2 } : TDeintModData).metric ({ d with MI := MI2 } : TDeintModData).chroma
      (xhalf { d with MI := MI2 }) (yhalf { d with MI := MI2 }) (xshift { d with MI := MI2 })
      (yshift { d with MI := MI2 }) src cmask cArray := rfl
  rw [e]
  cases hm : checkCombedMIC ({ d with MI := MI2 } : TDeintModData).cthresh
      (cthresh6 { d with MI := MI2 }) (cthreshsq { d with MI := MI2 })
      ({ d with MI := MI2 } : TDeintModData).metric ({ d with MI := MI2 } : TDeintModData).chroma
      (xhalf { d with MI := MI2 }) (yhalf { d with MI := MI2 }) (xshift { d with MI := MI2 })
      (yshift { d with MI := MI2 }) src cmask cArray with
  | none =>
    rw [hm] at h
    exact Option.noConfusion h
  | some MIC =>
    rw [hm] at h
    simp only [Option.map_some', Option.some.injEq, decide_eq_true_eq] at h ⊢
    show MIC > MI1
    have h' : MIC > MI2 := h
    omega

theorem stripes_combed_small :
    checkCombed (combData 4 4 4 6 0 5) (stripeFrame 4 4 128 0) (constFrame 4 4 0)
      (List.replicate 16 0) = some true := by
  decide

/-- Instance of C11: 4x4 stripes with 4x4 blocks (MIC = 8): combed at MI = 5, hence at
MI = 2. -/
theorem C11_monotone_in_MI_witness :
    checkCombed (combData 4 4 4 6 0 2) (stripeFrame 4 4 128 0) (constFrame 4 4 0)
      (List.replicate 16 0) = some true :=
  C11_monotone_in_MI (combData 4 4 4 6 0 77) (stripeFrame 4 4 128 0) (constFrame 4 4 0)
    (List.replicate 16 0) 2 5 (by decide) stripes_combed_small

/-- C10, failing input: a 4x4 gray frame with the default blocks of 16x16, cthresh = 255,
MI = 0. The first counting loop of `checkCombed` runs over y = 1 .. 7 and reads row y - 1 of
the 4-row `cmask` plane, so the call reads outside the plane and has no defined result, for
metric 0 and for metric 1; with 4x4 blocks the same frame is reported as not combed. -/
theorem C10_small_frame_reads_outside :
    checkCombed (combData 4 4 16 255 0 0) (constFrame 4 4 7) (constFrame 4 4 0)
      (List.replicate 4 0) = none ∧
    checkCombed (combData 4 4 16 255 1 0) (constFrame 4 4 7) (constFrame 4 4 0)
      (List.replicate 4 0) = none ∧
    checkCombed (combData 4 4 4 255 0 0) (constFrame 4 4 7) (constFrame 4 4 0)
      (List.replicate 16 0) = some false := by
  decide

theorem flat_not_combed :
    checkCombed (combData 4 4 4 6 0 0) (constFrame 4 4 7)
      (newVideoFrame grayFormat 4 4 (fun _ _ _ => 3)) ((List.range 16).map (fun _ => 5))
      = some false := by
  decide

/-- C9: combing bypass. In `tdeintmodGetFrame`, when mode == 0 and full == false and
`checkCombed` returns false for the current source frame S, the frame returned is S itself,
whatever the verdict mask, the previous and next frames, clip2 and edeint are; when mode == 1
or full == true the result is the same for every detector (also one that is undefined) and
every outcome of the allocation of its scratch array: the detector is not consulted. -/
theorem C9_combing_bypass (d : TDeintModData) (node clip2 mask edeint : Int → Frame)
    (hasEdeint : Bool) (malloc : Option (Nat → Int)) (content : Nat → Nat → Nat → Byte)
    (n : Int) :
    (d.mode = 0 → d.full = false → ∀ block, malloc = some block →
      checkCombed d (node n) (newVideoFrame d.vi.format d.vi.width d.vi.height content)
        ((List.range ((sar ((d.viSaved.width : Int) + xhalf d) (xshift d) + 1)
          * (sar ((d.viSaved.height : Int) + yhalf d) (yshift d) + 1) * 4).toNat).map block)
        = some false →
      tdeintmodGetFrame d node clip2 mask edeint hasEdeint malloc content n
        = some (GetFrameResult.frame (node n))) ∧
    ((d.mode = 1 ∨ d.full = true) →
      ∀ (detector detectorA : Frame → Frame → List Int → Option Bool)
        (mallocA : Option (Nat → Int)),
        tdeintmodGetFrameWith detector d node clip2 mask edeint hasEdeint malloc content n
          = tdeintmodGetFrameWith detectorA d node clip2 mask edeint hasEdeint mallocA
              content n) := by
  refine ⟨?_, ?_⟩
  · intro hm hf block hb hc
    have hcond : d.mode = 0 ∧ ¬ d.full = true := ⟨hm, by rw [hf]; decide⟩
    have hm1 : ¬ d.mode = 1 := by omega
    unfold tdeintmodGetFrame tdeintmodGetFrameWith
    simp only [if_neg hm1, if_pos hcond, hb, hc, Option.some_bind, Bool.false_eq_true,
      not_false_eq_true, if_true]
  · intro h detector detectorA mallocA
    have hcond : ¬ (d.mode = 0 ∧ ¬ d.full = true) := by
      rcases h with h | h
      · intro hc
        omega
      · intro hc
        exact hc.2 h
    unfold tdeintmodGetFrameWith
    simp only [if_neg hcond]

/-- Instance of C9: same-rate mode, full = false, a flat 4x4 gray frame (not combed): the
source frame is returned. -/
theorem C9_combing_bypass_witness :
    tdeintmodGetFrame (combData 4 4 4 6 0 0) (fun _ => constFrame 4 4 7)
      (fun _ => constFrame 4 4 1) (fun _ => constFrame 4 4 60) (fun _ => constFrame 4 4 2)
      false (some (fun _ => 5)) (fun _ _ _ => 3) 0
      = some (GetFrameResult.frame (constFrame 4 4 7)) :=
  (C9_combing_bypass (combData 4 4 4 6 0 0) (fun _ => constFrame 4 4 7)
    (fun _ => constFrame 4 4 1) (fun _ => constFrame 4 4 60) (fun _ => constFrame 4 4 2)
    false (some (fun _ => 5)) (fun _ _ _ => 3) 0).1 rfl rfl (fun _ => 5) rfl flat_not_combed

/-! ## Unchecked thresholds and classified rows -/

/-- Instance of C13: length = 5 fails the first check and no filter is created; blockx = 24 is
rejected; 16 is a power of two and 24 is not. -/
theorem C13_constructor_range_checks_witness :
    tdeintmodCreate { defaultData 4 4 5 with length := 5 } goodClip
      = Except.error "TDeintMod: length must be between 6 and 60 inclusive" ∧
    (∃ msg, paramError { defaultData 4 4 5 with blockx := 24 } = some msg) ∧
    isPowerOf2 16 = true ∧ isPowerOf2 24 = false := by
  have h := C13_constructor_range_checks { defaultData 4 4 5 with length := 5 } goodClip
  have hb := C13_constructor_range_checks { defaultData 4 4 5 with blockx := 24 } goodClip
  refine ⟨h.2.1 _ rfl, hb.1.2 ?_, (h.2.2 16 (by decide) (by decide)).2 (by decide), ?_⟩
  · right; right; right; right; right; right; right; right; right; right; right; right
    right; right; left
    decide
  · have := (h.2.2 24 (by decide) (by decide)).not.2 (by decide)
    simpa using this

/-- The claim C14 fails: with minthresh = -5 and nt = -10, or with maxthresh = 300 and
nt = 100, every check of the constructor passes, and the out-of-range value is stored in the
table mlut (mlut[0] = -5, respectively mlut[255] = 300). -/
theorem C14_threshold_range_counterexample :
    tdeintmodCreate { defaultData 4 4 5 with nt := -10, minthresh := -5 } goodClip
      = Except.ok () ∧
    mlut { defaultData 4 4 5 with nt := -10, minthresh := -5 } 0 = some (-5) ∧
    tdeintmodCreate { defaultData 4 4 5 with nt := 100, maxthresh := 300 } goodClip
      = Except.ok () ∧
    mlut { defaultData 4 4 5 with nt := 100, maxthresh := 300 } 255 = some 300 := by
  refine ⟨rfl, ?_, rfl, ?_⟩ <;> decide

/-- C14 (amended): `tdeintmodCreate` performs no range check on minthresh and maxthresh. The
outcome of its checks does not depend on them, and every int value reaches the mlut
computation as given: for i in [0,256) and nt such that the int sum i + nt does not overflow
(-2^31 <= nt <= 2^31 - 256), mlut[i] = min(max(i + nt, minthresh), maxthresh). -/
theorem C14_thresholds_unchecked (d : TDeintModData) (clip : ClipInfo) (a b : Int)
    (hnt : -2147483648 ≤ d.nt ∧ d.nt + 255 ≤ 2147483647) :
    tdeintmodCreate { d with minthresh := a, maxthresh := b } clip = tdeintmodCreate d clip ∧
    ∀ i : Int, 0 ≤ i → i < 256 →
      mlut { d with minthresh := a, maxthresh := b } i = some (min (max (i + d.nt) a) b) := by
  refine ⟨rfl, ?_⟩
  intro i h0 h1
  have h : 0 ≤ i ∧ i < 256 := ⟨h0, h1⟩
  have e : wrap32 (i + d.nt) = i + d.nt := wrap32_id _ ⟨by omega, by omega⟩
  simp only [mlut, h, and_self, if_true, e]

/-- Instance of C14 (amended): minthresh = 1000 and maxthresh = 2000 are accepted and
mlut[7] = 1000. -/
theorem C14_thresholds_unchecked_witness :
    tdeintmodCreate { defaultData 4 4 5 with minthresh := 1000, maxthresh := 2000 } goodClip
      = tdeintmodCreate (defaultData 4 4 5) goodClip ∧
    mlut { defaultData 4 4 5 with minthresh := 1000, maxthresh := 2000 } 7 = some 1000 := by
  have h := C14_thresholds_unchecked (defaultData 4 4 5) goodClip 1000 2000 (by decide)
  exact ⟨h.1, h.2 7 (by decide) (by decide)⟩

/-- The claim C15 fails: with field = 1 in same-rate mode and mask streams that are zero
everywhere, Stage B leaves the even rows 0 and 2 at the prefill value 10 and classifies the odd
rows 1 and 3 (verdict 60). -/
theorem C15_row_parity_counterexample :
    (defaultData 2 2 5).field = 1 ∧ (defaultData 2 2 5).mode = 0 ∧
    ∃ out : Frame, tdeintmodBuildMMGetFrame (defaultData 2 2 5) (fun _ => constFrame 2 2 0)
        (fun _ => constFrame 2 2 0) (fun _ _ _ => 9) 0 = some out ∧
      (out 0).pix 0 0 = 10 ∧ (out 0).pix 1 0 = 60 ∧ (out 0).pix 2 0 = 10 ∧
      (out 0).pix 3 0 = 60 := by
  refine ⟨rfl, rfl, ?_⟩
  obtain ⟨out, ho, hpix⟩ := buildMM_still (defaultData 2 2 5) (fun _ => constFrame 2 2 0)
    (fun _ => constFrame 2 2 0) (fun _ _ _ => 9) 0 (defaultData_config 2 2 5)
    (defaultData_geometry 2 2 5 0 0) (fun _ _ _ _ => by split_ifs <;> rfl)
  refine ⟨out, ho, ?_, ?_, ?_, ?_⟩
  · exact (hpix 0 (by decide) 0 0 (by decide) (by decide)).1 (by decide)
  · exact (hpix 0 (by decide) 1 0 (by decide) (by decide)).2 (by decide)
  · exact (hpix 0 (by decide) 2 0 (by decide) (by decide)).1 (by decide)
  · exact (hpix 0 (by decide) 3 0 (by decide) (by decide)).2 (by decide)

/-- C15 (amended): in same-rate mode the rows that Stage B classifies are exactly the rows y
with y mod 2 = field, that is the odd rows 1, 3, 5, ... when field = 1 and the even rows
0, 2, 4, ... when field = 0. All other rows are kept rows prefilled with 10. A classified row
holds a verdict code, and it holds 60 when the mask stream of the opposite parity is zero
everywhere. -/
theorem C15_classified_rows (d : TDeintModData) (node node2 : Int → Frame)
    (content : Nat → Nat → Nat → Byte) (n0 : Int)
    (hcfg : StageBConfig d) (hgeo : StageBGeometry d node node2) (hmode : d.mode = 0)
    (hrows : d.field = 1 → ∀ p, p < d.vi.format.numPlanes →
      2 ≤ planeHeight d.viSaved.format d.viSaved.height p) :
    ∃ out : Frame, tdeintmodBuildMMGetFrame d node node2 content n0 = some out ∧
      ∀ p y x, p < d.vi.format.numPlanes → y < planeHeight d.vi.format d.vi.height p →
        x < planeWidth d.vi.format d.vi.width p →
        ((y : Int) % 2 ≠ d.field → (out p).pix y x = 10) ∧
        ((y : Int) % 2 = d.field →
          (((out p).pix y x).val = 10 ∨ ((out p).pix y x).val = 20 ∨
            ((out p).pix y x).val = 30 ∨ ((out p).pix y x).val = 40 ∨
            ((out p).pix y x).val = 50 ∨ ((out p).pix y x).val = 60) ∧
          ((∀ (i : Int) (q r c : Nat),
              (((if d.field = 1 then node2 else node) i) q).pix r c = 0) →
            (out p).pix y x = 60)) := by
  have hm1 : ¬ d.mode = 1 := by omega
  have hf : fieldtOf d n0 = d.field := by simp only [fieldtOf, hm1, if_false]
  obtain ⟨out, ho, hspec⟩ := buildMM_spec d node node2 content n0 hcfg hgeo
    (fun h1 => hrows (by rw [← hf]; exact h1))
  refine ⟨out, ho, ?_⟩
  intro p y x hp hy hx
  obtain ⟨hw, hh, hpix⟩ := hspec p hp
  obtain ⟨hkeep, hcode⟩ := hpix y x (by rw [hh]; exact hy) (by rw [hw]; exact hx)
  rw [hf] at hkeep hcode
  refine ⟨hkeep, fun hpar => ⟨hcode hpar, ?_⟩⟩
  intro hz
  obtain ⟨outA, hoA, hstill⟩ := buildMM_still d node node2 content n0 hcfg hgeo
    (by rw [hf]; exact hz)
  have heq : out = outA := by
    rw [ho] at hoA
    exact Option.some.inj hoA
  rw [heq]
  exact (hstill p hp y x hy hx).2 (by rw [hf]; exact hpar)

/-- Instance of C15 (amended): field = 1, zero masks, a 2x4 frame: row 2 is kept (10) and row 3
is classified (60). -/
theorem C15_classified_rows_witness :
    ∃ out : Frame, tdeintmodBuildMMGetFrame (defaultData 2 2 5) (fun _ => constFrame 2 2 0)
        (fun _ => constFrame 2 2 0) (fun _ _ _ => 9) 0 = some out ∧
      (out 0).pix 2 1 = 10 ∧ (out 0).pix 3 1 = 60 := by
  obtain ⟨out, ho, hpix⟩ := C15_classified_rows (defaultData 2 2 5) (fun _ => constFrame 2 2 0)
    (fun _ => constFrame 2 2 0) (fun _ _ _ => 9) 0 (defaultData_config 2 2 5)
    (defaultData_geometry 2 2 5 0 0) rfl
    (fun _ p hp => by rw [gray_plane_zero p hp]; exact Nat.le_refl 2)
  refine ⟨out, ho, ?_, ?_⟩
  · exact (hpix 0 2 1 (by decide) (by decide) (by decide)).1 (by decide)
  · exact ((hpix 0 3 1 (by decide) (by decide) (by decide)).2 (by decide)).2
      (fun _ _ _ _ => by split_ifs <;> rfl)

/-! ## Stage M: extrema, overrides and the composition of the masks -/

theorem minmax_step (vs : List Int) : ∀ init : Int × Int,
    (((vs.foldl (fun mm v => (min mm.1 v, max mm.2 v)) init).1 = init.1 ∨
        (vs.foldl (fun mm v => (min mm.1 v, max mm.2 v)) init).1 ∈ vs) ∧
      (vs.foldl (fun mm v => (min mm.1 v, max mm.2 v)) init).1 ≤ init.1 ∧
      ∀ v ∈ vs, (vs.foldl (fun mm v => (min mm.1 v, max mm.2 v)) init).1 ≤ v) ∧
    (((vs.foldl (fun mm v => (min mm.1 v, max mm.2 v)) init).2 = init.2 ∨
        (vs.foldl (fun mm v => (min mm.1 v, max mm.2 v)) init).2 ∈ vs) ∧
      init.2 ≤ (vs.foldl (fun mm v => (min mm.1 v, max mm.2 v)) init).2 ∧
      ∀ v ∈ vs, v ≤ (vs.foldl (fun mm v => (min mm.1 v, max mm.2 v)) init).2) := by
  induction vs with
  | nil =>
    intro init
    simp
  | cons a rest ih =>
    intro init
    obtain ⟨⟨h1, h2, h3⟩, ⟨k1, k2, k3⟩⟩ := ih (min init.1 a, max init.2 a)
    simp only [List.foldl_cons, List.mem_cons]
    simp only at h1 h2 k1 k2
    refine ⟨⟨?_, ?_, ?_⟩, ⟨?_, ?_, ?_⟩⟩
    · rcases h1 with h | h
      · rcases min_choice init.1 a with hm | hm
        · left; rw [h, hm]
        · right; left; rw [h, hm]
      · right; right; exact h
    · exact le_trans h2 (min_le_left _ _)
    · intro v hv
      rcases hv with rfl | hv
      · exact le_trans h2 (min_le_right _ _)
      · exact h3 v hv
    · rcases k1 with h | h
      · rcases max_choice init.2 a with hm | hm
        · left; rw [h, hm]
        · right; left; rw [h, hm]
      · right; right; exact h
    · exact le_trans (le_max_left _ _) k2
    · intro v hv
      rcases hv with rfl | hv
      · exact le_trans (le_max_right _ _) k2
      · exact k3 v hv

/-- The running extrema of `threshMask` over a non-empty list of byte values are the least and
the greatest value of the list. -/
theorem minmax_extrema (vs : List Int) (hne : vs ≠ []) (hb : ∀ v ∈ vs, 0 ≤ v ∧ v ≤ 255) :
    ((minmax vs).1 ∈ vs ∧ ∀ v ∈ vs, (minmax vs).1 ≤ v) ∧
    ((minmax vs).2 ∈ vs ∧ ∀ v ∈ vs, v ≤ (minmax vs).2) := by
  rw [minmax_fold]
  obtain ⟨⟨h1, h2, h3⟩, ⟨k1, k2, k3⟩⟩ := minmax_step vs (256, -1)
  obtain ⟨a, rest, rfl⟩ := List.exists_cons_of_ne_nil hne
  have ha := hb a (List.mem_cons_self _ _)
  have l1 := h3 a (List.mem_cons_self _ _)
  have l2 := k3 a (List.mem_cons_self _ _)
  refine ⟨⟨?_, h3⟩, ⟨?_, k3⟩⟩
  · rcases h1 with h | h
    · simp only at h
      omega
    · exact h
  · rcases k1 with h | h
    · simp only at h
      omega
    · exact h

theorem memsetRows_pix (p : Plane) (r0 n : Nat) (b : Byte) (h : r0 + n ≤ p.height) :
    ∃ o, p.memsetRows r0 n b = some o ∧ o.width = p.width ∧ o.height = p.height ∧
      ∀ r c, o.pix r c = if r0 ≤ r ∧ r < r0 + n then b else p.pix r c :=
  ⟨{ p with pix := fun r c => if r0 ≤ r ∧ r < r0 + n then b else p.pix r c },
    by simp only [Plane.memsetRows, h, if_true], rfl, rfl, fun _ _ => rfl⟩

/-- The bytes `threshMask` leaves in one plane, overrides included: each half holds its
override when that is above -1 and the computed value otherwise. `mtq`, `mth` are the two
overrides that apply to the plane. -/
theorem threshMaskPlane_override (d : TDeintModData) (plane : Nat) (src dst : Plane)
    (hw : src.width = planeWidth d.vi.format d.vi.width plane)
    (h2 : 2 ≤ src.height) (w2 : 2 ≤ src.width)
    (hdw : dst.width = src.width) (hdh : dst.height = 2 * src.height)
    (ht : 0 ≤ d.ttype ∧ d.ttype ≤ 5) (mtq mth : Int)
    (hq : mtq = if plane = 0 then d.mtqL else d.mtqC)
    (hh : mth = if plane = 0 then d.mthL else d.mthC) :
    ∃ out, threshMaskPlane d plane src dst = some out ∧
      ∀ y x, y < src.height → x < src.width →
        ∃ a, threshAt d plane src y x = some a ∧
          out.pix y x = (if mtq > -1 then toU8 mtq else toU8 (sar (a + 2) 2)) ∧
          out.pix (y + src.height) x = (if mth > -1 then toU8 mth else toU8 (sar (a + 1) 1)) := by
  obtain ⟨q, hql, hqw, hqh, hin, _⟩ := pixelLoop2_rel src.width src.height
    (fun y x e => threshPixel d plane src y x e)
    (fun y x b => ∃ a, threshAt d plane src y x = some a ∧ b = toU8 (sar (a + 2) 2))
    (fun y x b => ∃ a, threshAt d plane src y x = some a ∧ b = toU8 (sar (a + 1) 1))
    dst (by
      intro y x e hy hx hew heh
      obtain ⟨a, ha, hb⟩ := threshPixel_value d plane src y x e hw hy hx h2 w2 ht
        (by omega) (by omega)
      exact ⟨_, _, hb, ⟨a, ha, rfl⟩, ⟨a, ha, rfl⟩⟩)
  have hval : ∀ y x, y < src.height → x < src.width →
      ∃ a, threshAt d plane src y x = some a ∧ q.pix y x = toU8 (sar (a + 2) 2) ∧
        q.pix (y + src.height) x = toU8 (sar (a + 1) 1) := by
    intro y x hy hx
    obtain ⟨⟨a, ha, hb1⟩, ⟨a', ha', hb2⟩⟩ := hin y x hy hx
    rw [ha] at ha'
    have haa : a = a' := Option.some.inj ha'
    subst haa
    exact ⟨a, ha, hb1, hb2⟩
  have hcond : (plane = 0 ∧ d.mtqL > -1 ∧ d.mthL > -1 ∨ plane > 0 ∧ d.mtqC > -1 ∧ d.mthC > -1)
      ↔ (mtq > -1 ∧ mth > -1) := by
    rw [hq, hh]
    by_cases hp : plane = 0
    · simp only [hp, if_true, true_and, gt_iff_lt, lt_self_iff_false, false_and, or_false]
    · have hpos : plane > 0 := Nat.pos_of_ne_zero hp
      simp only [hp, if_false, false_and, hpos, true_and, false_or]
  have hqc : (plane = 0 ∧ d.mtqL > -1 ∨ plane > 0 ∧ d.mtqC > -1) ↔ mtq > -1 := by
    rw [hq]
    by_cases hp : plane = 0
    · simp only [hp, if_true, true_and, gt_iff_lt, lt_self_iff_false, false_and, or_false]
    · have hpos : plane > 0 := Nat.pos_of_ne_zero hp
      simp only [hp, if_false, false_and, hpos, true_and, false_or]
  have hhc : (plane = 0 ∧ d.mthL > -1 ∨ plane > 0 ∧ d.mthC > -1) ↔ mth > -1 := by
    rw [hh]
    by_cases hp : plane = 0
    · simp only [hp, if_true, true_and, gt_iff_lt, lt_self_iff_false, false_and, or_false]
    · have hpos : plane > 0 := Nat.pos_of_ne_zero hp
      simp only [hp, if_false, false_and, hpos, true_and, false_or]
  by_cases hboth : mtq > -1 ∧ mth > -1
  · -- both overrides: two fills, the pixel loop is skipped
    obtain ⟨o1, e1, w1, g1, p1⟩ := memsetRows_pix dst 0 src.height (toU8 mtq) (by omega)
    obtain ⟨o2, e2, _, _, p2⟩ := memsetRows_pix o1 src.height src.height (toU8 mth) (by omega)
    refine ⟨o2, ?_, ?_⟩
    · unfold threshMaskPlane
      simp only [Option.bind_eq_bind]
      by_cases hp : plane = 0
      · have c1 : plane = 0 ∧ d.mtqL > -1 ∧ d.mthL > -1 := by
          have := hcond.2 hboth
          rcases this with h | h
          · exact h
          · omega
        rw [if_pos c1]
        simp only [hp, if_true] at hq hh
        rw [← hq, ← hh, e1]
        simp only [Option.some_bind]
        exact e2
      · have hpos : plane > 0 := Nat.pos_of_ne_zero hp
        have c1 : ¬ (plane = 0 ∧ d.mtqL > -1 ∧ d.mthL > -1) := fun h => hp h.1
        have c2 : plane > 0 ∧ d.mtqC > -1 ∧ d.mthC > -1 := by
          have := hcond.2 hboth
          rcases this with h | h
          · exact absurd h.1 hp
          · exact h
        rw [if_neg c1, if_pos c2]
        simp only [hp, if_false] at hq hh
        rw [← hq, ← hh, e1]
        simp only [Option.some_bind]
        exact e2
    · intro y x hy hx
      obtain ⟨a, ha, _, _⟩ := hval y x hy hx
      refine ⟨a, ha, ?_, ?_⟩
      · rw [if_pos hboth.1, p2, p1]
        have n1 : ¬ (src.height ≤ y ∧ y < src.height + src.height) := by omega
        have n2 : 0 ≤ y ∧ y < 0 + src.height := by omega
        rw [if_neg n1, if_pos n2]
      · rw [if_pos hboth.2, p2]
        have n1 : src.height ≤ y + src.height ∧ y + src.height < src.height + src.height := by
          omega
        rw [if_pos n1]
  · have c1 : ¬ (plane = 0 ∧ d.mtqL > -1 ∧ d.mthL > -1) := fun h =>
      hboth (hcond.1 (Or.inl h))
    have c2 : ¬ (plane > 0 ∧ d.mtqC > -1 ∧ d.mthC > -1) := fun h =>
      hboth (hcond.1 (Or.inr h))
    have hmain : threshMaskPlane d plane src dst =
        (if plane = 0 ∧ d.mtqL > -1 then q.memsetRows 0 src.height (toU8 d.mtqL)
          else if plane = 0 ∧ d.mthL > -1 then q.memsetRows src.height src.height (toU8 d.mthL)
          else if plane > 0 ∧ d.mtqC > -1 then q.memsetRows 0 src.height (toU8 d.mtqC)
          else if plane > 0 ∧ d.mthC > -1
            then q.memsetRows src.height src.height (toU8 d.mthC)
          else some q) := by
      unfold threshMaskPlane
      simp only [Option.bind_eq_bind]
      rw [if_neg c1, if_neg c2, if_pos ht, hql]
      simp only [Option.some_bind]
      rfl
    by_cases hqo : mtq > -1
    · have hho : ¬ mth > -1 := fun h => hboth ⟨hqo, h⟩
      obtain ⟨o1, e1, _, _, p1⟩ := memsetRows_pix q 0 src.height (toU8 mtq) (by omega)
      refine ⟨o1, ?_, ?_⟩
      · rw [hmain]
        by_cases hp : plane = 0
        · simp only [hp, if_true] at hq
          have c3 : plane = 0 ∧ d.mtqL > -1 := ⟨hp, by rw [← hq]; exact hqo⟩
          rw [if_pos c3, ← hq]
          exact e1
        · have hpos : plane > 0 := Nat.pos_of_ne_zero hp
          simp only [hp, if_false] at hq
          have c3 : ¬ (plane = 0 ∧ d.mtqL > -1) := fun h => hp h.1
          have c4 : ¬ (plane = 0 ∧ d.mthL > -1) := fun h => hp h.1
          have c5 : plane > 0 ∧ d.mtqC > -1 := ⟨hpos, by rw [← hq]; exact hqo⟩
          rw [if_neg c3, if_neg c4, if_pos c5, ← hq]
          exact e1
      · intro y x hy hx
        obtain ⟨a, ha, _, hb2⟩ := hval y x hy hx
        refine ⟨a, ha, ?_, ?_⟩
        · rw [if_pos hqo, p1]
          have n2 : 0 ≤ y ∧ y < 0 + src.height := by omega
          rw [if_pos n2]
        · rw [if_neg hho, p1]
          have n1 : ¬ (0 ≤ y + src.height ∧ y + src.height < 0 + src.height) := by omega
          rw [if_neg n1]
          exact hb2
    · by_cases hho : mth > -1
      · obtain ⟨o1, e1, _, _, p1⟩ := memsetRows_pix q src.height src.height (toU8 mth)
          (by omega)
        refine ⟨o1, ?_, ?_⟩
        · rw [hmain]
          by_cases hp : plane = 0
          · simp only [hp, if_true] at hq hh
            have c3 : ¬ (plane = 0 ∧ d.mtqL > -1) := fun h => hqo (by rw [hq]; exact h.2)
            have c4 : plane = 0 ∧ d.mthL > -1 := ⟨hp, by rw [← hh]; exact hho⟩
            rw [if_neg c3, if_pos c4, ← hh]
            exact e1
          · have hpos : plane > 0 := Nat.pos_of_ne_zero hp
            simp only [hp, if_false] at hq hh
            have c3 : ¬ (plane = 0 ∧ d.mtqL > -1) := fun h => hp h.1
            have c4 : ¬ (plane = 0 ∧ d.mthL > -1) := fun h => hp h.1
            have c5 : ¬ (plane > 0 ∧ d.mtqC > -1) := fun h => hqo (by rw [hq]; exact h.2)
            have c6 : plane > 0 ∧ d.mthC > -1 := ⟨hpos, by rw [← hh]; exact hho⟩
            rw [if_neg c3, if_neg c4, if_neg c5, if_pos c6, ← hh]
            exact e1
        · intro y x hy hx
          obtain ⟨a, ha, hb1, _⟩ := hval y x hy hx
          refine ⟨a, ha, ?_, ?_⟩
          · rw [if_neg hqo, p1]
            have n1 : ¬ (src.height ≤ y ∧ y < src.height + src.height) := by omega
            rw [if_neg n1]
            exact hb1
          · rw [if_pos hho, p1]
            have n1 : src.height ≤ y + src.height ∧
                y + src.height < src.height + src.height := by omega
            rw [if_pos n1]
      · refine ⟨q, ?_, ?_⟩
        · rw [hmain]
          have c3 : ¬ (plane = 0 ∧ d.mtqL > -1) := fun h => hqo (hqc.1 (Or.inl h))
          have c4 : ¬ (plane = 0 ∧ d.mthL > -1) := fun h => hho (hhc.1 (Or.inl h))
          have c5 : ¬ (plane > 0 ∧ d.mtqC > -1) := fun h => hqo (hqc.1 (Or.inr h))
          have c6 : ¬ (plane > 0 ∧ d.mthC > -1) := fun h => hho (hhc.1 (Or.inr h))
          rw [if_neg c3, if_neg c4, if_neg c5, if_neg c6]
        · intro y x hy hx
          obtain ⟨a, ha, hb1, hb2⟩ := hval y x hy hx
          exact ⟨a, ha, by rw [if_neg hqo]; exact hb1, by rw [if_neg hho]; exact hb2⟩

/-- Frame-level `threshMask`, overrides included: in every plane each half holds the override
that applies to it when that is above -1, and the computed value otherwise. -/
theorem threshMask_values (d : TDeintModData) (src dst : Frame)
    (hdiv : 2 ^ d.vi.format.subSamplingH ∣ d.vi.height)
    (h2 : ∀ p, p < d.vi.format.numPlanes →
      2 ≤ planeWidth d.vi.format d.vi.width p ∧ 2 ≤ planeHeight d.vi.format d.vi.height p)
    (hs : FrameDims src d.vi.format d.vi.width d.vi.height d.vi.format.numPlanes)
    (hd : FrameDims dst d.vi.format d.vi.width (d.vi.height * 2) d.vi.format.numPlanes)
    (ht : 0 ≤ d.ttype ∧ d.ttype ≤ 5) :
    ∃ out, threshMask d src dst = some out ∧
      ∀ p y x, p < d.vi.format.numPlanes → y < (src p).height → x < (src p).width →
        ∃ a, threshAt d p (src p) y x = some a ∧
          (out p).pix y x = (if (if p = 0 then d.mtqL else d.mtqC) > -1
            then toU8 (if p = 0 then d.mtqL else d.mtqC) else toU8 (sar (a + 2) 2)) ∧
          (out p).pix (y + (src p).height) x = (if (if p = 0 then d.mthL else d.mthC) > -1
            then toU8 (if p = 0 then d.mthL else d.mthC) else toU8 (sar (a + 1) 1)) := by
  obtain ⟨out, ho, hP, _⟩ := frameLoop_lift d.vi.format.numPlanes
    (fun plane dp => threshMaskPlane d plane (src plane) dp) dst
    (fun p o => ∀ y x, y < (src p).height → x < (src p).width →
        ∃ a, threshAt d p (src p) y x = some a ∧
          o.pix y x = (if (if p = 0 then d.mtqL else d.mtqC) > -1
            then toU8 (if p = 0 then d.mtqL else d.mtqC) else toU8 (sar (a + 2) 2)) ∧
          o.pix (y + (src p).height) x = (if (if p = 0 then d.mthL else d.mthC) > -1
            then toU8 (if p = 0 then d.mthL else d.mthC) else toU8 (sar (a + 1) 1)))
    (by
      intro p hp
      obtain ⟨sw, sh⟩ := hs p hp
      obtain ⟨dw, dh⟩ := hd p hp
      obtain ⟨a, b⟩ := h2 p hp
      rw [planeHeight_twice _ _ _ hdiv] at dh
      exact threshMaskPlane_override d p (src p) (dst p) sw (by omega) (by omega) (by omega)
        (by omega) ht _ _ rfl rfl)
  exact ⟨out, ho, fun p y x hp hy hx => hP p hp y x hy hx⟩

/-- C22: threshold overrides act independently per half. For the luma plane the Mq half of
the output of threshMask is the constant mtqL at every pixel when mtqL >= 0 and the computed
(at+2)>>2 otherwise, and the Mh half is the constant mthL when mthL >= 0 and the computed
(at+1)>>1 otherwise; the same holds for the chroma planes with mtqC and mthC. Luma overrides do
not affect the chroma planes and vice versa. -/
theorem C22_threshold_overrides (d : TDeintModData) (src dst : Frame) (p y x : Nat)
    (hdiv : 2 ^ d.vi.format.subSamplingH ∣ d.vi.height)
    (h2 : ∀ p, p < d.vi.format.numPlanes →
      2 ≤ planeWidth d.vi.format d.vi.width p ∧ 2 ≤ planeHeight d.vi.format d.vi.height p)
    (hs : FrameDims src d.vi.format d.vi.width d.vi.height d.vi.format.numPlanes)
    (hd : FrameDims dst d.vi.format d.vi.width (d.vi.height * 2) d.vi.format.numPlanes)
    (ht : 0 ≤ d.ttype ∧ d.ttype ≤ 5)
    (hr : d.mtqL ≤ 255 ∧ d.mthL ≤ 255 ∧ d.mtqC ≤ 255 ∧ d.mthC ≤ 255)
    (hp : p < d.vi.format.numPlanes) (hy : y < (src p).height) (hx : x < (src p).width) :
    ∃ (out : Frame) (a : Int), threshMask d src dst = some out ∧
      threshAt d p (src p) y x = some a ∧
      (p = 0 →
        (if d.mtqL ≥ 0 then (((out p).pix y x).val : Int) = d.mtqL
          else (out p).pix y x = toU8 (sar (a + 2) 2)) ∧
        (if d.mthL ≥ 0 then (((out p).pix (y + (src p).height) x).val : Int) = d.mthL
          else (out p).pix (y + (src p).height) x = toU8 (sar (a + 1) 1))) ∧
      (p > 0 →
        (if d.mtqC ≥ 0 then (((out p).pix y x).val : Int) = d.mtqC
          else (out p).pix y x = toU8 (sar (a + 2) 2)) ∧
        (if d.mthC ≥ 0 then (((out p).pix (y + (src p).height) x).val : Int) = d.mthC
          else (out p).pix (y + (src p).height) x = toU8 (sar (a + 1) 1))) := by
  obtain ⟨out, ho, hval⟩ := threshMask_values d src dst hdiv h2 hs hd ht
  obtain ⟨a, ha, hq, hh⟩ := hval p y x hp hy hx
  obtain ⟨r1, r2, r3, r4⟩ := hr
  have key : ∀ (m : Int) (b v : Byte), m ≤ 255 →
      b = (if m > -1 then toU8 m else v) →
      (if m ≥ 0 then ((b.val : Int) = m) else b = v) := by
    intro m b v hm hb
    by_cases h0 : m ≥ 0
    · rw [if_pos h0]
      have h1 : m > -1 := by omega
      rw [if_pos h1] at hb
      rw [hb]
      exact toU8_small m ⟨h0, hm⟩
    · rw [if_neg h0]
      have h1 : ¬ m > -1 := by omega
      rw [if_neg h1] at hb
      exact hb
  refine ⟨out, a, ho, ha, ?_, ?_⟩
  · intro hp0
    rw [if_pos hp0] at hq hh
    exact ⟨key _ _ _ r1 hq, key _ _ _ r2 hh⟩
  · intro hp1
    have hne : ¬ p = 0 := by omega
    rw [if_neg hne] at hq hh
    exact ⟨key _ _ _ r3 hq, key _ _ _ r4 hh⟩

/-- Instance of C22: luma override mtqL = 7 only, rows 10, 50, 30, 90 (ttype 1): the Mq half
is 7 and the Mh half keeps the computed value 10 at pixel (1,1). -/
theorem C22_threshold_overrides_witness :
    ∃ out : Frame, threshMask { stageMData 4 4 5 with mtqL := 7 }
        (fun _ => rowsPlane 4 [10, 50, 30, 90]) (constFrame 4 8 0) = some out ∧
      (((out 0).pix 1 1).val : Int) = 7 ∧ (out 0).pix 5 1 = 10 := by
  obtain ⟨out, a, ho, ha, h0, _⟩ := C22_threshold_overrides { stageMData 4 4 5 with mtqL := 7 }
    (fun _ => rowsPlane 4 [10, 50, 30, 90]) (constFrame 4 8 0) 0 1 1
    (by show 2 ^ 0 ∣ 4; decide)
    (fun p hp => by rw [gray_plane_zero p hp]; exact ⟨by decide, by decide⟩)
    (fun p hp => by rw [gray_plane_zero p hp]; exact ⟨rfl, rfl⟩)
    (fun p hp => by rw [gray_plane_zero p hp]; exact ⟨rfl, rfl⟩)
    (by decide) (by decide) (by decide) (by decide) (by decide)
  obtain ⟨hq, hh⟩ := h0 rfl
  have ha' : a = 20 := by
    have e : threshAt { stageMData 4 4 5 with mtqL := 7 } 0 (rowsPlane 4 [10, 50, 30, 90]) 1 1
        = some 20 := by decide
    rw [e] at ha
    exact (Option.some.inj ha).symm
  subst ha'
  exact ⟨out, ho, hq, hh⟩

/-- C23: motionMask. For source frames A, B with threshold masks Ma, Mb, at every pixel with
diff = |A(x,y) - B(x,y)|, the quarter output is 255 if diff <= mlut[min(Maq, Mbq)] and 0
otherwise, and the half output is 255 if diff <= mlut[min(Mah, Mbh)] and 0 otherwise. -/
theorem C23_motionMask (d : TDeintModData) (A Ma B Mb dst : Frame) (p y x : Nat)
    (hdiv : 2 ^ d.vi.format.subSamplingH ∣ d.vi.height)
    (hA : FrameDims A d.vi.format d.vi.width d.vi.height d.vi.format.numPlanes)
    (hB : FrameDims B d.vi.format d.vi.width d.vi.height d.vi.format.numPlanes)
    (hMa : FrameDims Ma d.vi.format d.vi.width (d.vi.height * 2) d.vi.format.numPlanes)
    (hMb : FrameDims Mb d.vi.format d.vi.width (d.vi.height * 2) d.vi.format.numPlanes)
    (hd : FrameDims dst d.vi.format d.vi.width (d.vi.height * 2) d.vi.format.numPlanes)
    (hp : p < d.vi.format.numPlanes) (hy : y < planeHeight d.vi.format d.vi.height p)
    (hx : x < planeWidth d.vi.format d.vi.width p) :
    ∃ (out : Frame) (tq th : Int), motionMask d A Ma B Mb dst = some out ∧
      mlut d (min (((Ma p).pix y x).val : Int) (((Mb p).pix y x).val : Int)) = some tq ∧
      mlut d (min (((Ma p).pix (y + planeHeight d.vi.format d.vi.height p) x).val : Int)
        (((Mb p).pix (y + planeHeight d.vi.format d.vi.height p) x).val : Int)) = some th ∧
      (out p).pix y x
        = (if |(((A p).pix y x).val : Int) - (((B p).pix y x).val : Int)| ≤ tq
            then 255 else 0) ∧
      (out p).pix (y + planeHeight d.vi.format d.vi.height p) x
        = (if |(((A p).pix y x).val : Int) - (((B p).pix y x).val : Int)| ≤ th
            then 255 else 0) := by
  obtain ⟨out, ho, _, hpix⟩ := motionMask_spec d A Ma B Mb dst hdiv hA hB hMa hMb hd
  obtain ⟨hq, hh⟩ := hpix p y x hp hy hx
  exact ⟨out, _, _, ho, mlut_some d _ _, mlut_some d _ _, hq, hh⟩

/-- Instance of C23: A = all 100, B = all 110, masks with quarter value 3 and half value 20,
default nt = 2, minthresh = 4: diff = 10 exceeds mlut[3] = 5 and is within mlut[20] = 22. -/
theorem C23_motionMask_witness :
    ∃ out : Frame, motionMask (stageMData 4 4 5) (constFrame 4 4 100)
        (fun _ => rowsPlane 4 [3, 3, 3, 3, 20, 20, 20, 20]) (constFrame 4 4 110)
        (fun _ => rowsPlane 4 [3, 3, 3, 3, 20, 20, 20, 20]) (constFrame 4 8 9) = some out ∧
      (out 0).pix 2 1 = 0 ∧ (out 0).pix 6 1 = 255 := by
  obtain ⟨out, tq, th, ho, hq, hh, h1, h2⟩ := C23_motionMask (stageMData 4 4 5)
    (constFrame 4 4 100) (fun _ => rowsPlane 4 [3, 3, 3, 3, 20, 20, 20, 20])
    (constFrame 4 4 110) (fun _ => rowsPlane 4 [3, 3, 3, 3, 20, 20, 20, 20])
    (constFrame 4 8 9) 0 2 1 (by show 2 ^ 0 ∣ 4; decide)
    (fun p hp => by rw [gray_plane_zero p hp]; exact ⟨rfl, rfl⟩)
    (fun p hp => by rw [gray_plane_zero p hp]; exact ⟨rfl, rfl⟩)
    (fun p hp => by rw [gray_plane_zero p hp]; exact ⟨rfl, rfl⟩)
    (fun p hp => by rw [gray_plane_zero p hp]; exact ⟨rfl, rfl⟩)
    (fun p hp => by rw [gray_plane_zero p hp]; exact ⟨rfl, rfl⟩)
    (by decide) (by decide) (by decide)
  have e1 : tq = 5 := by
    have e : mlut (stageMData 4 4 5) (min (((rowsPlane 4 [3, 3, 3, 3, 20, 20, 20, 20]).pix 2
        1).val : Int) (((rowsPlane 4 [3, 3, 3, 3, 20, 20, 20, 20]).pix 2 1).val : Int))
        = some 5 := by decide
    rw [e] at hq
    exact (Option.some.inj hq).symm
  have e2 : th = 22 := by
    have e : mlut (stageMData 4 4 5) (min (((rowsPlane 4 [3, 3, 3, 3, 20, 20, 20, 20]).pix
        (2 + planeHeight (stageMData 4 4 5).vi.format (stageMData 4 4 5).vi.height 0) 1).val
        : Int) (((rowsPlane 4 [3, 3, 3, 3, 20, 20, 20, 20]).pix
        (2 + planeHeight (stageMData 4 4 5).vi.format (stageMData 4 4 5).vi.height 0) 1).val
        : Int)) = some 22 := by decide
    rw [e] at hh
    exact (Option.some.inj hh).symm
  subst e1 e2
  exact ⟨out, ho, h1, h2⟩

/-- C21: threshMask, uncompensated and range variants, on a plane without override. With N the
neighbours of the pixel (4: above, left, right, below; 8: also the diagonals; rows and columns
mirrored inward at the edges) for ttype 2 and 3, and the neighbours and the centre for ttype 4
and 5, min0 and max0 are the least and the greatest value of N; at = max(|S-min0|, |S-max0|)
for ttype 2, 3 and at = max0 - min0 for ttype 4, 5; the bytes stored are Mq = (at+2)>>2 and
Mh = (at+1)>>1, both within [0,255]. -/
theorem C21_threshMask_uncompensated (d : TDeintModData) (src dst : Frame) (p y x : Nat)
    (hdiv : 2 ^ d.vi.format.subSamplingH ∣ d.vi.height)
    (h2 : ∀ p, p < d.vi.format.numPlanes →
      2 ≤ planeWidth d.vi.format d.vi.width p ∧ 2 ≤ planeHeight d.vi.format d.vi.height p)
    (hs : FrameDims src d.vi.format d.vi.width d.vi.height d.vi.format.numPlanes)
    (hd : FrameDims dst d.vi.format d.vi.width (d.vi.height * 2) d.vi.format.numPlanes)
    (hp : p < d.vi.format.numPlanes) (hno : NoOverride d p)
    (ht : d.ttype = 2 ∨ d.ttype = 3 ∨ d.ttype = 4 ∨ d.ttype = 5)
    (hy : y < (src p).height) (hx : x < (src p).width) :
    ∃ (out : Frame) (min0 max0 : Int), threshMask d src dst = some out ∧
      let c : Int := ((src p).pix y x).val
      let N : List Int :=
        if d.ttype = 2 then [(((src p).pix (prevRow y) x).val : Int),
          (((src p).pix y (leftCol x)).val : Int),
          (((src p).pix y (rightCol x (src p).width)).val : Int),
          (((src p).pix (nextRow y (src p).height) x).val : Int)]
        else if d.ttype = 3 then [(((src p).pix (prevRow y) (leftCol x)).val : Int),
          (((src p).pix (prevRow y) x).val : Int),
          (((src p).pix (prevRow y) (rightCol x (src p).width)).val : Int),
          (((src p).pix y (leftCol x)).val : Int),
          (((src p).pix y (rightCol x (src p).width)).val : Int),
          (((src p).pix (nextRow y (src p).height) (leftCol x)).val : Int),
          (((src p).pix (nextRow y (src p).height) x).val : Int),
          (((src p).pix (nextRow y (src p).height) (rightCol x (src p).width)).val : Int)]
        else if d.ttype = 4 then [(((src p).pix (prevRow y) x).val : Int),
          (((src p).pix y (leftCol x)).val : Int),
          (((src p).pix y x).val : Int),
          (((src p).pix y (rightCol x (src p).width)).val : Int),
          (((src p).pix (nextRow y (src p).height) x).val : Int)]
        else [(((src p).pix (prevRow y) (leftCol x)).val : Int),
          (((src p).pix (prevRow y) x).val : Int),
          (((src p).pix (prevRow y) (rightCol x (src p).width)).val : Int),
          (((src p).pix y (leftCol x)).val : Int),
          (((src p).pix y x).val : Int),
          (((src p).pix y (rightCol x (src p).width)).val : Int),
          (((src p).pix (nextRow y (src p).height) (leftCol x)).val : Int),
          (((src p).pix (nextRow y (src p).height) x).val : Int),
          (((src p).pix (nextRow y (src p).height) (rightCol x (src p).width)).val : Int)]
      let at0 : Int :=
        if d.ttype = 2 ∨ d.ttype = 3 then max |c - min0| |c - max0| else max0 - min0
      (min0 ∈ N ∧ ∀ v ∈ N, min0 ≤ v) ∧ (max0 ∈ N ∧ ∀ v ∈ N, v ≤ max0) ∧
      (0 ≤ sar (at0 + 2) 2 ∧ sar (at0 + 2) 2 ≤ 255) ∧
      (0 ≤ sar (at0 + 1) 1 ∧ sar (at0 + 1) 1 ≤ 255) ∧
      (((out p).pix y x).val : Int) = sar (at0 + 2) 2 ∧
      (((out p).pix (y + (src p).height) x).val : Int) = sar (at0 + 1) 1 := by
  have ht05 : 0 ≤ d.ttype ∧ d.ttype ≤ 5 := by omega
  obtain ⟨out, ho, hval⟩ := threshMask_values d src dst hdiv h2 hs hd ht05
  obtain ⟨a, ha, hq, hh⟩ := hval p y x hp hy hx
  obtain ⟨hno0, hno1⟩ := hno
  have nq : ¬ (if p = 0 then d.mtqL else d.mtqC) > -1 := by
    by_cases h0 : p = 0
    · rw [if_pos h0]; exact (hno0 h0).1
    · rw [if_neg h0]; exact (hno1 (Nat.pos_of_ne_zero h0)).1
  have nh : ¬ (if p = 0 then d.mthL else d.mthC) > -1 := by
    by_cases h0 : p = 0
    · rw [if_pos h0]; exact (hno0 h0).2
    · rw [if_neg h0]; exact (hno1 (Nat.pos_of_ne_zero h0)).2
  rw [if_neg nq] at hq
  rw [if_neg nh] at hh
  obtain ⟨sw, sh⟩ := hs p hp
  obtain ⟨w2, g2⟩ := h2 p hp
  have hcross := readCross_eq d p (src p) y x sw hy hx (by omega) (by omega)
  have hsquare := readSquare_eq d p (src p) y x sw hy hx (by omega) (by omega)
  have hbyte : ∀ b : Byte, 0 ≤ (b.val : Int) ∧ (b.val : Int) ≤ 255 := by
    intro b
    have := b.isLt
    omega
  have hb1 := hbyte ((src p).pix (prevRow y) x)
  have hb2 := hbyte ((src p).pix y (leftCol x))
  have hb3 := hbyte ((src p).pix y (rightCol x (src p).width))
  have hb4 := hbyte ((src p).pix (nextRow y (src p).height) x)
  have hb5 := hbyte ((src p).pix (prevRow y) (leftCol x))
  have hb6 := hbyte ((src p).pix (prevRow y) (rightCol x (src p).width))
  have hb7 := hbyte ((src p).pix (nextRow y (src p).height) (leftCol x))
  have hb8 := hbyte ((src p).pix (nextRow y (src p).height) (rightCol x (src p).width))
  have hc := hbyte ((src p).pix y x)
  -- the list the code folds over, and the value it computes from the extrema
  obtain ⟨vs, hvs, hne, hrange, hat⟩ : ∃ vs : List Int,
      vs = (if d.ttype = 2 then [(((src p).pix (prevRow y) x).val : Int),
          (((src p).pix y (leftCol x)).val : Int),
          (((src p).pix y (rightCol x (src p).width)).val : Int),
          (((src p).pix (nextRow y (src p).height) x).val : Int)]
        else if d.ttype = 3 then [(((src p).pix (prevRow y) (leftCol x)).val : Int),
          (((src p).pix (prevRow y) x).val : Int),
          (((src p).pix (prevRow y) (rightCol x (src p).width)).val : Int),
          (((src p).pix y (leftCol x)).val : Int),
          (((src p).pix y (rightCol x (src p).width)).val : Int),
          (((src p).pix (nextRow y (src p).height) (leftCol x)).val : Int),
          (((src p).pix (nextRow y (src p).height) x).val : Int),
          (((src p).pix (nextRow y (src p).height) (rightCol x (src p).width)).val : Int)]
        else if d.ttype = 4 then [(((src p).pix (prevRow y) x).val : Int),
          (((src p).pix y (leftCol x)).val : Int),
          (((src p).pix y x).val : Int),
          (((src p).pix y (rightCol x (src p).width)).val : Int),
          (((src p).pix (nextRow y (src p).height) x).val : Int)]
        else [(((src p).pix (prevRow y) (leftCol x)).val : Int),
          (((src p).pix (prevRow y) x).val : Int),
          (((src p).pix (prevRow y) (rightCol x (src p).width)).val : Int),
          (((src p).pix y (leftCol x)).val : Int),
          (((src p).pix y x).val : Int),
          (((src p).pix y (rightCol x (src p).width)).val : Int),
          (((src p).pix (nextRow y (src p).height) (leftCol x)).val : Int),
          (((src p).pix (nextRow y (src p).height) x).val : Int),
          (((src p).pix (nextRow y (src p).height) (rightCol x (src p).width)).val : Int)]) ∧
      vs ≠ [] ∧ (∀ v ∈ vs, 0 ≤ v ∧ v ≤ 255) ∧
      a = (if d.ttype = 2 ∨ d.ttype = 3
        then max |(((src p).pix y x).val : Int) - (minmax vs).1|
          |(((src p).pix y x).val : Int) - (minmax vs).2|
        else (minmax vs).2 - (minmax vs).1) := by
    unfold threshAt at ha
    rcases ht with h | h | h | h
    · have c0 : ¬ d.ttype = 0 := by omega
      have c1 : ¬ d.ttype = 1 := by omega
      rw [if_neg c0, if_neg c1, if_pos h, hcross] at ha
      simp only [Option.map_some', Option.some.injEq] at ha
      refine ⟨[(((src p).pix (prevRow y) x).val : Int),
          (((src p).pix y (leftCol x)).val : Int),
          (((src p).pix y (rightCol x (src p).width)).val : Int),
          (((src p).pix (nextRow y (src p).height) x).val : Int)], ?_, List.cons_ne_nil _ _, ?_, ?_⟩
      · rw [if_pos h]
      · intro v hv
        simp only [List.mem_cons, List.mem_singleton, List.mem_nil_iff, or_false] at hv
        rcases hv with e | e | e | e <;> rw [e] <;> assumption
      · simp only [h, true_or, if_true]
        exact ha.symm
    · have c0 : ¬ d.ttype = 0 := by omega
      have c1 : ¬ d.ttype = 1 := by omega
      have c2 : ¬ d.ttype = 2 := by omega
      rw [if_neg c0, if_neg c1, if_neg c2, if_pos h, hsquare] at ha
      simp only [Option.map_some', Option.some.injEq] at ha
      refine ⟨[(((src p).pix (prevRow y) (leftCol x)).val : Int),
          (((src p).pix (prevRow y) x).val : Int),
          (((src p).pix (prevRow y) (rightCol x (src p).width)).val : Int),
          (((src p).pix y (leftCol x)).val : Int),
          (((src p).pix y (rightCol x (src p).width)).val : Int),
          (((src p).pix (nextRow y (src p).height) (leftCol x)).val : Int),
          (((src p).pix (nextRow y (src p).height) x).val : Int),
          (((src p).pix (nextRow y (src p).height) (rightCol x (src p).width)).val : Int)], ?_, List.cons_ne_nil _ _, ?_, ?_⟩
      · rw [if_neg c2, if_pos h]
      · intro v hv
        simp only [List.mem_cons, List.mem_singleton, List.mem_nil_iff, or_false] at hv
        rcases hv with e | e | e | e | e | e | e | e <;> rw [e] <;> assumption
      · simp only [h, or_true, if_true]
        exact ha.symm
    · have c0 : ¬ d.ttype = 0 := by omega
      have c1 : ¬ d.ttype = 1 := by omega
      have c2 : ¬ d.ttype = 2 := by omega
      have c3 : ¬ d.ttype = 3 := by omega
      rw [if_neg c0, if_neg c1, if_neg c2, if_neg c3, if_pos h, hcross] at ha
      simp only [Option.map_some', Option.some.injEq] at ha
      refine ⟨[(((src p).pix (prevRow y) x).val : Int),
          (((src p).pix y (leftCol x)).val : Int),
          (((src p).pix y x).val : Int),
          (((src p).pix y (rightCol x (src p).width)).val : Int),
          (((src p).pix (nextRow y (src p).height) x).val : Int)], ?_, List.cons_ne_nil _ _, ?_, ?_⟩
      · rw [if_neg c2, if_neg c3, if_pos h]
      · intro v hv
        simp only [List.mem_cons, List.mem_singleton, List.mem_nil_iff, or_false] at hv
        rcases hv with e | e | e | e | e <;> rw [e] <;> assumption
      · simp only [c2, c3, or_self, if_false]
        exact ha.symm
    · have c0 : ¬ d.ttype = 0 := by omega
      have c1 : ¬ d.ttype = 1 := by omega
      have c2 : ¬ d.ttype = 2 := by omega
      have c3 : ¬ d.ttype = 3 := by omega
      have c4 : ¬ d.ttype = 4 := by omega
      rw [if_neg c0, if_neg c1, if_neg c2, if_neg c3, if_neg c4, if_pos h, hsquare] at ha
      simp only [Option.map_some', Option.some.injEq] at ha
      refine ⟨[(((src p).pix (prevRow y) (leftCol x)).val : Int),
          (((src p).pix (prevRow y) x).val : Int),
          (((src p).pix (prevRow y) (rightCol x (src p).width)).val : Int),
          (((src p).pix y (leftCol x)).val : Int),
          (((src p).pix y x).val : Int),
          (((src p).pix y (rightCol x (src p).width)).val : Int),
          (((src p).pix (nextRow y (src p).height) (leftCol x)).val : Int),
          (((src p).pix (nextRow y (src p).height) x).val : Int),
          (((src p).pix (nextRow y (src p).height) (rightCol x (src p).width)).val : Int)], ?_, List.cons_ne_nil _ _, ?_, ?_⟩
      · rw [if_neg c2, if_neg c3, if_neg c4]
      · intro v hv
        simp only [List.mem_cons, List.mem_singleton, List.mem_nil_iff, or_false] at hv
        rcases hv with e | e | e | e | e | e | e | e | e <;> rw [e] <;> assumption
      · simp only [c2, c3, or_self, if_false]
        exact ha.symm
  obtain ⟨⟨m1, m2⟩, ⟨k1, k2⟩⟩ := minmax_extrema vs hne hrange
  have hmin := hrange _ m1
  have hmax := hrange _ k1
  have hle : (minmax vs).1 ≤ (minmax vs).2 := m2 _ k1
  have hab : 0 ≤ a ∧ a ≤ 255 := by
    rw [hat]
    split_ifs
    · constructor
      · exact le_trans (abs_nonneg _) (le_max_left _ _)
      · apply max_le
        · rw [abs_le]; constructor <;> omega
        · rw [abs_le]; constructor <;> omega
    · omega
  have e4 : sar (a + 2) 2 = (a + 2) / 4 := sar_two _
  have e2 : sar (a + 1) 1 = (a + 1) / 2 := sar_one _
  have b4 : 0 ≤ sar (a + 2) 2 ∧ sar (a + 2) 2 ≤ 255 := by rw [e4]; omega
  have b2 : 0 ≤ sar (a + 1) 1 ∧ sar (a + 1) 1 ≤ 255 := by rw [e2]; omega
  refine ⟨out, (minmax vs).1, (minmax vs).2, ho, ?_⟩
  dsimp only
  rw [← hvs, ← hat, hq, hh, toU8_small _ b4, toU8_small _ b2]
  exact ⟨⟨m1, m2⟩, ⟨k1, k2⟩, b4, b2, rfl, rfl⟩

/-- Instance of C21: ttype 4 (range over four neighbours and the centre), rows 10, 50, 30, 90:
at pixel (1,1) min0 = 10, max0 = 50, at = 40, Mq = 10, Mh = 20. -/
theorem C21_threshMask_uncompensated_witness :
    ∃ out : Frame, threshMask { stageMData 4 4 5 with ttype := 4 }
        (fun _ => rowsPlane 4 [10, 50, 30, 90]) (constFrame 4 8 0) = some out ∧
      (((out 0).pix 1 1).val : Int) = 10 ∧ (((out 0).pix 5 1).val : Int) = 20 := by
  obtain ⟨out, min0, max0, ho, hmin, hmax, _, _, hq, hh⟩ :=
    C21_threshMask_uncompensated { stageMData 4 4 5 with ttype := 4 }
      (fun _ => rowsPlane 4 [10, 50, 30, 90]) (constFrame 4 8 0) 0 1 1
      (by show 2 ^ 0 ∣ 4; decide)
      (fun p hp => by rw [gray_plane_zero p hp]; exact ⟨by decide, by decide⟩)
      (fun p hp => by rw [gray_plane_zero p hp]; exact ⟨rfl, rfl⟩)
      (fun p hp => by rw [gray_plane_zero p hp]; exact ⟨rfl, rfl⟩)
      (by decide) (by unfold NoOverride; decide) (by decide) (by decide) (by decide)
  have hN : ∀ v : Int, v ∈ ([10, 50, 50, 50, 30] : List Int) ↔ (v = 10 ∨ v = 50 ∨ v = 30) := by
    intro v
    simp only [List.mem_cons, List.mem_singleton, List.mem_nil_iff, or_false]
    constructor
    · rintro (h | h | h | h | h) <;> simp [h]
    · rintro (h | h | h) <;> simp [h]
  have e1 : min0 = 10 := by
    have h1 : min0 ∈ ([10, 50, 50, 50, 30] : List Int) := hmin.1
    have h2 : min0 ≤ 10 := hmin.2 10 (by decide)
    rcases (hN min0).1 h1 with h | h | h <;> omega
  have e2 : max0 = 50 := by
    have h1 : max0 ∈ ([10, 50, 50, 50, 30] : List Int) := hmax.1
    have h2 : (50 : Int) ≤ max0 := hmax.2 50 (by decide)
    rcases (hN max0).1 h1 with h | h | h <;> omega
  subst e1 e2
  exact ⟨out, ho, hq, hh⟩

theorem andValue_val (c a b : Byte) :
    (andValue c a b).val = c.val &&& (a.val &&& b.val) := by
  have h1 : c.val &&& (a.val &&& b.val) ≤ c.val := Nat.and_le_left
  have h2 := c.isLt
  unfold andValue
  simp only [toU8]
  omega

/-- The calls of `tdeintmodCreateMMGetFrame` one by one: the three threshold masks, the three
motion masks, the frame `D` that `andMasks` leaves in `dst[0]` and hands to `combineMasks`, and
the result. In both halves of every plane `D` is the AND of the three motion masks. -/
theorem createMM_chain (d : TDeintModData) (node : Int → Frame)
    (c : Nat → Nat → Nat → Nat → Byte) (n : Int) (hgeo : StageMGeometry d node) :
    ∃ M0 M1 M2 m01 m12 m02 D out : Frame,
      threshMask d (node (min (n + (0 : Nat)) ((d.vi.numFrames : Int) - 1)))
        (newVideoFrame d.vi.format d.vi.width (d.vi.height * 2) (c 0)) = some M0 ∧
      threshMask d (node (min (n + (1 : Nat)) ((d.vi.numFrames : Int) - 1)))
        (newVideoFrame d.vi.format d.vi.width (d.vi.height * 2) (c 2)) = some M1 ∧
      threshMask d (node (min (n + (2 : Nat)) ((d.vi.numFrames : Int) - 1)))
        (newVideoFrame d.vi.format d.vi.width (d.vi.height * 2) (c 4)) = some M2 ∧
      motionMask d (node (min (n + (0 : Nat)) ((d.vi.numFrames : Int) - 1))) M0
        (node (min (n + (1 : Nat)) ((d.vi.numFrames : Int) - 1))) M1
        (newVideoFrame d.vi.format d.vi.width (d.vi.height * 2) (c 1)) = some m01 ∧
      motionMask d (node (min (n + (1 : Nat)) ((d.vi.numFrames : Int) - 1))) M1
        (node (min (n + (2 : Nat)) ((d.vi.numFrames : Int) - 1))) M2
        (newVideoFrame d.vi.format d.vi.width (d.vi.height * 2) (c 3)) = some m12 ∧
      motionMask d (node (min (n + (0 : Nat)) ((d.vi.numFrames : Int) - 1))) M0
        (node (min (n + (2 : Nat)) ((d.vi.numFrames : Int) - 1))) M2
        (newVideoFrame d.vi.format d.vi.width (d.vi.height * 2) (c 6)) = some m02 ∧
      andMasks d m01 m12 m02 = some D ∧
      combineMasks d D (newVideoFrame d.vi.format d.vi.width d.vi.height (c 7)) = some out ∧
      tdeintmodCreateMMGetFrame d node c n = some out ∧
      (∀ p y x, p < d.vi.format.numPlanes →
        y < 2 * planeHeight d.vi.format d.vi.height p →
        x < planeWidth d.vi.format d.vi.width p →
        ((D p).pix y x).val
          = ((m02 p).pix y x).val &&& (((m01 p).pix y x).val &&& ((m12 p).pix y x).val)) ∧
      (∀ p y x, p < d.vi.format.numPlanes →
        y < planeHeight d.vi.format d.vi.height p → x < planeWidth d.vi.format d.vi.width p →
        (m02 p).pix (y + planeHeight d.vi.format d.vi.height p) x = motionValue d
          ((node (min (n + (0 : Nat)) ((d.vi.numFrames : Int) - 1)) p).pix y x)
          ((node (min (n + (2 : Nat)) ((d.vi.numFrames : Int) - 1)) p).pix y x)
          ((M0 p).pix (y + planeHeight d.vi.format d.vi.height p) x)
          ((M2 p).pix (y + planeHeight d.vi.format d.vi.height p) x) ∧
        (m01 p).pix (y + planeHeight d.vi.format d.vi.height p) x = motionValue d
          ((node (min (n + (0 : Nat)) ((d.vi.numFrames : Int) - 1)) p).pix y x)
          ((node (min (n + (1 : Nat)) ((d.vi.numFrames : Int) - 1)) p).pix y x)
          ((M0 p).pix (y + planeHeight d.vi.format d.vi.height p) x)
          ((M1 p).pix (y + planeHeight d.vi.format d.vi.height p) x)) := by
  obtain ⟨hdiv, h2, hnode⟩ := hgeo
  obtain ⟨M0, hM0, dM0⟩ := threshMask_dims d _ _ hdiv h2
    (hnode (min (n + (0 : Nat)) ((d.vi.numFrames : Int) - 1)))
    (newVideoFrame_dims d.vi.format d.vi.width (d.vi.height * 2) _ (c 0))
  obtain ⟨M1, hM1, dM1⟩ := threshMask_dims d _ _ hdiv h2
    (hnode (min (n + (1 : Nat)) ((d.vi.numFrames : Int) - 1)))
    (newVideoFrame_dims d.vi.format d.vi.width (d.vi.height * 2) _ (c 2))
  obtain ⟨M2, hM2, dM2⟩ := threshMask_dims d _ _ hdiv h2
    (hnode (min (n + (2 : Nat)) ((d.vi.numFrames : Int) - 1)))
    (newVideoFrame_dims d.vi.format d.vi.width (d.vi.height * 2) _ (c 4))
  obtain ⟨m01, hm01, dm01, pm01⟩ := motionMask_spec d _ M0 _ M1
    (newVideoFrame d.vi.format d.vi.width (d.vi.height * 2) (c 1)) hdiv
    (hnode (min (n + (0 : Nat)) ((d.vi.numFrames : Int) - 1)))
    (hnode (min (n + (1 : Nat)) ((d.vi.numFrames : Int) - 1))) dM0 dM1
    (newVideoFrame_dims _ _ _ _ _)
  obtain ⟨m12, hm12, dm12, _⟩ := motionMask_spec d _ M1 _ M2
    (newVideoFrame d.vi.format d.vi.width (d.vi.height * 2) (c 3)) hdiv
    (hnode (min (n + (1 : Nat)) ((d.vi.numFrames : Int) - 1)))
    (hnode (min (n + (2 : Nat)) ((d.vi.numFrames : Int) - 1))) dM1 dM2
    (newVideoFrame_dims _ _ _ _ _)
  obtain ⟨m02, hm02, dm02, pm02⟩ := motionMask_spec d _ M0 _ M2
    (newVideoFrame d.vi.format d.vi.width (d.vi.height * 2) (c 6)) hdiv
    (hnode (min (n + (0 : Nat)) ((d.vi.numFrames : Int) - 1)))
    (hnode (min (n + (2 : Nat)) ((d.vi.numFrames : Int) - 1))) dM0 dM2
    (newVideoFrame_dims _ _ _ _ _)
  obtain ⟨D, hD, dD, pD⟩ := andMasks_spec d m01 m12 m02 dm01 dm12 dm02
  obtain ⟨out, hout, _, _⟩ := combineMasks_spec d D
    (newVideoFrame d.vi.format d.vi.width d.vi.height (c 7)) hdiv h2 dD
    (newVideoFrame_dims _ _ _ _ _)
  refine ⟨M0, M1, M2, m01, m12, m02, D, out, hM0, hM1, hM2, hm01, hm12, hm02, hD, hout, ?_,
    ?_, ?_⟩
  · simp only [tdeintmodCreateMMGetFrame, hM0, hM1, hM2, hm01, hm12, hm02, hD,
      Option.bind_eq_bind, Option.some_bind]
    exact hout
  · intro p y x hp hy hx
    have e2 := planeHeight_twice d.vi.format d.vi.height p hdiv
    rw [pD p y x hp (by omega) hx]
    exact andValue_val _ _ _
  · intro p y x hp hy hx
    exact ⟨(pm02 p y x hp hy hx).2, (pm01 p y x hp hy hx).2⟩

/-- C24: Stage M composition, quarter half. The quarter plane handed to combineMasks equals, at
every pixel, the bitwise AND of the quarter masks of motionMask(F0,F2), motionMask(F0,F1) and
motionMask(F1,F2), where F0, F1, F2 are the frames at indices n, min(n+1, numFrames-1),
min(n+2, numFrames-1). -/
theorem C24_composition_quarter (d : TDeintModData) (node : Int → Frame)
    (c : Nat → Nat → Nat → Nat → Byte) (n : Int) (hgeo : StageMGeometry d node)
    (hn : n < d.vi.numFrames) :
    ∃ M0 M1 M2 m01 m12 m02 D out : Frame,
      threshMask d (node n)
        (newVideoFrame d.vi.format d.vi.width (d.vi.height * 2) (c 0)) = some M0 ∧
      threshMask d (node (min (n + 1) ((d.vi.numFrames : Int) - 1)))
        (newVideoFrame d.vi.format d.vi.width (d.vi.height * 2) (c 2)) = some M1 ∧
      threshMask d (node (min (n + 2) ((d.vi.numFrames : Int) - 1)))
        (newVideoFrame d.vi.format d.vi.width (d.vi.height * 2) (c 4)) = some M2 ∧
      motionMask d (node n) M0 (node (min (n + 1) ((d.vi.numFrames : Int) - 1))) M1
        (newVideoFrame d.vi.format d.vi.width (d.vi.height * 2) (c 1)) = some m01 ∧
      motionMask d (node (min (n + 1) ((d.vi.numFrames : Int) - 1))) M1
        (node (min (n + 2) ((d.vi.numFrames : Int) - 1))) M2
        (newVideoFrame d.vi.format d.vi.width (d.vi.height * 2) (c 3)) = some m12 ∧
      motionMask d (node n) M0 (node (min (n + 2) ((d.vi.numFrames : Int) - 1))) M2
        (newVideoFrame d.vi.format d.vi.width (d.vi.height * 2) (c 6)) = some m02 ∧
      andMasks d m01 m12 m02 = some D ∧
      combineMasks d D (newVideoFrame d.vi.format d.vi.width d.vi.height (c 7)) = some out ∧
      tdeintmodCreateMMGetFrame d node c n = some out ∧
      ∀ p y x, p < d.vi.format.numPlanes →
        y < planeHeight d.vi.format d.vi.height p → x < planeWidth d.vi.format d.vi.width p →
        ((D p).pix y x).val
          = ((m02 p).pix y x).val &&& ((m01 p).pix y x).val &&& ((m12 p).pix y x).val := by
  obtain ⟨M0, M1, M2, m01, m12, m02, D, out, t0, t1, t2, a01, a12, a02, hD, hc, ho, hand, _⟩ :=
    createMM_chain d node c n hgeo
  have e0 : min (n + ((0 : Nat) : Int)) ((d.vi.numFrames : Int) - 1) = n := by
    rw [Nat.cast_zero, add_zero]
    exact min_eq_left (by omega)
  have e1 : n + ((1 : Nat) : Int) = n + 1 := by rw [Nat.cast_one]
  have e2 : n + ((2 : Nat) : Int) = n + 2 := by rw [Nat.cast_ofNat]
  rw [e0] at t0 a01 a02
  rw [e1] at t1 a01 a12
  rw [e2] at t2 a12 a02
  refine ⟨M0, M1, M2, m01, m12, m02, D, out, t0, t1, t2, a01, a12, a02, hD, hc, ho, ?_⟩
  intro p y x hp hy hx
  rw [hand p y x hp (by omega) hx, Nat.and_assoc]

/-- Instance of C24: default parameters, three 4x4 gray fields 0, 255, 0 at n = 0: the frame
handed to combineMasks is the AND of the three motion masks at pixel (2,3). -/
theorem C24_composition_quarter_witness :
    ∃ m01 m12 m02 D : Frame, andMasks (stageMData 4 4 5) m01 m12 m02 = some D ∧
      ((D 0).pix 2 3).val
        = ((m02 0).pix 2 3).val &&& ((m01 0).pix 2 3).val &&& ((m12 0).pix 2 3).val := by
  obtain ⟨_, _, _, m01, m12, m02, D, _, _, _, _, _, _, _, hD, _, _, hand⟩ :=
    C24_composition_quarter (stageMData 4 4 5)
      (fun i => constFrame 4 4 (if i = 1 then 255 else 0)) (fun _ _ _ _ => 9) 0
      (stageMData_geometry 4 4 5 (by decide) (by decide) (fun i => if i = 1 then 255 else 0))
      (by decide)
  exact ⟨m01, m12, m02, D, hD, hand 0 2 3 (by decide) (by decide) (by decide)⟩

/-- The claim C25 fails: for the fields F0 = all 0, F1 = all 255, F2 = all 0 (default
parameters) the half mask of motionMask(F0,F2) is 255 at pixel (1,1) (row 5 of the
double-height plane), but the helper plane handed to combineMasks holds 0 there: the AND step
has combined it with the half masks of the inner pairs. -/
theorem C25_helper_half_counterexample :
    ∃ M0 M1 M2 m01 m12 m02 D : Frame,
      threshMask (stageMData 4 4 5) (constFrame 4 4 0)
        (newVideoFrame grayFormat 4 8 (fun _ _ _ => 9)) = some M0 ∧
      threshMask (stageMData 4 4 5) (constFrame 4 4 255)
        (newVideoFrame grayFormat 4 8 (fun _ _ _ => 9)) = some M1 ∧
      threshMask (stageMData 4 4 5) (constFrame 4 4 0)
        (newVideoFrame grayFormat 4 8 (fun _ _ _ => 9)) = some M2 ∧
      motionMask (stageMData 4 4 5) (constFrame 4 4 0) M0 (constFrame 4 4 255) M1
        (newVideoFrame grayFormat 4 8 (fun _ _ _ => 9)) = some m01 ∧
      motionMask (stageMData 4 4 5) (constFrame 4 4 255) M1 (constFrame 4 4 0) M2
        (newVideoFrame grayFormat 4 8 (fun _ _ _ => 9)) = some m12 ∧
      motionMask (stageMData 4 4 5) (constFrame 4 4 0) M0 (constFrame 4 4 0) M2
        (newVideoFrame grayFormat 4 8 (fun _ _ _ => 9)) = some m02 ∧
      andMasks (stageMData 4 4 5) m01 m12 m02 = some D ∧
      (m02 0).pix 5 1 = 255 ∧ (D 0).pix 5 1 = 0 := by
  obtain ⟨M0, M1, M2, m01, m12, m02, D, out, t0, t1, t2, a01, a12, a02, hD, _, _, hand, hhalf⟩ :=
    createMM_chain (stageMData 4 4 5) (fun i => constFrame 4 4 (if i = 1 then 255 else 0))
      (fun _ _ _ _ => 9) 0
      (stageMData_geometry 4 4 5 (by decide) (by decide) (fun i => if i = 1 then 255 else 0))
  obtain ⟨h02, h01⟩ := hhalf 0 1 1 (by decide) (by decide) (by decide)
  have v02 : (m02 0).pix 5 1 = 255 := by
    rw [show (5 : Nat) = 1 + planeHeight (stageMData 4 4 5).vi.format
      (stageMData 4 4 5).vi.height 0 from rfl, h02]
    exact motionValue_same (stageMData 4 4 5) _ _ _ (by decide) (by decide)
  have v01 : (m01 0).pix 5 1 = 0 := by
    rw [show (5 : Nat) = 1 + planeHeight (stageMData 4 4 5).vi.format
      (stageMData 4 4 5).vi.height 0 from rfl, h01]
    exact (motionValue_far (stageMData 4 4 5) _ _ (by decide)).1
  have vD : ((D 0).pix 5 1).val = 0 := by
    rw [hand 0 5 1 (by decide) (by decide) (by decide), v01]
    simp
  exact ⟨M0, M1, M2, m01, m12, m02, D, t0, t1, t2, a01, a12, a02, hD, v02, Fin.ext vD⟩

/-- C25 (amended): Stage M composition, half-threshold helper. The AND step runs over the whole
double-height mask frame, so it changes both halves of the (F0,F2) mask: the half-threshold
plane that combineMasks consults as helper is, at every pixel, the bitwise AND of the half
masks of motionMask(F0,F2), motionMask(F0,F1) and motionMask(F1,F2). -/
theorem C25_composition_helper (d : TDeintModData) (node : Int → Frame)
    (c : Nat → Nat → Nat → Nat → Byte) (n : Int) (hgeo : StageMGeometry d node)
    (hn : n < d.vi.numFrames) :
    ∃ M0 M1 M2 m01 m12 m02 D out : Frame,
      threshMask d (node n)
        (newVideoFrame d.vi.format d.vi.width (d.vi.height * 2) (c 0)) = some M0 ∧
      threshMask d (node (min (n + 1) ((d.vi.numFrames : Int) - 1)))
        (newVideoFrame d.vi.format d.vi.width (d.vi.height * 2) (c 2)) = some M1 ∧
      threshMask d (node (min (n + 2) ((d.vi.numFrames : Int) - 1)))
        (newVideoFrame d.vi.format d.vi.width (d.vi.height * 2) (c 4)) = some M2 ∧
      motionMask d (node n) M0 (node (min (n + 1) ((d.vi.numFrames : Int) - 1))) M1
        (newVideoFrame d.vi.format d.vi.width (d.vi.height * 2) (c 1)) = some m01 ∧
      motionMask d (node (min (n + 1) ((d.vi.numFrames : Int) - 1))) M1
        (node (min (n + 2) ((d.vi.numFrames : Int) - 1))) M2
        (newVideoFrame d.vi.format d.vi.width (d.vi.height * 2) (c 3)) = some m12 ∧
      motionMask d (node n) M0 (node (min (n + 2) ((d.vi.numFrames : Int) - 1))) M2
        (newVideoFrame d.vi.format d.vi.width (d.vi.height * 2) (c 6)) = some m02 ∧
      andMasks d m01 m12 m02 = some D ∧
      combineMasks d D (newVideoFrame d.vi.format d.vi.width d.vi.height (c 7)) = some out ∧
      tdeintmodCreateMMGetFrame d node c n = some out ∧
      ∀ p y x, p < d.vi.format.numPlanes →
        y < planeHeight d.vi.format d.vi.height p → x < planeWidth d.vi.format d.vi.width p →
        ((D p).pix (y + planeHeight d.vi.format d.vi.height p) x).val
          = ((m02 p).pix (y + planeHeight d.vi.format d.vi.height p) x).val
            &&& ((m01 p).pix (y + planeHeight d.vi.format d.vi.height p) x).val
            &&& ((m12 p).pix (y + planeHeight d.vi.format d.vi.height p) x).val := by
  obtain ⟨M0, M1, M2, m01, m12, m02, D, out, t0, t1, t2, a01, a12, a02, hD, hc, ho, hand, _⟩ :=
    createMM_chain d node c n hgeo
  have e0 : min (n + ((0 : Nat) : Int)) ((d.vi.numFrames : Int) - 1) = n := by
    rw [Nat.cast_zero, add_zero]
    exact min_eq_left (by omega)
  have e1 : n + ((1 : Nat) : Int) = n + 1 := by rw [Nat.cast_one]
  have e2 : n + ((2 : Nat) : Int) = n + 2 := by rw [Nat.cast_ofNat]
  rw [e0] at t0 a01 a02
  rw [e1] at t1 a01 a12
  rw [e2] at t2 a12 a02
  refine ⟨M0, M1, M2, m01, m12, m02, D, out, t0, t1, t2, a01, a12, a02, hD, hc, ho, ?_⟩
  intro p y x hp hy hx
  rw [hand p _ x hp (by omega) hx, Nat.and_assoc]

/-- Instance of C25 (amended): default parameters, three 4x4 gray fields 0, 255, 0 at n = 0:
the helper byte at pixel (2,3) is the AND of the three half masks. -/
theorem C25_composition_helper_witness :
    ∃ m01 m12 m02 D : Frame, andMasks (stageMData 4 4 5) m01 m12 m02 = some D ∧
      ((D 0).pix 6 3).val
        = ((m02 0).pix 6 3).val &&& ((m01 0).pix 6 3).val &&& ((m12 0).pix 6 3).val := by
  obtain ⟨_, _, _, m01, m12, m02, D, _, _, _, _, _, _, _, hD, _, _, hand⟩ :=
    C25_composition_helper (stageMData 4 4 5)
      (fun i => constFrame 4 4 (if i = 1 then 255 else 0)) (fun _ _ _ _ => 9) 0
      (stageMData_geometry 4 4 5 (by decide) (by decide) (fun i => if i = 1 then 255 else 0))
      (by decide)
  exact ⟨m01, m12, m02, D, hD, hand 0 2 3 (by decide) (by decide) (by decide)⟩

/-- C26: combineMasks. The output equals the input quarter plane q except at pixels where
q(x,y) = 0 and the helper h(x,y) != 0; there the output is 255 if the number of non-zero values
among the eight neighbours of (x,y) in the input q plane (columns x-offp, x, x+offn, rows
mirrored inward at the top and bottom edge) is >= cstr, and stays 0 otherwise. The neighbours
are read from the input plane. -/
theorem C26_combineMasks (d : TDeintModData) (src dst : Frame) (p y x : Nat)
    (hdiv : 2 ^ d.vi.format.subSamplingH ∣ d.vi.height)
    (h2 : ∀ p, p < d.vi.format.numPlanes →
      2 ≤ planeWidth d.vi.format d.vi.width p ∧ 2 ≤ planeHeight d.vi.format d.vi.height p)
    (hs : FrameDims src d.vi.format d.vi.width (d.vi.height * 2) d.vi.format.numPlanes)
    (hd : FrameDims dst d.vi.format d.vi.width d.vi.height d.vi.format.numPlanes)
    (hp : p < d.vi.format.numPlanes) (hy : y < planeHeight d.vi.format d.vi.height p)
    (hx : x < planeWidth d.vi.format d.vi.width p) :
    ∃ out : Frame, combineMasks d src dst = some out ∧
      (out p).pix y x =
        (if (src p).pix y x = 0 ∧
            (src p).pix (y + planeHeight d.vi.format d.vi.height p) x ≠ 0 ∧
            combineCount (src p) (planeHeight d.vi.format d.vi.height p)
              (planeWidth d.vi.format d.vi.width p) y x ≥ d.cstr
          then 255 else (src p).pix y x) := by
  obtain ⟨out, ho, _, hpix⟩ := combineMasks_spec d src dst hdiv h2 hs hd
  refine ⟨out, ho, ?_⟩
  rw [hpix p y x hp hy hx]
  unfold combineValue
  by_cases hq : (src p).pix y x ≠ 0
  · have hn : ¬ ((src p).pix y x = 0 ∧
        (src p).pix (y + planeHeight d.vi.format d.vi.height p) x ≠ 0 ∧
        combineCount (src p) (planeHeight d.vi.format d.vi.height p)
          (planeWidth d.vi.format d.vi.width p) y x ≥ d.cstr) := fun h => hq h.1
    rw [if_pos hq, if_neg hn]
  · rw [if_neg hq]
    have hq0 : (src p).pix y x = 0 := not_not.1 hq
    by_cases hh : (src p).pix (y + planeHeight d.vi.format d.vi.height p) x = 0
    · have hn : ¬ ((src p).pix y x = 0 ∧
          (src p).pix (y + planeHeight d.vi.format d.vi.height p) x ≠ 0 ∧
          combineCount (src p) (planeHeight d.vi.format d.vi.height p)
            (planeWidth d.vi.format d.vi.width p) y x ≥ d.cstr) := fun h => h.2.1 hh
      rw [if_pos hh, if_neg hn]
    · rw [if_neg hh]
      by_cases hc : combineCount (src p) (planeHeight d.vi.format d.vi.height p)
          (planeWidth d.vi.format d.vi.width p) y x ≥ d.cstr
      · rw [if_pos hc, if_pos ⟨hq0, hh, hc⟩]
      · have hn : ¬ ((src p).pix y x = 0 ∧
            (src p).pix (y + planeHeight d.vi.format d.vi.height p) x ≠ 0 ∧
            combineCount (src p) (planeHeight d.vi.format d.vi.height p)
              (planeWidth d.vi.format d.vi.width p) y x ≥ d.cstr) := fun h => hc h.2.2
        rw [if_neg hc, if_neg hn]

/-- Instance of C26: a 4x4 field whose quarter rows are 255, 0, 255, 255 and whose helper rows
are all 255, cstr = 4: pixel (1,1) is 0 with six non-zero neighbours and becomes 255; pixel
(0,1) keeps its 255. -/
theorem C26_combineMasks_witness :
    ∃ out : Frame, combineMasks (stageMData 4 4 5)
        (fun _ => rowsPlane 4 [255, 0, 255, 255, 255, 255, 255, 255]) (constFrame 4 4 9)
        = some out ∧ (out 0).pix 1 1 = 255 := by
  obtain ⟨out, ho, hv⟩ := C26_combineMasks (stageMData 4 4 5)
    (fun _ => rowsPlane 4 [255, 0, 255, 255, 255, 255, 255, 255]) (constFrame 4 4 9) 0 1 1
    (by show 2 ^ 0 ∣ 4; decide)
    (fun p hp => by rw [gray_plane_zero p hp]; exact ⟨by decide, by decide⟩)
    (fun p hp => by rw [gray_plane_zero p hp]; exact ⟨rfl, rfl⟩)
    (fun p hp => by rw [gray_plane_zero p hp]; exact ⟨rfl, rfl⟩)
    (by decide) (by decide) (by decide)
  exact ⟨out, ho, hv⟩

/-! ## Stage B: the stored verdicts -/

theorem buildPixel_code (d : TDeintModData) (tmmlutf : List Int) (csrc osrc : Nat → Frame)
    (ccount ocount : Int) (plane : Nat) (st : BuildState) (x : Nat) (dst : Plane) :
    buildPixel d tmmlutf csrc osrc ccount ocount plane st x dst
      = (pixelCode d tmmlutf csrc osrc ccount ocount plane st x).bind fun v =>
          dst.write st.rd x v := by
  cases hz : centreAllZero csrc ccount plane (cdiv ccount 2) st.rc x with
  | none => simp [buildPixel, pixelCode, hz]
  | some z =>
    cases z with
    | true => simp [buildPixel, pixelCode, hz]
    | false =>
      cases hf : fillPlut d csrc osrc ccount ocount plane st x with
      | none => simp [buildPixel, pixelCode, hz, hf]
      | some pl =>
        cases hr : forLoop (valStep d pl.1 pl.2) d.length.toNat (0, false) with
        | none => simp [buildPixel, pixelCode, hz, hf, hr]
        | some res =>
          cases hg : tmmlutf[res.1]? with
          | none => simp [buildPixel, pixelCode, hz, hf, hr, hg]
          | some v => simp [buildPixel, pixelCode, hz, hf, hr, hg]

theorem pixelCode_congr (d : TDeintModData) (tmmlutf : List Int) (csrc osrc : Nat → Frame)
    (ccount ocount : Int) (plane : Nat) (st stA : BuildState) (x : Nat)
    (hrc : st.rc = stA.rc) (hr0 : st.r0 = stA.r0) (hr2 : st.r2 = stA.r2) :
    pixelCode d tmmlutf csrc osrc ccount ocount plane st x
      = pixelCode d tmmlutf csrc osrc ccount ocount plane stA x := by
  cases st
  cases stA
  simp only at hrc hr0 hr2
  subst hrc hr0 hr2
  rfl

/-- The pixel body of Stage B stores the value of `pixelCode`, one of the verdict codes. -/
theorem buildPixel_value (d : TDeintModData) (tmmlutf : List Int) (csrc osrc : Nat → Frame)
    (ccount ocount : Int) (plane : Nat) (st : BuildState) (x : Nat) (dst : Plane) (r : Nat)
    (hL : 6 ≤ d.length ∧ d.length ≤ 60)
    (hcc : ccount = 2 * ((d.length - 2) / 2)) (hoc : ocount = 2 * ((d.length - 1) / 2) - 1)
    (ht : tmmlutf.length = 64 ∧
      ∀ v ∈ tmmlutf, v = 10 ∨ v = 20 ∨ v = 30 ∨ v = 40 ∨ v = 50 ∨ v = 60)
    (hc : ∀ j : Nat, (j : Int) < ccount → ((csrc j) plane).inside st.rc x)
    (ho0 : ∀ j : Nat, (j : Int) < ocount → ((osrc j) plane).inside st.r0 x)
    (ho2 : ∀ j : Nat, (j : Int) < ocount → ((osrc j) plane).inside st.r2 x)
    (hrd : st.rd = r) (hr : r < dst.height) (hx : x < dst.width) :
    ∃ v, pixelCode d tmmlutf csrc osrc ccount ocount plane st x = some v ∧
      buildPixel d tmmlutf csrc osrc ccount ocount plane st x dst
        = some (dst.set r x (toU8 v)) := by
  obtain ⟨b, hb, _⟩ := buildPixel_spec d tmmlutf csrc osrc ccount ocount plane st x dst r
    hL hcc hoc ht hc ho0 ho2 hrd hr hx
  have hcode := buildPixel_code d tmmlutf csrc osrc ccount ocount plane st x dst
  cases hp : pixelCode d tmmlutf csrc osrc ccount ocount plane st x with
  | none =>
    rw [hp, Option.none_bind, hb] at hcode
    exact Option.noConfusion hcode
  | some v =>
    refine ⟨v, rfl, ?_⟩
    rw [hcode, hp, Option.some_bind]
    exact dst.write_some r x hr hx st.rd x hrd rfl v

/-- The line loop of Stage B: every classified row holds the values of `pixelCode` at the row
pointers of its line. -/
theorem buildLines_value (d : TDeintModData) (tmmlutf : List Int) (csrc osrc : Nat → Frame)
    (ccount ocount : Int) (plane : Nat) (dst1 : Plane) (f h : Nat)
    (hL : 6 ≤ d.length ∧ d.length ≤ 60)
    (hcc : ccount = 2 * ((d.length - 2) / 2)) (hoc : ocount = 2 * ((d.length - 1) / 2) - 1)
    (ht : tmmlutf.length = 64 ∧
      ∀ v ∈ tmmlutf, v = 10 ∨ v = 20 ∨ v = 30 ∨ v = 40 ∨ v = 50 ∨ v = 60)
    (hf : f ≤ 1) (hH : dst1.height = 2 * h) (hh : f = 1 → 2 ≤ h)
    (hcs : ∀ j : Nat, (j : Int) < ccount →
      ((csrc j) plane).width = dst1.width ∧ ((csrc j) plane).height = h)
    (hos : ∀ j : Nat, (j : Int) < ocount →
      ((osrc j) plane).width = dst1.width ∧ ((osrc j) plane).height = h) :
    ∃ st, forStep f dst1.height 2
        (buildLine d tmmlutf csrc osrc ccount ocount plane dst1.width dst1.height)
        { dst := dst1, rd := f, rc := 0, r0 := 0, r2 := f } = some st ∧
      st.dst.width = dst1.width ∧ st.dst.height = dst1.height ∧
      (∀ k x, f + 2 * k < dst1.height → x < dst1.width →
        ∃ v, pixelCode d tmmlutf csrc osrc ccount ocount plane (lineState f h k) x = some v ∧
          st.dst.pix (f + 2 * k) x = toU8 v) ∧
      (∀ y x, ¬ (y < dst1.height ∧ x < dst1.width ∧ y % 2 = f) →
        st.dst.pix y x = dst1.pix y x) := by
  obtain ⟨st, hst, _, _, _, _, hw, hhh, h1, h2⟩ := forStep_inv f dst1.height 2
    (buildLine d tmmlutf csrc osrc ccount ocount plane dst1.width dst1.height)
    (fun k st => st.rd = (f : Int) + 2 * k ∧ st.rc = k ∧
      st.r0 = (if f = 1 then (k : Int) else if k = 0 then 0 else (k : Int) - 1) ∧
      st.r2 = (if f = 1 then (if k + 2 ≤ h then (k : Int) + 1 else k) else k) ∧
      st.dst.width = dst1.width ∧ st.dst.height = dst1.height ∧
      (∀ j x, j < k → x < dst1.width →
        ∃ v, pixelCode d tmmlutf csrc osrc ccount ocount plane (lineState f h j) x = some v ∧
          st.dst.pix (f + 2 * j) x = toU8 v) ∧
      (∀ y x, ¬ (y < f + 2 * k ∧ x < dst1.width ∧ y % 2 = f) →
        st.dst.pix y x = dst1.pix y x))
    { dst := dst1, rd := f, rc := 0, r0 := 0, r2 := f }
    ⟨by simp, by simp, by simp, by
        show (f : Int) = _
        split_ifs <;> omega,
      rfl, rfl, fun j x hj _ => absurd hj (Nat.not_lt_zero j), fun _ _ _ => rfl⟩
    (by
      intro k st hk ⟨hrd, hrc, hr0, hr2, hw, hhh, h1, h2⟩
      have hkh : k < h := by omega
      have hrdN : st.rd = ((f + 2 * k : Nat) : Int) := by rw [hrd]; push_cast; ring
      obtain ⟨out, ho, how, hoh, hin, hout⟩ := rowLoop_rel dst1.width (f + 2 * k)
        (buildPixel d tmmlutf csrc osrc ccount ocount plane st)
        (fun x _ b => ∃ v, pixelCode d tmmlutf csrc osrc ccount ocount plane st x = some v ∧
          b = toU8 v) st.dst
        (by
          intro x e hx hew heh
          obtain ⟨v, hv, hb⟩ := buildPixel_value d tmmlutf csrc osrc ccount ocount plane st x
            e (f + 2 * k) hL hcc hoc ht
            (by
              intro j hj
              obtain ⟨a1, a2⟩ := hcs j hj
              exact ⟨by omega, by omega, by omega, by omega⟩)
            (by
              intro j hj
              obtain ⟨a1, a2⟩ := hos j hj
              refine ⟨?_, ?_, by omega, by omega⟩
              · rw [hr0]; split_ifs <;> omega
              · rw [hr0, a2]; split_ifs <;> omega)
            (by
              intro j hj
              obtain ⟨a1, a2⟩ := hos j hj
              refine ⟨?_, ?_, by omega, by omega⟩
              · rw [hr2]; split_ifs <;> omega
              · rw [hr2, a2]; split_ifs <;> omega)
            hrdN (by omega) (by omega)
          exact ⟨toU8 v, hb, v, hv, rfl⟩)
      have hcongr : ∀ x, pixelCode d tmmlutf csrc osrc ccount ocount plane st x
          = pixelCode d tmmlutf csrc osrc ccount ocount plane (lineState f h k) x :=
        fun x => pixelCode_congr d tmmlutf csrc osrc ccount ocount plane st (lineState f h k) x
          hrc hr0 hr2
      refine ⟨{ dst := out, rd := st.rd + 2, rc := st.rc + 1,
                r0 := if ((f + 2 * k : Nat) : Int) ≠ 0 then st.r0 + 1 else st.r0,
                r2 := if ((f + 2 * k : Nat) : Int) ≠ (dst1.height : Int) - 3
                  then st.r2 + 1 else st.r2 }, ?_, ?_, ?_, ?_, ?_, ?_, ?_, ?_, ?_⟩
      · simp only [buildLine, ho, Option.bind_eq_bind, Option.some_bind, Option.pure_def]
      · show st.rd + 2 = _
        rw [hrd]; push_cast; ring
      · show st.rc + 1 = _
        rw [hrc]; push_cast; ring
      · show (if ((f + 2 * k : Nat) : Int) ≠ 0 then st.r0 + 1 else st.r0) = _
        rw [hr0]
        split_ifs <;> first | contradiction | omega
      · show (if ((f + 2 * k : Nat) : Int) ≠ (dst1.height : Int) - 3
          then st.r2 + 1 else st.r2) = _
        rw [hr2]
        split_ifs <;> first | contradiction | omega
      · exact how.trans hw
      · exact hoh.trans hhh
      · intro j x hj hx
        by_cases hjk : j = k
        · subst hjk
          obtain ⟨v, hv, hb⟩ := hin x hx
          exact ⟨v, by rw [← hcongr]; exact hv, hb⟩
        · have hne : ¬ (f + 2 * j = f + 2 * k ∧ x < dst1.width) := fun h => hjk (by omega)
          obtain ⟨v, hv, hb⟩ := h1 j x (by omega) hx
          refine ⟨v, hv, ?_⟩
          show out.pix (f + 2 * j) x = _
          rw [hout _ x hne]
          exact hb
      · intro y x hn
        have hne : ¬ (y = f + 2 * k ∧ x < dst1.width) := by
          intro h
          exact hn ⟨by omega, h.2, by omega⟩
        show out.pix y x = _
        rw [hout y x hne]
        apply h2
        intro h
        exact hn ⟨by omega, h.2.1, h.2.2⟩)
  refine ⟨st, hst, hw, hhh, ?_, ?_⟩
  · intro k x hk hx
    exact h1 k x (by omega) hx
  · intro y x hn
    apply h2
    intro h
    exact hn ⟨by omega, h.2.1, h.2.2⟩

/-- One plane of Stage B: kept rows hold 10, classified rows hold the values of `pixelCode`. -/
theorem buildPlane_value (d : TDeintModData) (fieldt : Int) (tmmlutf : List Int)
    (csrc osrc : Nat → Frame) (ccount ocount : Int) (plane : Nat) (dst : Plane) (h : Nat)
    (hL : 6 ≤ d.length ∧ d.length ≤ 60)
    (hcc : ccount = 2 * ((d.length - 2) / 2)) (hoc : ocount = 2 * ((d.length - 1) / 2) - 1)
    (ht : tmmlutf.length = 64 ∧
      ∀ v ∈ tmmlutf, v = 10 ∨ v = 20 ∨ v = 30 ∨ v = 40 ∨ v = 50 ∨ v = 60)
    (hf : fieldt = 0 ∨ fieldt = 1) (hH : dst.height = 2 * h) (hh : fieldt = 1 → 2 ≤ h)
    (hcs : ∀ j : Nat, (j : Int) < ccount →
      ((csrc j) plane).width = dst.width ∧ ((csrc j) plane).height = h)
    (hos : ∀ j : Nat, (j : Int) < ocount →
      ((osrc j) plane).width = dst.width ∧ ((osrc j) plane).height = h) :
    ∃ out, buildPlane d fieldt tmmlutf csrc osrc ccount ocount plane dst = some out ∧
      ∀ k x, fieldt.toNat + 2 * k < dst.height → x < dst.width →
        ∃ v, pixelCode d tmmlutf csrc osrc ccount ocount plane (lineState fieldt.toNat h k) x
            = some v ∧
          out.pix (fieldt.toNat + 2 * k) x = toU8 v := by
  obtain ⟨f, hf1, hfe⟩ : ∃ f : Nat, f ≤ 1 ∧ fieldt = f := by
    rcases hf with rfl | rfl
    · exact ⟨0, by omega, rfl⟩
    · exact ⟨1, by omega, rfl⟩
  subst hfe
  obtain ⟨dst1, hd1, hw1, hh1, hk1, hu1⟩ := prefill_spec (1 - f) dst
  obtain ⟨st, hst, hw2, hh2, hc2, hu2⟩ := buildLines_value d tmmlutf csrc osrc ccount ocount
    plane dst1 f h hL hcc hoc ht hf1 (hh1.trans hH) (fun hf => hh (by omega))
    (fun j hj => by rw [hw1]; exact hcs j hj) (fun j hj => by rw [hw1]; exact hos j hj)
  have hs : (if (f : Int) = 1 then 0 else 1) = 1 - f := by
    split_ifs <;> omega
  have hi : (if (f : Int) = 1 then (1 : Int) else 0) = (f : Int) := by
    split_ifs <;> omega
  refine ⟨st.dst, ?_, ?_⟩
  · simp only [buildPlane, hs, hi, hd1, Option.bind_eq_bind, Option.some_bind, Int.toNat_ofNat]
    rw [← hw1, ← hh1, hst]
    rfl
  · intro k x hk hx
    rw [Int.toNat_ofNat] at hk ⊢
    exact hc2 k x (by omega) (by omega)

/-- The scan of `cnt` entries from `start` succeeds exactly when none of them is zero. -/
theorem scanNonzero_iff (pl : PLut) (cnt : Nat) :
    ∀ start, (∀ k, k < cnt → ∃ v, pl.load (start + k) = some v) →
      ∃ a, scanNonzero pl start cnt = some a ∧
        (a = true ↔ ∀ j, j < cnt → pl (start + j) ≠ some 0) := by
  induction cnt with
  | zero =>
    intro start _
    exact ⟨true, by simp [scanNonzero], by simp⟩
  | succ n ih =>
    intro start h
    obtain ⟨v, hv⟩ := h 0 (Nat.succ_pos n)
    simp only [Nat.add_zero] at hv
    have hps : pl start = some v := by
      by_cases h119 : start < 119
      · simpa [PLut.load, h119] using hv
      · simp [PLut.load, h119] at hv
    by_cases hz : v = 0
    · refine ⟨false, by simp [scanNonzero, hv, hz], ?_⟩
      constructor
      · intro hf
        cases hf
      · intro hall
        exact absurd (by rw [Nat.add_zero, hps, hz]) (hall 0 (Nat.succ_pos n))
    · obtain ⟨a, ha, hiff⟩ := ih (start + 1) (by
        intro k hk
        have := h (k + 1) (by omega)
        rwa [show start + (k + 1) = start + 1 + k by omega] at this)
      refine ⟨a, by simp [scanNonzero, hv, hz, ha], hiff.trans ?_⟩
      constructor
      · intro hall j hj
        cases j with
        | zero =>
          rw [Nat.add_zero, hps]
          intro he
          exact hz (Option.some.inj he)
        | succ j =>
          have := hall j (by omega)
          rwa [show start + 1 + j = start + (j + 1) by omega] at this
      · intro hall j hj
        have := hall (j + 1) (by omega)
        rwa [show start + (j + 1) = start + 1 + j by omega] at this

/-- One step of the loop over `i` that has not been left yet: the weight `gvlut[i] * 8` is OR-ed
in when the `length - 4` entries of `plut[0]` from `i` on are all non-zero, `gvlut[i]` when
those of `plut[1]` are, and the loop is left when `vlut[val] == 2`. -/
theorem valStep_closed (d : TDeintModData) (p0 p1 : PLut) (i val : Nat)
    (hL : 6 ≤ d.length ∧ d.length ≤ 60) (hi : (i : Int) < d.length)
    (hp : ∀ k : Nat, (k : Int) ≤ 2 * d.length - 6 →
      (∃ v, p0.load k = some v) ∧ (∃ v, p1.load k = some v))
    (hv : val < 64) :
    ∃ (g c : Nat) (a b : Bool), gvlut d.length i = some g ∧
      (a = true ↔ ∀ j, j < (d.length - 4).toNat → p0 (i + j) ≠ some 0) ∧
      (b = true ↔ ∀ j, j < (d.length - 4).toNat → p1 (i + j) ≠ some 0) ∧
      (vlut d.mtype)[if b then (if a then val ||| g * 8 else val) ||| g
        else (if a then val ||| g * 8 else val)]? = some c ∧
      valStep d p0 p1 i (val, false)
        = some (if b then (if a then val ||| g * 8 else val) ||| g
            else (if a then val ||| g * 8 else val), decide (c = 2)) := by
  obtain ⟨a, hok0, ha⟩ := scanNonzero_iff p0 (d.length - 4).toNat i
    (fun k hk => (hp (i + k) (by omega)).1)
  obtain ⟨b, hok1, hb⟩ := scanNonzero_iff p1 (d.length - 4).toNat i
    (fun k hk => (hp (i + k) (by omega)).2)
  obtain ⟨g, hg, hg4⟩ := gvlut_some d.length i hi hL.2
  have hlt : ∀ v : Nat, v < 64 → ∃ w, (vlut d.mtype)[v]? = some w := by
    intro v hv
    exact ⟨_, List.getElem?_eq_getElem (by rw [vlut_length]; exact hv)⟩
  have hor8 : val ||| g * 8 < 64 :=
    Nat.or_lt_two_pow (n := 6) (by simpa using hv) (by norm_num; omega)
  have horg : ∀ v : Nat, v < 64 → v ||| g < 64 := fun v hv =>
    Nat.or_lt_two_pow (n := 6) (by simpa using hv) (by norm_num; omega)
  have hV : (if b then (if a then val ||| g * 8 else val) ||| g
      else (if a then val ||| g * 8 else val)) < 64 := by
    cases a <;> cases b
    · simpa using hv
    · simpa using horg val hv
    · simpa using hor8
    · simpa using horg _ hor8
  obtain ⟨c, hc⟩ := hlt _ hV
  refine ⟨g, c, a, b, hg, ha, hb, hc, ?_⟩
  cases a <;> cases b <;> simp [valStep, hok0, hok1, hg] at hc ⊢ <;> simp [hc]

/-- Once the loop over `i` has been left, the remaining steps change nothing. -/
theorem valStep_left (d : TDeintModData) (p0 p1 : PLut) (i val : Nat) :
    valStep d p0 p1 i (val, true) = some (val, true) := by
  simp [valStep]

theorem tmmlutfOf_entries (mtype order fieldt : Int)
    (hm : mtype = 0 ∨ mtype = 1 ∨ mtype = 2) (ho : order = 0 ∨ order = 1)
    (hf : fieldt = 0 ∨ fieldt = 1) :
    ∃ t, tmmlutfOf mtype order fieldt = some t ∧
      ∀ i, i < 64 → ∃ (cat : Nat) (code : Int), (vlut mtype)[i]? = some cat ∧ cat < 4 ∧
        getI tmmlut16 (order * 8 + fieldt * 4 + cat) = some code ∧ t[i]? = some code := by
  have conv : ∀ (m o f : Int) (r : Option (List Int)),
      (r.isSome = true ∧ ∀ t ∈ r, ∀ i : Fin 64,
        ((vlut m)[i.val]?).bind (fun cat => getI tmmlut16 (o * 8 + f * 4 + (cat : Int)))
          = t[i.val]? ∧ (t[i.val]?).isSome = true ∧ ∀ cat ∈ (vlut m)[i.val]?, cat < 4) →
      ∃ t, r = some t ∧
        ∀ i, i < 64 → ∃ (cat : Nat) (code : Int), (vlut m)[i]? = some cat ∧ cat < 4 ∧
          getI tmmlut16 (o * 8 + f * 4 + cat) = some code ∧ t[i]? = some code := by
    intro m o f r ⟨h1, h2⟩
    cases r with
    | none => simp at h1
    | some t =>
      refine ⟨t, rfl, ?_⟩
      intro i hi
      obtain ⟨e1, e2, e3⟩ := h2 t rfl ⟨i, hi⟩
      simp only at e1 e2 e3
      cases hc : (vlut m)[i]? with
      | none =>
        rw [hc, Option.none_bind] at e1
        rw [← e1] at e2
        simp at e2
      | some cat =>
        cases ht : t[i]? with
        | none =>
          rw [ht] at e2
          simp at e2
        | some code =>
          rw [hc, Option.some_bind, ht] at e1
          exact ⟨cat, code, rfl, e3 cat hc, e1, rfl⟩
  apply conv
  rcases hm with rfl | rfl | rfl <;> rcases ho with rfl | rfl <;> rcases hf with rfl | rfl <;>
    decide

/-- The short circuit: three zero centre samples give the verdict 60. -/
theorem pixelCode_short (d : TDeintModData) (tmmlutf : List Int) (csrc osrc : Nat → Frame)
    (ccount ocount : Int) (plane : Nat) (st : BuildState) (x : Nat)
    (h0 : ptRead csrc ccount plane (cdiv ccount 2 - 2) st.rc x = some 0)
    (h1 : ptRead csrc ccount plane (cdiv ccount 2) st.rc x = some 0)
    (h2 : ptRead csrc ccount plane (cdiv ccount 2 + 1) st.rc x = some 0) :
    pixelCode d tmmlutf csrc osrc ccount ocount plane st x = some 60 := by
  simp [pixelCode, centreAllZero, h0, h1, h2]

/-- A pixel that is not short-circuited: the verdict is `tmmlutf[val]` for the `val` that the
loop over `i` accumulates from the gathered vectors. -/
theorem pixelCode_encoding (d : TDeintModData) (tmmlutf : List Int) (csrc osrc : Nat → Frame)
    (ccount ocount : Int) (plane : Nat) (st : BuildState) (x : Nat)
    (hL : 6 ≤ d.length ∧ d.length ≤ 60)
    (hcc : ccount = 2 * ((d.length - 2) / 2)) (hoc : ocount = 2 * ((d.length - 1) / 2) - 1)
    (hc : ∀ j : Nat, (j : Int) < ccount → ((csrc j) plane).inside st.rc x)
    (ho0 : ∀ j : Nat, (j : Int) < ocount → ((osrc j) plane).inside st.r0 x)
    (ho2 : ∀ j : Nat, (j : Int) < ocount → ((osrc j) plane).inside st.r2 x)
    (hz : centreAllZero csrc ccount plane (cdiv ccount 2) st.rc x = some false) :
    ∃ pl res, fillPlut d csrc osrc ccount ocount plane st x = some pl ∧
      (∀ k : Nat, (k : Int) ≤ 2 * d.length - 6 →
        (∃ v, pl.1.load k = some v) ∧ (∃ v, pl.2.load k = some v)) ∧
      forLoop (valStep d pl.1 pl.2) d.length.toNat (0, false) = some res ∧ res.1 < 64 ∧
      pixelCode d tmmlutf csrc osrc ccount ocount plane st x = tmmlutf[res.1]? := by
  obtain ⟨pl, hpl, hload⟩ := fillPlut_spec d csrc osrc ccount ocount plane st x hL hcc hoc
    hc ho0 ho2
  obtain ⟨res, hres, hlt⟩ := forLoop_inv (valStep d pl.1 pl.2) (fun _ s => s.1 < 64)
    d.length.toNat (0, false) (by decide)
    (fun i s hi hs => valStep_spec d pl.1 pl.2 i s hL (by omega) hload hs)
  refine ⟨pl, res, hpl, hload, hres, hlt, ?_⟩
  simp [pixelCode, hz, hpl, hres]

/-- The row pointers of line `k` stay inside a field plane of `h` rows. -/
theorem lineState_inside (f h k : Nat) (pl : Plane) (x : Nat)
    (hk : k < h) (hx : x < pl.width) (hph : pl.height = h) :
    pl.inside (lineState f h k).rc x ∧ pl.inside (lineState f h k).r0 x ∧
      pl.inside (lineState f h k).r2 x := by
  refine ⟨⟨?_, ?_, by omega, by omega⟩, ⟨?_, ?_, by omega, by omega⟩,
    ⟨?_, ?_, by omega, by omega⟩⟩ <;> simp only [lineState] <;> omega

/-- Stage B returns a verdict frame whose classified rows hold the values of `pixelCode` for the
two windows of mask frames. -/
theorem buildMM_value (d : TDeintModData) (node node2 : Int → Frame)
    (content : Nat → Nat → Nat → Byte) (n0 : Int)
    (hcfg : StageBConfig d) (hgeo : StageBGeometry d node node2)
    (hrows : fieldtOf d n0 = 1 → ∀ p, p < d.vi.format.numPlanes →
      2 ≤ planeHeight d.viSaved.format d.viSaved.height p) :
    ∃ (out : Frame) (t : List Int),
      tdeintmodBuildMMGetFrame d node node2 content n0 = some out ∧
      tmmlutfOf d.mtype d.order (fieldtOf d n0) = some t ∧
      ∀ p, p < d.vi.format.numPlanes → ∀ k x,
        (fieldtOf d n0).toNat + 2 * k < planeHeight d.vi.format d.vi.height p →
        x < planeWidth d.vi.format d.vi.width p →
        ∃ v, pixelCode d t (csrcOf d node node2 content n0) (osrcOf d node node2 content n0)
            (windowOf d (fieldtOf d n0) (indexOf d n0)).ccount
            (windowOf d (fieldtOf d n0) (indexOf d n0)).ocount p
            (lineState (fieldtOf d n0).toNat
              (planeHeight d.viSaved.format d.viSaved.height p) k) x = some v ∧
          (out p).pix ((fieldtOf d n0).toNat + 2 * k) x = toU8 v := by
  obtain ⟨hL, hmt, hord, hfld⟩ := hcfg
  obtain ⟨gfmt, gw, gh, gdiv, gn, gn2⟩ := hgeo
  have hft := fieldtOf_bit d n0 hord hfld
  obtain ⟨t, htab, htl, htc⟩ := tmmlutfOf_spec d.mtype d.order (fieldtOf d n0) hmt hord hft
  obtain ⟨hcc, hoc, hw1, hw0⟩ := windowOf_counts d (fieldtOf d n0) (indexOf d n0) hL.1
  have hbound : ¬ ((windowOf d (fieldtOf d n0) (indexOf d n0)).tstop
      - (windowOf d (fieldtOf d n0) (indexOf d n0)).tstart + 1 > 58 ∨
      (windowOf d (fieldtOf d n0) (indexOf d n0)).bstop
      - (windowOf d (fieldtOf d n0) (indexOf d n0)).bstart + 1 > 58) := by
    by_cases h1 : fieldtOf d n0 = 1
    · obtain ⟨a, b⟩ := hw1 h1
      omega
    · obtain ⟨a, b⟩ := hw0 h1
      omega
  have hcdims : ∀ (j p : Nat), p < d.vi.format.numPlanes →
      ((csrcOf d node node2 content n0 j) p).width
        = planeWidth d.viSaved.format d.viSaved.width p ∧
      ((csrcOf d node node2 content n0 j) p).height
        = planeHeight d.viSaved.format d.viSaved.height p := by
    intro j p hp
    by_cases h1 : fieldtOf d n0 = 1
    · simp only [csrcOf, h1, if_true]
      exact windowFrame_dims d node2 content _ p (gn2 _ p hp)
    · simp only [csrcOf, h1, if_false]
      exact windowFrame_dims d node content _ p (gn _ p hp)
  have hodims : ∀ (j p : Nat), p < d.vi.format.numPlanes →
      ((osrcOf d node node2 content n0 j) p).width
        = planeWidth d.viSaved.format d.viSaved.width p ∧
      ((osrcOf d node node2 content n0 j) p).height
        = planeHeight d.viSaved.format d.viSaved.height p := by
    intro j p hp
    by_cases h1 : fieldtOf d n0 = 1
    · simp only [osrcOf, h1, if_true]
      exact windowFrame_dims d node content _ p (gn _ p hp)
    · simp only [osrcOf, h1, if_false]
      exact windowFrame_dims d node2 content _ p (gn2 _ p hp)
  obtain ⟨out, hout, hpl, _⟩ := frameLoop_lift d.vi.format.numPlanes
    (fun plane dp => buildPlane d (fieldtOf d n0) t (csrcOf d node node2 content n0)
      (osrcOf d node node2 content n0) (windowOf d (fieldtOf d n0) (indexOf d n0)).ccount
      (windowOf d (fieldtOf d n0) (indexOf d n0)).ocount plane dp)
    (newVideoFrame d.vi.format d.vi.width d.vi.height content)
    (fun p o => ∀ k x,
      (fieldtOf d n0).toNat + 2 * k < planeHeight d.vi.format d.vi.height p →
      x < planeWidth d.vi.format d.vi.width p →
      ∃ v, pixelCode d t (csrcOf d node node2 content n0) (osrcOf d node node2 content n0)
          (windowOf d (fieldtOf d n0) (indexOf d n0)).ccount
          (windowOf d (fieldtOf d n0) (indexOf d n0)).ocount p
          (lineState (fieldtOf d n0).toNat
            (planeHeight d.viSaved.format d.viSaved.height p) k) x = some v ∧
        o.pix ((fieldtOf d n0).toNat + 2 * k) x = toU8 v)
    (by
      intro p hp
      have hdimW : (newVideoFrame d.vi.format d.vi.width d.vi.height content p).width
          = planeWidth d.viSaved.format d.viSaved.width p := by
        simp only [newVideoFrame, gfmt, gw]
      have hdimH : (newVideoFrame d.vi.format d.vi.width d.vi.height content p).height
          = 2 * planeHeight d.viSaved.format d.viSaved.height p := by
        simp only [newVideoFrame, gfmt, gh]
        exact planeHeight_double _ _ _ gdiv
      obtain ⟨o, ho, hpix⟩ := buildPlane_value d (fieldtOf d n0) t
        (csrcOf d node node2 content n0) (osrcOf d node node2 content n0)
        (windowOf d (fieldtOf d n0) (indexOf d n0)).ccount
        (windowOf d (fieldtOf d n0) (indexOf d n0)).ocount p
        (newVideoFrame d.vi.format d.vi.width d.vi.height content p)
        (planeHeight d.viSaved.format d.viSaved.height p) hL hcc hoc ⟨htl, htc⟩ hft hdimH
        (fun h1 => hrows h1 p hp)
        (fun j _ => by rw [hdimW]; exact hcdims j p hp)
        (fun j _ => by rw [hdimW]; exact hodims j p hp)
      refine ⟨o, ho, ?_⟩
      intro k x hk hx
      exact hpix k x (by simpa only [newVideoFrame] using hk)
        (by simpa only [newVideoFrame] using hx))
  refine ⟨out, t, ?_, htab, hpl⟩
  simp only [tdeintmodBuildMMGetFrame, htab, Option.some_bind, hbound, if_false]
  exact hout

theorem csrcOf_dims (d : TDeintModData) (node node2 : Int → Frame)
    (content : Nat → Nat → Nat → Byte) (n0 : Int) (hgeo : StageBGeometry d node node2)
    (j p : Nat) (hp : p < d.vi.format.numPlanes) :
    ((csrcOf d node node2 content n0 j) p).width
      = planeWidth d.viSaved.format d.viSaved.width p ∧
    ((csrcOf d node node2 content n0 j) p).height
      = planeHeight d.viSaved.format d.viSaved.height p := by
  obtain ⟨_, _, _, _, gn, gn2⟩ := hgeo
  by_cases h1 : fieldtOf d n0 = 1
  · simp only [csrcOf, h1, if_true]
    exact windowFrame_dims d node2 content _ p (gn2 _ p hp)
  · simp only [csrcOf, h1, if_false]
    exact windowFrame_dims d node content _ p (gn _ p hp)

theorem osrcOf_dims (d : TDeintModData) (node node2 : Int → Frame)
    (content : Nat → Nat → Nat → Byte) (n0 : Int) (hgeo : StageBGeometry d node node2)
    (j p : Nat) (hp : p < d.vi.format.numPlanes) :
    ((osrcOf d node node2 content n0 j) p).width
      = planeWidth d.viSaved.format d.viSaved.width p ∧
    ((osrcOf d node node2 content n0 j) p).height
      = planeHeight d.viSaved.format d.viSaved.height p := by
  obtain ⟨_, _, _, _, gn, gn2⟩ := hgeo
  by_cases h1 : fieldtOf d n0 = 1
  · simp only [osrcOf, h1, if_true]
    exact windowFrame_dims d node content _ p (gn _ p hp)
  · simp only [osrcOf, h1, if_false]
    exact windowFrame_dims d node2 content _ p (gn2 _ p hp)

/-- At a classified pixel every sample that the pixel body reads lies inside its plane. -/
theorem stageB_inside (d : TDeintModData) (node node2 : Int → Frame)
    (content : Nat → Nat → Nat → Byte) (n0 : Int)
    (hgeo : StageBGeometry d node node2) (p k x : Nat)
    (hp : p < d.vi.format.numPlanes)
    (hk : (fieldtOf d n0).toNat + 2 * k < planeHeight d.vi.format d.vi.height p)
    (hx : x < planeWidth d.vi.format d.vi.width p) :
    (∀ j : Nat, ((csrcOf d node node2 content n0 j) p).inside
      (lineState (fieldtOf d n0).toNat (planeHeight d.viSaved.format d.viSaved.height p) k).rc
      x) ∧
    (∀ j : Nat, ((osrcOf d node node2 content n0 j) p).inside
      (lineState (fieldtOf d n0).toNat (planeHeight d.viSaved.format d.viSaved.height p) k).r0
      x) ∧
    (∀ j : Nat, ((osrcOf d node node2 content n0 j) p).inside
      (lineState (fieldtOf d n0).toNat (planeHeight d.viSaved.format d.viSaved.height p) k).r2
      x) := by
  have hgeo2 := hgeo
  obtain ⟨gfmt, gw, gh, gdiv, _, _⟩ := hgeo2
  have hH : planeHeight d.vi.format d.vi.height p
      = 2 * planeHeight d.viSaved.format d.viSaved.height p := by
    rw [gfmt, gh]
    exact planeHeight_double _ _ _ gdiv
  have hk2 : k < planeHeight d.viSaved.format d.viSaved.height p := by omega
  have hx2 : x < planeWidth d.viSaved.format d.viSaved.width p := by
    rw [← gfmt, ← gw]
    exact hx
  refine ⟨fun j => ?_, fun j => ?_, fun j => ?_⟩
  · obtain ⟨a, b⟩ := csrcOf_dims d node node2 content n0 hgeo j p hp
    exact (lineState_inside _ _ k _ x hk2 (by rw [a]; exact hx2) b).1
  · obtain ⟨a, b⟩ := osrcOf_dims d node node2 content n0 hgeo j p hp
    exact (lineState_inside _ _ k _ x hk2 (by rw [a]; exact hx2) b).2.1
  · obtain ⟨a, b⟩ := osrcOf_dims d node node2 content n0 hgeo j p hp
    exact (lineState_inside _ _ k _ x hk2 (by rw [a]; exact hx2) b).2.2

/-- A classified pixel of Stage B that is not short-circuited holds
`tmmlut16[order * 8 + fieldt * 4 + vlut[val]]` for the `val` accumulated by the loop over `i`
from the vectors that `fillPlut` gathers. -/
theorem buildMM_encoding (d : TDeintModData) (node node2 : Int → Frame)
    (content : Nat → Nat → Nat → Byte) (n0 : Int)
    (hcfg : StageBConfig d) (hgeo : StageBGeometry d node node2)
    (hrows : fieldtOf d n0 = 1 → ∀ p, p < d.vi.format.numPlanes →
      2 ≤ planeHeight d.viSaved.format d.viSaved.height p)
    (p k x : Nat) (hp : p < d.vi.format.numPlanes)
    (hk : (fieldtOf d n0).toNat + 2 * k < planeHeight d.vi.format d.vi.height p)
    (hx : x < planeWidth d.vi.format d.vi.width p)
    (hz : centreAllZero (csrcOf d node node2 content n0)
      (windowOf d (fieldtOf d n0) (indexOf d n0)).ccount p
      (cdiv (windowOf d (fieldtOf d n0) (indexOf d n0)).ccount 2) k x = some false) :
    ∃ (out : Frame) (pl : PLut × PLut) (res : Nat × Bool) (cat : Nat) (code : Int),
      tdeintmodBuildMMGetFrame d node node2 content n0 = some out ∧
      fillPlut d (csrcOf d node node2 content n0) (osrcOf d node node2 content n0)
        (windowOf d (fieldtOf d n0) (indexOf d n0)).ccount
        (windowOf d (fieldtOf d n0) (indexOf d n0)).ocount p
        (lineState (fieldtOf d n0).toNat (planeHeight d.viSaved.format d.viSaved.height p) k)
        x = some pl ∧
      (∀ j : Nat, (j : Int) ≤ 2 * d.length - 6 →
        (∃ v, pl.1.load j = some v) ∧ (∃ v, pl.2.load j = some v)) ∧
      forLoop (valStep d pl.1 pl.2) d.length.toNat (0, false) = some res ∧
      (vlut d.mtype)[res.1]? = some cat ∧ cat < 4 ∧
      getI tmmlut16 (d.order * 8 + fieldtOf d n0 * 4 + cat) = some code ∧
      (out p).pix ((fieldtOf d n0).toNat + 2 * k) x = toU8 code := by
  obtain ⟨out, t, hout, ht, hpix⟩ := buildMM_value d node node2 content n0 hcfg hgeo hrows
  obtain ⟨v, hv, hb⟩ := hpix p hp k x hk hx
  obtain ⟨hi1, hi0, hi2⟩ := stageB_inside d node node2 content n0 hgeo p k x hp hk hx
  have hcfg2 := hcfg
  obtain ⟨hL, hmt, hord, hfld⟩ := hcfg2
  have hft := fieldtOf_bit d n0 hord hfld
  obtain ⟨hcc, hoc, _, _⟩ := windowOf_counts d (fieldtOf d n0) (indexOf d n0) hL.1
  obtain ⟨pl, res, hpl, hload, hres, hlt, hcode⟩ := pixelCode_encoding d t
    (csrcOf d node node2 content n0) (osrcOf d node node2 content n0)
    (windowOf d (fieldtOf d n0) (indexOf d n0)).ccount
    (windowOf d (fieldtOf d n0) (indexOf d n0)).ocount p
    (lineState (fieldtOf d n0).toNat (planeHeight d.viSaved.format d.viSaved.height p) k) x
    hL hcc hoc (fun j _ => hi1 j) (fun j _ => hi0 j) (fun j _ => hi2 j) hz
  obtain ⟨t2, ht2, hent⟩ := tmmlutfOf_entries d.mtype d.order (fieldtOf d n0) hmt hord hft
  have htt : t2 = t := Option.some.inj (ht2.symm.trans ht)
  subst htt
  obtain ⟨cat, code, hcat, hc4, hget, hte⟩ := hent res.1 hlt
  refine ⟨out, pl, res, cat, code, hout, hpl, hload, hres, hcat, hc4, hget, ?_⟩
  rw [hb]
  rw [hcode, hte] at hv
  rw [Option.some.inj hv]

/-- C27: Stage B short circuit. At a classified pixel (row `fieldt + 2k`, column `x` of plane
`p`), if the samples of the current-parity window frames `csrc[ct - 2]`, `csrc[ct]` and
`csrc[ct + 1]` (ct = ccount / 2) at row `k`, column `x` are all zero, then Stage B returns a
frame that holds the verdict 60 at that pixel, whatever the other mask samples and whatever
mtype, order and field are. -/
theorem C27_short_circuit (d : TDeintModData) (node node2 : Int → Frame)
    (content : Nat → Nat → Nat → Byte) (n0 : Int)
    (hcfg : StageBConfig d) (hgeo : StageBGeometry d node node2)
    (hrows : fieldtOf d n0 = 1 → ∀ p, p < d.vi.format.numPlanes →
      2 ≤ planeHeight d.viSaved.format d.viSaved.height p)
    (p k x : Nat) (hp : p < d.vi.format.numPlanes)
    (hk : (fieldtOf d n0).toNat + 2 * k < planeHeight d.vi.format d.vi.height p)
    (hx : x < planeWidth d.vi.format d.vi.width p)
    (hz : ∀ i : Int,
      (i = cdiv (windowOf d (fieldtOf d n0) (indexOf d n0)).ccount 2 - 2 ∨
        i = cdiv (windowOf d (fieldtOf d n0) (indexOf d n0)).ccount 2 ∨
        i = cdiv (windowOf d (fieldtOf d n0) (indexOf d n0)).ccount 2 + 1) →
      ((csrcOf d node node2 content n0 i.toNat) p).pix k x = 0) :
    ∃ out : Frame, tdeintmodBuildMMGetFrame d node node2 content n0 = some out ∧
      (out p).pix ((fieldtOf d n0).toNat + 2 * k) x = 60 := by
  obtain ⟨out, t, hout, _, hpix⟩ := buildMM_value d node node2 content n0 hcfg hgeo hrows
  obtain ⟨v, hv, hb⟩ := hpix p hp k x hk hx
  obtain ⟨hi1, _, _⟩ := stageB_inside d node node2 content n0 hgeo p k x hp hk hx
  obtain ⟨hcc, _, _, _⟩ := windowOf_counts d (fieldtOf d n0) (indexOf d n0) hcfg.1.1
  have hL := hcfg.1.1
  have hct : cdiv (windowOf d (fieldtOf d n0) (indexOf d n0)).ccount 2
      = (windowOf d (fieldtOf d n0) (indexOf d n0)).ccount / 2 := cdiv_two _ (by omega)
  have hread : ∀ i : Int,
      (i = cdiv (windowOf d (fieldtOf d n0) (indexOf d n0)).ccount 2 - 2 ∨
        i = cdiv (windowOf d (fieldtOf d n0) (indexOf d n0)).ccount 2 ∨
        i = cdiv (windowOf d (fieldtOf d n0) (indexOf d n0)).ccount 2 + 1) →
      ptRead (csrcOf d node node2 content n0)
        (windowOf d (fieldtOf d n0) (indexOf d n0)).ccount p i
        (lineState (fieldtOf d n0).toNat
          (planeHeight d.viSaved.format d.viSaved.height p) k).rc x = some 0 := by
    intro i hi
    refine ptRead_zero _ _ p _ x i ?_ (hi1 _) ?_
    · rcases hi with e | e | e <;> rw [e, hct] <;> omega
    · have := hz i hi
      simpa [lineState] using this
  have h60 := pixelCode_short d t (csrcOf d node node2 content n0)
    (osrcOf d node node2 content n0) (windowOf d (fieldtOf d n0) (indexOf d n0)).ccount
    (windowOf d (fieldtOf d n0) (indexOf d n0)).ocount p
    (lineState (fieldtOf d n0).toNat (planeHeight d.viSaved.format d.viSaved.height p) k) x
    (hread _ (Or.inl rfl)) (hread _ (Or.inr (Or.inl rfl))) (hread _ (Or.inr (Or.inr rfl)))
  rw [h60] at hv
  refine ⟨out, hout, ?_⟩
  rw [hb, ← Option.some.inj hv]
  decide

/-- Instance of C27: with window length 10 and field 1, a bottom-field mask stream that is zero
everywhere and a top-field mask stream that is 255 everywhere, the classified pixel in row 1,
column 0 holds 60. -/
theorem C27_short_circuit_witness :
    ∃ out : Frame, tdeintmodBuildMMGetFrame (defaultData 2 2 5) (fun _ => constFrame 2 2 255)
        (fun _ => constFrame 2 2 0) (fun _ _ _ => 9) 0 = some out ∧
      (out 0).pix 1 0 = 60 :=
  C27_short_circuit (defaultData 2 2 5) (fun _ => constFrame 2 2 255)
    (fun _ => constFrame 2 2 0) (fun _ _ _ => 9) 0 (defaultData_config 2 2 5)
    (defaultData_geometry 2 2 5 255 0) (fun _ p hp => by
      have hp0 : p = 0 := by
        have : p < 1 := hp
        omega
      subst hp0
      decide) 0 0 0 (by decide) (by decide) (by decide)
    (fun i _ => by
      simp only [csrcOf, show fieldtOf (defaultData 2 2 5) 0 = 1 from rfl, if_true,
        windowFrame]
      split_ifs <;> rfl)

/-! ## Stage B: pattern encoding, categories and window sizes -/

theorem forLoop_preserves_lt {σ : Type} (body : Nat → σ → Option σ) (P : σ → Prop) :
    ∀ (n : Nat), (∀ i s t, i < n → body i s = some t → P s → P t) →
      ∀ (s t : σ), P s → forLoop body n s = some t → P t := by
  intro n
  induction n with
  | zero =>
    intro _ s t hs h
    simp only [forLoop, Option.some.injEq] at h
    exact h ▸ hs
  | succ k ih =>
    intro hstep s t hs h
    simp only [forLoop] at h
    cases hk : forLoop body k s with
    | none =>
      rw [hk] at h
      simp at h
    | some u =>
      rw [hk] at h
      simp only [Option.some_bind, Option.bind_eq_bind] at h
      exact hstep k u t (Nat.lt_succ_self k) h
        (ih (fun i s t hi => hstep i s t (Nat.lt_succ_of_lt hi)) s u hs hk)

theorem store_none (pl q : PLut) (i : Nat) (v : Int) (h : pl.store i v = some q) (k : Nat)
    (hk : i < k) (hn : pl k = none) : q k = none := by
  unfold PLut.store at h
  split_ifs at h
  have := Option.some.inj h
  subst this
  simp only
  rw [if_neg (by omega)]
  exact hn

/-- The two gather loops of Stage B write no entry of `plut` beyond index `2 * length - 6`. -/
theorem fillPlut_domain (d : TDeintModData) (csrc osrc : Nat → Frame) (ccount ocount : Int)
    (plane : Nat) (st : BuildState) (x : Nat)
    (hL : 6 ≤ d.length)
    (hcc : ccount = 2 * ((d.length - 2) / 2)) (hoc : ocount = 2 * ((d.length - 1) / 2) - 1)
    (pl : PLut × PLut)
    (h : fillPlut d csrc osrc ccount ocount plane st x = some pl) :
    ∀ k : Nat, 2 * d.length - 6 < (k : Int) → pl.1 k = none ∧ pl.2 k = none := by
  unfold fillPlut at h
  simp only [Option.bind_eq_bind] at h
  obtain ⟨pl1, h1, h2⟩ := Option.bind_eq_some.mp h
  have hP1 := forLoop_preserves_lt _
    (fun q : PLut × PLut => ∀ k : Nat, 2 * d.length - 6 < (k : Int) →
      q.1 k = none ∧ q.2 k = none) ccount.toNat
    (by
      intro j s t hj hb hs k hk
      simp only [Option.bind_eq_bind, Option.pure_def] at hb
      obtain ⟨v, _, hb⟩ := Option.bind_eq_some.mp hb
      obtain ⟨q1, hq1, hb⟩ := Option.bind_eq_some.mp hb
      obtain ⟨q0, hq0, hb⟩ := Option.bind_eq_some.mp hb
      have := Option.some.inj hb
      subst this
      have hidx : j * 2 + (if d.length % 2 ≠ 0 then 1 else 0) < k := by
        split_ifs <;> omega
      exact ⟨store_none _ _ _ _ hq0 k hidx (hs k hk).1,
        store_none _ _ _ _ hq1 k hidx (hs k hk).2⟩)
    (fun _ => none, fun _ => none) pl1 (fun _ _ => ⟨rfl, rfl⟩) h1
  exact forLoop_preserves_lt _
    (fun q : PLut × PLut => ∀ k : Nat, 2 * d.length - 6 < (k : Int) →
      q.1 k = none ∧ q.2 k = none) ocount.toNat
    (by
      intro j s t hj hb hs k hk
      simp only [Option.bind_eq_bind, Option.pure_def] at hb
      obtain ⟨v0, _, hb⟩ := Option.bind_eq_some.mp hb
      obtain ⟨q0, hq0, hb⟩ := Option.bind_eq_some.mp hb
      obtain ⟨v1, _, hb⟩ := Option.bind_eq_some.mp hb
      obtain ⟨q1, hq1, hb⟩ := Option.bind_eq_some.mp hb
      have := Option.some.inj hb
      subst this
      have hidx : j * 2 + (if d.length % 2 ≠ 0 then 0 else 1) < k := by
        split_ifs <;> omega
      exact ⟨store_none _ _ _ _ hq0 k hidx (hs k hk).1,
        store_none _ _ _ _ hq1 k hidx (hs k hk).2⟩)
    pl1 pl hP1 h2

set_option maxRecDepth 100000 in
theorem scan_instance :
    (fillPlut { defaultData 2 2 5 with length := 6 }
        (fun j => constFrame 2 2 (if j = 1 then 0 else 255)) (fun _ => constFrame 2 2 255)
        4 3 0 (lineState 1 2 0) 0).bind
      (fun pl => some (pl.1 2, pl.2 2,
        valStep { defaultData 2 2 5 with length := 6 } pl.1 pl.2 0 (0, false)))
      = some (some 0, some 0, some (9, false)) := by
  decide

/-- The claim C28 fails on the scan range. Window length 6, current-parity samples
255, 0, 255, 255 and opposite-parity samples 255: the gathered vectors `plut[0]` and `plut[1]`
are 255, 255, 0, 255, 255, 255, 255, so the entries at indices 0 through L - 4 = 2 are not all
non-zero; yet step i = 0 of the loop ORs in both `gvlut[0] << 3 = 8` and `gvlut[0] = 1`
(val = 9), because the scan reads only the indices 0 and 1. -/
theorem C28_scan_range_counterexample :
    ∃ pl, fillPlut { defaultData 2 2 5 with length := 6 }
        (fun j => constFrame 2 2 (if j = 1 then 0 else 255)) (fun _ => constFrame 2 2 255)
        4 3 0 (lineState 1 2 0) 0 = some pl ∧
      pl.1 (0 + 2) = some 0 ∧ pl.2 (0 + 2) = some 0 ∧
      valStep { defaultData 2 2 5 with length := 6 } pl.1 pl.2 0 (0, false)
        = some (9, false) := by
  have key := scan_instance
  cases h : fillPlut { defaultData 2 2 5 with length := 6 }
      (fun j => constFrame 2 2 (if j = 1 then 0 else 255)) (fun _ => constFrame 2 2 255)
      4 3 0 (lineState 1 2 0) 0 with
  | none =>
    rw [h] at key
    exact Option.noConfusion key
  | some pl =>
    rw [h, Option.some_bind] at key
    have e := Option.some.inj key
    simp only [Prod.mk.injEq] at e
    exact ⟨pl, rfl, e.1, e.2.1, e.2.2⟩

/-- C28 (amended): Stage B pattern encoding. At a classified pixel that is not short-circuited,
Stage B returns a frame whose byte is `tmmlut16[order * 8 + f * 4 + vlut[val]]`, where `val` is
the result of the loop over i = 0, ..., L - 1 started at val = 0 on the gathered vectors
`plut[0]`, `plut[1]`. A step i of the loop that has not been left ORs `gvlut[i] * 8` into val
iff the L - 4 entries of `plut[0]` at the indices i through i + L - 5 are all non-zero, then ORs
`gvlut[i]` into val iff the entries of `plut[1]` at the indices i through i + L - 5 are all
non-zero, and leaves the loop iff `vlut[val] = 2` afterwards; once the loop has been left, val
does not change. -/
theorem C28_pattern_encoding (d : TDeintModData) (node node2 : Int → Frame)
    (content : Nat → Nat → Nat → Byte) (n0 : Int)
    (hcfg : StageBConfig d) (hgeo : StageBGeometry d node node2)
    (hrows : fieldtOf d n0 = 1 → ∀ p, p < d.vi.format.numPlanes →
      2 ≤ planeHeight d.viSaved.format d.viSaved.height p)
    (p k x : Nat) (hp : p < d.vi.format.numPlanes)
    (hk : (fieldtOf d n0).toNat + 2 * k < planeHeight d.vi.format d.vi.height p)
    (hx : x < planeWidth d.vi.format d.vi.width p)
    (hz : centreAllZero (csrcOf d node node2 content n0)
      (windowOf d (fieldtOf d n0) (indexOf d n0)).ccount p
      (cdiv (windowOf d (fieldtOf d n0) (indexOf d n0)).ccount 2) k x = some false) :
    ∃ (out : Frame) (pl : PLut × PLut) (res : Nat × Bool) (cat : Nat) (code : Int),
      tdeintmodBuildMMGetFrame d node node2 content n0 = some out ∧
      fillPlut d (csrcOf d node node2 content n0) (osrcOf d node node2 content n0)
        (windowOf d (fieldtOf d n0) (indexOf d n0)).ccount
        (windowOf d (fieldtOf d n0) (indexOf d n0)).ocount p
        (lineState (fieldtOf d n0).toNat (planeHeight d.viSaved.format d.viSaved.height p) k)
        x = some pl ∧
      forLoop (valStep d pl.1 pl.2) d.length.toNat (0, false) = some res ∧
      (vlut d.mtype)[res.1]? = some cat ∧
      getI tmmlut16 (d.order * 8 + fieldtOf d n0 * 4 + cat) = some code ∧
      (out p).pix ((fieldtOf d n0).toNat + 2 * k) x = toU8 code ∧
      (∀ i val : Nat, (i : Int) < d.length → val < 64 →
        ∃ (g c : Nat) (a b : Bool), gvlut d.length i = some g ∧
          (a = true ↔ ∀ j, j < (d.length - 4).toNat → pl.1 (i + j) ≠ some 0) ∧
          (b = true ↔ ∀ j, j < (d.length - 4).toNat → pl.2 (i + j) ≠ some 0) ∧
          (vlut d.mtype)[if b then (if a then val ||| g * 8 else val) ||| g
            else (if a then val ||| g * 8 else val)]? = some c ∧
          valStep d pl.1 pl.2 i (val, false)
            = some (if b then (if a then val ||| g * 8 else val) ||| g
                else (if a then val ||| g * 8 else val), decide (c = 2))) ∧
      (∀ i val : Nat, valStep d pl.1 pl.2 i (val, true) = some (val, true)) := by
  obtain ⟨out, pl, res, cat, code, hout, hpl, hload, hres, hcat, _, hget, hpix⟩ :=
    buildMM_encoding d node node2 content n0 hcfg hgeo hrows p k x hp hk hx hz
  exact ⟨out, pl, res, cat, code, hout, hpl, hres, hcat, hget, hpix,
    fun i val hi hv => valStep_closed d pl.1 pl.2 i val hcfg.1 hi hload hv,
    fun i val => valStep_left d pl.1 pl.2 i val⟩

set_option maxRecDepth 100000 in
theorem moving_centre :
    centreAllZero (csrcOf (defaultData 1 2 30) (fun _ => constFrame 1 2 255)
        (fun _ => constFrame 1 2 255) (fun _ _ _ => 9) 10)
      (windowOf (defaultData 1 2 30) (fieldtOf (defaultData 1 2 30) 10)
        (indexOf (defaultData 1 2 30) 10)).ccount 0
      (cdiv (windowOf (defaultData 1 2 30) (fieldtOf (defaultData 1 2 30) 10)
        (indexOf (defaultData 1 2 30) 10)).ccount 2) (0 : Nat) 0 = some false := by
  decide

theorem moving_rows : fieldtOf (defaultData 1 2 30) 10 = 1 → ∀ p,
    p < (defaultData 1 2 30).vi.format.numPlanes →
    2 ≤ planeHeight (defaultData 1 2 30).viSaved.format (defaultData 1 2 30).viSaved.height
      p := by
  intro _ p hp
  have hp0 : p = 0 := by
    have : p < 1 := hp
    omega
  subst hp0
  decide

/-- Instance of C28 (amended): window length 10, field 1, 30 frames, both mask streams 255
everywhere, output index 10; the pixel in row 1, column 0 is not short-circuited and holds
the table entry of the category of its pattern. -/
theorem C28_pattern_encoding_witness :
    centreAllZero (csrcOf (defaultData 1 2 30) (fun _ => constFrame 1 2 255)
        (fun _ => constFrame 1 2 255) (fun _ _ _ => 9) 10)
      (windowOf (defaultData 1 2 30) (fieldtOf (defaultData 1 2 30) 10)
        (indexOf (defaultData 1 2 30) 10)).ccount 0
      (cdiv (windowOf (defaultData 1 2 30) (fieldtOf (defaultData 1 2 30) 10)
        (indexOf (defaultData 1 2 30) 10)).ccount 2) (0 : Nat) 0 = some false ∧
    ∃ (out : Frame) (cat : Nat) (code : Int),
      tdeintmodBuildMMGetFrame (defaultData 1 2 30) (fun _ => constFrame 1 2 255)
        (fun _ => constFrame 1 2 255) (fun _ _ _ => 9) 10 = some out ∧
      getI tmmlut16 ((defaultData 1 2 30).order * 8 + fieldtOf (defaultData 1 2 30) 10 * 4
        + cat) = some code ∧
      (out 0).pix 1 0 = toU8 code := by
  refine ⟨moving_centre, ?_⟩
  obtain ⟨out, pl, res, cat, code, h1, _, _, _, h5, h6, _⟩ :=
    C28_pattern_encoding (defaultData 1 2 30) (fun _ => constFrame 1 2 255)
      (fun _ => constFrame 1 2 255) (fun _ _ _ => 9) 10 (defaultData_config 1 2 30)
      (defaultData_geometry 1 2 30 255 255) moving_rows 0 0 0 (by decide) (by decide)
      (by decide) moving_centre
  exact ⟨out, cat, code, h1, h5, h6⟩

set_option maxRecDepth 100000 in
theorem moving_instance :
    (tdeintmodBuildMMGetFrame (defaultData 1 2 30) (fun _ => constFrame 1 2 255)
        (fun _ => constFrame 1 2 255) (fun _ _ _ => 9) 10).map (fun out => (out 0).pix 1 0)
      = some 50 ∧
    (fillPlut (defaultData 1 2 30)
        (csrcOf (defaultData 1 2 30) (fun _ => constFrame 1 2 255)
          (fun _ => constFrame 1 2 255) (fun _ _ _ => 9) 10)
        (osrcOf (defaultData 1 2 30) (fun _ => constFrame 1 2 255)
          (fun _ => constFrame 1 2 255) (fun _ _ _ => 9) 10)
        8 7 0 (lineState 1 2 0) 0).bind
      (fun pl => forLoop (valStep (defaultData 1 2 30) pl.1 pl.2) 10 (0, false))
      = some (27, true) := by
  decide

/-- The claim C29 fails: with the default parameters (mtype 1, order 1, field 1, window
length 10) and both mask streams 255 everywhere, the pixel in row 1, column 0 of output
index 10 has val = 27 and vlut[27] = 2, and Stage B stores the verdict 50 there, not 60. -/
theorem C29_motion_category_counterexample :
    ∃ (out : Frame) (pl : PLut × PLut),
      tdeintmodBuildMMGetFrame (defaultData 1 2 30) (fun _ => constFrame 1 2 255)
        (fun _ => constFrame 1 2 255) (fun _ _ _ => 9) 10 = some out ∧
      fillPlut (defaultData 1 2 30)
        (csrcOf (defaultData 1 2 30) (fun _ => constFrame 1 2 255)
          (fun _ => constFrame 1 2 255) (fun _ _ _ => 9) 10)
        (osrcOf (defaultData 1 2 30) (fun _ => constFrame 1 2 255)
          (fun _ => constFrame 1 2 255) (fun _ _ _ => 9) 10)
        8 7 0 (lineState 1 2 0) 0 = some pl ∧
      forLoop (valStep (defaultData 1 2 30) pl.1 pl.2) 10 (0, false) = some (27, true) ∧
      (vlut (defaultData 1 2 30).mtype)[27]? = some 2 ∧
      (out 0).pix 1 0 = 50 := by
  obtain ⟨k1, k2⟩ := moving_instance
  cases h : tdeintmodBuildMMGetFrame (defaultData 1 2 30) (fun _ => constFrame 1 2 255)
      (fun _ => constFrame 1 2 255) (fun _ _ _ => 9) 10 with
  | none =>
    rw [h] at k1
    exact Option.noConfusion k1
  | some out =>
    cases h2 : fillPlut (defaultData 1 2 30)
        (csrcOf (defaultData 1 2 30) (fun _ => constFrame 1 2 255)
          (fun _ => constFrame 1 2 255) (fun _ _ _ => 9) 10)
        (osrcOf (defaultData 1 2 30) (fun _ => constFrame 1 2 255)
          (fun _ => constFrame 1 2 255) (fun _ _ _ => 9) 10)
        8 7 0 (lineState 1 2 0) 0 with
    | none =>
      rw [h2] at k2
      exact Option.noConfusion k2
    | some pl =>
      rw [h, Option.map_some'] at k1
      rw [h2, Option.some_bind] at k2
      exact ⟨out, pl, rfl, rfl, k2, by decide, Option.some.inj k1⟩

theorem tmmlut16_category (order fieldt : Int) (cat : Nat) (code : Int)
    (ho : order = 0 ∨ order = 1) (hf : fieldt = 0 ∨ fieldt = 1) (hc : cat < 4)
    (h : getI tmmlut16 (order * 8 + fieldt * 4 + cat) = some code) :
    code = if cat = 0 then 60
      else if cat = 1 then (if order = fieldt then 20 else 10)
      else if cat = 2 then (if order = fieldt then 50 else 40)
      else (if order = fieldt then 10 else 30) := by
  have h4 : cat = 0 ∨ cat = 1 ∨ cat = 2 ∨ cat = 3 := by omega
  rcases ho with rfl | rfl <;> rcases hf with rfl | rfl <;>
    rcases h4 with rfl | rfl | rfl | rfl <;>
    simp [getI, tmmlut16] at h <;> simp [← h]

/-- C29 (amended): meaning of the validity category. For every order and field, a classified
pixel that is not short-circuited and whose packed state val has category `vlut[val]` receives:
the spatial-interpolation verdict 60 for category 0; the copy verdict 20 (order = f) or 10 for
category 1; the averaging verdict 50 (order = f) or 40 for category 2; the copy verdict 10
(order = f) or 30 for category 3. -/
theorem C29_category_verdicts (d : TDeintModData) (node node2 : Int → Frame)
    (content : Nat → Nat → Nat → Byte) (n0 : Int)
    (hcfg : StageBConfig d) (hgeo : StageBGeometry d node node2)
    (hrows : fieldtOf d n0 = 1 → ∀ p, p < d.vi.format.numPlanes →
      2 ≤ planeHeight d.viSaved.format d.viSaved.height p)
    (p k x : Nat) (hp : p < d.vi.format.numPlanes)
    (hk : (fieldtOf d n0).toNat + 2 * k < planeHeight d.vi.format d.vi.height p)
    (hx : x < planeWidth d.vi.format d.vi.width p)
    (hz : centreAllZero (csrcOf d node node2 content n0)
      (windowOf d (fieldtOf d n0) (indexOf d n0)).ccount p
      (cdiv (windowOf d (fieldtOf d n0) (indexOf d n0)).ccount 2) k x = some false) :
    ∃ (out : Frame) (pl : PLut × PLut) (res : Nat × Bool) (cat : Nat),
      tdeintmodBuildMMGetFrame d node node2 content n0 = some out ∧
      fillPlut d (csrcOf d node node2 content n0) (osrcOf d node node2 content n0)
        (windowOf d (fieldtOf d n0) (indexOf d n0)).ccount
        (windowOf d (fieldtOf d n0) (indexOf d n0)).ocount p
        (lineState (fieldtOf d n0).toNat (planeHeight d.viSaved.format d.viSaved.height p) k)
        x = some pl ∧
      forLoop (valStep d pl.1 pl.2) d.length.toNat (0, false) = some res ∧
      (vlut d.mtype)[res.1]? = some cat ∧ cat < 4 ∧
      (((out p).pix ((fieldtOf d n0).toNat + 2 * k) x).val : Int)
        = if cat = 0 then 60
          else if cat = 1 then (if d.order = fieldtOf d n0 then 20 else 10)
          else if cat = 2 then (if d.order = fieldtOf d n0 then 50 else 40)
          else (if d.order = fieldtOf d n0 then 10 else 30) := by
  obtain ⟨out, pl, res, cat, code, hout, hpl, _, hres, hcat, hc4, hget, hpix⟩ :=
    buildMM_encoding d node node2 content n0 hcfg hgeo hrows p k x hp hk hx hz
  have hft := fieldtOf_bit d n0 hcfg.2.2.1 hcfg.2.2.2
  have hcode := tmmlut16_category d.order (fieldtOf d n0) cat code hcfg.2.2.1 hft hc4 hget
  refine ⟨out, pl, res, cat, hout, hpl, hres, hcat, hc4, ?_⟩
  rw [hpix, ← hcode]
  have hrange : 0 ≤ code ∧ code ≤ 255 := by
    rw [hcode]
    split_ifs <;> omega
  exact toU8_small code hrange

/-- Instance of C29 (amended): default parameters (order = field = 1), 30 frames, both mask
streams 255 everywhere, output index 10, pixel in row 1, column 0. -/
theorem C29_category_verdicts_witness :
    ∃ (out : Frame) (cat : Nat),
      tdeintmodBuildMMGetFrame (defaultData 1 2 30) (fun _ => constFrame 1 2 255)
        (fun _ => constFrame 1 2 255) (fun _ _ _ => 9) 10 = some out ∧
      cat < 4 ∧
      (((out 0).pix 1 0).val : Int)
        = if cat = 0 then 60 else if cat = 1 then 20 else if cat = 2 then 50 else 10 := by
  obtain ⟨out, pl, res, cat, h1, _, _, _, h5, h6⟩ :=
    C29_category_verdicts (defaultData 1 2 30) (fun _ => constFrame 1 2 255)
      (fun _ => constFrame 1 2 255) (fun _ _ _ => 9) 10 (defaultData_config 1 2 30)
      (defaultData_geometry 1 2 30 255 255) moving_rows 0 0 0 (by decide) (by decide)
      (by decide) moving_centre
  exact ⟨out, cat, h1, h5, h6⟩

set_option maxRecDepth 100000 in
theorem window_instance :
    (fillPlut (defaultData 1 2 30) (fun _ => constFrame 1 2 255) (fun _ => constFrame 1 2 255)
        8 7 0 (lineState 1 2 0) 0).map (fun pl => (pl.1 14, pl.1 15, pl.1 18))
      = some (some 255, none, none) := by
  decide

/-- The claim C30 fails: for L = 10, field 1 and source index 10 the opposite-parity window
[tstart..tstop] = [6..12] holds ocount = 7 frames (not 10), the current-parity window holds
ccount = 8 frames (not 9), and the gathered vector `plut[0]` has its last entry at index 14:
the indices 15 through 18 are never written. -/
theorem C30_window_sizes_counterexample :
    (defaultData 1 2 30).length = 10 ∧
    (windowOf (defaultData 1 2 30) 1 10).tstart = 6 ∧
    (windowOf (defaultData 1 2 30) 1 10).tstop = 12 ∧
    (windowOf (defaultData 1 2 30) 1 10).ocount = 7 ∧
    (windowOf (defaultData 1 2 30) 1 10).ccount = 8 ∧
    ∃ pl, fillPlut (defaultData 1 2 30) (fun _ => constFrame 1 2 255)
        (fun _ => constFrame 1 2 255) 8 7 0 (lineState 1 2 0) 0 = some pl ∧
      pl.1 14 = some 255 ∧ pl.1 15 = none ∧ pl.1 18 = none := by
  refine ⟨by decide, by decide, by decide, by decide, by decide, ?_⟩
  have key := window_instance
  cases h : fillPlut (defaultData 1 2 30) (fun _ => constFrame 1 2 255)
      (fun _ => constFrame 1 2 255) 8 7 0 (lineState 1 2 0) 0 with
  | none =>
    rw [h] at key
    exact Option.noConfusion key
  | some pl =>
    rw [h, Option.map_some'] at key
    have e := Option.some.inj key
    simp only [Prod.mk.injEq] at e
    exact ⟨pl, rfl, e.1, e.2.1, e.2.2⟩

/-- C30 (amended): Stage B window sizes. For every L in [6,60], every n, order and parity f,
the opposite-parity window holds ocount = 2 * ((L - 1) / 2) - 1 frames and the current-parity
window holds ccount = 2 * ((L - 2) / 2) frames (L - 3 and L - 2 for even L, L - 2 and L - 3
for odd L), 2L - 5 frames together; the opposite-parity window is [tstart..tstop] when f = 1 and
[bstart..bstop] otherwise. The gather loops return, and the interleaved per-pixel vectors
`plut[0]` and `plut[1]` have exactly the 2L - 5 positions 0, ..., 2L - 6. -/
theorem C30_window_sizes (d : TDeintModData) (fieldt n : Int)
    (hL : 6 ≤ d.length ∧ d.length ≤ 60) :
    (windowOf d fieldt n).ocount = 2 * ((d.length - 1) / 2) - 1 ∧
    (windowOf d fieldt n).ccount = 2 * ((d.length - 2) / 2) ∧
    (windowOf d fieldt n).ocount + (windowOf d fieldt n).ccount = 2 * d.length - 5 ∧
    (d.length % 2 = 0 → (windowOf d fieldt n).ocount = d.length - 3 ∧
      (windowOf d fieldt n).ccount = d.length - 2) ∧
    (d.length % 2 = 1 → (windowOf d fieldt n).ocount = d.length - 2 ∧
      (windowOf d fieldt n).ccount = d.length - 3) ∧
    (fieldt = 1 → (windowOf d fieldt n).tstop - (windowOf d fieldt n).tstart + 1
        = (windowOf d fieldt n).ocount ∧
      (windowOf d fieldt n).bstop - (windowOf d fieldt n).bstart + 1
        = (windowOf d fieldt n).ccount) ∧
    (fieldt ≠ 1 → (windowOf d fieldt n).tstop - (windowOf d fieldt n).tstart + 1
        = (windowOf d fieldt n).ccount ∧
      (windowOf d fieldt n).bstop - (windowOf d fieldt n).bstart + 1
        = (windowOf d fieldt n).ocount) ∧
    ∀ (csrc osrc : Nat → Frame) (plane : Nat) (st : BuildState) (x : Nat),
      (∀ j : Nat, (j : Int) < (windowOf d fieldt n).ccount →
        ((csrc j) plane).inside st.rc x) →
      (∀ j : Nat, (j : Int) < (windowOf d fieldt n).ocount →
        ((osrc j) plane).inside st.r0 x) →
      (∀ j : Nat, (j : Int) < (windowOf d fieldt n).ocount →
        ((osrc j) plane).inside st.r2 x) →
      ∃ pl, fillPlut d csrc osrc (windowOf d fieldt n).ccount (windowOf d fieldt n).ocount
          plane st x = some pl ∧
        ∀ k : Nat, (pl.1 k ≠ none ↔ (k : Int) ≤ 2 * d.length - 6) ∧
          (pl.2 k ≠ none ↔ (k : Int) ≤ 2 * d.length - 6) := by
  obtain ⟨hcc, hoc, hw1, hw0⟩ := windowOf_counts d fieldt n hL.1
  refine ⟨hoc, hcc, by omega, fun _ => by omega, fun _ => by omega, hw1, hw0, ?_⟩
  intro csrc osrc plane st x hc ho0 ho2
  obtain ⟨pl, hpl, hload⟩ := fillPlut_spec d csrc osrc _ _ plane st x hL hcc hoc hc ho0 ho2
  have hdom := fillPlut_domain d csrc osrc _ _ plane st x hL.1 hcc hoc pl hpl
  refine ⟨pl, hpl, ?_⟩
  intro k
  have hsome : ∀ q : PLut, (∃ v, q.load k = some v) → q k ≠ none := by
    intro q ⟨v, hv⟩ hn
    unfold PLut.load at hv
    split_ifs at hv
    rw [hn] at hv
    exact Option.noConfusion hv
  constructor
  · constructor
    · intro hne
      by_contra hgt
      exact hne (hdom k (by omega)).1
    · intro hle
      exact hsome pl.1 (hload k hle).1
  · constructor
    · intro hne
      by_contra hgt
      exact hne (hdom k (by omega)).2
    · intro hle
      exact hsome pl.2 (hload k hle).2

/-- Instance of C30 (amended): L = 10, field 1, source index 10: ocount = 7, ccount = 8 and
15 frames together. -/
theorem C30_window_sizes_witness :
    (windowOf (defaultData 1 2 30) 1 10).ocount
      = 2 * (((defaultData 1 2 30).length - 1) / 2) - 1 ∧
    (windowOf (defaultData 1 2 30) 1 10).ccount
      = 2 * (((defaultData 1 2 30).length - 2) / 2) ∧
    (windowOf (defaultData 1 2 30) 1 10).ocount + (windowOf (defaultData 1 2 30) 1 10).ccount
      = 2 * (defaultData 1 2 30).length - 5 :=
  have h := C30_window_sizes (defaultData 1 2 30) 1 10 (by decide)
  ⟨h.1, h.2.1, h.2.2.1⟩

/-! ## Stage B: interleave offsets, index safety and the early exit -/

theorem ptRead_eq (frames : Nat → Frame) (count : Int) (plane : Nat) (j : Nat)
    (row : Int) (x : Nat) (hj : (j : Int) < count) (hin : ((frames j) plane).inside row x) :
    ptRead frames count plane j row x = some ((((frames j) plane).pix row.toNat x).val : Int) := by
  have h : 0 ≤ (j : Int) ∧ (j : Int) < count := ⟨by omega, hj⟩
  simp [ptRead, h, Plane.read, hin]

/-- The two gather loops of Stage B: the current-parity sample `j` lands at position
`2j + offc` of both vectors, the opposite-parity samples `j` of the rows above and below at
position `2j + offo` of `plut[0]` and `plut[1]`. -/
theorem fillPlut_values (d : TDeintModData) (csrc osrc : Nat → Frame) (ccount ocount : Int)
    (plane : Nat) (st : BuildState) (x : Nat)
    (hL : 6 ≤ d.length ∧ d.length ≤ 60)
    (hcc : ccount = 2 * ((d.length - 2) / 2)) (hoc : ocount = 2 * ((d.length - 1) / 2) - 1)
    (hc : ∀ j : Nat, (j : Int) < ccount → ((csrc j) plane).inside st.rc x)
    (ho0 : ∀ j : Nat, (j : Int) < ocount → ((osrc j) plane).inside st.r0 x)
    (ho2 : ∀ j : Nat, (j : Int) < ocount → ((osrc j) plane).inside st.r2 x) :
    ∃ pl, fillPlut d csrc osrc ccount ocount plane st x = some pl ∧
      (∀ j : Nat, (j : Int) < ccount →
        pl.1 (j * 2 + (if d.length % 2 ≠ 0 then 1 else 0))
          = some ((((csrc j) plane).pix st.rc.toNat x).val : Int) ∧
        pl.2 (j * 2 + (if d.length % 2 ≠ 0 then 1 else 0))
          = some ((((csrc j) plane).pix st.rc.toNat x).val : Int)) ∧
      (∀ j : Nat, (j : Int) < ocount →
        pl.1 (j * 2 + (if d.length % 2 ≠ 0 then 0 else 1))
          = some ((((osrc j) plane).pix st.r0.toNat x).val : Int) ∧
        pl.2 (j * 2 + (if d.length % 2 ≠ 0 then 0 else 1))
          = some ((((osrc j) plane).pix st.r2.toNat x).val : Int)) := by
  obtain ⟨hL1, hL2⟩ := hL
  generalize hoffo : (if d.length % 2 ≠ 0 then (0 : Nat) else 1) = offo
  generalize hoffc : (if d.length % 2 ≠ 0 then (1 : Nat) else 0) = offc
  have hsum : offc + offo = 1 := by
    rw [← hoffo, ← hoffc]
    split_ifs <;> rfl
  -- first loop
  obtain ⟨pl1, h1, inv1⟩ := forLoop_inv (fun j (pl : PLut × PLut) => do
      let v ← ptRead csrc ccount plane j st.rc x
      let p1 ← pl.2.store (j * 2 + offc) v
      let p0 ← pl.1.store (j * 2 + offc) v
      pure (p0, p1))
    (fun m pl => ∀ j, j < m →
      pl.1 (j * 2 + offc) = some ((((csrc j) plane).pix st.rc.toNat x).val : Int) ∧
      pl.2 (j * 2 + offc) = some ((((csrc j) plane).pix st.rc.toNat x).val : Int))
    ccount.toNat (fun _ => none, fun _ => none)
    (fun j hj => absurd hj (Nat.not_lt_zero j))
    (by
      intro j pl hj inv
      have hjc : (j : Int) < ccount := by omega
      have hv := ptRead_eq csrc ccount plane j st.rc x hjc (hc j hjc)
      have hidx : j * 2 + offc < 119 := by omega
      refine ⟨(fun k => if k = j * 2 + offc
          then some ((((csrc j) plane).pix st.rc.toNat x).val : Int) else pl.1 k,
        fun k => if k = j * 2 + offc
          then some ((((csrc j) plane).pix st.rc.toNat x).val : Int) else pl.2 k), ?_, ?_⟩
      · simp [hv, PLut.store, hidx]
      · intro j' hj'
        by_cases hjj : j' = j
        · subst hjj; simp
        · have := inv j' (by omega)
          have hne : ¬ (j' * 2 + offc = j * 2 + offc) := by omega
          simpa [hne] using this)
  -- second loop
  obtain ⟨pl2, h2, inv2⟩ := forLoop_inv (fun j (pl : PLut × PLut) => do
      let p0 ← pl.1.store (j * 2 + offo) (← ptRead osrc ocount plane j st.r0 x)
      let p1 ← pl.2.store (j * 2 + offo) (← ptRead osrc ocount plane j st.r2 x)
      pure (p0, p1))
    (fun m pl => (∀ j, j < ccount.toNat →
        pl.1 (j * 2 + offc) = some ((((csrc j) plane).pix st.rc.toNat x).val : Int) ∧
        pl.2 (j * 2 + offc) = some ((((csrc j) plane).pix st.rc.toNat x).val : Int)) ∧
      (∀ j, j < m →
        pl.1 (j * 2 + offo) = some ((((osrc j) plane).pix st.r0.toNat x).val : Int) ∧
        pl.2 (j * 2 + offo) = some ((((osrc j) plane).pix st.r2.toNat x).val : Int)))
    ocount.toNat pl1
    ⟨inv1, fun j hj => absurd hj (Nat.not_lt_zero j)⟩
    (by
      intro j pl hj ⟨invc, invo⟩
      have hjo : (j : Int) < ocount := by omega
      have hv0 := ptRead_eq osrc ocount plane j st.r0 x hjo (ho0 j hjo)
      have hv2 := ptRead_eq osrc ocount plane j st.r2 x hjo (ho2 j hjo)
      have hidx : j * 2 + offo < 119 := by omega
      refine ⟨(fun k => if k = j * 2 + offo
          then some ((((osrc j) plane).pix st.r0.toNat x).val : Int) else pl.1 k,
        fun k => if k = j * 2 + offo
          then some ((((osrc j) plane).pix st.r2.toNat x).val : Int) else pl.2 k), ?_, ?_, ?_⟩
      · simp [hv0, hv2, PLut.store, hidx]
      · intro j' hj'
        have := invc j' hj'
        have hne : ¬ (j' * 2 + offc = j * 2 + offo) := by omega
        simpa [hne] using this
      · intro j' hj'
        by_cases hjj : j' = j
        · subst hjj; simp
        · have := invo j' (by omega)
          have hne : ¬ (j' * 2 + offo = j * 2 + offo) := by omega
          simpa [hne] using this)
  refine ⟨pl2, ?_, ?_, ?_⟩
  · have hfill : fillPlut d csrc osrc ccount ocount plane st x
        = (forLoop (fun j (pl : PLut × PLut) => do
            let v ← ptRead csrc ccount plane j st.rc x
            let p1 ← pl.2.store (j * 2 + offc) v
            let p0 ← pl.1.store (j * 2 + offc) v
            pure (p0, p1)) ccount.toNat (fun _ => none, fun _ => none)).bind
          (fun pl => forLoop (fun j (pl : PLut × PLut) => do
            let p0 ← pl.1.store (j * 2 + offo) (← ptRead osrc ocount plane j st.r0 x)
            let p1 ← pl.2.store (j * 2 + offo) (← ptRead osrc ocount plane j st.r2 x)
            pure (p0, p1)) ocount.toNat pl) := by
      unfold fillPlut
      simp only [hoffo, hoffc]
      rfl
    rw [hfill, h1]
    exact h2
  · intro j hj
    exact inv2.1 j (by omega)
  · intro j hj
    exact inv2.2 j (by omega)

/-- The claim C31 fails on offc: for the even window length L = 10, with current-parity samples
200 and opposite-parity samples 7, the current-parity sample 0 is stored at position
2 * 0 + 0 = 0 of `plut[0]`, and position 2 * 0 + 1 = 1 (where offc = 1 - (L & 1) = 1 would put
it) holds the opposite-parity sample 0. -/
theorem C31_offc_counterexample :
    (defaultData 1 2 30).length = 10 ∧
    ∃ pl, fillPlut (defaultData 1 2 30) (fun _ => constFrame 1 2 200)
        (fun _ => constFrame 1 2 7) 8 7 0 (lineState 1 2 0) 0 = some pl ∧
      pl.1 (2 * 0 + 0) = some 200 ∧ pl.1 (2 * 0 + 1) = some 7 ∧
      pl.2 (2 * 0 + 0) = some 200 ∧ pl.2 (2 * 0 + 1) = some 7 := by
  refine ⟨rfl, ?_⟩
  obtain ⟨pl, hpl, hc, ho⟩ := fillPlut_values (defaultData 1 2 30) (fun _ => constFrame 1 2 200)
    (fun _ => constFrame 1 2 7) 8 7 0 (lineState 1 2 0) 0 (by decide) (by decide) (by decide)
    (fun _ _ => by beta_reduce; decide) (fun _ _ => by beta_reduce; decide) (fun _ _ => by beta_reduce; decide)
  exact ⟨pl, hpl, (hc 0 (by decide)).1, (ho 0 (by decide)).1, (hc 0 (by decide)).2,
    (ho 0 (by decide)).2⟩

/-- C31 (amended): Stage B interleave offsets. The current-parity mask sample j is stored at
position 2j + offc of `plut[0]` and of `plut[1]` with offc = L & 1 (1 when L is odd, 0 when L is
even), and the opposite-parity sample j (the row above in `plut[0]`, the row below in
`plut[1]`) at position 2j + offo with offo = 1 - (L & 1) (0 when L is odd, 1 when L is
even). -/
theorem C31_interleave_offsets (d : TDeintModData) (csrc osrc : Nat → Frame)
    (ccount ocount : Int) (plane : Nat) (st : BuildState) (x : Nat)
    (hL : 6 ≤ d.length ∧ d.length ≤ 60)
    (hcc : ccount = 2 * ((d.length - 2) / 2)) (hoc : ocount = 2 * ((d.length - 1) / 2) - 1)
    (hc : ∀ j : Nat, (j : Int) < ccount → ((csrc j) plane).inside st.rc x)
    (ho0 : ∀ j : Nat, (j : Int) < ocount → ((osrc j) plane).inside st.r0 x)
    (ho2 : ∀ j : Nat, (j : Int) < ocount → ((osrc j) plane).inside st.r2 x) :
    ∃ pl, fillPlut d csrc osrc ccount ocount plane st x = some pl ∧
      (∀ j : Nat, (j : Int) < ccount →
        pl.1 (2 * j + (d.length % 2).toNat)
          = some ((((csrc j) plane).pix st.rc.toNat x).val : Int) ∧
        pl.2 (2 * j + (d.length % 2).toNat)
          = some ((((csrc j) plane).pix st.rc.toNat x).val : Int)) ∧
      (∀ j : Nat, (j : Int) < ocount →
        pl.1 (2 * j + (1 - d.length % 2).toNat)
          = some ((((osrc j) plane).pix st.r0.toNat x).val : Int) ∧
        pl.2 (2 * j + (1 - d.length % 2).toNat)
          = some ((((osrc j) plane).pix st.r2.toNat x).val : Int)) := by
  obtain ⟨pl, hpl, hcur, hopp⟩ := fillPlut_values d csrc osrc ccount ocount plane st x hL hcc hoc
    hc ho0 ho2
  have ec : (d.length % 2).toNat = (if d.length % 2 ≠ 0 then 1 else 0) := by
    split_ifs <;> omega
  have eo : (1 - d.length % 2).toNat = (if d.length % 2 ≠ 0 then 0 else 1) := by
    split_ifs <;> omega
  refine ⟨pl, hpl, ?_, ?_⟩
  · intro j hj
    rw [ec, Nat.mul_comm 2 j]
    exact hcur j hj
  · intro j hj
    rw [eo, Nat.mul_comm 2 j]
    exact hopp j hj

/-- Instance of C31 (amended): odd window length L = 7 (ccount = 4, ocount = 5), current-parity
samples 200, opposite-parity samples 7: position 0 holds the opposite-parity sample 0 and
position 1 the current-parity sample 0. -/
theorem C31_interleave_offsets_witness :
    ∃ pl, fillPlut { defaultData 1 2 30 with length := 7 } (fun _ => constFrame 1 2 200)
        (fun _ => constFrame 1 2 7) 4 5 0 (lineState 1 2 0) 0 = some pl ∧
      pl.1 1 = some 200 ∧ pl.1 0 = some 7 := by
  obtain ⟨pl, hpl, hc, ho⟩ := C31_interleave_offsets { defaultData 1 2 30 with length := 7 }
    (fun _ => constFrame 1 2 200) (fun _ => constFrame 1 2 7) 4 5 0 (lineState 1 2 0) 0
    (by decide) (by decide) (by decide)
    (fun _ _ => by beta_reduce; decide) (fun _ _ => by beta_reduce; decide) (fun _ _ => by beta_reduce; decide)
  exact ⟨pl, hpl, (hc 0 (by decide)).1, (ho 0 (by decide)).1⟩

/-- C35: the per-pixel loop of Stage B is index-safe and reads only initialised data. For every
L in [6,60], every order, field, mode and n: ccount <= 58 and ocount <= 58; ct - 2 >= 0 and
ct + 1 <= ccount - 1 for ct = ccount / 2; every position written by the interleave
(2j + offc, j < ccount, and 2j + offo, j < ocount) and every position read by the pattern loop
(i + j, i < L, j < L - 4) is <= 2L - 6 <= 118; Stage B returns a frame; and at every classified
pixel the interleave returns, it writes the positions 0, ..., 2L - 6 (and no other), the
pattern loop returns with val < 64, and `vlut[val]` and `tmmlutf[val]` exist. -/
theorem C35_stageB_index_safe (d : TDeintModData) (node node2 : Int → Frame)
    (content : Nat → Nat → Nat → Byte) (n0 : Int)
    (hcfg : StageBConfig d) (hgeo : StageBGeometry d node node2)
    (hrows : fieldtOf d n0 = 1 → ∀ p, p < d.vi.format.numPlanes →
      2 ≤ planeHeight d.viSaved.format d.viSaved.height p) :
    (windowOf d (fieldtOf d n0) (indexOf d n0)).ccount ≤ 58 ∧
    (windowOf d (fieldtOf d n0) (indexOf d n0)).ocount ≤ 58 ∧
    0 ≤ cdiv (windowOf d (fieldtOf d n0) (indexOf d n0)).ccount 2 - 2 ∧
    cdiv (windowOf d (fieldtOf d n0) (indexOf d n0)).ccount 2 + 1
      ≤ (windowOf d (fieldtOf d n0) (indexOf d n0)).ccount - 1 ∧
    2 * d.length - 6 ≤ 118 ∧
    (∀ j : Int, 0 ≤ j → j < (windowOf d (fieldtOf d n0) (indexOf d n0)).ccount →
      j * 2 + (if d.length % 2 ≠ 0 then 1 else 0) ≤ 2 * d.length - 6) ∧
    (∀ j : Int, 0 ≤ j → j < (windowOf d (fieldtOf d n0) (indexOf d n0)).ocount →
      j * 2 + (if d.length % 2 ≠ 0 then 0 else 1) ≤ 2 * d.length - 6) ∧
    (∀ i j : Int, 0 ≤ i → i < d.length → 0 ≤ j → j < d.length - 4 →
      0 ≤ i + j ∧ i + j ≤ 2 * d.length - 6) ∧
    ∃ (out : Frame) (t : List Int),
      tdeintmodBuildMMGetFrame d node node2 content n0 = some out ∧
      tmmlutfOf d.mtype d.order (fieldtOf d n0) = some t ∧
      ∀ p k x, p < d.vi.format.numPlanes →
        (fieldtOf d n0).toNat + 2 * k < planeHeight d.vi.format d.vi.height p →
        x < planeWidth d.vi.format d.vi.width p →
        ∃ (pl : PLut × PLut) (res : Nat × Bool) (cat : Nat) (code : Int),
          fillPlut d (csrcOf d node node2 content n0) (osrcOf d node node2 content n0)
            (windowOf d (fieldtOf d n0) (indexOf d n0)).ccount
            (windowOf d (fieldtOf d n0) (indexOf d n0)).ocount p
            (lineState (fieldtOf d n0).toNat
              (planeHeight d.viSaved.format d.viSaved.height p) k) x = some pl ∧
          (∀ j : Nat, (pl.1 j ≠ none ↔ (j : Int) ≤ 2 * d.length - 6) ∧
            (pl.2 j ≠ none ↔ (j : Int) ≤ 2 * d.length - 6)) ∧
          forLoop (valStep d pl.1 pl.2) d.length.toNat (0, false) = some res ∧
          res.1 < 64 ∧ (vlut d.mtype)[res.1]? = some cat ∧ t[res.1]? = some code := by
  have hcfg2 := hcfg
  obtain ⟨hL, hmt, hord, hfld⟩ := hcfg2
  have hft := fieldtOf_bit d n0 hord hfld
  obtain ⟨hcc, hoc, _, _⟩ := windowOf_counts d (fieldtOf d n0) (indexOf d n0) hL.1
  have hct : cdiv (windowOf d (fieldtOf d n0) (indexOf d n0)).ccount 2
      = (windowOf d (fieldtOf d n0) (indexOf d n0)).ccount / 2 := cdiv_two _ (by omega)
  obtain ⟨out, t, hout, ht, _⟩ := buildMM_value d node node2 content n0 hcfg hgeo hrows
  obtain ⟨t2, ht2, hent⟩ := tmmlutfOf_entries d.mtype d.order (fieldtOf d n0) hmt hord hft
  have htt : t2 = t := Option.some.inj (ht2.symm.trans ht)
  subst htt
  refine ⟨by omega, by omega, by omega, by omega, by omega, ?_, ?_, ?_, out, t2, hout, ht, ?_⟩
  · intro j h0 hj
    split_ifs <;> omega
  · intro j h0 hj
    split_ifs <;> omega
  · intro i j h0 hi h1 hj
    omega
  · intro p k x hp hk hx
    obtain ⟨hi1, hi0, hi2⟩ := stageB_inside d node node2 content n0 hgeo p k x hp hk hx
    obtain ⟨pl, hpl, hload⟩ := fillPlut_spec d (csrcOf d node node2 content n0)
      (osrcOf d node node2 content n0) _ _ p
      (lineState (fieldtOf d n0).toNat (planeHeight d.viSaved.format d.viSaved.height p) k) x
      hL hcc hoc (fun j _ => hi1 j) (fun j _ => hi0 j) (fun j _ => hi2 j)
    have hdom := fillPlut_domain d _ _ _ _ p _ x hL.1 hcc hoc pl hpl
    obtain ⟨res, hres, hlt⟩ := forLoop_inv (valStep d pl.1 pl.2) (fun _ s => s.1 < 64)
      d.length.toNat (0, false) (by decide)
      (fun i s hi hs => valStep_spec d pl.1 pl.2 i s hL (by omega) hload hs)
    obtain ⟨cat, code, hcat, _, _, hte⟩ := hent res.1 hlt
    refine ⟨pl, res, cat, code, hpl, ?_, hres, hlt, hcat, hte⟩
    intro j
    have hsome : ∀ q : PLut, (∃ v, q.load j = some v) → q j ≠ none := by
      intro q ⟨v, hv⟩ hn
      unfold PLut.load at hv
      split_ifs at hv
      rw [hn] at hv
      exact Option.noConfusion hv
    constructor
    · constructor
      · intro hne
        by_contra hgt
        exact hne (hdom j (by omega)).1
      · intro hle
        exact hsome pl.1 (hload j hle).1
    · constructor
      · intro hne
        by_contra hgt
        exact hne (hdom j (by omega)).2
      · intro hle
        exact hsome pl.2 (hload j hle).2

/-- Instance of C35: default parameters (L = 10), 30 frames, mask streams 255 and 0, output
index 10: ccount = 8, ocount = 7, and Stage B returns a frame. -/
theorem C35_stageB_index_safe_witness :
    (windowOf (defaultData 1 2 30) (fieldtOf (defaultData 1 2 30) 10)
      (indexOf (defaultData 1 2 30) 10)).ccount ≤ 58 ∧
    (windowOf (defaultData 1 2 30) (fieldtOf (defaultData 1 2 30) 10)
      (indexOf (defaultData 1 2 30) 10)).ocount ≤ 58 ∧
    ∃ out : Frame, tdeintmodBuildMMGetFrame (defaultData 1 2 30) (fun _ => constFrame 1 2 255)
      (fun _ => constFrame 1 2 0) (fun _ _ _ => 9) 10 = some out := by
  obtain ⟨h1, h2, _, _, _, _, _, _, out, t, ho, _⟩ :=
    C35_stageB_index_safe (defaultData 1 2 30) (fun _ => constFrame 1 2 255)
      (fun _ => constFrame 1 2 0) (fun _ _ _ => 9) 10 (defaultData_config 1 2 30)
      (defaultData_geometry 1 2 30 255 0) moving_rows
  exact ⟨h1, h2, out, ho⟩

set_option maxRecDepth 100000 in
theorem vlut_two_grid (m : Fin 3) :
    ∀ v : Fin 64, (vlut (m.val : Int))[v.val]? = some 2 ↔
      (if m.val = 2 then v.val.testBit 1 = true ∧ v.val.testBit 4 = true
        else v.val.testBit 1 = true ∨ v.val.testBit 4 = true) := by
  revert m
  decide

/-- In each of the three tables a state of category 2 keeps category 2 when more bits are
set: category 2 is "bit 1 or bit 4 set" for mtype 0 and 1, "bit 1 and bit 4 set" for
mtype 2. -/
theorem vlut_absorbing (mtype : Int) (hm : mtype = 0 ∨ mtype = 1 ∨ mtype = 2) (v w : Nat)
    (hv : v < 64) (hw : w < 64) (h : (vlut mtype)[v]? = some 2) :
    (vlut mtype)[v ||| w]? = some 2 := by
  have hvw : v ||| w < 64 := Nat.or_lt_two_pow (n := 6) (by simpa using hv) (by simpa using hw)
  rcases hm with rfl | rfl | rfl
  · have h1 := (vlut_two_grid 0 ⟨v, hv⟩).mp h
    refine (vlut_two_grid 0 ⟨v ||| w, hvw⟩).mpr ?_
    simp only [Fin.val_zero, OfNat.zero_ne_ofNat, if_false, Nat.testBit_or,
      Bool.or_eq_true] at h1 ⊢
    tauto
  · have h1 := (vlut_two_grid 1 ⟨v, hv⟩).mp h
    refine (vlut_two_grid 1 ⟨v ||| w, hvw⟩).mpr ?_
    simp only [Fin.val_one, OfNat.one_ne_ofNat, if_false, Nat.testBit_or,
      Bool.or_eq_true] at h1 ⊢
    tauto
  · have h1 := (vlut_two_grid 2 ⟨v, hv⟩).mp h
    refine (vlut_two_grid 2 ⟨v ||| w, hvw⟩).mpr ?_
    simp only [Fin.val_two, if_true, Nat.testBit_or, Bool.or_eq_true] at h1 ⊢
    tauto

/-- One step `i` of the pattern loop ORs a value `w` that does not depend on `val` into `val`,
with and without the early exit. -/
theorem valStep_or (d : TDeintModData) (p0 p1 : PLut) (i : Nat)
    (hL : 6 ≤ d.length ∧ d.length ≤ 60) (hi : (i : Int) < d.length)
    (hp : ∀ k : Nat, (k : Int) ≤ 2 * d.length - 6 →
      (∃ v, p0.load k = some v) ∧ (∃ v, p1.load k = some v)) :
    ∃ w, w < 64 ∧ ∀ val, val < 64 →
      valStepAll d p0 p1 i val = some (val ||| w) ∧
      ∃ c, (vlut d.mtype)[val ||| w]? = some c ∧
        valStep d p0 p1 i (val, false) = some (val ||| w, decide (c = 2)) := by
  obtain ⟨a, hok0, _⟩ := scanNonzero_iff p0 (d.length - 4).toNat i
    (fun k hk => (hp (i + k) (by omega)).1)
  obtain ⟨b, hok1, _⟩ := scanNonzero_iff p1 (d.length - 4).toNat i
    (fun k hk => (hp (i + k) (by omega)).2)
  obtain ⟨g, hg, hg4⟩ := gvlut_some d.length i hi hL.2
  have hg8 : g * 8 < 64 := by omega
  have hg64 : g < 64 := by omega
  have hlt : ∀ v : Nat, v < 64 → ∃ c, (vlut d.mtype)[v]? = some c := by
    intro v hv
    exact ⟨_, List.getElem?_eq_getElem (by rw [vlut_length]; exact hv)⟩
  have hor : ∀ u v : Nat, u < 64 → v < 64 → u ||| v < 64 := fun u v hu hv =>
    Nat.or_lt_two_pow (n := 6) (by simpa using hu) (by simpa using hv)
  refine ⟨(if a then g * 8 else 0) ||| (if b then g else 0), ?_, ?_⟩
  · cases a <;> cases b <;> simp <;> first | omega | exact hor _ _ hg8 hg64
  · intro val hval
    have hV : val ||| ((if a then g * 8 else 0) ||| (if b then g else 0)) < 64 := by
      apply hor _ _ hval
      cases a <;> cases b <;> simp <;> first | omega | exact hor _ _ hg8 hg64
    obtain ⟨c, hc⟩ := hlt _ hV
    refine ⟨?_, c, hc, ?_⟩
    · cases a <;> cases b <;> simp [valStepAll, hok0, hok1, hg, Nat.lor_assoc]
    · cases a <;> cases b <;>
        simp [valStep, hok0, hok1, hg, Nat.lor_assoc] at hc ⊢ <;> simp [hc]

/-- The pattern loop with the early exit and the loop without it, run side by side: as long
as the first has not been left both hold the same val; afterwards the first holds a val of
category 2 and the second the same val with more bits set. -/
theorem valLoops_related (d : TDeintModData) (p0 p1 : PLut)
    (hL : 6 ≤ d.length ∧ d.length ≤ 60)
    (hp : ∀ k : Nat, (k : Int) ≤ 2 * d.length - 6 →
      (∃ v, p0.load k = some v) ∧ (∃ v, p1.load k = some v)) :
    ∀ n : Nat, (n : Int) ≤ d.length →
      ∃ (v : Nat) (b : Bool) (u : Nat),
        forLoop (valStep d p0 p1) n (0, false) = some (v, b) ∧
        forLoop (valStepAll d p0 p1) n 0 = some u ∧ v < 64 ∧ u < 64 ∧
        (b = false → v = u) ∧
        (b = true → (vlut d.mtype)[v]? = some 2 ∧ ∃ w, w < 64 ∧ u = v ||| w) := by
  have hor : ∀ u v : Nat, u < 64 → v < 64 → u ||| v < 64 := fun u v hu hv =>
    Nat.or_lt_two_pow (n := 6) (by simpa using hu) (by simpa using hv)
  intro n
  induction n with
  | zero =>
    intro _
    exact ⟨0, false, 0, rfl, rfl, by decide, by decide, fun _ => rfl, fun h => absurd h (by decide)⟩
  | succ n ih =>
    intro hn
    obtain ⟨v, b, u, hv, hu, v64, u64, hf, ht⟩ := ih (by omega)
    obtain ⟨w, w64, hstep⟩ := valStep_or d p0 p1 n hL (by omega) hp
    obtain ⟨hall, _⟩ := hstep u u64
    cases b with
    | true =>
      obtain ⟨h2, w0, hw0, hu0⟩ := ht rfl
      refine ⟨v, true, u ||| w, ?_, ?_, v64, hor _ _ u64 w64, fun h => absurd h (by decide),
        fun _ => ⟨h2, w0 ||| w, hor _ _ hw0 w64, ?_⟩⟩
      · simp [forLoop, hv, valStep]
      · simp [forLoop, hu, hall]
      · rw [hu0, Nat.lor_assoc]
    | false =>
      have hvu := hf rfl
      subst hvu
      obtain ⟨_, c, hc, hbr⟩ := hstep v v64
      refine ⟨v ||| w, decide (c = 2), v ||| w, ?_, ?_, hor _ _ v64 w64, hor _ _ v64 w64,
        fun _ => rfl, fun h => ⟨?_, 0, by decide, by simp⟩⟩
      · simp [forLoop, hv, hbr]
      · simp [forLoop, hu, hall]
      · have h2 : c = 2 := by simpa using h
        rw [hc, h2]

/-- C36: the early break in the pattern encoder is a pure optimisation. In each of the three
vlut tables (mtype 0, 1, 2), whenever vlut[v] = 2 then vlut[v | w] = 2 for every 6-bit w; and
for every L in [6,60], every contents of plut[0], plut[1] (positions 0..2L-6), every order and
field, the loop with the break at vlut[val] == 2 and the loop run over all i in [0, L) without
breaking both return, and the verdicts `tmmlutf[val]` of the two are equal. -/
theorem C36_break_is_optimisation (d : TDeintModData) (p0 p1 : PLut) (order fieldt : Int)
    (hL : 6 ≤ d.length ∧ d.length ≤ 60) (hm : d.mtype = 0 ∨ d.mtype = 1 ∨ d.mtype = 2)
    (ho : order = 0 ∨ order = 1) (hf : fieldt = 0 ∨ fieldt = 1)
    (hp : ∀ k : Nat, (k : Int) ≤ 2 * d.length - 6 →
      (∃ v, p0.load k = some v) ∧ (∃ v, p1.load k = some v)) :
    (∀ v w : Nat, v < 64 → w < 64 → (vlut d.mtype)[v]? = some 2 →
      (vlut d.mtype)[v ||| w]? = some 2) ∧
    ∃ (res : Nat × Bool) (full : Nat) (t : List Int) (code : Int),
      forLoop (valStep d p0 p1) d.length.toNat (0, false) = some res ∧
      forLoop (valStepAll d p0 p1) d.length.toNat 0 = some full ∧
      tmmlutfOf d.mtype order fieldt = some t ∧
      t[res.1]? = some code ∧ t[full]? = some code := by
  refine ⟨fun v w hv hw h => vlut_absorbing d.mtype hm v w hv hw h, ?_⟩
  obtain ⟨v, b, u, hv, hu, v64, u64, hfalse, htrue⟩ :=
    valLoops_related d p0 p1 hL hp d.length.toNat (by omega)
  obtain ⟨t, ht, hent⟩ := tmmlutfOf_entries d.mtype order fieldt hm ho hf
  obtain ⟨cat, code, hcat, _, hget, hte⟩ := hent v v64
  refine ⟨(v, b), u, t, code, hv, hu, ht, hte, ?_⟩
  cases b with
  | false =>
    rw [← hfalse rfl]
    exact hte
  | true =>
    obtain ⟨h2, w, hw, huw⟩ := htrue rfl
    obtain ⟨cat2, code2, hcat2, _, hget2, hte2⟩ := hent u u64
    have hu2 : (vlut d.mtype)[u]? = some 2 := by
      rw [huw]
      exact vlut_absorbing d.mtype hm v w v64 hw h2
    have e1 : cat = 2 := Option.some.inj (hcat.symm.trans h2)
    have e2 : cat2 = 2 := Option.some.inj (hcat2.symm.trans hu2)
    subst e1 e2
    rw [hte2, ← hget2, hget]

/-- Instance of C36: default parameters (L = 10, mtype 1), both vectors 255 at every
position. -/
theorem C36_break_is_optimisation_witness :
    ∃ (res : Nat × Bool) (full : Nat) (t : List Int) (code : Int),
      forLoop (valStep (defaultData 1 2 30) (fun _ => some 255) (fun _ => some 255)) 10
        (0, false) = some res ∧
      forLoop (valStepAll (defaultData 1 2 30) (fun _ => some 255) (fun _ => some 255)) 10 0
        = some full ∧
      tmmlutfOf 1 1 1 = some t ∧ t[res.1]? = some code ∧ t[full]? = some code :=
  (C36_break_is_optimisation (defaultData 1 2 30) (fun _ => some 255) (fun _ => some 255) 1 1
    (by decide) (by decide) (by decide) (by decide)
    (fun k hk => by
      have h119 : k < 119 := by
        have : (defaultData 1 2 30).length = 10 := rfl
        omega
      exact ⟨⟨255, by simp [PLut.load, h119]⟩, ⟨255, by simp [PLut.load, h119]⟩⟩)).2

/-- The pattern loop on vectors without a zero entry: val = 9 after step 0, val = 27 after
step 1, where the loop is left. -/
theorem valLoop_static (d : TDeintModData) (p0 p1 : PLut)
    (hL : 6 ≤ d.length ∧ d.length ≤ 60) (hm : d.mtype = 0 ∨ d.mtype = 1 ∨ d.mtype = 2)
    (hp : ∀ k : Nat, (k : Int) ≤ 2 * d.length - 6 →
      (∃ v, p0.load k = some v) ∧ (∃ v, p1.load k = some v))
    (hnz : ∀ k : Nat, (k : Int) ≤ 2 * d.length - 6 → p0 k ≠ some 0 ∧ p1 k ≠ some 0) :
    forLoop (valStep d p0 p1) d.length.toNat (0, false) = some (27, true) := by
  have scan : ∀ (q : PLut) (i : Nat), (i : Int) < d.length →
      (∀ k : Nat, (k : Int) ≤ 2 * d.length - 6 → ∃ v, q.load k = some v) →
      (∀ k : Nat, (k : Int) ≤ 2 * d.length - 6 → q k ≠ some 0) →
      scanNonzero q i (d.length - 4).toNat = some true := by
    intro q i hi hq hz
    obtain ⟨a, ha, hiff⟩ := scanNonzero_iff q (d.length - 4).toNat i
      (fun k hk => hq (i + k) (by omega))
    have : a = true := hiff.mpr (fun j hj => hz (i + j) (by omega))
    rw [ha, this]
  have s00 := scan p0 0 (by omega) (fun k hk => (hp k hk).1) (fun k hk => (hnz k hk).1)
  have s01 := scan p1 0 (by omega) (fun k hk => (hp k hk).2) (fun k hk => (hnz k hk).2)
  have s10 := scan p0 1 (by omega) (fun k hk => (hp k hk).1) (fun k hk => (hnz k hk).1)
  have s11 := scan p1 1 (by omega) (fun k hk => (hp k hk).2) (fun k hk => (hnz k hk).2)
  have g0 : gvlut d.length 0 = some 1 := by
    have h : ((0 : Nat) : Int) < d.length ∧ 0 < 60 := ⟨by omega, by decide⟩
    simp only [gvlut, h, and_self, if_true]
  have g1 : gvlut d.length 1 = some 2 := by
    have h : ((1 : Nat) : Int) < d.length ∧ 1 < 60 := ⟨by omega, by decide⟩
    have h2 : ¬ ((1 : Nat) : Int) = d.length - 1 := by omega
    simp only [gvlut, h, and_self, if_true, h2, if_false]
    rfl
  have v9 : (vlut d.mtype)[9]? = some 1 := by
    rcases hm with e | e | e <;> rw [e] <;> rfl
  have v27 : (vlut d.mtype)[27]? = some 2 := by
    rcases hm with e | e | e <;> rw [e] <;> rfl
  have step0 : valStep d p0 p1 0 (0, false) = some (9, false) := by
    simp [valStep, s00, s01, g0, v9]
  have step1 : valStep d p0 p1 1 (9, false) = some (27, true) := by
    simp [valStep, s10, s11, g1, v27]
  have key : ∀ n : Nat, forLoop (valStep d p0 p1) (n + 2) (0, false) = some (27, true) := by
    intro n
    induction n with
    | zero => simp [forLoop, step0, step1]
    | succ n ih =>
      rw [show n + 1 + 2 = (n + 2) + 1 from rfl, forLoop, ih, Option.some_bind]
      exact valStep_left d p0 p1 (n + 2) 27
  have hn : d.length.toNat = (d.length.toNat - 2) + 2 := by omega
  rw [hn]
  exact key _

theorem tmmlut16_slice (order fieldt : Int) (c : Nat)
    (ho : order = 0 ∨ order = 1) (hf : fieldt = 0 ∨ fieldt = 1) (hc : c < 4) :
    getI tmmlut16 (order * 8 + fieldt * 4 + c)
      = getI tmmlut16 ((if order = fieldt then 0 else 4) + c) := by
  have h4 : c = 0 ∨ c = 1 ∨ c = 2 ∨ c = 3 := by omega
  rcases ho with rfl | rfl <;> rcases hf with rfl | rfl <;>
    rcases h4 with rfl | rfl | rfl | rfl <;> rfl

/-- C37: fully static window. If at a classified pixel every mask sample of the window in
plut[0] and plut[1] (positions 0..2L-6) is non-zero, then for every L in [6,60] and every mtype
the verdict is 50 when order equals the field parity and 40 otherwise; and the slice of
tmmlut16 in use depends on (order, parity) only through whether they are equal. -/
theorem C37_static_window (d : TDeintModData) (node node2 : Int → Frame)
    (content : Nat → Nat → Nat → Byte) (n0 : Int)
    (hcfg : StageBConfig d) (hgeo : StageBGeometry d node node2)
    (hrows : fieldtOf d n0 = 1 → ∀ p, p < d.vi.format.numPlanes →
      2 ≤ planeHeight d.viSaved.format d.viSaved.height p)
    (p k x : Nat) (hp : p < d.vi.format.numPlanes)
    (hk : (fieldtOf d n0).toNat + 2 * k < planeHeight d.vi.format d.vi.height p)
    (hx : x < planeWidth d.vi.format d.vi.width p)
    (hall : ∀ pl, fillPlut d (csrcOf d node node2 content n0) (osrcOf d node node2 content n0)
        (windowOf d (fieldtOf d n0) (indexOf d n0)).ccount
        (windowOf d (fieldtOf d n0) (indexOf d n0)).ocount p
        (lineState (fieldtOf d n0).toNat (planeHeight d.viSaved.format d.viSaved.height p) k)
        x = some pl →
      ∀ j : Nat, (j : Int) ≤ 2 * d.length - 6 → pl.1 j ≠ some 0 ∧ pl.2 j ≠ some 0) :
    (∃ out : Frame, tdeintmodBuildMMGetFrame d node node2 content n0 = some out ∧
      (((out p).pix ((fieldtOf d n0).toNat + 2 * k) x).val : Int)
        = if d.order = fieldtOf d n0 then 50 else 40) ∧
    ∀ c : Nat, c < 4 →
      getI tmmlut16 (d.order * 8 + fieldtOf d n0 * 4 + c)
        = getI tmmlut16 ((if d.order = fieldtOf d n0 then 0 else 4) + c) := by
  have hcfg2 := hcfg
  obtain ⟨hL, hmt, hord, hfld⟩ := hcfg2
  have hft := fieldtOf_bit d n0 hord hfld
  refine ⟨?_, fun c hc => tmmlut16_slice d.order (fieldtOf d n0) c hord hft hc⟩
  obtain ⟨hcc, hoc, _, _⟩ := windowOf_counts d (fieldtOf d n0) (indexOf d n0) hL.1
  obtain ⟨hi1, hi0, hi2⟩ := stageB_inside d node node2 content n0 hgeo p k x hp hk hx
  obtain ⟨pl, hpl, hcur, _⟩ := fillPlut_values d (csrcOf d node node2 content n0)
    (osrcOf d node node2 content n0) _ _ p
    (lineState (fieldtOf d n0).toNat (planeHeight d.viSaved.format d.viSaved.height p) k) x
    hL hcc hoc (fun j _ => hi1 j) (fun j _ => hi0 j) (fun j _ => hi2 j)
  have hnz := hall pl hpl
  have hct : cdiv (windowOf d (fieldtOf d n0) (indexOf d n0)).ccount 2
      = (windowOf d (fieldtOf d n0) (indexOf d n0)).ccount / 2 := cdiv_two _ (by omega)
  -- the first centre sample is an entry of plut[0], hence non-zero
  obtain ⟨j0, hj0⟩ : ∃ j0 : Nat,
      cdiv (windowOf d (fieldtOf d n0) (indexOf d n0)).ccount 2 - 2 = (j0 : Int) :=
    ⟨(cdiv (windowOf d (fieldtOf d n0) (indexOf d n0)).ccount 2 - 2).toNat, by omega⟩
  have hj0c : (j0 : Int) < (windowOf d (fieldtOf d n0) (indexOf d n0)).ccount := by omega
  have hread := ptRead_eq (csrcOf d node node2 content n0)
    (windowOf d (fieldtOf d n0) (indexOf d n0)).ccount p j0
    (lineState (fieldtOf d n0).toNat (planeHeight d.viSaved.format d.viSaved.height p) k).rc x
    hj0c (hi1 j0)
  have hne : ((((csrcOf d node node2 content n0 j0) p).pix
      (lineState (fieldtOf d n0).toNat
        (planeHeight d.viSaved.format d.viSaved.height p) k).rc.toNat x).val : Int) ≠ 0 := by
    intro h0
    have h1 := (hcur j0 hj0c).1
    rw [h0] at h1
    refine (hnz (j0 * 2 + (if d.length % 2 ≠ 0 then 1 else 0)) ?_).1 h1
    push_cast
    split_ifs <;> omega
  have hz : centreAllZero (csrcOf d node node2 content n0)
      (windowOf d (fieldtOf d n0) (indexOf d n0)).ccount p
      (cdiv (windowOf d (fieldtOf d n0) (indexOf d n0)).ccount 2) k x = some false := by
    have hread2 : ptRead (csrcOf d node node2 content n0)
        (windowOf d (fieldtOf d n0) (indexOf d n0)).ccount p
        (cdiv (windowOf d (fieldtOf d n0) (indexOf d n0)).ccount 2 - 2) k x
        = some ((((csrcOf d node node2 content n0 j0) p).pix
          (lineState (fieldtOf d n0).toNat
            (planeHeight d.viSaved.format d.viSaved.height p) k).rc.toNat x).val : Int) := by
      rw [hj0]
      exact hread
    simp only [centreAllZero, hread2, Option.bind_eq_bind, Option.some_bind, ne_eq, hne,
      not_false_eq_true, if_true, Option.pure_def]
  obtain ⟨out, pl2, res, cat, code, hout, hpl2, hload, hres, hcat, hc4, hget, hpix⟩ :=
    buildMM_encoding d node node2 content n0 hcfg hgeo hrows p k x hp hk hx hz
  have hpp : pl2 = pl := Option.some.inj (hpl2.symm.trans hpl)
  subst hpp
  have hloop := valLoop_static d pl2.1 pl2.2 hL hmt hload hnz
  have hr : res = (27, true) := Option.some.inj (hres.symm.trans hloop)
  subst hr
  have v27 : (vlut d.mtype)[27]? = some 2 := by
    rcases hmt with e | e | e <;> rw [e] <;> rfl
  have hc2 : cat = 2 := Option.some.inj (hcat.symm.trans v27)
  subst hc2
  have hcode := tmmlut16_category d.order (fieldtOf d n0) 2 code hord hft (by decide) hget
  simp only [OfNat.ofNat_ne_zero, if_false, OfNat.ofNat_ne_one, if_true] at hcode
  refine ⟨out, hout, ?_⟩
  rw [hpix, hcode]
  split_ifs <;> rfl

set_option maxRecDepth 100000 in
theorem static_instance :
    (fillPlut (defaultData 1 2 30)
        (csrcOf (defaultData 1 2 30) (fun _ => constFrame 1 2 255)
          (fun _ => constFrame 1 2 255) (fun _ _ _ => 9) 10)
        (osrcOf (defaultData 1 2 30) (fun _ => constFrame 1 2 255)
          (fun _ => constFrame 1 2 255) (fun _ _ _ => 9) 10)
        (windowOf (defaultData 1 2 30) (fieldtOf (defaultData 1 2 30) 10)
          (indexOf (defaultData 1 2 30) 10)).ccount
        (windowOf (defaultData 1 2 30) (fieldtOf (defaultData 1 2 30) 10)
          (indexOf (defaultData 1 2 30) 10)).ocount 0
        (lineState (fieldtOf (defaultData 1 2 30) 10).toNat
          (planeHeight (defaultData 1 2 30).viSaved.format
            (defaultData 1 2 30).viSaved.height 0) 0) 0).map
      (fun pl => decide (∀ j : Fin 15, pl.1 j.val ≠ some 0 ∧ pl.2 j.val ≠ some 0))
      = some true := by
  decide

/-- Instance of C37: default parameters (order = field = 1, L = 10), 30 frames, both mask
streams 255 everywhere, output index 10: the pixel in row 1, column 0 holds 50. -/
theorem C37_static_window_witness :
    ∃ out : Frame, tdeintmodBuildMMGetFrame (defaultData 1 2 30) (fun _ => constFrame 1 2 255)
        (fun _ => constFrame 1 2 255) (fun _ _ _ => 9) 10 = some out ∧
      (((out 0).pix 1 0).val : Int) = 50 :=
  (C37_static_window (defaultData 1 2 30) (fun _ => constFrame 1 2 255)
    (fun _ => constFrame 1 2 255) (fun _ _ _ => 9) 10 (defaultData_config 1 2 30)
    (defaultData_geometry 1 2 30 255 255) moving_rows 0 0 0 (by decide) (by decide)
    (by decide)
    (fun pl hpl j hj => by
      have key := static_instance
      rw [hpl, Option.map_some'] at key
      have hall := of_decide_eq_true (Option.some.inj key)
      have hj15 : j < 15 := by
        have : (defaultData 1 2 30).length = 10 := rfl
        omega
      exact hall ⟨j, hj15⟩)).1

/-- C38: verdict 70 is never produced. For every configuration and every contents of the mask
streams, Stage B returns a verdict frame in which every byte is one of 10, 20, 30, 40, 50, 60;
no byte equals 70, so a read of the verdict frame never selects the branch
`(P + 2*S + N + 2) >> 2` of Stage D. -/
theorem C38_no_verdict_70 (d : TDeintModData) (node node2 : Int → Frame)
    (content : Nat → Nat → Nat → Byte) (n0 : Int)
    (hcfg : StageBConfig d) (hgeo : StageBGeometry d node node2)
    (hrows : fieldtOf d n0 = 1 → ∀ p, p < d.vi.format.numPlanes →
      2 ≤ planeHeight d.viSaved.format d.viSaved.height p) :
    ∃ out : Frame, tdeintmodBuildMMGetFrame d node node2 content n0 = some out ∧
      ∀ p, p < d.vi.format.numPlanes →
        ∀ (y x : Nat) (m : Int), (out p).read y x = some m →
          (m = 10 ∨ m = 20 ∨ m = 30 ∨ m = 40 ∨ m = 50 ∨ m = 60) ∧ m ≠ 70 := by
  obtain ⟨out, ho, hspec⟩ := buildMM_spec d node node2 content n0 hcfg hgeo hrows
  refine ⟨out, ho, ?_⟩
  intro p hp y x m hm
  obtain ⟨_, _, hpix⟩ := hspec p hp
  unfold Plane.read at hm
  split_ifs at hm with hin
  obtain ⟨_, hy, _, hx⟩ := hin
  have hv : (m : Int) = (((out p).pix y x).val : Int) := by
    have := Option.some.inj hm
    simpa using this.symm
  obtain ⟨h10, hcl⟩ := hpix y x (by omega) (by omega)
  have hcodes : ((out p).pix y x).val = 10 ∨ ((out p).pix y x).val = 20 ∨
      ((out p).pix y x).val = 30 ∨ ((out p).pix y x).val = 40 ∨
      ((out p).pix y x).val = 50 ∨ ((out p).pix y x).val = 60 := by
    by_cases hpar : (y : Int) % 2 = fieldtOf d n0
    · exact hcl hpar
    · left
      rw [h10 hpar]
      rfl
  omega

/-- Instance of C38: default parameters, mask streams 255 and 0, output index 0. -/
theorem C38_no_verdict_70_witness :
    ∃ out : Frame, tdeintmodBuildMMGetFrame (defaultData 2 2 5) (fun _ => constFrame 2 2 255)
        (fun _ => constFrame 2 2 0) (fun _ _ _ => 9) 0 = some out ∧
      ∀ (y x : Nat) (m : Int), (out 0).read y x = some m → m ≠ 70 := by
  obtain ⟨out, ho, h⟩ := C38_no_verdict_70 (defaultData 2 2 5) (fun _ => constFrame 2 2 255)
    (fun _ => constFrame 2 2 0) (fun _ _ _ => 9) 0 (defaultData_config 2 2 5)
    (defaultData_geometry 2 2 5 255 0) (fun _ p hp => by
      have hp0 : p = 0 := by
        have : p < 1 := hp
        omega
      subst hp0
      decide)
  exact ⟨out, ho, fun y x m hm => (h 0 (by decide) y x m hm).2⟩

/-! ## Stage M: quarter and half masks, the effect of `cstr` -/

theorem bytes_range (bs : List Byte) :
    ∀ v ∈ bs.map (fun b : Byte => (b.val : Int)), 0 ≤ v ∧ v ≤ 255 := by
  intro v hv
  obtain ⟨b, _, rfl⟩ := List.mem_map.mp hv
  have := b.isLt
  omega

theorem minmax_range (vs : List Int) (hne : vs ≠ []) (hb : ∀ v ∈ vs, 0 ≤ v ∧ v ≤ 255) :
    (0 ≤ (minmax vs).1 ∧ (minmax vs).1 ≤ 255) ∧ (0 ≤ (minmax vs).2 ∧ (minmax vs).2 ≤ 255) ∧
      (minmax vs).1 ≤ (minmax vs).2 := by
  obtain ⟨⟨h1, h2⟩, ⟨h3, h4⟩⟩ := minmax_extrema vs hne hb
  exact ⟨hb _ h1, hb _ h3, h4 _ h1⟩

/-- The value `at` of `threshMask` is a byte value, for every ttype in 0..5. -/
theorem threshAt_range (d : TDeintModData) (plane : Nat) (src : Plane) (y x : Nat)
    (hw : src.width = planeWidth d.vi.format d.vi.width plane)
    (hy : y < src.height) (hx : x < src.width) (h2 : 2 ≤ src.height) (w2 : 2 ≤ src.width)
    (ht : 0 ≤ d.ttype ∧ d.ttype ≤ 5) :
    ∃ a, threshAt d plane src y x = some a ∧ 0 ≤ a ∧ a ≤ 255 := by
  have hcross := readCross_eq d plane src y x hw hy hx h2 w2
  have hsquare := readSquare_eq d plane src y x hw hy hx h2 w2
  have hc : 0 ≤ ((src.pix y x).val : Int) ∧ ((src.pix y x).val : Int) ≤ 255 := by
    have := (src.pix y x).isLt
    omega
  have fin : ∀ (c : Int) (m : Int × Int), (0 ≤ c ∧ c ≤ 255) →
      ((0 ≤ m.1 ∧ m.1 ≤ 255) ∧ (0 ≤ m.2 ∧ m.2 ≤ 255) ∧ m.1 ≤ m.2) →
      (0 ≤ max |c - m.1| |c - m.2| ∧ max |c - m.1| |c - m.2| ≤ 255) ∧
      (0 ≤ m.2 - m.1 ∧ m.2 - m.1 ≤ 255) := by
    intro c m hc hm
    refine ⟨⟨?_, ?_⟩, by omega, by omega⟩
    · exact le_max_of_le_left (abs_nonneg _)
    · apply max_le <;> rw [abs_le] <;> constructor <;> omega
  have e : d.ttype = 0 ∨ d.ttype = 1 ∨ d.ttype = 2 ∨ d.ttype = 3 ∨ d.ttype = 4 ∨ d.ttype = 5 := by
    omega
  rcases e with e | e | e | e | e | e
  · refine ⟨_, by simp only [threshAt, e, if_true, hcross, Option.map_some']; rfl, ?_⟩
    have r0 := minmax_range _ (by simp) (bytes_range [src.pix (prevRow y) x,
      src.pix (nextRow y src.height) x])
    have r1 := minmax_range _ (by simp) (bytes_range [src.pix y (leftCol x),
      src.pix y (rightCol x src.width)])
    exact compensated_bound d plane (src.pix y x) _ _ ⟨r0.1, r0.2.1⟩ ⟨r1.1, r1.2.1⟩
  · refine ⟨_, by simp only [threshAt, e, if_true, hsquare, Option.map_some']; rfl, ?_⟩
    have r0 := minmax_range _ (by simp) (bytes_range [src.pix (prevRow y) (leftCol x),
      src.pix (prevRow y) x, src.pix (prevRow y) (rightCol x src.width),
      src.pix (nextRow y src.height) (leftCol x), src.pix (nextRow y src.height) x,
      src.pix (nextRow y src.height) (rightCol x src.width)])
    have r1 := minmax_range _ (by simp) (bytes_range [src.pix y (leftCol x),
      src.pix y (rightCol x src.width)])
    exact compensated_bound d plane (src.pix y x) _ _ ⟨r0.1, r0.2.1⟩ ⟨r1.1, r1.2.1⟩
  · refine ⟨_, by simp only [threshAt, e, if_true, hcross, Option.map_some']; rfl, ?_⟩
    have r0 := minmax_range _ (by simp) (bytes_range [src.pix (prevRow y) x,
      src.pix y (leftCol x), src.pix y (rightCol x src.width),
      src.pix (nextRow y src.height) x])
    exact (fin _ _ hc r0).1
  · refine ⟨_, by simp only [threshAt, e, if_true, hsquare, Option.map_some']; rfl, ?_⟩
    have r0 := minmax_range _ (by simp) (bytes_range [src.pix (prevRow y) (leftCol x),
      src.pix (prevRow y) x, src.pix (prevRow y) (rightCol x src.width),
      src.pix y (leftCol x), src.pix y (rightCol x src.width),
      src.pix (nextRow y src.height) (leftCol x), src.pix (nextRow y src.height) x,
      src.pix (nextRow y src.height) (rightCol x src.width)])
    exact (fin _ _ hc r0).1
  · refine ⟨_, by simp only [threshAt, e, if_true, hcross, Option.map_some']; rfl, ?_⟩
    have r0 := minmax_range _ (by simp) (bytes_range [src.pix (prevRow y) x,
      src.pix y (leftCol x), src.pix y x, src.pix y (rightCol x src.width),
      src.pix (nextRow y src.height) x])
    exact (fin ((src.pix y x).val : Int) _ hc r0).2
  · refine ⟨_, by simp only [threshAt, e, if_true, hsquare, Option.map_some']; rfl, ?_⟩
    have r0 := minmax_range _ (by simp) (bytes_range [src.pix (prevRow y) (leftCol x),
      src.pix (prevRow y) x, src.pix (prevRow y) (rightCol x src.width),
      src.pix y (leftCol x), src.pix y x, src.pix y (rightCol x src.width),
      src.pix (nextRow y src.height) (leftCol x), src.pix (nextRow y src.height) x,
      src.pix (nextRow y src.height) (rightCol x src.width)])
    exact (fin ((src.pix y x).val : Int) _ hc r0).2

theorem quarter_le_half (a : Int) (ha : 0 ≤ a ∧ a ≤ 255) :
    toU8 (sar (a + 2) 2) ≤ toU8 (sar (a + 1) 1) := by
  rw [sar_two, sar_one]
  have h1 := toU8_small ((a + 2) / 4) ⟨by omega, by omega⟩
  have h2 := toU8_small ((a + 1) / 2) ⟨by omega, by omega⟩
  rw [Fin.le_def]
  omega

/-- The output byte of `motionMask` does not decrease when the two threshold samples grow, as
long as the sums `i + nt` of the table do not overflow. -/
theorem motionValue_mono (d : TDeintModData) (s1 s2 m1 m2 n1 n2 : Byte)
    (hnt : -2147483648 ≤ d.nt ∧ d.nt + 255 ≤ 2147483647)
    (h1 : m1 ≤ n1) (h2 : m2 ≤ n2) (h : motionValue d s1 s2 m1 m2 = 255) :
    motionValue d s1 s2 n1 n2 = 255 := by
  unfold motionValue at h ⊢
  rw [Fin.le_def] at h1 h2
  have b1 := m1.isLt
  have b2 := m2.isLt
  have b3 := n1.isLt
  have b4 := n2.isLt
  have em : wrap32 (min (m1.val : Int) (m2.val : Int) + d.nt)
      = min (m1.val : Int) (m2.val : Int) + d.nt := wrap32_id _ ⟨by omega, by omega⟩
  have en : wrap32 (min (n1.val : Int) (n2.val : Int) + d.nt)
      = min (n1.val : Int) (n2.val : Int) + d.nt := wrap32_id _ ⟨by omega, by omega⟩
  rw [em] at h
  rw [en]
  split_ifs at h with hc
  · rw [if_pos]
    refine le_trans hc (min_le_min (max_le_max ?_ le_rfl) le_rfl)
    have : min (m1.val : Int) (m2.val : Int) ≤ min (n1.val : Int) (n2.val : Int) :=
      min_le_min (by exact_mod_cast h1) (by exact_mod_cast h2)
    omega
  · exact absurd h (by decide)

/-- The threshold masks of two frames and their motion mask, without overrides: the masks
return, each threshold mask holds Mq = (at + 2) >> 2 and Mh = (at + 1) >> 1 of a value `at` in
[0,255], and the motion mask holds `motionValue` of the two quarter, respectively half,
thresholds. -/
theorem thresh_motion_values (d : TDeintModData) (A B dstA dstB dstM : Frame)
    (hdiv : 2 ^ d.vi.format.subSamplingH ∣ d.vi.height)
    (h2 : ∀ p, p < d.vi.format.numPlanes →
      2 ≤ planeWidth d.vi.format d.vi.width p ∧ 2 ≤ planeHeight d.vi.format d.vi.height p)
    (hA : FrameDims A d.vi.format d.vi.width d.vi.height d.vi.format.numPlanes)
    (hB : FrameDims B d.vi.format d.vi.width d.vi.height d.vi.format.numPlanes)
    (hdA : FrameDims dstA d.vi.format d.vi.width (d.vi.height * 2) d.vi.format.numPlanes)
    (hdB : FrameDims dstB d.vi.format d.vi.width (d.vi.height * 2) d.vi.format.numPlanes)
    (hdM : FrameDims dstM d.vi.format d.vi.width (d.vi.height * 2) d.vi.format.numPlanes)
    (ht : 0 ≤ d.ttype ∧ d.ttype ≤ 5)
    (hno : ∀ p, p < d.vi.format.numPlanes → NoOverride d p) :
    ∃ Ma Mb out : Frame, threshMask d A dstA = some Ma ∧ threshMask d B dstB = some Mb ∧
      motionMask d A Ma B Mb dstM = some out ∧
      ∀ p y x, p < d.vi.format.numPlanes →
        y < planeHeight d.vi.format d.vi.height p → x < planeWidth d.vi.format d.vi.width p →
        ∃ a b : Int, threshAt d p (A p) y x = some a ∧ threshAt d p (B p) y x = some b ∧
          (0 ≤ a ∧ a ≤ 255) ∧ (0 ≤ b ∧ b ≤ 255) ∧
          (Ma p).pix y x = toU8 (sar (a + 2) 2) ∧
          (Ma p).pix (y + planeHeight d.vi.format d.vi.height p) x = toU8 (sar (a + 1) 1) ∧
          (Mb p).pix y x = toU8 (sar (b + 2) 2) ∧
          (Mb p).pix (y + planeHeight d.vi.format d.vi.height p) x = toU8 (sar (b + 1) 1) ∧
          (out p).pix y x = motionValue d ((A p).pix y x) ((B p).pix y x)
            ((Ma p).pix y x) ((Mb p).pix y x) ∧
          (out p).pix (y + planeHeight d.vi.format d.vi.height p) x
            = motionValue d ((A p).pix y x) ((B p).pix y x)
              ((Ma p).pix (y + planeHeight d.vi.format d.vi.height p) x)
              ((Mb p).pix (y + planeHeight d.vi.format d.vi.height p) x) := by
  have mask : ∀ (S dst : Frame),
      FrameDims S d.vi.format d.vi.width d.vi.height d.vi.format.numPlanes →
      FrameDims dst d.vi.format d.vi.width (d.vi.height * 2) d.vi.format.numPlanes →
      ∃ M, threshMask d S dst = some M ∧
        FrameDims M d.vi.format d.vi.width (d.vi.height * 2) d.vi.format.numPlanes ∧
        ∀ p y x, p < d.vi.format.numPlanes →
          y < planeHeight d.vi.format d.vi.height p →
          x < planeWidth d.vi.format d.vi.width p →
          ∃ a : Int, threshAt d p (S p) y x = some a ∧ (0 ≤ a ∧ a ≤ 255) ∧
            (M p).pix y x = toU8 (sar (a + 2) 2) ∧
            (M p).pix (y + planeHeight d.vi.format d.vi.height p) x
              = toU8 (sar (a + 1) 1) := by
    intro S dst hS hdst
    obtain ⟨M, hM, hval⟩ := threshMask_values d S dst hdiv h2 hS hdst ht
    obtain ⟨M2, hM2, hdims⟩ := threshMask_dims d S dst hdiv h2 hS hdst
    have hMM : M2 = M := Option.some.inj (hM2.symm.trans hM)
    subst hMM
    refine ⟨M2, hM, hdims, ?_⟩
    intro p y x hp hy hx
    obtain ⟨sw, sh⟩ := hS p hp
    obtain ⟨w2, g2⟩ := h2 p hp
    obtain ⟨a, ha, hq, hh⟩ := hval p y x hp (by omega) (by omega)
    obtain ⟨a2, ha2, hr⟩ := threshAt_range d p (S p) y x sw (by omega) (by omega) (by omega)
      (by omega) ht
    have haa : a2 = a := Option.some.inj (ha2.symm.trans ha)
    subst haa
    obtain ⟨hno0, hno1⟩ := hno p hp
    have nq : ¬ (if p = 0 then d.mtqL else d.mtqC) > -1 := by
      by_cases h0 : p = 0
      · rw [if_pos h0]; exact (hno0 h0).1
      · rw [if_neg h0]; exact (hno1 (Nat.pos_of_ne_zero h0)).1
    have nh : ¬ (if p = 0 then d.mthL else d.mthC) > -1 := by
      by_cases h0 : p = 0
      · rw [if_pos h0]; exact (hno0 h0).2
      · rw [if_neg h0]; exact (hno1 (Nat.pos_of_ne_zero h0)).2
    rw [if_neg nq] at hq
    rw [if_neg nh] at hh
    rw [sh] at hh
    exact ⟨a2, ha, hr, hq, hh⟩
  obtain ⟨Ma, hMa, dMa, vA⟩ := mask A dstA hA hdA
  obtain ⟨Mb, hMb, dMb, vB⟩ := mask B dstB hB hdB
  obtain ⟨out, ho, _, hpix⟩ := motionMask_spec d A Ma B Mb dstM hdiv hA hB dMa dMb hdM
  refine ⟨Ma, Mb, out, hMa, hMb, ho, ?_⟩
  intro p y x hp hy hx
  obtain ⟨hq, hh⟩ := hpix p y x hp hy hx
  obtain ⟨a, ha, ra, qa, hha⟩ := vA p y x hp hy hx
  obtain ⟨b, hb, rb, qb, hhb⟩ := vB p y x hp hy hx
  exact ⟨a, b, ha, hb, ra, rb, qa, hha, qb, hhb, hq, hh⟩

/-- The quarter mask is contained in the half mask as long as the sums `i + nt` of the table
do not overflow (-2^31 <= nt <= 2^31 - 256). For threshold masks computed by threshMask
without overrides (every ttype in 0..5), Mq(x,y) <= Mh(x,y) at every pixel; and for every such
nt, every minthresh, maxthresh and every pair of frames A, B, wherever the quarter output of
motionMask is 255 its half output is 255 too. -/
theorem quarter_within_half_in_range (d : TDeintModData) (A B dstA dstB dstM : Frame)
    (hdiv : 2 ^ d.vi.format.subSamplingH ∣ d.vi.height)
    (h2 : ∀ p, p < d.vi.format.numPlanes →
      2 ≤ planeWidth d.vi.format d.vi.width p ∧ 2 ≤ planeHeight d.vi.format d.vi.height p)
    (hA : FrameDims A d.vi.format d.vi.width d.vi.height d.vi.format.numPlanes)
    (hB : FrameDims B d.vi.format d.vi.width d.vi.height d.vi.format.numPlanes)
    (hdA : FrameDims dstA d.vi.format d.vi.width (d.vi.height * 2) d.vi.format.numPlanes)
    (hdB : FrameDims dstB d.vi.format d.vi.width (d.vi.height * 2) d.vi.format.numPlanes)
    (hdM : FrameDims dstM d.vi.format d.vi.width (d.vi.height * 2) d.vi.format.numPlanes)
    (ht : 0 ≤ d.ttype ∧ d.ttype ≤ 5)
    (hno : ∀ p, p < d.vi.format.numPlanes → NoOverride d p)
    (hnt : -2147483648 ≤ d.nt ∧ d.nt + 255 ≤ 2147483647) :
    ∃ Ma Mb out : Frame, threshMask d A dstA = some Ma ∧ threshMask d B dstB = some Mb ∧
      motionMask d A Ma B Mb dstM = some out ∧
      ∀ p y x, p < d.vi.format.numPlanes →
        y < planeHeight d.vi.format d.vi.height p → x < planeWidth d.vi.format d.vi.width p →
        (Ma p).pix y x ≤ (Ma p).pix (y + planeHeight d.vi.format d.vi.height p) x ∧
        (Mb p).pix y x ≤ (Mb p).pix (y + planeHeight d.vi.format d.vi.height p) x ∧
        ((out p).pix y x = 255 →
          (out p).pix (y + planeHeight d.vi.format d.vi.height p) x = 255) := by
  obtain ⟨Ma, Mb, out, hMa, hMb, ho, hv⟩ := thresh_motion_values d A B dstA dstB dstM hdiv h2
    hA hB hdA hdB hdM ht hno
  refine ⟨Ma, Mb, out, hMa, hMb, ho, ?_⟩
  intro p y x hp hy hx
  obtain ⟨a, b, _, _, ra, rb, qa, ha, qb, hb, hq, hh⟩ := hv p y x hp hy hx
  have leA : (Ma p).pix y x ≤ (Ma p).pix (y + planeHeight d.vi.format d.vi.height p) x := by
    rw [qa, ha]
    exact quarter_le_half a ra
  have leB : (Mb p).pix y x ≤ (Mb p).pix (y + planeHeight d.vi.format d.vi.height p) x := by
    rw [qb, hb]
    exact quarter_le_half b rb
  refine ⟨leA, leB, ?_⟩
  intro h255
  rw [hh]
  rw [hq] at h255
  exact motionValue_mono d _ _ _ _ _ _ hnt leA leB h255

theorem overflow_thresh_instance :
    threshAt { stageMData 4 4 5 with nt := 2147483647 } 0 (rowsPlane 4 [10, 11, 10, 11]) 0 0
      = some 1 ∧
    threshAt { stageMData 4 4 5 with nt := 2147483647 } 0 (rowsPlane 4 [20, 21, 20, 21]) 0 0
      = some 1 := by
  decide

/-- C39, failing input: default parameters (ttype 1, minthresh 4, maxthresh 75, no override)
except nt = 2147483647, 4x4 gray fields A with rows 10, 11, 10, 11 and B with rows 20, 21, 20,
21. At pixel (0,0) both threshold masks have Mq = 0 and Mh = 1 and the difference is 10; the
quarter output of motionMask is 255 (mlut[0] = 75) and the half output is 0, because the int
sum 1 + nt of mlut[1] overflows and mlut[1] = 4. -/
theorem C39_nt_overflow :
    tdeintmodCreate { stageMData 4 4 5 with nt := 2147483647 } goodClip = Except.ok () ∧
    ∃ Ma Mb out : Frame,
      threshMask { stageMData 4 4 5 with nt := 2147483647 }
        (fun _ => rowsPlane 4 [10, 11, 10, 11]) (constFrame 4 8 0) = some Ma ∧
      threshMask { stageMData 4 4 5 with nt := 2147483647 }
        (fun _ => rowsPlane 4 [20, 21, 20, 21]) (constFrame 4 8 0) = some Mb ∧
      motionMask { stageMData 4 4 5 with nt := 2147483647 }
        (fun _ => rowsPlane 4 [10, 11, 10, 11]) Ma
        (fun _ => rowsPlane 4 [20, 21, 20, 21]) Mb (constFrame 4 8 0) = some out ∧
      (Ma 0).pix 0 0 = 0 ∧ (Ma 0).pix 4 0 = 1 ∧ (Mb 0).pix 0 0 = 0 ∧ (Mb 0).pix 4 0 = 1 ∧
      (out 0).pix 0 0 = 255 ∧ (out 0).pix 4 0 = 0 := by
  refine ⟨rfl, ?_⟩
  obtain ⟨Ma, Mb, out, h1, h2, h3, h4⟩ := thresh_motion_values
    { stageMData 4 4 5 with nt := 2147483647 }
    (fun _ => rowsPlane 4 [10, 11, 10, 11]) (fun _ => rowsPlane 4 [20, 21, 20, 21])
    (constFrame 4 8 0) (constFrame 4 8 0) (constFrame 4 8 0)
    (by show 2 ^ 0 ∣ 4; decide)
    (fun p hp => by rw [gray_plane_zero p hp]; exact ⟨by decide, by decide⟩)
    (fun p hp => by rw [gray_plane_zero p hp]; exact ⟨rfl, rfl⟩)
    (fun p hp => by rw [gray_plane_zero p hp]; exact ⟨rfl, rfl⟩)
    (fun p hp => by rw [gray_plane_zero p hp]; exact ⟨rfl, rfl⟩)
    (fun p hp => by rw [gray_plane_zero p hp]; exact ⟨rfl, rfl⟩)
    (fun p hp => by rw [gray_plane_zero p hp]; exact ⟨rfl, rfl⟩)
    (by decide) (fun p _ => ⟨fun _ => ⟨by decide, by decide⟩, fun _ => ⟨by decide, by decide⟩⟩)
  obtain ⟨a, b, ha, hb, _, _, qa, hha, qb, hhb, hq, hh⟩ := h4 0 0 0 (by decide) (by decide)
    (by decide)
  have ea : a = 1 := Option.some.inj (ha.symm.trans overflow_thresh_instance.1)
  have eb : b = 1 := Option.some.inj (hb.symm.trans overflow_thresh_instance.2)
  subst ea eb
  have hha4 : (Ma 0).pix 4 0 = toU8 (sar (1 + 1) 1) := hha
  have hhb4 : (Mb 0).pix 4 0 = toU8 (sar (1 + 1) 1) := hhb
  have hh4 : (out 0).pix 4 0 = motionValue { stageMData 4 4 5 with nt := 2147483647 }
      ((rowsPlane 4 [10, 11, 10, 11]).pix 0 0) ((rowsPlane 4 [20, 21, 20, 21]).pix 0 0)
      ((Ma 0).pix 4 0) ((Mb 0).pix 4 0) := hh
  rw [qa, qb] at hq
  rw [hha4, hhb4] at hh4
  refine ⟨Ma, Mb, out, h1, h2, h3, ?_, ?_, ?_, ?_, ?_, ?_⟩
  · rw [qa]; decide
  · rw [hha4]; decide
  · rw [qb]; decide
  · rw [hhb4]; decide
  · rw [hq]; decide
  · rw [hh4]; decide

theorem combineCount_range (src : Plane) (h w y x : Nat) :
    0 ≤ combineCount src h w y x ∧ combineCount src h w y x ≤ 8 := by
  have b : ∀ (P : Prop) [Decidable P], 0 ≤ (if P then (1 : Int) else 0) ∧
      (if P then (1 : Int) else 0) ≤ 1 := by
    intro P _
    split_ifs <;> exact ⟨by decide, by decide⟩
  unfold combineCount
  have b1 := b (src.pix (prevRow y) (leftCol x) ≠ 0)
  have b2 := b (src.pix (prevRow y) x ≠ 0)
  have b3 := b (src.pix (prevRow y) (rightCol x w) ≠ 0)
  have b4 := b (src.pix y (leftCol x) ≠ 0)
  have b5 := b (src.pix y (rightCol x w) ≠ 0)
  have b6 := b (src.pix (nextRow y h) (leftCol x) ≠ 0)
  have b7 := b (src.pix (nextRow y h) x ≠ 0)
  have b8 := b (src.pix (nextRow y h) (rightCol x w) ≠ 0)
  constructor <;> linarith [b1.1, b1.2, b2.1, b2.2, b3.1, b3.2, b4.1, b4.2, b5.1, b5.2, b6.1,
    b6.2, b7.1, b7.2, b8.1, b8.2]

/-- C40: combineMasks only adds pixels, only where the helper allows, and less so as cstr
grows. With q the quarter half and h the helper half of the input: the output is non-zero
wherever q is non-zero and zero wherever q and h are both zero; for cstr <= c2 the output
computed with c2 is pointwise <= the output computed with cstr; for cstr > 8 the output equals
q; and for cstr <= 0 the output is 255 at every pixel with q = 0 and h != 0. -/
theorem C40_combineMasks_monotone (d : TDeintModData) (src dst : Frame) (p y x : Nat)
    (hdiv : 2 ^ d.vi.format.subSamplingH ∣ d.vi.height)
    (h2 : ∀ p, p < d.vi.format.numPlanes →
      2 ≤ planeWidth d.vi.format d.vi.width p ∧ 2 ≤ planeHeight d.vi.format d.vi.height p)
    (hs : FrameDims src d.vi.format d.vi.width (d.vi.height * 2) d.vi.format.numPlanes)
    (hd : FrameDims dst d.vi.format d.vi.width d.vi.height d.vi.format.numPlanes)
    (hp : p < d.vi.format.numPlanes) (hy : y < planeHeight d.vi.format d.vi.height p)
    (hx : x < planeWidth d.vi.format d.vi.width p) :
    ∃ out : Frame, combineMasks d src dst = some out ∧
      ((src p).pix y x ≠ 0 → (out p).pix y x ≠ 0) ∧
      ((src p).pix y x = 0 →
        (src p).pix (y + planeHeight d.vi.format d.vi.height p) x = 0 →
        (out p).pix y x = 0) ∧
      (d.cstr > 8 → (out p).pix y x = (src p).pix y x) ∧
      (d.cstr ≤ 0 → (src p).pix y x = 0 →
        (src p).pix (y + planeHeight d.vi.format d.vi.height p) x ≠ 0 →
        (out p).pix y x = 255) ∧
      ∀ c2 : Int, d.cstr ≤ c2 →
        ∃ out2 : Frame, combineMasks { d with cstr := c2 } src dst = some out2 ∧
          (out2 p).pix y x ≤ (out p).pix y x := by
  obtain ⟨out, ho, _, hpix⟩ := combineMasks_spec d src dst hdiv h2 hs hd
  obtain ⟨c0, c8⟩ := combineCount_range (src p) (planeHeight d.vi.format d.vi.height p)
    (planeWidth d.vi.format d.vi.width p) y x
  have hv := hpix p y x hp hy hx
  refine ⟨out, ho, ?_, ?_, ?_, ?_, ?_⟩
  · intro hq
    rw [hv]
    unfold combineValue
    rw [if_pos hq]
    exact hq
  · intro hq hh
    rw [hv]
    unfold combineValue
    rw [if_neg (by simpa using hq), if_pos hh]
    exact hq
  · intro hc
    rw [hv]
    unfold combineValue
    split_ifs with a b c
    · rfl
    · rfl
    · omega
    · rfl
  · intro hc hq hh
    rw [hv]
    unfold combineValue
    rw [if_neg (by simpa using hq), if_neg hh, if_pos (by omega)]
  · intro c2 hc2
    obtain ⟨out2, ho2, _, hpix2⟩ := combineMasks_spec { d with cstr := c2 } src dst hdiv h2 hs hd
    refine ⟨out2, ho2, ?_⟩
    have hv2 := hpix2 p y x hp hy hx
    rw [hv, hv2]
    unfold combineValue
    by_cases hq : (src p).pix y x ≠ 0
    · rw [if_pos hq, if_pos hq]
    · rw [if_neg hq, if_neg hq]
      by_cases hh : (src p).pix (y + planeHeight d.vi.format d.vi.height p) x = 0
      · have hh2 : (src p).pix
            (y + planeHeight ({ d with cstr := c2 } : TDeintModData).vi.format
              ({ d with cstr := c2 } : TDeintModData).vi.height p) x = 0 := hh
        rw [if_pos hh, if_pos hh2]
      · have hh2 : ¬ (src p).pix
            (y + planeHeight ({ d with cstr := c2 } : TDeintModData).vi.format
              ({ d with cstr := c2 } : TDeintModData).vi.height p) x = 0 := hh
        rw [if_neg hh, if_neg hh2]
        by_cases hc : combineCount (src p)
            (planeHeight ({ d with cstr := c2 } : TDeintModData).vi.format
              ({ d with cstr := c2 } : TDeintModData).vi.height p)
            (planeWidth ({ d with cstr := c2 } : TDeintModData).vi.format
              ({ d with cstr := c2 } : TDeintModData).vi.width p) y x
            ≥ ({ d with cstr := c2 } : TDeintModData).cstr
        · have hc1 : combineCount (src p) (planeHeight d.vi.format d.vi.height p)
              (planeWidth d.vi.format d.vi.width p) y x ≥ d.cstr := le_trans hc2 hc
          rw [if_pos hc, if_pos hc1]
        · rw [if_neg hc]
          have hq0 : (src p).pix y x = 0 := by simpa using hq
          rw [hq0]
          exact Fin.zero_le _

/-- Instance of C40: default parameters (cstr = 4) and cstr = 9 on a 4x4 quarter plane with
one zero row over a helper half of 255: pixel (1,1) is raised to 255 with cstr = 4 and stays 0
with cstr = 9. -/
theorem C40_combineMasks_monotone_witness :
    ∃ out out2 : Frame,
      combineMasks (stageMData 4 4 5)
        (fun _ => rowsPlane 4 [255, 0, 255, 255, 255, 255, 255, 255]) (constFrame 4 4 0)
        = some out ∧
      combineMasks { stageMData 4 4 5 with cstr := 9 }
        (fun _ => rowsPlane 4 [255, 0, 255, 255, 255, 255, 255, 255]) (constFrame 4 4 0)
        = some out2 ∧
      (out2 0).pix 1 1 ≤ (out 0).pix 1 1 := by
  obtain ⟨out, ho, _, _, _, _, hmono⟩ := C40_combineMasks_monotone (stageMData 4 4 5)
    (fun _ => rowsPlane 4 [255, 0, 255, 255, 255, 255, 255, 255]) (constFrame 4 4 0) 0 1 1
    (by show 2 ^ 0 ∣ 4; decide)
    (fun p hp => by rw [gray_plane_zero p hp]; exact ⟨by decide, by decide⟩)
    (fun p hp => by rw [gray_plane_zero p hp]; exact ⟨rfl, rfl⟩)
    (fun p hp => by rw [gray_plane_zero p hp]; exact ⟨rfl, rfl⟩)
    (by decide) (by decide) (by decide)
  obtain ⟨out2, ho2, hle⟩ := hmono 9 (by decide)
  exact ⟨out, out2, ho, ho2, hle⟩

/-! ## The combing detector: the per-pixel test -/

/-- One row of the marking loops on a plane whose rows below `m` are marked: row `m` gets
0xFF where the test holds. -/
theorem markRow_step (test : Int → Nat → Option Bool) (T : Nat → Nat → Bool) (W H m : Nat)
    (cmk : Plane)
    (hinv : cmk.width = W ∧ cmk.height = H ∧
      ∀ y x, cmk.pix y x = if y < m ∧ x < W ∧ T y x = true then 255 else 0)
    (hm : m < H) (ht : ∀ x, x < W → test (m : Int) x = some (T m x)) :
    ∃ out, markRow test W (m : Int) cmk = some out ∧ out.width = W ∧ out.height = H ∧
      ∀ y x, out.pix y x = if y < m + 1 ∧ x < W ∧ T y x = true then 255 else 0 := by
  obtain ⟨hw, hh, hpix⟩ := hinv
  obtain ⟨out, ho, ow, oh, hin, hout⟩ := rowLoop_rel W m
    (fun x cmk => (test (m : Int) x).bind fun t =>
      if t then cmk.write (m : Int) x 255 else some cmk)
    (fun x old b => b = if T m x = true then 255 else old) cmk
    (by
      intro x d hx dw dh
      beta_reduce
      rw [ht x hx, Option.some_bind]
      by_cases hT : T m x = true
      · refine ⟨255, ?_, by rw [if_pos hT]⟩
        rw [if_pos hT]
        exact d.write_some m x (by omega) (by omega) _ _ rfl rfl 255
      · refine ⟨d.pix m x, ?_, by rw [if_neg hT]⟩
        rw [if_neg hT, Plane.set_self])
  refine ⟨out, ho, ow.trans hw, oh.trans hh, ?_⟩
  intro y x
  by_cases hyx : y = m ∧ x < W
  · obtain ⟨rfl, hx⟩ := hyx
    rw [hin x hx, hpix]
    by_cases hT : T y x = true
    · rw [if_pos hT, if_pos ⟨by omega, hx, hT⟩]
    · rw [if_neg hT, if_neg (fun h => absurd h.1 (by omega)), if_neg (fun h => hT h.2.2)]
  · rw [hout y x hyx, hpix]
    by_cases hc : y < m ∧ x < W ∧ T y x = true
    · rw [if_pos hc, if_pos ⟨by omega, hc.2.1, hc.2.2⟩]
    · rw [if_neg hc, if_neg]
      intro h
      apply hc
      refine ⟨?_, h.2.1, h.2.2⟩
      by_contra hlt
      exact hyx ⟨by omega, h.2.1⟩

/-- A run of `n` rows of the marking loops starting at row `m`. -/
theorem markRows_step (test : Int → Nat → Option Bool) (T : Nat → Nat → Bool) (W H m n : Nat)
    (cmk : Plane)
    (hinv : cmk.width = W ∧ cmk.height = H ∧
      ∀ y x, cmk.pix y x = if y < m ∧ x < W ∧ T y x = true then 255 else 0)
    (hm : m + n ≤ H)
    (ht : ∀ k x, k < n → x < W → test ((m + k : Nat) : Int) x = some (T (m + k) x)) :
    ∃ out, forLoop (fun k cmk => markRow test W ((m + k : Nat) : Int) cmk) n cmk = some out ∧
      out.width = W ∧ out.height = H ∧
      ∀ y x, out.pix y x = if y < m + n ∧ x < W ∧ T y x = true then 255 else 0 := by
  exact forLoop_inv (fun k cmk => markRow test W ((m + k : Nat) : Int) cmk)
    (fun k p => p.width = W ∧ p.height = H ∧
      ∀ y x, p.pix y x = if y < m + k ∧ x < W ∧ T y x = true then 255 else 0)
    n cmk hinv
    (fun k p hk hp => markRow_step test T W H (m + k) p hp (by omega)
      (fun x hx => ht k x hk hx))

/-- The five row variants of the metric 0 test agree with the mirrored closed form. -/
theorem combTest0_rows (c c6 : Int) (src : Plane) (y x : Nat) (hH : 4 ≤ src.height)
    (hy : y < src.height) (hx : x < src.width) :
    (y = 0 → combTest0 c c6 false 1 1 2 2 src (y : Int) x = some (combed0 c c6 src y x)) ∧
    (y = 1 → combTest0 c c6 true (-1) 1 2 2 src (y : Int) x = some (combed0 c c6 src y x)) ∧
    (2 ≤ y → y + 2 < src.height →
      combTest0 c c6 true (-1) 1 (-2) 2 src (y : Int) x = some (combed0 c c6 src y x)) ∧
    (y + 2 = src.height →
      combTest0 c c6 true (-1) 1 (-2) (-2) src (y : Int) x = some (combed0 c c6 src y x)) ∧
    (y + 1 = src.height →
      combTest0 c c6 false (-1) (-1) (-2) (-2) src (y : Int) x
        = some (combed0 c c6 src y x)) := by
  have rd : ∀ (r : Int) (rn : Nat), r = rn → rn < src.height →
      src.read r x = some ((src.pix rn x).val : Int) :=
    fun r rn hr hlt => src.read_some rn x hlt hx r x hr rfl
  have fin : ∀ (P Q : Prop) [Decidable P] [Decidable Q] (A : Prop) [Decidable A],
      (P ↔ Q) →
      (if decide P = true then some (decide A) else some false)
        = some (decide (Q ∧ A)) := by
    intro P Q _ _ A _ hPQ
    by_cases hP : P
    · have hQ := hPQ.mp hP
      simp [hP, hQ]
    · have hQ : ¬ Q := fun h => hP (hPQ.mpr h)
      simp [hP, hQ]
  refine ⟨?_, ?_, ?_, ?_, ?_⟩
  · intro h0
    subst h0
    have e1 : prevRow 0 = 1 := rfl
    have e2 : nextRow 0 src.height = 1 := by unfold nextRow; rw [if_neg (by omega)]
    have e3 : prevRow2 0 = 2 := rfl
    have e4 : nextRow2 0 src.height = 2 := by unfold nextRow2; rw [if_pos (by omega)]
    simp only [combTest0, combed0, e1, e2, e3, e4, rd _ 0 rfl (by omega),
      rd (((0 : Nat) : Int) + 1) 1 (by norm_num) (by omega),
      rd (((0 : Nat) : Int) + 2) 2 (by norm_num) (by omega), Option.some_bind,
      Bool.false_eq_true, if_false]
    rw [fin _ (((((src.pix 0 x).val : Int) - (src.pix 1 x).val > c ∧
        ((src.pix 0 x).val : Int) - (src.pix 1 x).val > c) ∨
      (((src.pix 0 x).val : Int) - (src.pix 1 x).val < -c ∧
        ((src.pix 0 x).val : Int) - (src.pix 1 x).val < -c))) _ (by tauto)]
    congr 2
    rw [show ((src.pix 2 x).val : Int) + ((src.pix 0 x).val : Int) * 4 + (src.pix 2 x).val
        - 3 * (((src.pix 1 x).val : Int) + (src.pix 1 x).val)
      = (src.pix 2 x).val + 4 * ((src.pix 0 x).val : Int) + (src.pix 2 x).val
        - 3 * (((src.pix 1 x).val : Int) + (src.pix 1 x).val) by ring]
  · intro h1
    subst h1
    have e1 : prevRow 1 = 0 := rfl
    have e2 : nextRow 1 src.height = 2 := by unfold nextRow; rw [if_neg (by omega)]
    have e3 : prevRow2 1 = 3 := rfl
    have e4 : nextRow2 1 src.height = 3 := by unfold nextRow2; rw [if_pos (by omega)]
    simp only [combTest0, combed0, e1, e2, e3, e4, rd _ 1 rfl (by omega),
      rd (((1 : Nat) : Int) + -1) 0 (by norm_num) (by omega),
      rd (((1 : Nat) : Int) + 1) 2 (by norm_num) (by omega),
      rd (((1 : Nat) : Int) + 2) 3 (by norm_num) (by omega), Option.some_bind, if_true]
    rw [fin _ (((((src.pix 1 x).val : Int) - (src.pix 0 x).val > c ∧
        ((src.pix 1 x).val : Int) - (src.pix 2 x).val > c) ∨
      (((src.pix 1 x).val : Int) - (src.pix 0 x).val < -c ∧
        ((src.pix 1 x).val : Int) - (src.pix 2 x).val < -c))) _ Iff.rfl]
    congr 2
    rw [show ((src.pix 3 x).val : Int) + ((src.pix 1 x).val : Int) * 4 + (src.pix 3 x).val
        - 3 * (((src.pix 0 x).val : Int) + (src.pix 2 x).val)
      = (src.pix 3 x).val + 4 * ((src.pix 1 x).val : Int) + (src.pix 3 x).val
        - 3 * (((src.pix 0 x).val : Int) + (src.pix 2 x).val) by ring]
  · intro h2 h3
    have e1 : prevRow y = y - 1 := by unfold prevRow; rw [if_neg (by omega)]
    have e2 : nextRow y src.height = y + 1 := by unfold nextRow; rw [if_neg (by omega)]
    have e3 : prevRow2 y = y - 2 := by unfold prevRow2; rw [if_neg (by omega)]
    have e4 : nextRow2 y src.height = y + 2 := by unfold nextRow2; rw [if_pos (by omega)]
    simp only [combTest0, combed0, e1, e2, e3, e4, rd _ y rfl (by omega),
      rd ((y : Int) + -1) (y - 1) (by omega) (by omega),
      rd ((y : Int) + 1) (y + 1) (by omega) (by omega),
      rd ((y : Int) + -2) (y - 2) (by omega) (by omega),
      rd ((y : Int) + 2) (y + 2) (by omega) (by omega), Option.some_bind, if_true]
    rw [fin _ (((((src.pix y x).val : Int) - (src.pix (y - 1) x).val > c ∧
        ((src.pix y x).val : Int) - (src.pix (y + 1) x).val > c) ∨
      (((src.pix y x).val : Int) - (src.pix (y - 1) x).val < -c ∧
        ((src.pix y x).val : Int) - (src.pix (y + 1) x).val < -c))) _ Iff.rfl]
    congr 2
    rw [show ((src.pix (y - 2) x).val : Int) + ((src.pix y x).val : Int) * 4
        + (src.pix (y + 2) x).val
        - 3 * (((src.pix (y - 1) x).val : Int) + (src.pix (y + 1) x).val)
      = (src.pix (y - 2) x).val + 4 * ((src.pix y x).val : Int) + (src.pix (y + 2) x).val
        - 3 * (((src.pix (y - 1) x).val : Int) + (src.pix (y + 1) x).val) by ring]
  · intro h2
    have e1 : prevRow y = y - 1 := by unfold prevRow; rw [if_neg (by omega)]
    have e2 : nextRow y src.height = y + 1 := by unfold nextRow; rw [if_neg (by omega)]
    have e3 : prevRow2 y = y - 2 := by unfold prevRow2; rw [if_neg (by omega)]
    have e4 : nextRow2 y src.height = y - 2 := by unfold nextRow2; rw [if_neg (by omega)]
    simp only [combTest0, combed0, e1, e2, e3, e4, rd _ y rfl (by omega),
      rd ((y : Int) + -1) (y - 1) (by omega) (by omega),
      rd ((y : Int) + 1) (y + 1) (by omega) (by omega),
      rd ((y : Int) + -2) (y - 2) (by omega) (by omega), Option.some_bind, if_true]
    rw [fin _ (((((src.pix y x).val : Int) - (src.pix (y - 1) x).val > c ∧
        ((src.pix y x).val : Int) - (src.pix (y + 1) x).val > c) ∨
      (((src.pix y x).val : Int) - (src.pix (y - 1) x).val < -c ∧
        ((src.pix y x).val : Int) - (src.pix (y + 1) x).val < -c))) _ Iff.rfl]
    congr 2
    rw [show ((src.pix (y - 2) x).val : Int) + ((src.pix y x).val : Int) * 4
        + (src.pix (y - 2) x).val
        - 3 * (((src.pix (y - 1) x).val : Int) + (src.pix (y + 1) x).val)
      = (src.pix (y - 2) x).val + 4 * ((src.pix y x).val : Int) + (src.pix (y - 2) x).val
        - 3 * (((src.pix (y - 1) x).val : Int) + (src.pix (y + 1) x).val) by ring]
  · intro h2
    have e1 : prevRow y = y - 1 := by unfold prevRow; rw [if_neg (by omega)]
    have e2 : nextRow y src.height = y - 1 := by unfold nextRow; rw [if_pos (by omega)]
    have e3 : prevRow2 y = y - 2 := by unfold prevRow2; rw [if_neg (by omega)]
    have e4 : nextRow2 y src.height = y - 2 := by unfold nextRow2; rw [if_neg (by omega)]
    simp only [combTest0, combed0, e1, e2, e3, e4, rd _ y rfl (by omega),
      rd ((y : Int) + -1) (y - 1) (by omega) (by omega),
      rd ((y : Int) + -2) (y - 2) (by omega) (by omega), Option.some_bind,
      Bool.false_eq_true, if_false]
    rw [fin _ (((((src.pix y x).val : Int) - (src.pix (y - 1) x).val > c ∧
        ((src.pix y x).val : Int) - (src.pix (y - 1) x).val > c) ∨
      (((src.pix y x).val : Int) - (src.pix (y - 1) x).val < -c ∧
        ((src.pix y x).val : Int) - (src.pix (y - 1) x).val < -c))) _ (by tauto)]
    congr 2
    rw [show ((src.pix (y - 2) x).val : Int) + ((src.pix y x).val : Int) * 4
        + (src.pix (y - 2) x).val
        - 3 * (((src.pix (y - 1) x).val : Int) + (src.pix (y - 1) x).val)
      = (src.pix (y - 2) x).val + 4 * ((src.pix y x).val : Int) + (src.pix (y - 2) x).val
        - 3 * (((src.pix (y - 1) x).val : Int) + (src.pix (y - 1) x).val) by ring]

/-- The three row variants of the metric 1 test agree with the mirrored closed form. -/
theorem combTest1_rows (csq : Int) (src : Plane) (y x : Nat) (hH : 2 ≤ src.height)
    (hy : y < src.height) (hx : x < src.width) :
    (y = 0 → combTest1 csq 1 1 src (y : Int) x = some (combed1 csq src y x)) ∧
    (1 ≤ y → y + 1 < src.height →
      combTest1 csq (-1) 1 src (y : Int) x = some (combed1 csq src y x)) ∧
    (y + 1 = src.height →
      combTest1 csq (-1) (-1) src (y : Int) x = some (combed1 csq src y x)) := by
  have rd : ∀ (r : Int) (rn : Nat), r = rn → rn < src.height →
      src.read r x = some ((src.pix rn x).val : Int) :=
    fun r rn hr hlt => src.read_some rn x hlt hx r x hr rfl
  refine ⟨?_, ?_, ?_⟩
  · intro h0
    subst h0
    have e1 : prevRow 0 = 1 := rfl
    have e2 : nextRow 0 src.height = 1 := by unfold nextRow; rw [if_neg (by omega)]
    simp only [combTest1, combed1, e1, e2, rd _ 0 rfl (by omega),
      rd (((0 : Nat) : Int) + 1) 1 (by norm_num) (by omega), Option.some_bind]
  · intro h1 h2
    have e1 : prevRow y = y - 1 := by unfold prevRow; rw [if_neg (by omega)]
    have e2 : nextRow y src.height = y + 1 := by unfold nextRow; rw [if_neg (by omega)]
    simp only [combTest1, combed1, e1, e2, rd _ y rfl (by omega),
      rd ((y : Int) + -1) (y - 1) (by omega) (by omega),
      rd ((y : Int) + 1) (y + 1) (by omega) (by omega), Option.some_bind]
  · intro h1
    have e1 : prevRow y = y - 1 := by unfold prevRow; rw [if_neg (by omega)]
    have e2 : nextRow y src.height = y - 1 := by unfold nextRow; rw [if_pos (by omega)]
    simp only [combTest1, combed1, e1, e2, rd _ y rfl (by omega),
      rd ((y : Int) + -1) (y - 1) (by omega) (by omega), Option.some_bind]

/-- The metric 0 branch of `checkCombed` on a zeroed mask plane marks exactly the pixels where
the mirrored test holds. -/
theorem markPlane0_spec (c c6 : Int) (src cmk : Plane) (hH : 4 ≤ src.height)
    (hw : cmk.width = src.width) (hh : cmk.height = src.height) :
    ∃ out, markPlane0 c c6 src (cmk.fill 0) = some out ∧ out.width = src.width ∧
      out.height = src.height ∧
      ∀ y x, out.pix y x
        = if y < src.height ∧ x < src.width ∧ combed0 c c6 src y x = true then 255 else 0 := by
  have rows := fun y x hy hx => combTest0_rows c c6 src y x hH hy hx
  have i0 : (cmk.fill 0).width = src.width ∧ (cmk.fill 0).height = src.height ∧
      ∀ y x, (cmk.fill 0).pix y x
        = if y < 0 ∧ x < src.width ∧ combed0 c c6 src y x = true then 255 else 0 := by
    refine ⟨hw, hh, fun y x => ?_⟩
    rw [if_neg (fun h => absurd h.1 (Nat.not_lt_zero y))]
    rfl
  obtain ⟨p1, h1, w1, g1, x1⟩ := markRow_step (combTest0 c c6 false 1 1 2 2 src)
    (combed0 c c6 src) src.width src.height 0 (cmk.fill 0) i0 (by omega)
    (fun x hx => (rows 0 x (by omega) hx).1 rfl)
  obtain ⟨p2, h2, w2, g2, x2⟩ := markRow_step (combTest0 c c6 true (-1) 1 2 2 src)
    (combed0 c c6 src) src.width src.height 1 p1 ⟨w1, g1, x1⟩ (by omega)
    (fun x hx => (rows 1 x (by omega) hx).2.1 rfl)
  obtain ⟨p3, h3, w3, g3, x3⟩ := markRows_step (combTest0 c c6 true (-1) 1 (-2) 2 src)
    (combed0 c c6 src) src.width src.height 2 (src.height - 4) p2 ⟨w2, g2, x2⟩ (by omega)
    (fun k x hk hx => (rows (2 + k) x (by omega) hx).2.2.1 (by omega) (by omega))
  obtain ⟨p4, h4, w4, g4, x4⟩ := markRow_step (combTest0 c c6 true (-1) 1 (-2) (-2) src)
    (combed0 c c6 src) src.width src.height (2 + (src.height - 4)) p3 ⟨w3, g3, x3⟩ (by omega)
    (fun x hx => (rows (2 + (src.height - 4)) x (by omega) hx).2.2.2.1 (by omega))
  obtain ⟨p5, h5, w5, g5, x5⟩ := markRow_step
    (combTest0 c c6 false (-1) (-1) (-2) (-2) src)
    (combed0 c c6 src) src.width src.height (2 + (src.height - 4) + 1) p4 ⟨w4, g4, x4⟩
    (by omega)
    (fun x hx => (rows (2 + (src.height - 4) + 1) x (by omega) hx).2.2.2.2 (by omega))
  refine ⟨p5, ?_, w5, g5, ?_⟩
  · simp only [markPlane0]
    simp only [Nat.cast_zero, Nat.cast_one] at h1 h2
    rw [h1, Option.some_bind, h2, Option.some_bind, h3, Option.some_bind, h4, Option.some_bind]
    rw [← h5]
    congr 1
  · intro y x
    rw [x5 y x]
    have e : 2 + (src.height - 4) + 1 + 1 = src.height := by omega
    rw [e]

/-- The metric 1 branch of `checkCombed` on a zeroed mask plane marks exactly the pixels where
the mirrored test holds. -/
theorem markPlane1_spec (csq : Int) (src cmk : Plane) (hH : 2 ≤ src.height)
    (hw : cmk.width = src.width) (hh : cmk.height = src.height) :
    ∃ out, markPlane1 csq src (cmk.fill 0) = some out ∧ out.width = src.width ∧
      out.height = src.height ∧
      ∀ y x, out.pix y x
        = if y < src.height ∧ x < src.width ∧ combed1 csq src y x = true then 255 else 0 := by
  have rows := fun y x hy hx => combTest1_rows csq src y x hH hy hx
  have i0 : (cmk.fill 0).width = src.width ∧ (cmk.fill 0).height = src.height ∧
      ∀ y x, (cmk.fill 0).pix y x
        = if y < 0 ∧ x < src.width ∧ combed1 csq src y x = true then 255 else 0 := by
    refine ⟨hw, hh, fun y x => ?_⟩
    rw [if_neg (fun h => absurd h.1 (Nat.not_lt_zero y))]
    rfl
  obtain ⟨p1, h1, w1, g1, x1⟩ := markRow_step (combTest1 csq 1 1 src)
    (combed1 csq src) src.width src.height 0 (cmk.fill 0) i0 (by omega)
    (fun x hx => (rows 0 x (by omega) hx).1 rfl)
  obtain ⟨p2, h2, w2, g2, x2⟩ := markRows_step (combTest1 csq (-1) 1 src)
    (combed1 csq src) src.width src.height 1 (src.height - 2) p1 ⟨w1, g1, x1⟩ (by omega)
    (fun k x hk hx => (rows (1 + k) x (by omega) hx).2.1 (by omega) (by omega))
  obtain ⟨p3, h3, w3, g3, x3⟩ := markRow_step (combTest1 csq (-1) (-1) src)
    (combed1 csq src) src.width src.height (1 + (src.height - 2)) p2 ⟨w2, g2, x2⟩ (by omega)
    (fun x hx => (rows (1 + (src.height - 2)) x (by omega) hx).2.2 (by omega))
  refine ⟨p3, ?_, w3, g3, ?_⟩
  · simp only [markPlane1]
    simp only [Nat.cast_zero] at h1
    rw [h1, Option.some_bind, h2, Option.some_bind, h3]
  · intro y x
    rw [x3 y x]
    have e : 1 + (src.height - 2) + 1 = src.height := by omega
    rw [e]

/-- The per-pixel combing test of checkCombed on one plane of height >= 4, for cthresh with
cthresh * cthresh representable as an int (cthresh <= 46340). With Sp, Sn, Spp, Snn the pixels
1 and 2 rows above and below, a row outside the plane being replaced by the row at the same
distance on the other side: for cthresh >= 0 and metric 0 the mask byte at (x,y) is 0xFF iff (S-Sp) and
(S-Sn) are both > cthresh or both < -cthresh and |Spp + 4*S + Snn - 3*(Sp + Sn)| > 6*cthresh;
for cthresh >= 0 and metric 1 it is 0xFF iff (S-Sp)*(S-Sn) > cthresh*cthresh; every other mask
byte is 0; and for cthresh < 0 every mask byte is 0xFF. -/
theorem combing_test_in_range (d : TDeintModData) (src cmk : Plane) (hH : 4 ≤ src.height)
    (hw : cmk.width = src.width) (hh : cmk.height = src.height)
    (hrep : d.cthresh * d.cthresh ≤ 2147483647) :
    ∃ out, markPlane d.cthresh (cthresh6 d) (cthreshsq d) d.metric src cmk = some out ∧
      out.width = src.width ∧ out.height = src.height ∧
      ∀ y x, y < src.height → x < src.width →
        let S : Int := (src.pix y x).val
        let Sp : Int := (src.pix (prevRow y) x).val
        let Sn : Int := (src.pix (nextRow y src.height) x).val
        let Spp : Int := (src.pix (prevRow2 y) x).val
        let Snn : Int := (src.pix (nextRow2 y src.height) x).val
        (d.cthresh < 0 → out.pix y x = 255) ∧
        (0 ≤ d.cthresh → d.metric = 0 →
          (out.pix y x = 255 ↔
            ((S - Sp > d.cthresh ∧ S - Sn > d.cthresh) ∨
              (S - Sp < -d.cthresh ∧ S - Sn < -d.cthresh)) ∧
            |Spp + 4 * S + Snn - 3 * (Sp + Sn)| > 6 * d.cthresh) ∧
          (out.pix y x ≠ 255 → out.pix y x = 0)) ∧
        (0 ≤ d.cthresh → d.metric = 1 →
          (out.pix y x = 255 ↔ (S - Sp) * (S - Sn) > d.cthresh * d.cthresh) ∧
          (out.pix y x ≠ 255 → out.pix y x = 0)) := by
  have byte : ∀ (b : Bool) (P : Prop) (v : Byte), (b = true ↔ P) →
      v = (if b = true then 255 else 0) → (v = 255 ↔ P) ∧ (v ≠ 255 → v = 0) := by
    intro b P v hb hv
    cases b with
    | true =>
      rw [if_pos rfl] at hv
      exact ⟨⟨fun _ => hb.mp rfl, fun _ => hv⟩, fun h => absurd hv h⟩
    | false =>
      rw [if_neg (by decide)] at hv
      refine ⟨⟨fun h => ?_, fun h => absurd (hb.mpr h) (by decide)⟩, fun _ => hv⟩
      rw [hv] at h
      exact absurd h (by decide)
  by_cases hneg : d.cthresh < 0
  · refine ⟨cmk.fill 255, by simp only [markPlane, hneg, if_true], hw, hh, ?_⟩
    intro y x _ _
    exact ⟨fun _ => rfl, fun h => absurd hneg (by omega), fun h => absurd hneg (by omega)⟩
  · by_cases hm : d.metric = 0
    · obtain ⟨out, ho, ow, oh, hpix⟩ := markPlane0_spec d.cthresh (cthresh6 d) src cmk hH hw hh
      refine ⟨out, by simp only [markPlane, hneg, if_false, hm, if_true]; exact ho, ow, oh, ?_⟩
      intro y x hy hx
      refine ⟨fun h => absurd h hneg, fun _ _ => ?_, fun _ h1 => ?_⟩
      · refine byte (combed0 d.cthresh (cthresh6 d) src y x) _ _ ?_ ?_
        · have e6 : cthresh6 d = d.cthresh * 6 :=
            wrap32_id _ ⟨by omega, by nlinarith⟩
          rw [e6]
          unfold combed0
          rw [decide_eq_true_iff, mul_comm d.cthresh 6]
        · rw [hpix y x]
          by_cases hc : combed0 d.cthresh (cthresh6 d) src y x = true
          · rw [if_pos ⟨hy, hx, hc⟩, if_pos hc]
          · rw [if_neg (fun h => hc h.2.2), if_neg hc]
      · rw [hm] at h1
        exact absurd h1 (by decide)
    · obtain ⟨out, ho, ow, oh, hpix⟩ := markPlane1_spec (cthreshsq d) src cmk (by omega) hw hh
      refine ⟨out, by simp only [markPlane, hneg, if_false, hm]; exact ho, ow, oh, ?_⟩
      intro y x hy hx
      refine ⟨fun h => absurd h hneg, fun _ h0 => absurd h0 hm, fun _ _ => ?_⟩
      refine byte (combed1 (cthreshsq d) src y x) _ _ ?_ ?_
      · have esq : cthreshsq d = d.cthresh * d.cthresh :=
          wrap32_id _ ⟨by nlinarith [mul_self_nonneg d.cthresh], hrep⟩
        rw [esq]
        unfold combed1
        rw [decide_eq_true_iff]
      · rw [hpix y x]
        by_cases hc : combed1 (cthreshsq d) src y x = true
        · rw [if_pos ⟨hy, hx, hc⟩, if_pos hc]
        · rw [if_neg (fun h => hc h.2.2), if_neg hc]

/-- Instance of `combing_test_in_range`: a 2x4 plane with rows 0, 255, 0, 255, cthresh 6,
metric 0: the pixel in row 1, column 0 is marked. -/
theorem combing_test_instance :
    ∃ out, markPlane 6 36 36 0 (rowsPlane 2 [0, 255, 0, 255]) (constPlane 2 4 9) = some out ∧
      out.pix 1 0 = 255 := by
  obtain ⟨out, ho, _, _, hpix⟩ := combing_test_in_range (combData 2 4 16 6 0 0)
    (rowsPlane 2 [0, 255, 0, 255]) (constPlane 2 4 9) (by decide) rfl rfl (by decide)
  refine ⟨out, ho, ?_⟩
  exact ((hpix 1 0 (by decide) (by decide)).2.1 (by decide) rfl).1.mpr (by decide)

theorem overflow_mark_instance :
    (markPlane (combData 4 4 4 65536 1 0).cthresh (cthresh6 (combData 4 4 4 65536 1 0))
        (cthreshsq (combData 4 4 4 65536 1 0)) (combData 4 4 4 65536 1 0).metric
        (rowsPlane 4 [0, 255, 0, 255]) (constPlane 4 4 9)).map (fun out => out.pix 1 0)
      = some 255 := by
  decide

theorem overflow_combed_instance :
    checkCombed (combData 4 4 4 65536 1 0) (fun _ => rowsPlane 4 [0, 255, 0, 255])
      (constFrame 4 4 0) (List.replicate 16 0) = some true := by
  decide

/-- C32, failing input: cthresh = 65536, metric = 1, blockx = blocky = 4 (accepted by the
constructor, which does not range-check cthresh) and a 4x4 gray frame with rows 0, 255, 0, 255. The int product
cthresh * cthresh overflows and `cthreshsq` is 0, so the pixel in row 1, column 0, with
(S - Sp) * (S - Sn) = 65025, is marked 0xFF although 65025 > cthresh * cthresh = 4294967296
is false; with MI = 0 the frame is reported combed. -/
theorem C32_cthreshsq_overflow :
    tdeintmodCreate (combData 4 4 4 65536 1 0) goodClip = Except.ok () ∧
    cthreshsq (combData 4 4 4 65536 1 0) = 0 ∧
    (∃ out, markPlane (combData 4 4 4 65536 1 0).cthresh (cthresh6 (combData 4 4 4 65536 1 0))
        (cthreshsq (combData 4 4 4 65536 1 0)) (combData 4 4 4 65536 1 0).metric
        (rowsPlane 4 [0, 255, 0, 255]) (constPlane 4 4 9) = some out ∧ out.pix 1 0 = 255) ∧
    ¬ ((((rowsPlane 4 [0, 255, 0, 255]).pix 1 0).val : Int)
          - (((rowsPlane 4 [0, 255, 0, 255]).pix 0 0).val : Int))
        * ((((rowsPlane 4 [0, 255, 0, 255]).pix 1 0).val : Int)
          - (((rowsPlane 4 [0, 255, 0, 255]).pix 2 0).val : Int))
        > (combData 4 4 4 65536 1 0).cthresh * (combData 4 4 4 65536 1 0).cthresh ∧
    checkCombed (combData 4 4 4 65536 1 0) (fun _ => rowsPlane 4 [0, 255, 0, 255])
      (constFrame 4 4 0) (List.replicate 16 0) = some true := by
  refine ⟨rfl, by decide, ?_, by decide, overflow_combed_instance⟩
  have key := overflow_mark_instance
  cases h : markPlane (combData 4 4 4 65536 1 0).cthresh (cthresh6 (combData 4 4 4 65536 1 0))
      (cthreshsq (combData 4 4 4 65536 1 0)) (combData 4 4 4 65536 1 0).metric
      (rowsPlane 4 [0, 255, 0, 255]) (constPlane 4 4 9) with
  | none =>
    rw [h] at key
    exact Option.noConfusion key
  | some out =>
    rw [h, Option.map_some'] at key
    exact ⟨out, rfl, Option.some.inj key⟩

/-! ## The combing detector: the chroma fold-in -/

theorem chromaHit_spec (p : Plane) (y x : Nat) (hy : 1 ≤ y ∧ y + 1 < p.height)
    (hx : 1 ≤ x ∧ x + 1 < p.width) :
    chromaHit p (y : Int) (x : Int) = some (chromaMark p y x) := by
  have rd : ∀ (r c : Int) (rn cn : Nat), r = rn → c = cn → rn < p.height → cn < p.width →
      p.read r c = some ((p.pix rn cn).val : Int) :=
    fun r c rn cn hr hc h1 h2 => p.read_some rn cn h1 h2 r c hr hc
  simp only [chromaHit, anyFF, chromaMark,
    rd (y : Int) (x : Int) y x rfl rfl (by omega) (by omega),
    rd (y : Int) ((x : Int) - 1) y (x - 1) rfl (by omega) (by omega) (by omega),
    rd (y : Int) ((x : Int) + 1) y (x + 1) rfl (by omega) (by omega) (by omega),
    rd ((y : Int) - 1) ((x : Int) - 1) (y - 1) (x - 1) (by omega) (by omega) (by omega)
      (by omega),
    rd ((y : Int) - 1) (x : Int) (y - 1) x (by omega) rfl (by omega) (by omega),
    rd ((y : Int) - 1) ((x : Int) + 1) (y - 1) (x + 1) (by omega) (by omega) (by omega)
      (by omega),
    rd ((y : Int) + 1) ((x : Int) - 1) (y + 1) (x - 1) (by omega) (by omega) (by omega)
      (by omega),
    rd ((y : Int) + 1) (x : Int) (y + 1) x (by omega) rfl (by omega) (by omega),
    rd ((y : Int) + 1) ((x : Int) + 1) (y + 1) (x + 1) (by omega) (by omega) (by omega)
      (by omega), Option.some_bind]
  split_ifs <;> simp [*]

theorem write16_spec (p : Plane) (r : Int) (rn x : Nat) (hr : r = rn) (h1 : rn < p.height)
    (h2 : 2 * x + 1 < p.width) :
    ∃ q, write16 p r (x : Int) = some q ∧ q.width = p.width ∧ q.height = p.height ∧
      ∀ Y X, q.pix Y X = if Y = rn ∧ (X = 2 * x ∨ X = 2 * x + 1) then 255 else p.pix Y X := by
  refine ⟨(p.set rn (2 * x) 255).set rn (2 * x + 1) 255, ?_, rfl, rfl, ?_⟩
  · unfold write16
    rw [p.write_some rn (2 * x) h1 (by omega) r (2 * (x : Int)) hr (by push_cast; ring) 255,
      Option.some_bind]
    exact (p.set rn (2 * x) (toU8 255)).write_some rn (2 * x + 1) h1 h2 r (2 * (x : Int) + 1)
      hr (by push_cast; ring) 255
  · intro Y X
    simp only [Plane.set]
    split_ifs <;> first | rfl | omega

/-- Body of the pixel loop of the chroma fold-in: when the chroma pixel is marked in U or V its
luma cover is set to 0xFF, nothing else changes. -/
theorem foldPixel_spec (cmU cmV cmk : Plane) (y x : Nat)
    (hyU : 1 ≤ y ∧ y + 1 < cmU.height) (hxU : 1 ≤ x ∧ x + 1 < cmU.width)
    (hyV : y + 1 < cmV.height) (hxV : x + 1 < cmV.width)
    (hL : 2 * x + 1 < cmk.width ∧ 2 * y + 2 < cmk.height) :
    ∃ out, foldPixel cmU cmV y x cmk = some out ∧ out.width = cmk.width ∧
      out.height = cmk.height ∧
      ∀ Y X, out.pix Y X =
        if (chromaMark cmU y x = true ∨ chromaMark cmV y x = true) ∧ foldCovers Y X y x
        then 255 else cmk.pix Y X := by
  have hU := chromaHit_spec cmU y x hyU hxU
  have hV := chromaHit_spec cmV y x ⟨hyU.1, hyV⟩ ⟨hxU.1, hxV⟩
  by_cases hit : chromaMark cmU y x = true ∨ chromaMark cmV y x = true
  · have hbind : (if chromaMark cmU y x = true then some true
        else chromaHit cmV (y : Int) (x : Int)) = some true := by
      by_cases h1 : chromaMark cmU y x = true
      · rw [if_pos h1]
      · rw [if_neg h1, hV]
        rcases hit with h | h
        · exact absurd h h1
        · rw [h]
    obtain ⟨q1, w1, a1, b1, p1⟩ := write16_spec cmk (2 * (y : Int)) (2 * y) x
      (by push_cast; ring) (by omega) hL.1
    obtain ⟨q2, w2, a2, b2, p2⟩ := write16_spec q1 (2 * (y : Int) + 1) (2 * y + 1) x
      (by push_cast; ring) (by omega) (by omega)
    by_cases hodd : y % 2 ≠ 0
    · obtain ⟨q3, w3, a3, b3, p3⟩ := write16_spec q2 (2 * (y : Int) - 1) (2 * y - 1) x
        (by omega) (by omega) (by omega)
      refine ⟨q3, ?_, by omega, by omega, ?_⟩
      · unfold foldPixel
        rw [hU, Option.some_bind, hbind, Option.some_bind, if_pos rfl, w1, Option.some_bind, w2, Option.some_bind,
          if_pos hodd]
        exact w3
      · intro Y X
        rw [p3, p2, p1]
        simp only [foldCovers, hit, true_and]
        split_ifs <;> first | rfl | omega
    · obtain ⟨q3, w3, a3, b3, p3⟩ := write16_spec q2 (2 * (y : Int) + 2) (2 * y + 2) x
        (by push_cast; ring) (by omega) (by omega)
      refine ⟨q3, ?_, by omega, by omega, ?_⟩
      · unfold foldPixel
        rw [hU, Option.some_bind, hbind, Option.some_bind, if_pos rfl, w1, Option.some_bind, w2, Option.some_bind,
          if_neg hodd]
        exact w3
      · intro Y X
        rw [p3, p2, p1]
        simp only [foldCovers, hit, true_and]
        split_ifs <;> first | rfl | omega
  · have hbind : (if chromaMark cmU y x = true then some true
        else chromaHit cmV (y : Int) (x : Int)) = some false := by
      have h1 : ¬ chromaMark cmU y x = true := fun h => hit (Or.inl h)
      have h2 : chromaMark cmV y x = false := by
        cases h : chromaMark cmV y x with
        | true => exact absurd (Or.inr h) hit
        | false => rfl
      rw [if_neg h1, hV, h2]
    refine ⟨cmk, ?_, rfl, rfl, ?_⟩
    · unfold foldPixel
      rw [hU, Option.some_bind, hbind, Option.some_bind, if_neg (by decide)]
    · intro Y X
      rw [if_neg (fun h => hit h.1)]

/-- The chroma fold-in: the luma bytes covered by a marked interior chroma pixel become 0xFF,
every other luma byte keeps its value. -/
theorem foldChroma_spec (cm : Frame) (w h : Nat)
    (hU : (cm 1).width = w ∧ (cm 1).height = h) (hV : (cm 2).width = w ∧ (cm 2).height = h)
    (hL : 2 * w ≤ (cm 0).width ∧ 2 * h ≤ (cm 0).height) :
    ∃ out, foldChroma cm = some out ∧ out.width = (cm 0).width ∧
      out.height = (cm 0).height ∧
      ∀ Y X,
        ((∃ y x, 1 ≤ y ∧ y + 1 < h ∧ 1 ≤ x ∧ x + 1 < w ∧
            (chromaMark (cm 1) y x = true ∨ chromaMark (cm 2) y x = true) ∧
            foldCovers Y X y x) → out.pix Y X = 255) ∧
        ((¬ ∃ y x, 1 ≤ y ∧ y + 1 < h ∧ 1 ≤ x ∧ x + 1 < w ∧
            (chromaMark (cm 1) y x = true ∨ chromaMark (cm 2) y x = true) ∧
            foldCovers Y X y x) → out.pix Y X = (cm 0).pix Y X) := by
  obtain ⟨hUw, hUh⟩ := hU
  obtain ⟨hVw, hVh⟩ := hV
  -- the luma bytes covered by the marked chroma pixels visited before (1 + k, 1 + j)
  obtain ⟨Marked, hMarked⟩ : ∃ M : Nat → Nat → Nat → Nat → Prop, ∀ k j Y X, M k j Y X ↔
      ∃ y x, 1 ≤ y ∧ 1 ≤ x ∧ x + 1 < w ∧ (y < 1 + k ∨ (y = 1 + k ∧ x < 1 + j)) ∧
        (chromaMark (cm 1) y x = true ∨ chromaMark (cm 2) y x = true) ∧ foldCovers Y X y x :=
    ⟨_, fun _ _ _ _ => Iff.rfl⟩
  have hstep : ∀ k j Y X, j + 2 < w + 0 → (Marked k (j + 1) Y X ↔ Marked k j Y X ∨
      ((chromaMark (cm 1) (1 + k) (1 + j) = true ∨ chromaMark (cm 2) (1 + k) (1 + j) = true) ∧
        foldCovers Y X (1 + k) (1 + j))) := by
    intro k j Y X hj
    rw [hMarked, hMarked]
    constructor
    · rintro ⟨y, x, h1, h2, h3, h4, h5, h6⟩
      by_cases hnew : y = 1 + k ∧ x = 1 + j
      · obtain ⟨rfl, rfl⟩ := hnew
        exact Or.inr ⟨h5, h6⟩
      · exact Or.inl ⟨y, x, h1, h2, h3, by omega, h5, h6⟩
    · rintro (⟨y, x, h1, h2, h3, h4, h5, h6⟩ | ⟨h5, h6⟩)
      · exact ⟨y, x, h1, h2, h3, by omega, h5, h6⟩
      · exact ⟨1 + k, 1 + j, by omega, by omega, by omega, by omega, h5, h6⟩
  have hrow : ∀ k Y X, Marked k (w - 2) Y X ↔ Marked (k + 1) 0 Y X := by
    intro k Y X
    rw [hMarked, hMarked]
    constructor
    · rintro ⟨y, x, h1, h2, h3, h4, h5, h6⟩
      exact ⟨y, x, h1, h2, h3, by omega, h5, h6⟩
    · rintro ⟨y, x, h1, h2, h3, h4, h5, h6⟩
      exact ⟨y, x, h1, h2, h3, by omega, h5, h6⟩
  obtain ⟨out, ho, ow, oh, hpix⟩ := forLoop_inv
    (fun k cmk => forLoop (fun j cmk => foldPixel (cm 1) (cm 2) (1 + k) (1 + j) cmk)
      (w - 2) cmk)
    (fun k p => p.width = (cm 0).width ∧ p.height = (cm 0).height ∧
      ∀ Y X, (Marked k 0 Y X → p.pix Y X = 255) ∧
        (¬ Marked k 0 Y X → p.pix Y X = (cm 0).pix Y X))
    (h - 2) (cm 0)
    ⟨rfl, rfl, fun Y X => ⟨fun hm => by
        rw [hMarked] at hm
        obtain ⟨y, x, h1, h2, h3, h4, _⟩ := hm
        omega, fun _ => rfl⟩⟩
    (by
      intro k p hk hp
      obtain ⟨q, hq, qw, qh, qpix⟩ := forLoop_inv
        (fun j cmk => foldPixel (cm 1) (cm 2) (1 + k) (1 + j) cmk)
        (fun j p => p.width = (cm 0).width ∧ p.height = (cm 0).height ∧
          ∀ Y X, (Marked k j Y X → p.pix Y X = 255) ∧
            (¬ Marked k j Y X → p.pix Y X = (cm 0).pix Y X))
        (w - 2) p hp
        (by
          intro j r hj ⟨rw1, rh1, rpix⟩
          obtain ⟨o, ho, ow, oh, opix⟩ := foldPixel_spec (cm 1) (cm 2) r (1 + k) (1 + j)
            ⟨by omega, by omega⟩ ⟨by omega, by omega⟩ (by omega) (by omega)
            ⟨by omega, by omega⟩
          refine ⟨o, ho, ow.trans rw1, oh.trans rh1, ?_⟩
          intro Y X
          have hs := hstep k j Y X (by omega)
          rw [opix Y X]
          constructor
          · intro hm
            by_cases hnew : (chromaMark (cm 1) (1 + k) (1 + j) = true ∨
                chromaMark (cm 2) (1 + k) (1 + j) = true) ∧ foldCovers Y X (1 + k) (1 + j)
            · rw [if_pos hnew]
            · rw [if_neg hnew]
              rcases hs.mp hm with hold | hn
              · exact (rpix Y X).1 hold
              · exact absurd hn hnew
          · intro hm
            have hnew : ¬ ((chromaMark (cm 1) (1 + k) (1 + j) = true ∨
                chromaMark (cm 2) (1 + k) (1 + j) = true) ∧ foldCovers Y X (1 + k) (1 + j)) :=
              fun hn => hm (hs.mpr (Or.inr hn))
            rw [if_neg hnew]
            exact (rpix Y X).2 (fun hold => hm (hs.mpr (Or.inl hold))))
      refine ⟨q, hq, qw, qh, ?_⟩
      intro Y X
      rw [← hrow k Y X]
      exact qpix Y X)
  refine ⟨out, ?_, ow, oh, ?_⟩
  · unfold foldChroma
    simp only [hVw, hVh]
    exact ho
  · intro Y X
    have hfin : Marked (h - 2) 0 Y X ↔ ∃ y x, 1 ≤ y ∧ y + 1 < h ∧ 1 ≤ x ∧ x + 1 < w ∧
        (chromaMark (cm 1) y x = true ∨ chromaMark (cm 2) y x = true) ∧
        foldCovers Y X y x := by
      rw [hMarked]
      constructor
      · rintro ⟨y, x, h1, h2, h3, h4, h5, h6⟩
        exact ⟨y, x, h1, by omega, h2, h3, h5, h6⟩
      · rintro ⟨y, x, h1, h2, h3, h4, h5, h6⟩
        exact ⟨y, x, h1, h3, h4, by omega, h5, h6⟩
    rw [← hfin]
    exact hpix Y X

set_option maxRecDepth 100000 in
theorem isolated_instance :
    (foldChroma (fun p => if p = 1 then ⟨4, 4, fun y x => if y = 1 ∧ x = 1 then 255 else 0⟩
        else if p = 2 then constPlane 4 4 0 else constPlane 8 8 0)).map
      (fun out => (out.pix 2 2, out.pix 2 3, out.pix 3 2, out.pix 3 3, out.pix 1 2,
        out.pix 1 3)) = some (0, 0, 0, 0, 0, 0) := by
  decide

/-- The claim C34 fails: in a 4:2:0 mask whose U plane has the single byte 0xFF at chroma
pixel (1,1), with V and luma all zero, the fold-in leaves the luma bytes covering that chroma
pixel (rows 2 and 3, columns 2 and 3, and the row 1 above) at 0: a marked chroma pixel
without a marked neighbour is not propagated. -/
theorem C34_isolated_chroma_counterexample :
    ∃ out, foldChroma (fun p =>
        if p = 1 then ⟨4, 4, fun y x => if y = 1 ∧ x = 1 then 255 else 0⟩
        else if p = 2 then constPlane 4 4 0 else constPlane 8 8 0) = some out ∧
      out.pix 2 2 = 0 ∧ out.pix 2 3 = 0 ∧ out.pix 3 2 = 0 ∧ out.pix 3 3 = 0 ∧
      out.pix 1 2 = 0 ∧ out.pix 1 3 = 0 := by
  have key := isolated_instance
  cases h : foldChroma (fun p =>
      if p = 1 then ⟨4, 4, fun y x => if y = 1 ∧ x = 1 then 255 else 0⟩
      else if p = 2 then constPlane 4 4 0 else constPlane 8 8 0) with
  | none =>
    rw [h] at key
    exact Option.noConfusion key
  | some out =>
    rw [h, Option.map_some'] at key
    have e := Option.some.inj key
    simp only [Prod.mk.injEq] at e
    exact ⟨out, rfl, e.1, e.2.1, e.2.2.1, e.2.2.2.1, e.2.2.2.2.1, e.2.2.2.2.2⟩

/-- C34 (amended): chroma fold-in (4:2:0, chroma planes of w x h, luma of at least 2w x 2h).
When chroma is true, every chroma pixel (x, y) with 1 <= x <= w - 2, 1 <= y <= h - 2 whose U
byte (or whose V byte) of the combing mask is 0xFF and has at least one 0xFF byte among its
eight neighbours in the same plane is propagated into the luma mask: the luma bytes
2x, 2x + 1 of the rows 2y, 2y + 1 and of the row 2y - 1 (y odd) or 2y + 2 (y even) are set to
0xFF. Every other luma byte keeps its value; chroma pixels on the border of the chroma plane and
marked chroma pixels without a marked neighbour are not propagated. -/
theorem C34_chroma_fold (cm : Frame) (w h : Nat)
    (hU : (cm 1).width = w ∧ (cm 1).height = h) (hV : (cm 2).width = w ∧ (cm 2).height = h)
    (hL : 2 * w ≤ (cm 0).width ∧ 2 * h ≤ (cm 0).height) :
    ∃ out, foldChroma cm = some out ∧ out.width = (cm 0).width ∧
      out.height = (cm 0).height ∧
      ∀ Y X,
        ((∃ y x, 1 ≤ y ∧ y + 1 < h ∧ 1 ≤ x ∧ x + 1 < w ∧
            (chromaMark (cm 1) y x = true ∨ chromaMark (cm 2) y x = true) ∧
            ((X = 2 * x ∨ X = 2 * x + 1) ∧
              (Y = 2 * y ∨ Y = 2 * y + 1 ∨ (y % 2 ≠ 0 ∧ Y + 1 = 2 * y) ∨
                (y % 2 = 0 ∧ Y = 2 * y + 2)))) → out.pix Y X = 255) ∧
        ((¬ ∃ y x, 1 ≤ y ∧ y + 1 < h ∧ 1 ≤ x ∧ x + 1 < w ∧
            (chromaMark (cm 1) y x = true ∨ chromaMark (cm 2) y x = true) ∧
            ((X = 2 * x ∨ X = 2 * x + 1) ∧
              (Y = 2 * y ∨ Y = 2 * y + 1 ∨ (y % 2 ≠ 0 ∧ Y + 1 = 2 * y) ∨
                (y % 2 = 0 ∧ Y = 2 * y + 2)))) → out.pix Y X = (cm 0).pix Y X) :=
  foldChroma_spec cm w h hU hV hL

/-- Instance of C34 (amended): U plane 0xFF at the chroma pixels (1,1) and (1,2), V and luma
zero: the luma byte in row 2, column 2 becomes 0xFF. -/
theorem C34_chroma_fold_witness :
    ∃ out, foldChroma (fun p =>
        if p = 1 then ⟨4, 4, fun y x => if y = 1 ∧ (x = 1 ∨ x = 2) then 255 else 0⟩
        else if p = 2 then constPlane 4 4 0 else constPlane 8 8 0) = some out ∧
      out.pix 2 2 = 255 := by
  obtain ⟨out, ho, _, _, hpix⟩ := C34_chroma_fold (fun p =>
      if p = 1 then ⟨4, 4, fun y x => if y = 1 ∧ (x = 1 ∨ x = 2) then 255 else 0⟩
      else if p = 2 then constPlane 4 4 0 else constPlane 8 8 0) 4 4
    ⟨rfl, rfl⟩ ⟨rfl, rfl⟩ ⟨by decide, by decide⟩
  exact ⟨out, ho, (hpix 2 2).1 ⟨1, 1, by decide, by decide, by decide, by decide,
    Or.inl (by decide), by decide⟩⟩

set_option maxRecDepth 100000 in
theorem outside_instance :
    (foldChroma (fun p =>
      if p = 1 then ⟨4, 4, fun y x => if y = 1 ∧ (x = 1 ∨ x = 2) then 255 else 0⟩
      else constPlane 4 4 0)).isSome = false := by
  decide

/-- The fold-in outside 4:2:0: in a 4:4:4 mask (luma and chroma planes all 4x4) whose U plane
has the bytes (1,1) and (1,2) at 0xFF, the fold-in of the chroma pixel (2,1) stores at the luma
columns 4 and 5, which the 4-column luma plane does not have: `foldChroma` has no result. -/
theorem foldChroma_444_outside :
    foldChroma (fun p =>
      if p = 1 then ⟨4, 4, fun y x => if y = 1 ∧ (x = 1 ∨ x = 2) then 255 else 0⟩
      else constPlane 4 4 0) = none := by
  have key := outside_instance
  cases h : foldChroma (fun p =>
      if p = 1 then ⟨4, 4, fun y x => if y = 1 ∧ (x = 1 ∨ x = 2) then 255 else 0⟩
      else constPlane 4 4 0) with
  | none => rfl
  | some out =>
    rw [h] at key
    exact Bool.noConfusion key

/-! ## The combing detector: block aggregation -/

theorem sar_nat (n k : Nat) : sar (n : Int) k = ((n >>> k : Nat) : Int) := by
  unfold sar
  rw [Int.shiftRight_eq_div_pow, Nat.shiftRight_eq_div_pow]
  push_cast
  rfl

theorem set_getD (a : List Int) (i j : Nat) (v : Int) (hi : i < a.length) :
    (a.set i v).getD j 0 = if j = i then v else a.getD j 0 := by
  rw [List.getD_eq_getElem?_getD, List.getD_eq_getElem?_getD, List.getElem?_set]
  by_cases h : i = j
  · subst h
    simp [hi]
  · rw [if_neg h, if_neg (fun e => h e.symm)]

/-- The update `cArray[i] += s` at an index inside the array. -/
theorem bump_spec (a : List Int) (i : Nat) (s : Int) (hi : i < a.length) (idx : Int)
    (hidx : idx = i) :
    ∃ b, bump a idx s = some b ∧ b.length = a.length ∧
      ∀ j, b.getD j 0 = a.getD j 0 + s * ind j i := by
  subst hidx
  refine ⟨a.set i (a.getD i 0 + s), ?_, List.length_set _ _ _, ?_⟩
  · unfold bump getI
    rw [if_pos (by omega)]
    simp only [Int.toNat_ofNat]
    rw [List.getElem?_eq_getElem hi, Option.some_bind, List.getD_eq_getElem?_getD,
      List.getElem?_eq_getElem hi]
    rfl
  · intro j
    rw [set_getD a i j _ hi]
    unfold ind
    by_cases h : j = i
    · rw [if_pos h, if_pos h, h]
      ring
    · rw [if_neg h, if_neg h]
      ring

/-- The four updates of `cArray` for one column: `s` is added to the four counters. -/
theorem addBoxes_spec (xhalf : Int) (kx : Nat) (temp1 temp2 x s : Int) (a : List Int)
    (xh t1 t2 xn : Nat) (hxh : xhalf = xh) (ht1 : temp1 = t1) (ht2 : temp2 = t2) (hx : x = xn)
    (h0 : t1 + (xn >>> kx) * 4 < a.length)
    (h1 : t1 + ((xn + xh) >>> kx) * 4 + 1 < a.length)
    (h2 : t2 + (xn >>> kx) * 4 + 2 < a.length)
    (h3 : t2 + ((xn + xh) >>> kx) * 4 + 3 < a.length) :
    ∃ b, addBoxes xhalf kx temp1 temp2 x s a = some b ∧ b.length = a.length ∧
      ∀ j, b.getD j 0 = a.getD j 0 + s * (ind j (t1 + (xn >>> kx) * 4)
        + ind j (t1 + ((xn + xh) >>> kx) * 4 + 1) + ind j (t2 + (xn >>> kx) * 4 + 2)
        + ind j (t2 + ((xn + xh) >>> kx) * 4 + 3)) := by
  subst hxh ht1 ht2 hx
  have e1 : sar (xn : Int) kx = ((xn >>> kx : Nat) : Int) := sar_nat xn kx
  have e2 : sar ((xn : Int) + (xh : Int)) kx = (((xn + xh) >>> kx : Nat) : Int) := by
    rw [← sar_nat]
    push_cast
    rfl
  obtain ⟨b0, hb0, l0, v0⟩ := bump_spec a (t1 + (xn >>> kx) * 4) s h0
    ((t1 : Int) + sar (xn : Int) kx * 4) (by rw [e1]; push_cast; ring)
  obtain ⟨b1, hb1, l1, v1⟩ := bump_spec b0 (t1 + ((xn + xh) >>> kx) * 4 + 1) s (by omega)
    ((t1 : Int) + sar ((xn : Int) + (xh : Int)) kx * 4 + 1) (by rw [e2]; push_cast; ring)
  obtain ⟨b2, hb2, l2, v2⟩ := bump_spec b1 (t2 + (xn >>> kx) * 4 + 2) s (by omega)
    ((t2 : Int) + sar (xn : Int) kx * 4 + 2) (by rw [e1]; push_cast; ring)
  obtain ⟨b3, hb3, l3, v3⟩ := bump_spec b2 (t2 + ((xn + xh) >>> kx) * 4 + 3) s (by omega)
    ((t2 : Int) + sar ((xn : Int) + (xh : Int)) kx * 4 + 3) (by rw [e2]; push_cast; ring)
  refine ⟨b3, ?_, by omega, ?_⟩
  · simp only [addBoxes]
    rw [hb0, Option.some_bind, hb1, Option.some_bind, hb2, Option.some_bind, hb3]
  · intro j
    rw [v3, v2, v1, v0]
    ring

theorem allFF_spec (cmk : Plane) (r x : Nat) (hr : 1 ≤ r ∧ r + 1 < cmk.height)
    (hx : x < cmk.width) (ri xi : Int) (hri : ri = r) (hxi : xi = x) :
    allFF cmk ri xi = some (hitFF cmk r x) := by
  subst hri hxi
  have r0 := cmk.read_some (r - 1) x (by omega) hx ((r : Int) - 1) x (by omega) rfl
  have r1 := cmk.read_some r x (by omega) hx (r : Int) x rfl rfl
  have r2 := cmk.read_some (r + 1) x (by omega) hx ((r : Int) + 1) x (by omega) rfl
  have eq : ∀ b : Byte, ((b.val : Int) = 255) ↔ b = 255 := by
    intro b
    constructor
    · intro h
      apply Fin.ext
      have : (b.val : Int) = ((255 : Byte).val : Int) := h
      exact_mod_cast this
    · intro h
      rw [h]
      rfl
  simp only [allFF, hitFF, r0, r1, r2, Option.some_bind, ne_eq, eq]
  by_cases ha : cmk.pix (r - 1) x = 255
  · by_cases hb : cmk.pix r x = 255
    · simp [ha, hb]
    · simp [ha, hb]
  · simp [ha]

theorem shift_align (m b u k : Nat) (hk : 2 ^ k = 2 * m) (hu : u < m) :
    (b * m + u) >>> k = (b * m) >>> k := by
  have hm : 0 < m := by omega
  rw [Nat.shiftRight_eq_div_pow, Nat.shiftRight_eq_div_pow, hk, Nat.mul_comm 2 m,
    ← Nat.div_div_eq_div_mul, ← Nat.div_div_eq_div_mul, Nat.mul_comm b m,
    Nat.mul_add_div hm, Nat.mul_div_cancel_left b hm, Nat.div_eq_of_lt hu, Nat.add_zero]

/-- Inside a half block aligned in both directions every pixel has the four counters of the
block's first pixel. -/
theorem cellHits_block (xh yh kx ky XB : Nat) (cmk : Plane) (j b c u v : Nat)
    (hky : 2 ^ ky = 2 * yh) (hkx : 2 ^ kx = 2 * xh) (hu : u < yh) (hv : v < xh) :
    cellHits xh yh kx ky XB cmk j (b * yh + u) (c * xh + v)
      = (if hitFF cmk (b * yh + u) (c * xh + v) = true then 1 else 0)
        * (ind j (((b * yh) >>> ky) * (XB * 4) + ((c * xh) >>> kx) * 4)
          + ind j (((b * yh) >>> ky) * (XB * 4) + ((c * xh + xh) >>> kx) * 4 + 1)
          + ind j (((b * yh + yh) >>> ky) * (XB * 4) + ((c * xh) >>> kx) * 4 + 2)
          + ind j (((b * yh + yh) >>> ky) * (XB * 4) + ((c * xh + xh) >>> kx) * 4 + 3)) := by
  have e1 := shift_align yh b u ky hky hu
  have e2 : (b * yh + u + yh) >>> ky = (b * yh + yh) >>> ky := by
    have := shift_align yh (b + 1) u ky hky hu
    rw [Nat.add_mul, Nat.one_mul] at this
    rw [show b * yh + u + yh = b * yh + yh + u by omega]
    exact this
  have e3 := shift_align xh c v kx hkx hv
  have e4 : (c * xh + v + xh) >>> kx = (c * xh + xh) >>> kx := by
    have := shift_align xh (c + 1) v kx hkx hv
    rw [Nat.add_mul, Nat.one_mul] at this
    rw [show c * xh + v + xh = c * xh + xh + v by omega]
    exact this
  unfold cellHits
  rw [e1, e2, e3, e4]
  split_ifs
  · rw [one_mul]
  · rw [zero_mul]

/-- Inside a half block of rows every pixel of a column has the four counters of the column's
pixel in the first row of the block. -/
theorem cellHits_rows (xh yh kx ky XB : Nat) (cmk : Plane) (j b u x : Nat)
    (hky : 2 ^ ky = 2 * yh) (hu : u < yh) :
    cellHits xh yh kx ky XB cmk j (b * yh + u) x
      = (if hitFF cmk (b * yh + u) x = true then 1 else 0)
        * (ind j (((b * yh) >>> ky) * (XB * 4) + (x >>> kx) * 4)
          + ind j (((b * yh) >>> ky) * (XB * 4) + ((x + xh) >>> kx) * 4 + 1)
          + ind j (((b * yh + yh) >>> ky) * (XB * 4) + (x >>> kx) * 4 + 2)
          + ind j (((b * yh + yh) >>> ky) * (XB * 4) + ((x + xh) >>> kx) * 4 + 3)) := by
  have e1 := shift_align yh b u ky hky hu
  have e2 : (b * yh + u + yh) >>> ky = (b * yh + yh) >>> ky := by
    have := shift_align yh (b + 1) u ky hky hu
    rw [Nat.add_mul, Nat.one_mul] at this
    rw [show b * yh + u + yh = b * yh + yh + u by omega]
    exact this
  unfold cellHits
  rw [e1, e2]
  split_ifs
  · rw [one_mul]
  · rw [zero_mul]

/-- Body of the first and third counting loop: row `y` adds its pixels to the counters. -/
theorem countRow_spec (xh yh kx ky XB : Nat) (cmk : Plane) (y : Nat) (st : CountState)
    (xhalf yhalf xB4 yi : Int)
    (hxh : xhalf = xh) (hyh : yhalf = yh) (hxb : xB4 = ((XB * 4 : Nat) : Int)) (hyi : yi = y)
    (hrow : st.row = y) (hy : 1 ≤ y ∧ y + 1 < cmk.height)
    (hb : ∀ x r c k, x < cmk.width → (r = y >>> ky ∨ r = (y + yh) >>> ky) →
      (c = x >>> kx ∨ c = (x + xh) >>> kx) → k < 4 →
      r * (XB * 4) + c * 4 + k < st.cArray.length) :
    ∃ st2, countRow xhalf yhalf kx ky xB4 cmk cmk.width yi st = some st2 ∧
      st2.row = ((y + 1 : Nat) : Int) ∧ st2.cArray.length = st.cArray.length ∧
      ∀ j, st2.cArray.getD j 0 = st.cArray.getD j 0
        + Finset.sum (Finset.range cmk.width) (fun x => cellHits xh yh kx ky XB cmk j y x) := by
  subst hxh hyh hxb hyi
  obtain ⟨a, ha, hl, hv⟩ := forLoop_inv
    (fun x a => (allFF cmk st.row x).bind fun t =>
      if t then addBoxes (xh : Int) kx (sar (y : Int) ky * ((XB * 4 : Nat) : Int))
        (sar ((y : Int) + (yh : Int)) ky * ((XB * 4 : Nat) : Int)) x 1 a else some a)
    (fun n a => a.length = st.cArray.length ∧ ∀ j, a.getD j 0 = st.cArray.getD j 0
      + Finset.sum (Finset.range n) (fun x => cellHits xh yh kx ky XB cmk j y x))
    cmk.width st.cArray
    ⟨rfl, fun j => by rw [Finset.sum_range_zero, add_zero]⟩
    (by
      intro x a hx ⟨al, av⟩
      beta_reduce
      rw [allFF_spec cmk y x hy hx st.row x hrow rfl, Option.some_bind]
      by_cases hit : hitFF cmk y x = true
      · rw [if_pos hit]
        obtain ⟨b, hb1, bl, bv⟩ := addBoxes_spec (xh : Int) kx
          (sar (y : Int) ky * ((XB * 4 : Nat) : Int))
          (sar ((y : Int) + (yh : Int)) ky * ((XB * 4 : Nat) : Int)) x 1 a
          xh ((y >>> ky) * (XB * 4)) (((y + yh) >>> ky) * (XB * 4)) x rfl
          (by rw [sar_nat]; push_cast; ring)
          (by rw [← Nat.cast_add, sar_nat]; push_cast; ring) rfl
          (by have := hb x _ _ 0 hx (Or.inl rfl) (Or.inl rfl) (by decide); omega)
          (by have := hb x _ _ 1 hx (Or.inl rfl) (Or.inr rfl) (by decide); omega)
          (by have := hb x _ _ 2 hx (Or.inr rfl) (Or.inl rfl) (by decide); omega)
          (by have := hb x _ _ 3 hx (Or.inr rfl) (Or.inr rfl) (by decide); omega)
        refine ⟨b, hb1, bl.trans al, ?_⟩
        intro j
        rw [bv j, av j, Finset.sum_range_succ]
        unfold cellHits
        rw [if_pos hit]
        ring
      · rw [if_neg hit]
        refine ⟨a, rfl, al, ?_⟩
        intro j
        rw [av j, Finset.sum_range_succ]
        unfold cellHits
        rw [if_neg hit, add_zero])
  refine ⟨{ cArray := a, row := st.row + 1 }, ?_, ?_, hl, hv⟩
  · simp only [countRow]
    rw [ha, Option.some_bind]
  · show st.row + 1 = _
    rw [hrow]
    push_cast
    rfl

/-- The number `sum` of the second counting loop for a block of `rows` by `cols` pixels. -/
theorem blockSum_spec (cmk : Plane) (rn xn rows cols : Nat) (r x : Int)
    (hr : r = rn) (hx : x = xn) (h1 : 1 ≤ rn) (h2 : rn + rows < cmk.height)
    (h3 : xn + cols ≤ cmk.width) :
    blockSum cmk r x rows cols = some (Finset.sum (Finset.range rows) (fun u =>
      Finset.sum (Finset.range cols) (fun v =>
        if hitFF cmk (rn + u) (xn + v) = true then (1 : Int) else 0))) := by
  subst hr hx
  obtain ⟨s, hs, hv⟩ := forLoop_inv
    (fun u sum => forLoop (fun v sum => (allFF cmk ((rn : Int) + u) ((xn : Int) + v)).bind
      fun t => some (if t then sum + 1 else sum)) cols sum)
    (fun n s => s = Finset.sum (Finset.range n) (fun u =>
      Finset.sum (Finset.range cols) (fun v =>
        if hitFF cmk (rn + u) (xn + v) = true then (1 : Int) else 0)))
    rows 0 (by simp)
    (by
      intro u s hu hs
      obtain ⟨s2, hs2, hv2⟩ := forLoop_inv
        (fun v sum => (allFF cmk ((rn : Int) + u) ((xn : Int) + v)).bind
          fun t => some (if t then sum + 1 else sum))
        (fun n t => t = s + Finset.sum (Finset.range n) (fun v =>
          if hitFF cmk (rn + u) (xn + v) = true then (1 : Int) else 0))
        cols s (by simp)
        (by
          intro v t hv ht
          beta_reduce
          rw [allFF_spec cmk (rn + u) (xn + v) ⟨by omega, by omega⟩ (by omega) _ _
            (by push_cast; ring) (by push_cast; ring), Option.some_bind]
          refine ⟨_, rfl, ?_⟩
          rw [Finset.sum_range_succ, ht]
          split_ifs <;> ring)
      refine ⟨s2, hs2, ?_⟩
      beta_reduce
      rw [Finset.sum_range_succ, hv2, hs])
  unfold blockSum
  rw [hs, hv]

theorem steps_count (nb m : Nat) (hm : 0 < m) : (nb * m - 0 + m - 1) / m = nb := by
  rw [Nat.sub_zero, Nat.add_sub_assoc (by omega : 1 ≤ m), Nat.add_comm,
    Nat.add_mul_div_right _ _ hm, Nat.div_eq_of_lt (by omega), Nat.zero_add]

/-- Body of the second counting loop: the half block of rows starting at row `b * yh` adds
its pixels to the counters. -/
theorem countBlocks_spec (xh yh kx ky XB : Nat) (cmk : Plane) (b nb : Nat) (st : CountState)
    (xhalf yhalf xB4 yi : Int) (widtha : Nat)
    (hxh : xhalf = xh) (hyh : yhalf = yh) (hxb : xB4 = ((XB * 4 : Nat) : Int))
    (hyi : yi = ((b * yh : Nat) : Int)) (hrow : st.row = ((b * yh : Nat) : Int))
    (hky : 2 ^ ky = 2 * yh) (hkx : 2 ^ kx = 2 * xh)
    (hwa : widtha = nb * xh) (hwW : widtha ≤ cmk.width)
    (hy : 1 ≤ b * yh ∧ b * yh + yh < cmk.height)
    (hb : ∀ x r c k, x < cmk.width → (r = (b * yh) >>> ky ∨ r = (b * yh + yh) >>> ky) →
      (c = x >>> kx ∨ c = (x + xh) >>> kx) → k < 4 →
      r * (XB * 4) + c * 4 + k < st.cArray.length) :
    ∃ st2, countBlocks xhalf yhalf kx ky xB4 cmk cmk.width widtha yi st = some st2 ∧
      st2.row = ((b * yh + yh : Nat) : Int) ∧ st2.cArray.length = st.cArray.length ∧
      ∀ j, st2.cArray.getD j 0 = st.cArray.getD j 0
        + Finset.sum (Finset.range yh) (fun u =>
            Finset.sum (Finset.range cmk.width) (fun x =>
              cellHits xh yh kx ky XB cmk j (b * yh + u) x)) := by
  subst hxh hyh hxb hyi hwa
  have hxh0 : 0 < xh := by
    rcases Nat.eq_zero_or_pos xh with h | h
    · rw [h] at hkx
      have := Nat.two_pow_pos kx
      omega
    · exact h
  have t1e : sar ((b * yh : Nat) : Int) ky * ((XB * 4 : Nat) : Int)
      = ((((b * yh) >>> ky) * (XB * 4) : Nat) : Int) := by
    rw [sar_nat]; push_cast; ring
  have t2e : sar (((b * yh : Nat) : Int) + (yh : Int)) ky * ((XB * 4 : Nat) : Int)
      = ((((b * yh + yh) >>> ky) * (XB * 4) : Nat) : Int) := by
    rw [← Nat.cast_add, sar_nat]; push_cast; ring
  -- the contribution of one column of the half block
  have colrows : ∀ j x, Finset.sum (Finset.range yh) (fun u =>
        cellHits xh yh kx ky XB cmk j (b * yh + u) x)
      = Finset.sum (Finset.range yh) (fun u =>
          if hitFF cmk (b * yh + u) x = true then (1 : Int) else 0)
        * (ind j (((b * yh) >>> ky) * (XB * 4) + (x >>> kx) * 4)
          + ind j (((b * yh) >>> ky) * (XB * 4) + ((x + xh) >>> kx) * 4 + 1)
          + ind j (((b * yh + yh) >>> ky) * (XB * 4) + (x >>> kx) * 4 + 2)
          + ind j (((b * yh + yh) >>> ky) * (XB * 4) + ((x + xh) >>> kx) * 4 + 3)) := by
    intro j x
    rw [Finset.sum_mul]
    apply Finset.sum_congr rfl
    intro u hu
    exact cellHits_rows xh yh kx ky XB cmk j b u x hky (Finset.mem_range.mp hu)
  have colblock : ∀ j c, Finset.sum (Finset.range xh) (fun v =>
        Finset.sum (Finset.range yh) (fun u =>
          cellHits xh yh kx ky XB cmk j (b * yh + u) (c * xh + v)))
      = Finset.sum (Finset.range yh) (fun u => Finset.sum (Finset.range xh) (fun v =>
          if hitFF cmk (b * yh + u) (c * xh + v) = true then (1 : Int) else 0))
        * (ind j (((b * yh) >>> ky) * (XB * 4) + ((c * xh) >>> kx) * 4)
          + ind j (((b * yh) >>> ky) * (XB * 4) + ((c * xh + xh) >>> kx) * 4 + 1)
          + ind j (((b * yh + yh) >>> ky) * (XB * 4) + ((c * xh) >>> kx) * 4 + 2)
          + ind j (((b * yh + yh) >>> ky) * (XB * 4) + ((c * xh + xh) >>> kx) * 4 + 3)) := by
    intro j c
    rw [Finset.sum_comm, Finset.sum_mul]
    apply Finset.sum_congr rfl
    intro u hu
    rw [Finset.sum_mul]
    apply Finset.sum_congr rfl
    intro v hv
    exact cellHits_block xh yh kx ky XB cmk j b c u v hky hkx (Finset.mem_range.mp hu)
      (Finset.mem_range.mp hv)
  -- the blocks of xh columns
  obtain ⟨a1, ha1, hl1, hv1⟩ := forStep_inv 0 (nb * xh) xh
    (fun x a => (blockSum cmk st.row x yh xh).bind fun sum =>
      if sum ≠ 0 then addBoxes (xh : Int) kx
        (sar ((b * yh : Nat) : Int) ky * ((XB * 4 : Nat) : Int))
        (sar (((b * yh : Nat) : Int) + (yh : Int)) ky * ((XB * 4 : Nat) : Int)) x sum a
      else some a)
    (fun k a => a.length = st.cArray.length ∧ ∀ j, a.getD j 0 = st.cArray.getD j 0
      + Finset.sum (Finset.range (k * xh)) (fun x => Finset.sum (Finset.range yh) (fun u =>
          cellHits xh yh kx ky XB cmk j (b * yh + u) x)))
    st.cArray ⟨rfl, fun j => by simp⟩
    (by
      intro k a hk ⟨al, av⟩
      beta_reduce
      rw [steps_count nb xh hxh0] at hk
      have hle : k * xh + xh ≤ nb * xh := by
        have := Nat.mul_le_mul_right xh (Nat.succ_le_of_lt hk)
        rw [Nat.succ_mul] at this
        exact this
      have hxk : 0 + xh * k = k * xh := by rw [Nat.zero_add, Nat.mul_comm]
      rw [hxk, blockSum_spec cmk (b * yh) (k * xh) yh xh st.row _ hrow rfl hy.1 hy.2
        (by omega), Option.some_bind]
      have hsum : ∀ j, Finset.sum (Finset.range ((k + 1) * xh)) (fun x =>
            Finset.sum (Finset.range yh) (fun u =>
              cellHits xh yh kx ky XB cmk j (b * yh + u) x))
          = Finset.sum (Finset.range (k * xh)) (fun x =>
              Finset.sum (Finset.range yh) (fun u =>
                cellHits xh yh kx ky XB cmk j (b * yh + u) x))
            + Finset.sum (Finset.range yh) (fun u => Finset.sum (Finset.range xh) (fun v =>
                if hitFF cmk (b * yh + u) (k * xh + v) = true then (1 : Int) else 0))
              * (ind j (((b * yh) >>> ky) * (XB * 4) + ((k * xh) >>> kx) * 4)
                + ind j (((b * yh) >>> ky) * (XB * 4) + ((k * xh + xh) >>> kx) * 4 + 1)
                + ind j (((b * yh + yh) >>> ky) * (XB * 4) + ((k * xh) >>> kx) * 4 + 2)
                + ind j (((b * yh + yh) >>> ky) * (XB * 4) + ((k * xh + xh) >>> kx) * 4
                  + 3)) := by
        intro j
        rw [Nat.add_mul, Nat.one_mul, Finset.sum_range_add, colblock j k]
      by_cases hs0 : Finset.sum (Finset.range yh) (fun u =>
          Finset.sum (Finset.range xh) (fun v =>
            if hitFF cmk (b * yh + u) (k * xh + v) = true then (1 : Int) else 0)) ≠ 0
      · rw [if_pos hs0]
        obtain ⟨a2, ha2, al2, av2⟩ := addBoxes_spec (xh : Int) kx
          (sar ((b * yh : Nat) : Int) ky * ((XB * 4 : Nat) : Int))
          (sar (((b * yh : Nat) : Int) + (yh : Int)) ky * ((XB * 4 : Nat) : Int))
          ((k * xh : Nat) : Int)
          (Finset.sum (Finset.range yh) (fun u => Finset.sum (Finset.range xh) (fun v =>
            if hitFF cmk (b * yh + u) (k * xh + v) = true then (1 : Int) else 0))) a
          xh (((b * yh) >>> ky) * (XB * 4)) (((b * yh + yh) >>> ky) * (XB * 4)) (k * xh) rfl
          t1e t2e rfl
          (by have := hb (k * xh) _ _ 0 (by omega) (Or.inl rfl) (Or.inl rfl) (by decide); omega)
          (by have := hb (k * xh) _ _ 1 (by omega) (Or.inl rfl) (Or.inr rfl) (by decide); omega)
          (by have := hb (k * xh) _ _ 2 (by omega) (Or.inr rfl) (Or.inl rfl) (by decide); omega)
          (by have := hb (k * xh) _ _ 3 (by omega) (Or.inr rfl) (Or.inr rfl) (by decide); omega)
        refine ⟨a2, ha2, al2.trans al, ?_⟩
        intro j
        rw [av2 j, av j, hsum j]
        ring
      · rw [if_neg hs0]
        refine ⟨a, rfl, al, ?_⟩
        intro j
        rw [av j, hsum j, not_not.mp hs0, zero_mul, add_zero])
  rw [steps_count nb xh hxh0] at hv1
  -- the remaining columns
  obtain ⟨a3, ha3, hl3, hv3⟩ := forLoop_inv
    (fun k a => (blockSum cmk st.row ((nb * xh + k : Nat) : Int) yh 1).bind fun sum =>
      if sum ≠ 0 then addBoxes (xh : Int) kx
        (sar ((b * yh : Nat) : Int) ky * ((XB * 4 : Nat) : Int))
        (sar (((b * yh : Nat) : Int) + (yh : Int)) ky * ((XB * 4 : Nat) : Int))
        ((nb * xh + k : Nat) : Int) sum a
      else some a)
    (fun k a => a.length = st.cArray.length ∧ ∀ j, a.getD j 0 = st.cArray.getD j 0
      + Finset.sum (Finset.range (nb * xh + k)) (fun x =>
          Finset.sum (Finset.range yh) (fun u =>
            cellHits xh yh kx ky XB cmk j (b * yh + u) x)))
    (cmk.width - nb * xh) a1 ⟨hl1, fun j => by rw [Nat.add_zero]; exact hv1 j⟩
    (by
      intro k a hk ⟨al, av⟩
      beta_reduce
      rw [blockSum_spec cmk (b * yh) (nb * xh + k) yh 1 st.row _ hrow rfl hy.1 hy.2
        (by omega), Option.some_bind]
      have hone : Finset.sum (Finset.range yh) (fun u => Finset.sum (Finset.range 1) (fun v =>
            if hitFF cmk (b * yh + u) (nb * xh + k + v) = true then (1 : Int) else 0))
          = Finset.sum (Finset.range yh) (fun u =>
            if hitFF cmk (b * yh + u) (nb * xh + k) = true then (1 : Int) else 0) := by
        apply Finset.sum_congr rfl
        intro u _
        rw [Finset.sum_range_one, Nat.add_zero]
      rw [hone]
      have hsum : ∀ j, Finset.sum (Finset.range (nb * xh + (k + 1))) (fun x =>
            Finset.sum (Finset.range yh) (fun u =>
              cellHits xh yh kx ky XB cmk j (b * yh + u) x))
          = Finset.sum (Finset.range (nb * xh + k)) (fun x =>
              Finset.sum (Finset.range yh) (fun u =>
                cellHits xh yh kx ky XB cmk j (b * yh + u) x))
            + Finset.sum (Finset.range yh) (fun u =>
                if hitFF cmk (b * yh + u) (nb * xh + k) = true then (1 : Int) else 0)
              * (ind j (((b * yh) >>> ky) * (XB * 4) + ((nb * xh + k) >>> kx) * 4)
                + ind j (((b * yh) >>> ky) * (XB * 4) + ((nb * xh + k + xh) >>> kx) * 4 + 1)
                + ind j (((b * yh + yh) >>> ky) * (XB * 4) + ((nb * xh + k) >>> kx) * 4 + 2)
                + ind j (((b * yh + yh) >>> ky) * (XB * 4) + ((nb * xh + k + xh) >>> kx) * 4
                  + 3)) := by
        intro j
        rw [← Nat.add_assoc, Finset.sum_range_succ, colrows j (nb * xh + k)]
      by_cases hs0 : Finset.sum (Finset.range yh) (fun u =>
          if hitFF cmk (b * yh + u) (nb * xh + k) = true then (1 : Int) else 0) ≠ 0
      · rw [if_pos hs0]
        obtain ⟨a2, ha2, al2, av2⟩ := addBoxes_spec (xh : Int) kx
          (sar ((b * yh : Nat) : Int) ky * ((XB * 4 : Nat) : Int))
          (sar (((b * yh : Nat) : Int) + (yh : Int)) ky * ((XB * 4 : Nat) : Int))
          ((nb * xh + k : Nat) : Int)
          (Finset.sum (Finset.range yh) (fun u =>
            if hitFF cmk (b * yh + u) (nb * xh + k) = true then (1 : Int) else 0)) a
          xh (((b * yh) >>> ky) * (XB * 4)) (((b * yh + yh) >>> ky) * (XB * 4))
          (nb * xh + k) rfl t1e t2e rfl
          (by have := hb (nb * xh + k) _ _ 0 (by omega) (Or.inl rfl) (Or.inl rfl) (by decide)
              omega)
          (by have := hb (nb * xh + k) _ _ 1 (by omega) (Or.inl rfl) (Or.inr rfl) (by decide)
              omega)
          (by have := hb (nb * xh + k) _ _ 2 (by omega) (Or.inr rfl) (Or.inl rfl) (by decide)
              omega)
          (by have := hb (nb * xh + k) _ _ 3 (by omega) (Or.inr rfl) (Or.inr rfl) (by decide)
              omega)
        refine ⟨a2, ha2, al2.trans al, ?_⟩
        intro j
        rw [av2 j, av j, hsum j]
        ring
      · rw [if_neg hs0]
        refine ⟨a, rfl, al, ?_⟩
        intro j
        rw [av j, hsum j, not_not.mp hs0, zero_mul, add_zero])
  refine ⟨{ cArray := a3, row := st.row + (yh : Int) }, ?_, ?_, hl3, ?_⟩
  · simp only [countBlocks, Int.toNat_ofNat]
    rw [ha1, Option.some_bind, ha3, Option.some_bind]
  · show st.row + (yh : Int) = _
    rw [hrow]
    push_cast
    rfl
  · intro j
    rw [hv3 j, Nat.add_sub_cancel' hwW, Finset.sum_comm]

theorem bind_inv {α β : Type} (x : Option α) (f : α → Option β) (P : α → Prop)
    (Q : β → Prop) (hx : ∃ t, x = some t ∧ P t) (hf : ∀ t, P t → ∃ r, f t = some r ∧ Q r) :
    ∃ r, x.bind f = some r ∧ Q r := by
  obtain ⟨t, ht, hP⟩ := hx
  rw [ht, Option.some_bind]
  exact hf t hP

theorem cell_bound (xh yh kx ky W H x y r c k : Nat) (hx : x < W) (hy : y < H)
    (hr : r = y >>> ky ∨ r = (y + yh) >>> ky) (hc : c = x >>> kx ∨ c = (x + xh) >>> kx)
    (hk : k < 4) :
    r * ((((W + xh) >>> kx) + 1) * 4) + c * 4 + k
      < (((W + xh) >>> kx) + 1) * (((H + yh) >>> ky) + 1) * 4 := by
  have mono : ∀ a b s : Nat, a ≤ b → a >>> s ≤ b >>> s := by
    intro a b s h
    rw [Nat.shiftRight_eq_div_pow, Nat.shiftRight_eq_div_pow]
    exact Nat.div_le_div_right h
  have hr' : r ≤ (H + yh) >>> ky := by
    rcases hr with h | h <;> rw [h] <;> apply mono <;> omega
  have hc' : c ≤ (W + xh) >>> kx := by
    rcases hc with h | h <;> rw [h] <;> apply mono <;> omega
  generalize (W + xh) >>> kx = A at *
  generalize (H + yh) >>> ky = B at *
  have h1 : r * ((A + 1) * 4) ≤ B * ((A + 1) * 4) := Nat.mul_le_mul_right _ hr'
  have h2 : (A + 1) * (B + 1) * 4 = B * ((A + 1) * 4) + (A + 1) * 4 := by ring
  omega

theorem half_pow (k m : Nat) (hk : 2 ^ k = 2 * m) : 2 ^ (k - 1) = m ∧ 0 < m := by
  cases k with
  | zero => simp at hk; omega
  | succ n =>
    rw [pow_succ] at hk
    have hp := Nat.two_pow_pos n
    simp only [Nat.add_sub_cancel]
    omega

theorem steps_count2 (m yh : Nat) (hm : 1 ≤ m) (hyh : 0 < yh) :
    (m * yh - yh + yh - 1) / yh = m - 1 := by
  obtain ⟨n, rfl⟩ : ∃ n, m = n + 1 := ⟨m - 1, by omega⟩
  rw [Nat.succ_mul, Nat.add_sub_cancel, Nat.add_sub_assoc (by omega : 1 ≤ yh),
    Nat.add_comm, Nat.add_mul_div_right _ _ hyh, Nat.div_eq_of_lt (by omega), Nat.zero_add,
    Nat.add_sub_cancel]

/-- The value of `heighta`: a positive multiple of the half block height below the height. -/
theorem heighta_spec (H yh ky : Nat) (hky : 2 ^ ky = 2 * yh) (hH : yh < H) :
    ∃ m, 1 ≤ m ∧ m * yh < H ∧
      (if sar (H : Int) (ky - 1) * 2 ^ (ky - 1) = (H : Int) then (H : Int) - (yh : Int)
        else sar (H : Int) (ky - 1) * 2 ^ (ky - 1)) = ((m * yh : Nat) : Int) := by
  obtain ⟨hp, hyh0⟩ := half_pow ky yh hky
  have e : sar (H : Int) (ky - 1) * 2 ^ (ky - 1) = ((H / yh * yh : Nat) : Int) := by
    rw [sar_nat, Nat.shiftRight_eq_div_pow, hp]
    have : (2 : Int) ^ (ky - 1) = ((2 ^ (ky - 1) : Nat) : Int) := by push_cast; rfl
    rw [this, hp]
    push_cast
    rfl
  rw [e]
  have hle : H / yh * yh ≤ H := Nat.div_mul_le_self H yh
  have hq : 1 ≤ H / yh := Nat.div_pos (by omega) hyh0
  by_cases hc : H / yh * yh = H
  · refine ⟨H / yh - 1, ?_, ?_, ?_⟩
    · rcases Nat.lt_or_ge 1 (H / yh) with h | h
      · omega
      · have h1 : H / yh = 1 := by omega
        rw [h1] at hc
        omega
    · rw [Nat.sub_mul]
      omega
    · rw [if_pos (by rw [hc]), Nat.sub_mul, Nat.one_mul, hc]
      omega
  · refine ⟨H / yh, hq, by omega, ?_⟩
    rw [if_neg (fun h => hc (by exact_mod_cast h))]

theorem tally_succ (xh yh kx ky XB : Nat) (cmk : Plane) (j m : Nat) :
    tally xh yh kx ky XB cmk j (m + 1) = tally xh yh kx ky XB cmk j m
      + Finset.sum (Finset.range cmk.width) (fun x =>
          cellHits xh yh kx ky XB cmk j (m + 1) x) := by
  unfold tally
  rw [Finset.sum_range_succ]

theorem tally_add (xh yh kx ky XB : Nat) (cmk : Plane) (j B n : Nat) (hB : 1 ≤ B) :
    tally xh yh kx ky XB cmk j (B + n - 1) = tally xh yh kx ky XB cmk j (B - 1)
      + Finset.sum (Finset.range n) (fun u => Finset.sum (Finset.range cmk.width) (fun x =>
          cellHits xh yh kx ky XB cmk j (B + u) x)) := by
  unfold tally
  have e : B + n - 1 = (B - 1) + n := by omega
  rw [e, Finset.sum_range_add]
  congr 1
  apply Finset.sum_congr rfl
  intro u _
  have e2 : B - 1 + u + 1 = B + u := by omega
  rw [e2]

/-- The three counting loops of `checkCombed`: every entry of the counter array holds the
tally of the pixels of the rows 1 .. H - 2. -/
theorem countArray_spec (xh yh kx ky : Nat) (cmk : Plane) (cArray : List Int)
    (xhalf yhalf : Int) (hxh : xhalf = xh) (hyh : yhalf = yh)
    (hkx : 2 ^ kx = 2 * xh) (hky : 2 ^ ky = 2 * yh) (hH : yh < cmk.height)
    (hlen : (((cmk.width + xh) >>> kx) + 1) * (((cmk.height + yh) >>> ky) + 1) * 4
      ≤ cArray.length) :
    ∃ a, countArray xhalf yhalf kx ky cmk cArray = some a ∧ a.length = cArray.length ∧
      ∀ j, j < (((cmk.width + xh) >>> kx) + 1) * (((cmk.height + yh) >>> ky) + 1) * 4 →
        a.getD j 0
          = tally xh yh kx ky (((cmk.width + xh) >>> kx) + 1) cmk j (cmk.height - 2) := by
  subst hxh hyh
  obtain ⟨hpx, hxh0⟩ := half_pow kx xh hkx
  obtain ⟨hpy, hyh0⟩ := half_pow ky yh hky
  obtain ⟨m, hm1, hmH, e4⟩ := heighta_spec cmk.height yh ky hky hH
  have e1 : sar ((cmk.width : Int) + (xh : Int)) kx + 1
      = (((cmk.width + xh) >>> kx + 1 : Nat) : Int) := by
    rw [← Nat.cast_add, sar_nat]; push_cast; rfl
  have e2 : sar ((cmk.height : Int) + (yh : Int)) ky + 1
      = (((cmk.height + yh) >>> ky + 1 : Nat) : Int) := by
    rw [← Nat.cast_add, sar_nat]; push_cast; rfl
  have e3 : (sar (cmk.width : Int) (kx - 1) * 2 ^ (kx - 1)).toNat = cmk.width / xh * xh := by
    rw [sar_nat, Nat.shiftRight_eq_div_pow, hpx]
    have : (2 : Int) ^ (kx - 1) = ((2 ^ (kx - 1) : Nat) : Int) := by push_cast; rfl
    rw [this, hpx, ← Nat.cast_mul, Int.toNat_ofNat]
  have hwa : cmk.width / xh * xh ≤ cmk.width := Nat.div_mul_le_self _ _
  simp only [countArray]
  rw [e1, e2, e3, e4]
  generalize hXB : (cmk.width + xh) >>> kx + 1 = XB at hlen ⊢
  generalize hYB : (cmk.height + yh) >>> ky + 1 = YB at hlen ⊢
  have eN : (((XB : Nat) : Int) * ((YB : Nat) : Int) * 4).toNat = XB * YB * 4 := by
    have : ((XB : Nat) : Int) * ((YB : Nat) : Int) * 4 = ((XB * YB * 4 : Nat) : Int) := by
      push_cast; rfl
    rw [this, Int.toNat_ofNat]
  have eX : ((XB : Nat) : Int) * 4 = ((XB * 4 : Nat) : Int) := by push_cast; rfl
  have e5 : ((yh : Int) - 1).toNat = yh - 1 := by omega
  have e6 : ((cmk.height : Int) - 1 - ((m * yh : Nat) : Int)).toNat
      = cmk.height - 1 - m * yh := by omega
  rw [eN, eX, e5, e6, if_neg (by omega)]
  simp only [Int.toNat_ofNat]
  have hbound : ∀ y, y < cmk.height → ∀ x r c k, x < cmk.width →
      (r = y >>> ky ∨ r = (y + yh) >>> ky) → (c = x >>> kx ∨ c = (x + xh) >>> kx) → k < 4 →
      r * (XB * 4) + c * 4 + k < XB * YB * 4 := by
    intro y hy x r c k hx hr hc hk
    have := cell_bound xh yh kx ky cmk.width cmk.height x y r c k hx hy hr hc hk
    rw [hXB, hYB] at this
    exact this
  have hinitl : (List.replicate (XB * YB * 4) (0 : Int)
      ++ cArray.drop (XB * YB * 4)).length = cArray.length := by
    rw [List.length_append, List.length_replicate, List.length_drop]
    omega
  have hinit : ∀ j, j < XB * YB * 4 → (List.replicate (XB * YB * 4) (0 : Int)
      ++ cArray.drop (XB * YB * 4)).getD j 0 = 0 := by
    intro j hj
    rw [List.getD_eq_getElem?_getD, List.getElem?_append_left (by simpa using hj),
      List.getElem?_replicate]
    simp [hj]
  -- the first loop: rows 1 .. yh - 1
  refine bind_inv _ _ (fun st : CountState => st.row = ((yh - 1 + 1 : Nat) : Int) ∧
      st.cArray.length = cArray.length ∧ ∀ j, j < XB * YB * 4 →
        st.cArray.getD j 0 = tally xh yh kx ky XB cmk j (yh - 1)) _
    (forLoop_inv _ (fun k (st : CountState) => st.row = ((k + 1 : Nat) : Int) ∧
      st.cArray.length = cArray.length ∧ ∀ j, j < XB * YB * 4 →
        st.cArray.getD j 0 = tally xh yh kx ky XB cmk j k) (yh - 1) _
      ⟨rfl, hinitl, fun j hj => by rw [hinit j hj]; simp [tally]⟩
      (by
        intro k st hk ⟨hr, hl, hv⟩
        beta_reduce
        obtain ⟨st2, h2, hr2, hl2, hv2⟩ := countRow_spec xh yh kx ky XB cmk (k + 1) st
          (xh : Int) (yh : Int) _ ((1 + k : Nat) : Int) rfl rfl rfl
          (by rw [Nat.add_comm]) hr (by omega)
          (by
            intro x r c q hx hrr hc hq
            rw [hl]
            exact Nat.lt_of_lt_of_le (hbound (k + 1) (by omega) x r c q hx hrr hc hq) hlen)
        refine ⟨st2, h2, hr2, hl2.trans hl, ?_⟩
        intro j hj
        rw [hv2 j, hv j hj, tally_succ])) ?_
  intro st1 ⟨hr1, hl1, hv1⟩
  -- the second loop: half blocks of rows
  refine bind_inv _ _ (fun st : CountState => st.row = ((m * yh : Nat) : Int) ∧
      st.cArray.length = cArray.length ∧ ∀ j, j < XB * YB * 4 →
        st.cArray.getD j 0 = tally xh yh kx ky XB cmk j (m * yh - 1)) _ ?_ ?_
  · obtain ⟨st2, h2, hr2, hl2, hv2⟩ := forStep_inv yh (m * yh) yh
      (fun y st => countBlocks (xh : Int) (yh : Int) kx ky ((XB * 4 : Nat) : Int) cmk cmk.width
        (cmk.width / xh * xh) (y : Int) st)
      (fun k (st : CountState) => st.row = (((k + 1) * yh : Nat) : Int) ∧
        st.cArray.length = cArray.length ∧ ∀ j, j < XB * YB * 4 →
          st.cArray.getD j 0 = tally xh yh kx ky XB cmk j ((k + 1) * yh - 1)) st1
      ⟨by rw [hr1, Nat.zero_add, Nat.one_mul, Nat.sub_add_cancel hyh0], hl1,
        fun j hj => by rw [hv1 j hj, Nat.zero_add, Nat.one_mul]⟩
      (by
        intro k st hk ⟨hr, hl, hv⟩
        beta_reduce
        rw [steps_count2 m yh hm1 hyh0] at hk
        have hB0 : yh ≤ (k + 1) * yh := Nat.le_mul_of_pos_left yh (by omega)
        have hB1 : (k + 1) * yh + yh ≤ m * yh := by
          have := Nat.mul_le_mul_right yh (by omega : k + 1 + 1 ≤ m)
          rw [Nat.succ_mul] at this
          exact this
        obtain ⟨st2, h2, hr2, hl2, hv2⟩ := countBlocks_spec xh yh kx ky XB cmk (k + 1)
          (cmk.width / xh) st (xh : Int) (yh : Int) _ ((yh + yh * k : Nat) : Int)
          (cmk.width / xh * xh) rfl rfl rfl
          (by congr 1; ring) hr hky hkx rfl hwa ⟨by omega, by omega⟩
          (by
            intro x r c q hx hrr hc hq
            rw [hl]
            exact Nat.lt_of_lt_of_le
              (hbound ((k + 1) * yh) (by omega) x r c q hx hrr hc hq) hlen)
        refine ⟨st2, h2, ?_, hl2.trans hl, ?_⟩
        · rw [hr2, Nat.succ_mul (k + 1) yh]
        · intro j hj
          rw [hv2 j, hv j hj, Nat.succ_mul (k + 1) yh,
            tally_add xh yh kx ky XB cmk j ((k + 1) * yh) yh (by omega)])
    rw [steps_count2 m yh hm1 hyh0, Nat.sub_add_cancel hm1] at hr2 hv2
    exact ⟨st2, h2, hr2, hl2, hv2⟩
  intro st2 ⟨hr2, hl2, hv2⟩
  -- the third loop: the rows below `heighta`
  have hB0 : yh ≤ m * yh := Nat.le_mul_of_pos_left yh (by omega)
  generalize m * yh = ha at *
  refine bind_inv _ _ (fun st : CountState =>
      st.cArray.length = cArray.length ∧ ∀ j, j < XB * YB * 4 →
        st.cArray.getD j 0 = tally xh yh kx ky XB cmk j (cmk.height - 2)) _ ?_ ?_
  · obtain ⟨st3, h3, hr3, hl3, hv3⟩ := forLoop_inv
      (fun k st => countRow (xh : Int) (yh : Int) kx ky ((XB * 4 : Nat) : Int) cmk cmk.width
        ((ha : Int) + (k : Int)) st)
      (fun k (st : CountState) => st.row = ((ha + k : Nat) : Int) ∧
        st.cArray.length = cArray.length ∧ ∀ j, j < XB * YB * 4 →
          st.cArray.getD j 0 = tally xh yh kx ky XB cmk j (ha - 1 + k))
      (cmk.height - 1 - ha) st2 ⟨hr2, hl2, hv2⟩
      (by
        intro k st hk ⟨hr, hl, hv⟩
        beta_reduce
        obtain ⟨st4, h4, hr4, hl4, hv4⟩ := countRow_spec xh yh kx ky XB cmk (ha + k) st
          (xh : Int) (yh : Int) _ ((ha : Int) + (k : Int)) rfl rfl rfl
          (by push_cast; rfl) hr (by omega)
          (by
            intro x r c q hx hrr hc hq
            rw [hl]
            exact Nat.lt_of_lt_of_le (hbound (ha + k) (by omega) x r c q hx hrr hc hq) hlen)
        refine ⟨st4, h4, hr4, hl4.trans hl, ?_⟩
        intro j hj
        have e : ha - 1 + (k + 1) = (ha - 1 + k) + 1 := by omega
        have e2 : ha - 1 + k + 1 = ha + k := by omega
        rw [hv4 j, hv j hj, e, tally_succ, e2])
    have e : ha - 1 + (cmk.height - 1 - ha) = cmk.height - 2 := by omega
    rw [e] at hv3
    exact ⟨st3, h3, hl3, hv3⟩
  intro st3 ⟨hl3, hv3⟩
  exact ⟨st3.cArray, rfl, hl3, hv3⟩

theorem checkCombedMIC_eq (cthresh cthresh6 cthreshsq metric : Int) (chroma : Bool)
    (xhalf yhalf : Int) (xshift yshift : Nat) (src cmask : Frame) (cArray : List Int) :
    checkCombedMIC cthresh cthresh6 cthreshsq metric chroma xhalf yhalf xshift yshift src cmask
        cArray
      = (combMask cthresh cthresh6 cthreshsq metric chroma src cmask).bind fun cm =>
          countCombed xhalf yhalf xshift yshift (cm 0) cArray := by
  unfold checkCombedMIC combMask
  rw [Option.bind_assoc]

theorem map_bind3 {α β γ δ ε : Type} (A : Option α) (B : α → Option β) (C : β → Option γ)
    (g : γ → δ) (f : δ → ε) :
    (A.bind fun s => (B s).bind fun t => (C t).bind fun u => some (g u)).map f
      = A.bind fun s => (B s).bind fun t => (C t).bind fun u => some (f (g u)) := by
  cases A with
  | none => rfl
  | some s =>
    simp only [Option.some_bind]
    cases B s with
    | none => rfl
    | some t =>
      simp only [Option.some_bind]
      cases C t <;> rfl

theorem countCombed_eq (xhalf yhalf : Int) (xshift yshift : Nat) (cmk : Plane)
    (cArray : List Int) :
    countCombed xhalf yhalf xshift yshift cmk cArray
      = (countArray xhalf yhalf xshift yshift cmk cArray).map fun a =>
          maxCount a (((sar ((cmk.width : Int) + xhalf) xshift + 1)
            * (sar ((cmk.height : Int) + yhalf) yshift + 1)) * 4).toNat := by
  simp only [countCombed, countArray]
  split
  · rfl
  · exact (map_bind3 _ _ _ (fun st : CountState => st.cArray) (fun a =>
      maxCount a (((sar ((cmk.width : Int) + xhalf) xshift + 1)
        * (sar ((cmk.height : Int) + yhalf) yshift + 1)) * 4).toNat)).symm

theorem ext_getD (l1 l2 : List Int) (hl : l1.length = l2.length)
    (h : ∀ j, j < l1.length → l1.getD j 0 = l2.getD j 0) : l1 = l2 := by
  apply List.ext_getElem hl
  intro i h1 h2
  have := h i h1
  rw [List.getD_eq_getElem?_getD, List.getD_eq_getElem?_getD, List.getElem?_eq_getElem h1,
    List.getElem?_eq_getElem h2] at this
  exact this

/-- A left fold over `List.range n` whose step adds `g j x` to every entry `j`. -/
theorem foldl_tally (f : List Int → Nat → List Int) (g : Nat → Nat → Int) (L n : Nat)
    (hf : ∀ a x, x < n → a.length = L →
      (f a x).length = L ∧ ∀ j, (f a x).getD j 0 = a.getD j 0 + g j x)
    (a : List Int) (ha : a.length = L) :
    ∀ m, m ≤ n → ((List.range m).foldl f a).length = L ∧
      ∀ j, ((List.range m).foldl f a).getD j 0
        = a.getD j 0 + Finset.sum (Finset.range m) (fun x => g j x) := by
  intro m
  induction m with
  | zero =>
    intro _
    exact ⟨ha, fun j => by simp⟩
  | succ m ih =>
    intro hm
    obtain ⟨h1, h2⟩ := ih (by omega)
    obtain ⟨h3, h4⟩ := hf _ m (by omega) h1
    rw [List.range_succ, List.foldl_append]
    refine ⟨h3, ?_⟩
    intro j
    show (f _ m).getD j 0 = _
    rw [h4 j, h2 j, Finset.sum_range_succ, add_assoc]

theorem incr_spec (a : List Int) (i j : Nat) (hi : i < a.length) :
    (incrCounter a i).length = a.length ∧ (incrCounter a i).getD j 0 = a.getD j 0 + ind j i := by
  unfold incrCounter
  refine ⟨List.length_set _ _ _, ?_⟩
  rw [set_getD a i j _ hi]
  unfold ind
  by_cases h : j = i
  · rw [if_pos h, if_pos h, h]
  · rw [if_neg h, if_neg h, add_zero]

/-- The visit of one pixel adds its `cellHits` to every counter. -/
theorem specVisit_spec (xh yh kx ky XB L : Nat) (cmk : Plane) (a : List Int) (y x : Nat)
    (ha : a.length = L)
    (hb : ∀ r c k, (r = y >>> ky ∨ r = (y + yh) >>> ky) →
      (c = x >>> kx ∨ c = (x + xh) >>> kx) → k < 4 → r * (XB * 4) + c * 4 + k < L) :
    (specVisit xh yh kx ky XB cmk a y x).length = L ∧
      ∀ j, (specVisit xh yh kx ky XB cmk a y x).getD j 0
        = a.getD j 0 + cellHits xh yh kx ky XB cmk j y x := by
  have ec : ∀ r c k, specCell XB r c k = r * (XB * 4) + c * 4 + k := by
    intro r c k
    unfold specCell
    ring
  unfold specVisit cellHits hitFF
  by_cases h : cmk.pix (y - 1) x = 255 ∧ cmk.pix y x = 255 ∧ cmk.pix (y + 1) x = 255
  · simp only [if_pos h, decide_eq_true h, reduceIte, ec, Nat.add_zero]
    have b0 := hb _ _ 0 (Or.inl rfl) (Or.inl rfl) (by decide)
    have b1 := hb _ _ 1 (Or.inl rfl) (Or.inr rfl) (by decide)
    have b2 := hb _ _ 2 (Or.inr rfl) (Or.inl rfl) (by decide)
    have b3 := hb _ _ 3 (Or.inr rfl) (Or.inr rfl) (by decide)
    rw [Nat.add_zero] at b0
    have s0 := fun j => incr_spec a _ j (ha ▸ b0)
    have l0 := ((s0 0).1).trans ha
    have s1 := fun j => incr_spec _ _ j (l0 ▸ b1)
    have l1 := ((s1 0).1).trans l0
    have s2 := fun j => incr_spec _ _ j (l1 ▸ b2)
    have l2 := ((s2 0).1).trans l1
    have s3 := fun j => incr_spec _ _ j (l2 ▸ b3)
    refine ⟨((s3 0).1).trans l2, ?_⟩
    intro j
    rw [(s3 j).2, (s2 j).2, (s1 j).2, (s0 j).2]
    ring
  · simp only [if_neg h, decide_eq_false h, Bool.false_eq_true, reduceIte, add_zero]
    exact ⟨ha, fun _ => trivial⟩

/-- The spec's per-pixel counter array: its length and its entries. -/
theorem specCounts_spec (xh yh kx ky : Nat) (cmk : Plane) :
    (specCounts xh yh kx ky cmk).length
        = (((cmk.width + xh) >>> kx) + 1) * (((cmk.height + yh) >>> ky) + 1) * 4 ∧
      ∀ j, j < (((cmk.width + xh) >>> kx) + 1) * (((cmk.height + yh) >>> ky) + 1) * 4 →
        (specCounts xh yh kx ky cmk).getD j 0
          = tally xh yh kx ky (((cmk.width + xh) >>> kx) + 1) cmk j (cmk.height - 2) := by
  have hcell := fun y hy x r c k hx hr hc hk =>
    cell_bound xh yh kx ky cmk.width cmk.height x y r c k hx hy hr hc hk
  simp only [specCounts]
  generalize (cmk.width + xh) >>> kx + 1 = XB at hcell ⊢
  generalize (cmk.height + yh) >>> ky + 1 = YB at hcell ⊢
  obtain ⟨hl, hv⟩ := foldl_tally
    (fun a k => (List.range cmk.width).foldl (fun a x =>
      specVisit xh yh kx ky XB cmk a (k + 1) x) a)
    (fun j k => Finset.sum (Finset.range cmk.width) (fun x =>
      cellHits xh yh kx ky XB cmk j (k + 1) x))
    (XB * YB * 4) (cmk.height - 2)
    (fun a k hk ha => foldl_tally (fun a x => specVisit xh yh kx ky XB cmk a (k + 1) x)
      (fun j x => cellHits xh yh kx ky XB cmk j (k + 1) x) (XB * YB * 4) cmk.width
      (fun a x hx ha => specVisit_spec xh yh kx ky XB (XB * YB * 4) cmk a (k + 1) x ha
        (fun r c q hr hc hq => hcell (k + 1) (by omega) x r c q hx hr hc hq))
      a ha cmk.width (Nat.le_refl _))
    (List.replicate (XB * YB * 4) 0) (List.length_replicate _ _) (cmk.height - 2)
    (Nat.le_refl _)
  refine ⟨hl, ?_⟩
  intro j hj
  rw [hv j, List.getD_eq_getElem?_getD, List.getElem?_replicate]
  simp [hj, tally]

theorem log2Fuel_pow (f : Nat) : ∀ k, k < f → log2Fuel f (2 ^ k) = k := by
  induction f with
  | zero => intro k hk; omega
  | succ f ih =>
    intro k hk
    cases k with
    | zero => simp [log2Fuel]
    | succ k =>
      have hp := Nat.two_pow_pos k
      have e : 2 ^ (k + 1) / 2 = 2 ^ k := by rw [pow_succ]; omega
      unfold log2Fuel
      rw [if_pos (by rw [pow_succ]; omega), e, ih k (by omega)]

/-- The shift and the half size of a block whose size is the power of two `2 ^ k`. -/
theorem block_pow (b : Int) (k : Nat) (hb : b = 2 ^ k) (hk : 1 ≤ k ∧ k ≤ 30) :
    log2 b = k ∧ cdiv b 2 = ((2 ^ (k - 1) : Nat) : Int) ∧ 2 ^ k = 2 * 2 ^ (k - 1) := by
  have e : (2 : Int) ^ k = ((2 ^ k : Nat) : Int) := by push_cast; rfl
  have e2 : 2 ^ k = 2 * 2 ^ (k - 1) := by
    obtain ⟨n, rfl⟩ : ∃ n, k = n + 1 := ⟨k - 1, by omega⟩
    rw [Nat.add_sub_cancel, pow_succ, Nat.mul_comm]
  refine ⟨?_, ?_, e2⟩
  · unfold log2
    rw [hb, e, Int.toNat_ofNat]
    exact log2Fuel_pow 32 k (by omega)
  · unfold cdiv
    rw [hb, e, e2]
    push_cast
    exact Int.mul_tdiv_cancel_left _ (by decide)

/-- C33: block aggregation equals the per-pixel definition. For every mask plane `cmk` of
width W and height H > blocky/2 and power-of-two block sizes `blockx = 2 ^ kx`,
`blocky = 2 ^ ky` (1 <= kx, ky <= 30), with a scratch array that holds the counters, the three
counting loops of `checkCombed` finish and the counter array of ((W+xhalf)>>xshift)+1 by
((H+yhalf)>>yshift)+1 cells of 4 counters equals `specCounts`, the array obtained by visiting
each pixel (x,y) with 1 <= y <= H-2 once and incrementing its four counters when the mask
rows y-1, y, y+1 are 0xFF at x; each of those four indices lies inside the array; the value
`MIC` is the maximum counter, and whenever `cmk` is the mask that `checkCombed` computed for a
frame, the frame is reported combed iff the maximum counter exceeds `MI`. -/
theorem C33_block_aggregation (d : TDeintModData) (kx ky : Nat) (cmk : Plane)
    (cArray : List Int) (hbx : d.blockx = 2 ^ kx) (hby : d.blocky = 2 ^ ky)
    (hkx : 1 ≤ kx ∧ kx ≤ 30) (hky : 1 ≤ ky ∧ ky ≤ 30) (hH : yhalf d < (cmk.height : Int))
    (hlen : (((cmk.width + (xhalf d).toNat) >>> xshift d) + 1)
      * (((cmk.height + (yhalf d).toNat) >>> yshift d) + 1) * 4 ≤ cArray.length) :
    ∃ a, countArray (xhalf d) (yhalf d) (xshift d) (yshift d) cmk cArray = some a ∧
      a.take ((((cmk.width + (xhalf d).toNat) >>> xshift d) + 1)
          * (((cmk.height + (yhalf d).toNat) >>> yshift d) + 1) * 4)
        = specCounts (xhalf d).toNat (yhalf d).toNat (xshift d) (yshift d) cmk ∧
      (∀ x y r c k, x < cmk.width → 1 ≤ y → y ≤ cmk.height - 2 →
        (r = y >>> yshift d ∨ r = (y + (yhalf d).toNat) >>> yshift d) →
        (c = x >>> xshift d ∨ c = (x + (xhalf d).toNat) >>> xshift d) → k < 4 →
        specCell (((cmk.width + (xhalf d).toNat) >>> xshift d) + 1) r c k
          < (specCounts (xhalf d).toNat (yhalf d).toNat (xshift d) (yshift d) cmk).length) ∧
      countCombed (xhalf d) (yhalf d) (xshift d) (yshift d) cmk cArray
        = some (maxCount
            (specCounts (xhalf d).toNat (yhalf d).toNat (xshift d) (yshift d) cmk)
            (specCounts (xhalf d).toNat (yhalf d).toNat (xshift d) (yshift d) cmk).length) ∧
      ∀ src cmask cm,
        combMask d.cthresh (cthresh6 d) (cthreshsq d) d.metric d.chroma src cmask = some cm →
        cm 0 = cmk →
        checkCombed d src cmask cArray
          = some (decide (maxCount
              (specCounts (xhalf d).toNat (yhalf d).toNat (xshift d) (yshift d) cmk)
              (specCounts (xhalf d).toNat (yhalf d).toNat (xshift d) (yshift d) cmk).length
                > d.MI)) := by
  obtain ⟨esx, ex, hpx⟩ := block_pow d.blockx kx hbx hkx
  obtain ⟨esy, ey, hpy⟩ := block_pow d.blocky ky hby hky
  have hsx : xshift d = kx := esx
  have hsy : yshift d = ky := esy
  have hxh : xhalf d = ((2 ^ (kx - 1) : Nat) : Int) := ex
  have hyh : yhalf d = ((2 ^ (ky - 1) : Nat) : Int) := ey
  rw [hyh] at hH
  rw [hsx, hsy, hxh, hyh, Int.toNat_ofNat, Int.toNat_ofNat] at hlen
  have hcount : ∀ cA : List Int, countCombed (xhalf d) (yhalf d) (xshift d) (yshift d) cmk cA
      = (countArray (xhalf d) (yhalf d) (xshift d) (yshift d) cmk cA).map fun a =>
        maxCount a ((((cmk.width + 2 ^ (kx - 1)) >>> kx) + 1)
          * (((cmk.height + 2 ^ (ky - 1)) >>> ky) + 1) * 4) := by
    intro cA
    rw [countCombed_eq, hsx, hsy, hxh, hyh, ← Nat.cast_add, ← Nat.cast_add, sar_nat, sar_nat]
    have e : ((((cmk.width + 2 ^ (kx - 1)) >>> kx : Nat) : Int) + 1)
        * ((((cmk.height + 2 ^ (ky - 1)) >>> ky : Nat) : Int) + 1) * 4
        = (((((cmk.width + 2 ^ (kx - 1)) >>> kx) + 1)
          * (((cmk.height + 2 ^ (ky - 1)) >>> ky) + 1) * 4 : Nat) : Int) := by
      push_cast
      rfl
    rw [e, Int.toNat_ofNat]
  rw [hcount]
  simp only [hsx, hsy, hxh, hyh, Int.toNat_ofNat]
  obtain ⟨a, ha, hal, hav⟩ := countArray_spec (2 ^ (kx - 1)) (2 ^ (ky - 1)) kx ky cmk cArray
    ((2 ^ (kx - 1) : Nat) : Int) ((2 ^ (ky - 1) : Nat) : Int) rfl rfl hpx hpy
    (by exact_mod_cast hH) hlen
  obtain ⟨hsl, hsv⟩ := specCounts_spec (2 ^ (kx - 1)) (2 ^ (ky - 1)) kx ky cmk
  have htake : a.take ((((cmk.width + 2 ^ (kx - 1)) >>> kx) + 1)
      * (((cmk.height + 2 ^ (ky - 1)) >>> ky) + 1) * 4)
      = specCounts (2 ^ (kx - 1)) (2 ^ (ky - 1)) kx ky cmk := by
    apply ext_getD
    · rw [List.length_take, hsl, hal]
      exact Nat.min_eq_left hlen
    · intro j hj
      rw [List.length_take, hal, Nat.min_eq_left hlen] at hj
      rw [hsv j hj, ← hav j hj, List.getD_eq_getElem?_getD, List.getD_eq_getElem?_getD,
        List.getElem?_take_of_lt hj]
  have hmax : maxCount a ((((cmk.width + 2 ^ (kx - 1)) >>> kx) + 1)
      * (((cmk.height + 2 ^ (ky - 1)) >>> ky) + 1) * 4)
      = maxCount (specCounts (2 ^ (kx - 1)) (2 ^ (ky - 1)) kx ky cmk)
        (specCounts (2 ^ (kx - 1)) (2 ^ (ky - 1)) kx ky cmk).length := by
    unfold maxCount
    rw [htake, List.take_length]
  have hc : ∀ cm : Frame, cm 0 = cmk →
      countCombed (xhalf d) (yhalf d) (xshift d) (yshift d) (cm 0) cArray
        = some (maxCount (specCounts (2 ^ (kx - 1)) (2 ^ (ky - 1)) kx ky cmk)
          (specCounts (2 ^ (kx - 1)) (2 ^ (ky - 1)) kx ky cmk).length) := by
    intro cm hcm
    rw [hcm, hcount, hsx, hsy, hxh, hyh, ha, Option.map_some', hmax]
  refine ⟨a, ha, htake, ?_, ?_, ?_⟩
  · intro x y r c k hx hy1 hy2 hr hc hk
    have hb := cell_bound (2 ^ (kx - 1)) (2 ^ (ky - 1)) kx ky cmk.width cmk.height x y r c k hx
      (by omega) hr hc hk
    rw [hsl]
    unfold specCell
    have e : (r * (((cmk.width + 2 ^ (kx - 1)) >>> kx) + 1) + c) * 4 + k
        = r * ((((cmk.width + 2 ^ (kx - 1)) >>> kx) + 1) * 4) + c * 4 + k := by ring
    rw [e]
    exact hb
  · rw [ha, Option.map_some', hmax]
  · intro src cmask cm hm hcm
    unfold checkCombed
    rw [checkCombedMIC_eq, hm, Option.some_bind, hc cm hcm, Option.map_some']

/-- Instance of C33: the all-0xFF mask of 4x4 with 4x4 blocks and a scratch array of 16
counters holding 7: the counting loops return the per-pixel array, whose maximum is 8. -/
theorem C33_block_aggregation_witness :
    ∃ a, countArray 2 2 2 2 (constPlane 4 4 255) (List.replicate 16 7) = some a ∧
      a.take 16 = specCounts 2 2 2 2 (constPlane 4 4 255) ∧
      countCombed 2 2 2 2 (constPlane 4 4 255) (List.replicate 16 7) = some 8 := by
  obtain ⟨a, ha, ht, _, hc, _⟩ := C33_block_aggregation (combData 4 4 4 6 0 0) 2 2
    (constPlane 4 4 255) (List.replicate 16 7) rfl rfl (by decide) (by decide) (by decide)
    (by decide)
  exact ⟨a, ha, ht, hc.trans (by decide)⟩

end TDeintMod
